import Mathlib

/-!
# Register file manager and method filter engine

A shallow embedding of `compiler/aarch64/codegen/OMRMachine.cpp` and of the
filter engine of `compiler/ras/LimitFile.cpp`, with the properties of their
specification stated and proved over it.

Conventions of the embedding:

* a pointer that may be `NULL` is an `Option` (or the `null` constructor of
  the node type); dereferencing `NULL` and reading an uninitialised local are
  undefined behaviour, which a function reports by returning `none`;
* a pointer into the register file is the ordinal of the slot it was read
  from;
* a C string is the list of its characters before the terminating NUL, and a
  pointer into a C string is the suffix that starts at the pointer;
* lengths and weights are natural numbers: the source holds lengths in 32-bit
  integers, which no text considered here overflows, and the best weight of a
  scan in an unsigned 32-bit integer; the width of the weight of a descriptor,
  declared outside the sources, is a parameter where a statement depends on it.
-/

namespace OMR

/-! ## Register file (`OMRMachine.cpp`) -/

/-- Register kinds of `TR_RegisterKinds`.  `findBestFreeRegister` has cases for
`TR_GPR` and `TR_FPR` only; `TR_CCR` stands for every other enumerator. -/
inductive TR_RegisterKinds where
  | TR_GPR
  | TR_FPR
  | TR_CCR
  deriving DecidableEq, Repr

/-- Modelled from the spec: the `RegState` enumeration of `TR::RealRegister`,
whose declaration is not part of the sources read here (the spec lists
Free, Assigned, Blocked and Unlatched). -/
inductive RegState where
  | Free
  | Unlatched
  | Assigned
  | Blocked
  deriving DecidableEq, Repr

/-- Modelled from the spec: the `TR::RealRegister` descriptor, whose class
declaration is not part of the sources read here.  The fields are the ones the
constructor calls of `initialiseRegisterFile` and the accessors used by
`findBestFreeRegister` and `getLinkRegisterKilled` name.  A virtual register is
identified by a number; `none` is the `NULL` back-reference.  The weight is kept as a
natural number: the type that `getWeight()` returns is part of the missing declaration,
and a statement that depends on its width takes the number of bits as a parameter
(`Machine.weightsFit`). -/
structure RealRegister where
  kind : TR_RegisterKinds
  weight : Nat
  state : RegState
  registerNumber : Nat
  assignedRegister : Option Nat
  hasBeenAssignedInMethod : Bool
  deriving DecidableEq, Repr

/-- The ordinals of `TR::RealRegister::RegNum` that `findBestFreeRegister`
reads.  The enumeration is declared outside the sources read here, so its
values are a parameter of the embedding. -/
structure RegNum where
  FirstGPR : Nat
  LastAssignableGPR : Nat
  FirstFPR : Nat
  LastFPR : Nat
  deriving DecidableEq, Repr

/-- The `OMR::ARM64::Machine` object: `_registerFile`, a table of descriptor
pointers addressed by ordinal (`none` is a `NULL` entry). -/
structure Machine where
  registerFile : List (Option RealRegister)
  deriving DecidableEq, Repr

/-- Every descriptor of the register file holds a weight that is a value of an unsigned
weight type of `weightBits` bits. -/
def Machine.weightsFit (weightBits : Nat) (m : Machine) : Bool :=
  m.registerFile.all fun p =>
    match p with
    | none => true
    | some r => decide (r.weight < 2 ^ weightBits)

/-- The read `_registerFile[i]` followed by a dereference: `none` when the entry is
`NULL` or `i` is outside the table. -/
def Machine.deref (m : Machine) (i : Nat) : Option RealRegister :=
  (m.registerFile.get? i).join

/-- The `switch (rk)` of `findBestFreeRegister`: the values of `first` and `last`.
For a kind without a case both stay uninitialised (`none`). -/
def scanRange (c : RegNum) (rk : TR_RegisterKinds) (excludeGPR0 : Bool) : Option (Nat × Nat) :=
  match rk with
  | .TR_GPR => some (if excludeGPR0 then c.FirstGPR + 1 else c.FirstGPR, c.LastAssignableGPR)
  | .TR_FPR => some (c.FirstFPR, c.LastFPR)
  | .TR_CCR => none

/-- The condition on the state in the loop of `findBestFreeRegister`:
`getState() == Free || (considerUnlatched && getState() == Unlatched)`. -/
def eligible (considerUnlatched : Bool) (r : RealRegister) : Bool :=
  r.state == RegState.Free || (considerUnlatched && r.state == RegState.Unlatched)

/-- The `for` loop of `findBestFreeRegister` over the ordinals still to visit,
carrying `bestWeightSoFar` and `freeRegister`. -/
def scanLoop (m : Machine) (considerUnlatched : Bool) :
    List Nat → Nat → Option Nat → Option (Nat × Option Nat)
  | [], bestWeightSoFar, freeRegister => some (bestWeightSoFar, freeRegister)
  | i :: rest, bestWeightSoFar, freeRegister =>
    match m.deref i with
    | none => none
    | some r =>
      if eligible considerUnlatched r && decide (r.weight < bestWeightSoFar) then
        scanLoop m considerUnlatched rest r.weight (some i)
      else
        scanLoop m considerUnlatched rest bestWeightSoFar freeRegister

/-- Modelled from the spec: the setters `setAssignedRegister` and `setState` of
`TR::RealRegister` are declared outside the sources read here.  The two calls
`setAssignedRegister(NULL); setState(Free)` on the descriptor of slot `i` clear its
back-reference and make it `Free`. -/
def Machine.normalize (m : Machine) (i : Nat) (r : RealRegister) : Machine :=
  { registerFile := m.registerFile.set i
      (some { r with assignedRegister := none, state := RegState.Free }) }

/-- `OMR::ARM64::Machine::findBestFreeRegister`.  The result is `none` when the call
has undefined behaviour, otherwise the returned pointer (`none` for `NULL`, else the
ordinal of the descriptor) and the machine after the call. -/
def findBestFreeRegister (c : RegNum) (m : Machine) (rk : TR_RegisterKinds)
    (excludeGPR0 considerUnlatched : Bool) : Option (Option Nat × Machine) :=
  match scanRange c rk excludeGPR0 with
  | none => none
  | some (first, last) =>
    match scanLoop m considerUnlatched (List.range' first (last + 1 - first)) 0xffffffff none with
    | none => none
    | some (_, none) => some (none, m)
    | some (_, some i) =>
      match m.deref i with
      | none => none
      | some r =>
        if r.state = RegState.Unlatched then some (some i, m.normalize i r)
        else some (some i, m)

/-! ### Concrete register files used to exercise the definitions -/

/-- One numbering of the AArch64 register ordinals: `NoReg` is 0, `x0`..`x28` are
1..29 (the assignable general registers), `v0`..`v31` are 33..64. -/
def aarch64RegNum : RegNum :=
  { FirstGPR := 1, LastAssignableGPR := 29, FirstFPR := 33, LastFPR := 64 }

/-- A descriptor as `initialiseRegisterFile` constructs it, with a chosen weight and
state. -/
def mkRegister (rk : TR_RegisterKinds) (weight : Nat) (state : RegState) (rn : Nat) :
    RealRegister :=
  { kind := rk, weight := weight, state := state, registerNumber := rn,
    assignedRegister := none, hasBeenAssignedInMethod := false }

/-- A register file of 66 slots in the middle of an allocation: `x0` assigned, `x1`
unlatched with a stale virtual register, `x2` free with the same weight as `x1`, `x3`
blocked, every other register free with a larger weight; slots 0, 32 and 65 are
`NULL`. -/
def busyMachine : Machine :=
  { registerFile := (List.range 66).map fun i =>
      if i = 0 ∨ i = 32 ∨ i = 65 then none
      else if i = 1 then some (mkRegister .TR_GPR 0 .Assigned 1)
      else if i = 2 then
        some { mkRegister .TR_GPR 5 .Unlatched 2 with assignedRegister := some 7 }
      else if i = 3 then some (mkRegister .TR_GPR 5 .Free 3)
      else if i = 4 then some (mkRegister .TR_GPR 0 .Blocked 4)
      else if i < 32 then some (mkRegister .TR_GPR 80 .Free i)
      else some (mkRegister .TR_FPR 80 .Free i) }

/-- The register file `busyMachine` after `x1` (slot 2) has been normalised. -/
def busyMachineAfter : Machine :=
  busyMachine.normalize 2
    { mkRegister .TR_GPR 5 .Unlatched 2 with assignedRegister := some 7 }

/-- A register file of 66 slots whose only free general register, `x0`, carries the
weight `0xffff`, the largest value of a weight of 16 bits; every other register is
assigned. -/
def heavyMachine : Machine :=
  { registerFile := (List.range 66).map fun i =>
      if i = 0 ∨ i = 32 ∨ i = 65 then none
      else if i = 1 then some (mkRegister .TR_GPR 0xffff .Free 1)
      else if i < 32 then some (mkRegister .TR_GPR 0 .Assigned i)
      else some (mkRegister .TR_FPR 0 .Assigned i) }

end OMR

namespace OMR

/-! ## Method filter engine (`LimitFile.cpp`) -/

/-- The filter kinds `TR_FILTER_*` named by `addFilter`, `scanFilterName` and
`methodSigCanBeFound`. -/
inductive FilterType where
  | TR_FILTER_EXCLUDE_NAME_ONLY
  | TR_FILTER_EXCLUDE_NAME_AND_SIG
  | TR_FILTER_EXCLUDE_SPECIFIC_METHOD
  | TR_FILTER_EXCLUDE_REGEX
  | TR_FILTER_NAME_ONLY
  | TR_FILTER_NAME_AND_SIG
  | TR_FILTER_SPECIFIC_METHOD
  | TR_FILTER_REGEX
  deriving DecidableEq, Repr

/-- Modelled from the spec: `TR_FilterBST::isExclude`, declared outside the sources
read here; a rule is an exclude rule when its kind is one of the four Exclude
kinds. -/
def FilterType.isExclude : FilterType → Bool
  | .TR_FILTER_EXCLUDE_NAME_ONLY => true
  | .TR_FILTER_EXCLUDE_NAME_AND_SIG => true
  | .TR_FILTER_EXCLUDE_SPECIFIC_METHOD => true
  | .TR_FILTER_EXCLUDE_REGEX => true
  | _ => false

/-- The kinds of method a signature may come from (`TR::Method::Type`); the code
only tells `J9` from the rest. -/
inductive MethodType where
  | J9
  | Test
  | JitBuilder
  deriving DecidableEq, Repr

/-- The operations of `TR::SimpleRegex` that the filter engine calls, a component
outside the sources read here and so a parameter of the embedding.  `create` reads
a pattern at the cursor and returns the compiled pattern with the number of
characters it consumed, or `none` when the text is no pattern; `isMatch` is
`TR::SimpleRegex::match`. -/
structure SimpleRegex (R : Type) where
  create : List Char → Option (R × Nat)
  isMatch : R → List Char → Bool

/-- The fields of a `TR_FilterBST` node other than its links.  `getNameLen()` is the
length of `name`: `setName(buf, nameLen)` is called with the number of characters
copied into `buf`. -/
structure FilterInfo (R : Type) where
  filterType : FilterType
  optionSet : Int
  lineNumber : Int
  name : List Char
  className : List Char
  signature : List Char
  regex : Option R
  deriving DecidableEq, Repr

/-- A pointer to a `TR_FilterBST` node: `null`, or a node with its fields, its two
tree children `getChild(0)`, `getChild(1)` and its `getNext()` link. -/
inductive TR_FilterBST (R : Type) where
  | null : TR_FilterBST R
  | node (info : FilterInfo R) (child0 child1 next : TR_FilterBST R) : TR_FilterBST R
  deriving DecidableEq, Repr

/-- The test `if (p)` on a node pointer. -/
def TR_FilterBST.isNull {R : Type} : TR_FilterBST R → Bool
  | .null => true
  | .node _ _ _ _ => false

/-- The fields of the node a pointer designates, if it is not `NULL`. -/
def TR_FilterBST.info? {R : Type} : TR_FilterBST R → Option (FilterInfo R)
  | .null => none
  | .node info _ _ _ => some info

/-- The node that `new TR_FilterBST(filterType, optionSetIndex, lineNum)` allocates,
as a leaf without links. -/
def TR_FilterBST.leaf {R : Type} (info : FilterInfo R) : TR_FilterBST R :=
  .node info .null .null .null

/-- The nodes reachable from a pointer through child links, in order. -/
def TR_FilterBST.members {R : Type} : TR_FilterBST R → List (FilterInfo R)
  | .null => []
  | .node info c0 c1 _ => c0.members ++ info :: c1.members

/-- The nodes reachable from a pointer through `getNext()` links, in order. -/
def TR_FilterBST.chain {R : Type} : TR_FilterBST R → List (FilterInfo R)
  | .null => []
  | .node info _ _ next => info :: next.chain

/-- `TR::CompilationFilters`: the hash buckets, the name-only tree, the regex chain,
the four has-filter flags, the default-exclude flag and the override rule.  The
buckets are addressed by an index that is always reduced modulo
`FILTER_HASH_SIZE`. -/
structure CompilationFilters (R : Type) where
  filterHash : Nat → TR_FilterBST R
  filterNameList : TR_FilterBST R
  filterRegexList : TR_FilterBST R
  hasRegexFilter : Bool
  hasNameFilter : Bool
  hasNameSigFilter : Bool
  hasClassNameSigFilter : Bool
  defaultExclude : Bool
  excludedMethodFilter : TR_FilterBST R

/-- `TR_Debug::clearFilters(filters)`: the whole set is zeroed, `defaultExclude` is
false and there is no override rule. -/
def clearFilters {R : Type} : CompilationFilters R :=
  { filterHash := fun _ => .null
    filterNameList := .null
    filterRegexList := .null
    hasRegexFilter := false
    hasNameFilter := false
    hasNameSigFilter := false
    hasClassNameSigFilter := false
    defaultExclude := false
    excludedMethodFilter := .null }

/-- `TR_Debug::findOrCreateFilters(filters)`: the set itself, or a newly allocated and
cleared one when the pointer is `NULL`. -/
def findOrCreateFilters {R : Type} (filters : Option (CompilationFilters R)) :
    CompilationFilters R :=
  match filters with
  | some f => f
  | none => clearFilters

/-- The C library `strcmp`, up to the sign of its result (which is all the callers
read): characters compare by their code. -/
def strcmp : List Char → List Char → Int
  | [], [] => 0
  | [], _ :: _ => -1
  | _ :: _, [] => 1
  | a :: as, b :: bs => if a = b then strcmp as bs else if a < b then -1 else 1

/-- The C library `strncmp`, up to the sign of its result: at most `n` characters are
compared. -/
def strncmp : List Char → List Char → Nat → Int
  | _, _, 0 => 0
  | [], [], _ + 1 => 0
  | [], _ :: _, _ + 1 => -1
  | _ :: _, [], _ + 1 => 1
  | a :: as, b :: bs, n + 1 => if a = b then strncmp as bs n else if a < b then -1 else 1

/-- The C library `strchr` for a character other than NUL: the suffix that starts at
the first occurrence, or `none` for `NULL`. -/
def strchr : List Char → Char → Option (List Char)
  | [], _ => none
  | x :: xs, c => if x = c then some (x :: xs) else strchr xs c

/-- The comparison made by one iteration of the loop of `TR_FilterBST::insert`: the
value of `rc` before it is turned into a child index. -/
def TR_FilterBST.insertCompare {R : Type} (this node : FilterInfo R) : Int :=
  let rc := strcmp this.name node.name
  if rc = 0 then
    let rc := strcmp this.className node.className
    if rc = 0 then strcmp this.signature node.signature else rc
  else rc

/-- `TR_FilterBST::insert`: the tree rooted at `node` after `this`, a freshly
allocated filter, has been inserted; a filter whose name, class and signature are
already in the tree is not inserted. -/
def TR_FilterBST.insert {R : Type} (this : FilterInfo R) : TR_FilterBST R → TR_FilterBST R
  | .null => .null
  | .node info child0 child1 next =>
    let rc := TR_FilterBST.insertCompare this info
    if rc = 0 then .node info child0 child1 next
    else if rc < 0 then
      if child0.isNull then .node info (TR_FilterBST.leaf this) child1 next
      else .node info (TR_FilterBST.insert this child0) child1 next
    else
      if child1.isNull then .node info child0 (TR_FilterBST.leaf this) next
      else .node info child0 (TR_FilterBST.insert this child1) next

/-- The comparison made by one iteration of the loop of the one-key
`TR_FilterBST::find`. -/
def TR_FilterBST.findNameCompare {R : Type} (methodName : List Char) (methodNameLen : Nat)
    (node : FilterInfo R) : Int :=
  let rc := strncmp methodName node.name methodNameLen
  if rc = 0 then (methodNameLen : Int) - (node.name.length : Int) else rc

/-- `TR_FilterBST::find(methodName, methodNameLen)`: the node found in the tree rooted
at the receiver, or `null`. -/
def TR_FilterBST.findName {R : Type} (methodName : List Char) (methodNameLen : Nat) :
    TR_FilterBST R → TR_FilterBST R
  | .null => .null
  | .node info child0 child1 next =>
    let rc := TR_FilterBST.findNameCompare methodName methodNameLen info
    if rc = 0 then .node info child0 child1 next
    else if rc < 0 then TR_FilterBST.findName methodName methodNameLen child0
    else TR_FilterBST.findName methodName methodNameLen child1

/-- The comparison made by one iteration of the loop of the three-key
`TR_FilterBST::find`. -/
def TR_FilterBST.findCompare {R : Type} (methodName : List Char) (methodNameLen : Nat)
    (methodClass : List Char) (methodClassLen : Nat) (methodSignature : List Char)
    (methodSignatureLen : Nat) (node : FilterInfo R) : Int :=
  let rc := strncmp methodName node.name methodNameLen
  let rc := if rc = 0 then (methodNameLen : Int) - (node.name.length : Int) else rc
  if rc = 0 then
    let rc := strncmp methodClass node.className methodClassLen
    let rc := if rc = 0 then (methodClassLen : Int) - (node.className.length : Int) else rc
    if rc = 0 then
      let rc := strncmp methodSignature node.signature methodSignatureLen
      if rc = 0 then (methodSignatureLen : Int) - (node.signature.length : Int) else rc
    else rc
  else rc

/-- `TR_FilterBST::find(methodName, methodNameLen, methodClass, methodClassLen,
methodSignature, methodSignatureLen)`: the node found in the tree rooted at the
receiver, or `null`. -/
def TR_FilterBST.find {R : Type} (methodName : List Char) (methodNameLen : Nat)
    (methodClass : List Char) (methodClassLen : Nat) (methodSignature : List Char)
    (methodSignatureLen : Nat) : TR_FilterBST R → TR_FilterBST R
  | .null => .null
  | .node info child0 child1 next =>
    let rc := TR_FilterBST.findCompare methodName methodNameLen methodClass methodClassLen
      methodSignature methodSignatureLen info
    if rc = 0 then .node info child0 child1 next
    else if rc < 0 then
      TR_FilterBST.find methodName methodNameLen methodClass methodClassLen
        methodSignature methodSignatureLen child0
    else
      TR_FilterBST.find methodName methodNameLen methodClass methodClassLen
        methodSignature methodSignatureLen child1

/-- `TR_FilterBST::findRegex(methodSpec)`: the first node of the chain whose pattern
matches, or `null`; `none` when a node of the chain has no pattern (`_regex` is
`NULL` and is dereferenced). -/
def TR_FilterBST.findRegex {R : Type} (re : SimpleRegex R) (methodSpec : List Char) :
    TR_FilterBST R → Option (TR_FilterBST R)
  | .null => some .null
  | .node info child0 child1 next =>
    match info.regex with
    | none => none
    | some r =>
      if re.isMatch r methodSpec then some (.node info child0 child1 next)
      else TR_FilterBST.findRegex re methodSpec next

/-- The locals of `scanFilterName`.  A pointer into the scanned text is the offset of
the character it points at; `none` is `NULL`. -/
structure ScanState where
  seenFileName : Bool
  seenLineNumber : Bool
  nameChars : Option Nat
  nameLen : Nat
  classChars : Option Nat
  classLen : Nat
  signatureChars : Option Nat
  signatureLen : Nat
  filterType : FilterType
  deriving DecidableEq, Repr

/-- The `while` loop of `scanFilterName` on the text still to read, whose first
character is at offset `pos`.  `isExclude` is `filter->isExclude()`, which the loop
does not change. -/
def scanFilterNameLoop (omrPattern isExclude : Bool) : List Char → Nat → ScanState → ScanState
  | [], _, st => st
  | ch :: rest, pos, st =>
    if ch = '\t' ∨ ch = ',' ∨ ch = '\n' then st
    else if omrPattern then
      if ch = ':' then
        if !st.seenFileName then
          scanFilterNameLoop omrPattern isExclude rest (pos + 1)
            { st with
              classChars := st.signatureChars, classLen := st.signatureLen,
              signatureChars := some (pos + 1), signatureLen := 0, seenFileName := true }
        else if !st.seenLineNumber then
          scanFilterNameLoop omrPattern isExclude rest (pos + 1)
            { st with
              nameChars := st.signatureChars, nameLen := st.signatureLen,
              signatureChars := some (pos + 1), signatureLen := 0, seenLineNumber := true }
        else scanFilterNameLoop omrPattern isExclude rest (pos + 1) st
      else if st.seenLineNumber && ch == ' ' then st
      else
        scanFilterNameLoop omrPattern isExclude rest (pos + 1)
          { st with signatureLen := st.signatureLen + 1 }
    else
      if ch = ' ' then st
      else if ch = '.' then
        scanFilterNameLoop omrPattern isExclude rest (pos + 1)
          { st with
            classChars := st.signatureChars, classLen := st.signatureLen,
            signatureChars := some (pos + 1), signatureLen := 0,
            filterType :=
              if isExclude then .TR_FILTER_EXCLUDE_SPECIFIC_METHOD
              else .TR_FILTER_SPECIFIC_METHOD }
      else if ch = '(' then
        scanFilterNameLoop omrPattern isExclude rest (pos + 1)
          { st with
            nameChars := st.signatureChars, nameLen := st.signatureLen,
            signatureChars := some pos, signatureLen := 1,
            filterType :=
              if st.filterType = .TR_FILTER_EXCLUDE_NAME_ONLY ∨
                  st.filterType = .TR_FILTER_NAME_ONLY then
                (if isExclude then .TR_FILTER_EXCLUDE_NAME_AND_SIG
                 else .TR_FILTER_NAME_AND_SIG)
              else st.filterType }
      else
        scanFilterNameLoop omrPattern isExclude rest (pos + 1)
          { st with signatureLen := st.signatureLen + 1 }

/-- The copy `strncpy(buf, chars, len)` guarded by `if (chars)`: the `len` characters
of the text `s` from offset `chars`, or nothing for a `NULL` pointer. -/
def copyChars (s : List Char) (chars : Option Nat) (len : Nat) : List Char :=
  match chars with
  | none => []
  | some off => (s.drop off).take len

/-- The code of `scanFilterName` after the loop: a missing name takes the signature,
the path-style dialect swaps name and signature and forces the kind. -/
def scanFilterNameFinish (omrPattern isExclude : Bool) (st : ScanState) : ScanState :=
  let st :=
    if st.nameChars.isNone then
      { st with
        nameChars := st.signatureChars, nameLen := st.signatureLen,
        signatureChars := none, signatureLen := 0 }
    else st
  if omrPattern then
    { st with
      nameChars := st.signatureChars, nameLen := st.signatureLen,
      signatureChars := st.nameChars, signatureLen := st.nameLen,
      filterType :=
        if isExclude then .TR_FILTER_EXCLUDE_SPECIFIC_METHOD
        else .TR_FILTER_SPECIFIC_METHOD }
  else st

/-- `TR_Debug::scanFilterName(string, filter)`: the returned length and the filter with
its name, class, signature and kind set. -/
def scanFilterName {R : Type} (string : List Char) (filter : FilterInfo R) :
    Nat × FilterInfo R :=
  let omrPattern : Bool := string.head? == some '/' || string.head? == some '.'
  let isExclude := filter.filterType.isExclude
  let st := scanFilterNameFinish omrPattern isExclude
    (scanFilterNameLoop omrPattern isExclude string 0
      { seenFileName := false, seenLineNumber := false,
        nameChars := none, nameLen := 0, classChars := none, classLen := 0,
        signatureChars := some 0, signatureLen := 0, filterType := filter.filterType })
  (st.nameLen + st.classLen + st.signatureLen,
    { filter with
      name := copyChars string st.nameChars st.nameLen,
      className := copyChars string st.classChars st.classLen,
      signature := copyChars string st.signatureChars st.signatureLen,
      filterType := st.filterType })

/-- What a call of `addFilter` leaves behind: the returned filter (`none` for the
return value 0), the cursor `filterString`, passed by reference, and the set
`findOrCreateFilters(anyFilters)` the call worked on. -/
structure AddFilterResult (R : Type) where
  filterBST : Option (FilterInfo R)
  filterString : List Char
  filters : CompilationFilters R

/-- The last statements of `addFilter`: a directive that is an include and belongs to
no option subset turns the default into exclude, and the cursor moves on by
`nameLength`. -/
def addFilterFinish {R : Type} (filterString : List Char) (scanningExclude optionSetIndex : Int)
    (nameLength : Nat) (filterBST : FilterInfo R) (filters : CompilationFilters R) :
    AddFilterResult R :=
  { filterBST := some filterBST
    filterString := filterString.drop nameLength
    filters :=
      if scanningExclude = 0 ∧ optionSetIndex = 0 then { filters with defaultExclude := true }
      else filters }

/-- The first statements of `addFilter`: the filter allocated by
`new TR_FilterBST(filterType, optionSetIndex, lineNum)`, where `filterType` is the
name-only kind of the directive's polarity. -/
def newFilter {R : Type} (scanningExclude optionSetIndex lineNum : Int) : FilterInfo R :=
  { filterType :=
      if scanningExclude ≠ 0 then .TR_FILTER_EXCLUDE_NAME_ONLY else .TR_FILTER_NAME_ONLY
    optionSet := optionSetIndex, lineNumber := lineNum
    name := [], className := [], signature := [], regex := none }

/-- `TR_Debug::addFilter(filterString, scanningExclude, optionSetIndex, lineNum,
anyFilters)`, with `FILTER_HASH_SIZE` and the regex component as parameters. -/
def addFilter {R : Type} (FILTER_HASH_SIZE : Nat) (re : SimpleRegex R)
    (filterString : List Char) (scanningExclude optionSetIndex lineNum : Int)
    (anyFilters : Option (CompilationFilters R)) : AddFilterResult R :=
  let filters := findOrCreateFilters anyFilters
  let filterBST : FilterInfo R := newFilter scanningExclude optionSetIndex lineNum
  if filterString.head? = some '{' then
    let filterBST :=
      { filterBST with
        filterType :=
          if scanningExclude ≠ 0 then .TR_FILTER_EXCLUDE_REGEX else .TR_FILTER_REGEX }
    match re.create filterString with
    | none => { filterBST := none, filterString := filterString, filters := filters }
    | some (regex, nameLength) =>
      let filterBST := { filterBST with regex := some regex }
      let filters :=
        { filters with
          filterRegexList :=
            .node filterBST .null .null
              (if filters.hasRegexFilter then filters.filterRegexList else .null)
          hasRegexFilter := true }
      addFilterFinish filterString scanningExclude optionSetIndex nameLength filterBST filters
  else
    let scanned := scanFilterName filterString filterBST
    let nameLength := scanned.1
    let filterBST := scanned.2
    if nameLength = 0 then
      { filterBST := none, filterString := filterString, filters := filters }
    else
      let filterType := filterBST.filterType
      if filterType = .TR_FILTER_EXCLUDE_NAME_ONLY ∨ filterType = .TR_FILTER_NAME_ONLY then
        let filters :=
          { filters with
            filterNameList :=
              if filters.filterNameList.isNull then TR_FilterBST.leaf filterBST
              else TR_FilterBST.insert filterBST filters.filterNameList
            hasNameFilter := true }
        addFilterFinish filterString scanningExclude optionSetIndex nameLength filterBST filters
      else
        let bucket := nameLength % FILTER_HASH_SIZE
        let filters :=
          { filters with
            filterHash :=
              Function.update filters.filterHash bucket
                (if (filters.filterHash bucket).isNull then TR_FilterBST.leaf filterBST
                 else TR_FilterBST.insert filterBST (filters.filterHash bucket))
            hasNameSigFilter :=
              if filterType = .TR_FILTER_NAME_AND_SIG ∨
                  filterType = .TR_FILTER_EXCLUDE_NAME_AND_SIG then true
              else filters.hasNameSigFilter
            hasClassNameSigFilter :=
              if filterType = .TR_FILTER_NAME_AND_SIG ∨
                  filterType = .TR_FILTER_EXCLUDE_NAME_AND_SIG then
                filters.hasClassNameSigFilter
              else true }
        addFilterFinish filterString scanningExclude optionSetIndex nameLength filterBST filters

/-- The three parts of a method signature as `methodSigCanBeFound` splits it: each
part is a pointer into the signature (the suffix starting there) and a length. -/
structure SigParts where
  methodClass : List Char
  methodClassLen : Nat
  methodName : List Char
  methodNameLen : Nat
  methodSignature : List Char
  methodSignatureLen : Nat
  deriving DecidableEq, Repr

/-- The path-style split `file:line:name` of a signature, used by both branches of
`methodSigCanBeFound`; `none` when a `strchr` returns `NULL`, which the code goes on to
dereference. -/
def splitOmrSig (methodSig : List Char) : Option SigParts :=
  match strchr methodSig ':' with
  | none => none
  | some atColon =>
    let methodSignature := atColon.drop 1
    match strchr methodSignature ':' with
    | none => none
    | some atColon2 =>
      let methodName := atColon2.drop 1
      some
        { methodClass := methodSig
          methodClassLen := methodSig.length - atColon.length
          methodName := methodName
          methodNameLen := methodName.length
          methodSignature := methodSignature
          methodSignatureLen := methodSignature.length - atColon2.length }

/-- The first part of `methodSigCanBeFound`: the split of the signature into class,
name and signature, by method type and first character. -/
def splitMethodSig (methodSig : List Char) (methodType : MethodType) : Option SigParts :=
  if methodType ≠ MethodType.J9 then
    if methodSig.head? = some '/' ∨ methodSig.head? = some '.' then splitOmrSig methodSig
    else
      some
        { methodClass := methodSig, methodClassLen := 0
          methodName := methodSig, methodNameLen := methodSig.length
          methodSignature := [], methodSignatureLen := 0 }
  else
    if methodSig.head? = some '/' then splitOmrSig methodSig
    else
      match strchr methodSig '.' with
      | none => none
      | some atDot =>
        let methodName := atDot.drop 1
        match strchr methodName '(' with
        | none => none
        | some methodSignature =>
          some
            { methodClass := methodSig
              methodClassLen := methodSig.length - atDot.length
              methodName := methodName
              methodNameLen := methodName.length - methodSignature.length
              methodSignature := methodSignature
              methodSignatureLen := methodSignature.length }

/-- The `switch` at the end of `methodSigCanBeFound`: whether a matched filter of this
kind excludes the method. -/
def excludedByType : FilterType → Bool
  | .TR_FILTER_EXCLUDE_NAME_ONLY => true
  | .TR_FILTER_EXCLUDE_NAME_AND_SIG => true
  | .TR_FILTER_EXCLUDE_SPECIFIC_METHOD => true
  | .TR_FILTER_EXCLUDE_REGEX => true
  | _ => false

/-- The searches of `methodSigCanBeFound` through the hash buckets and the name-only
tree, from the incoming value of `filter`. -/
def searchNamed {R : Type} (FILTER_HASH_SIZE : Nat) (p : SigParts)
    (filters : CompilationFilters R) (filter : TR_FilterBST R) : TR_FilterBST R :=
  let length := p.methodNameLen + p.methodSignatureLen
  let filter :=
    if filters.hasClassNameSigFilter || filters.hasNameSigFilter then
      let filter :=
        if filters.hasClassNameSigFilter then
          let filter := filters.filterHash ((length + p.methodClassLen) % FILTER_HASH_SIZE)
          if !filter.isNull then
            filter.find p.methodName p.methodNameLen p.methodClass p.methodClassLen
              p.methodSignature p.methodSignatureLen
          else filter
        else filter
      if filter.isNull && filters.hasNameSigFilter then
        let filter := filters.filterHash (length % FILTER_HASH_SIZE)
        if !filter.isNull then
          filter.find p.methodName p.methodNameLen [] 0 p.methodSignature p.methodSignatureLen
        else filter
      else filter
    else filter
  if filter.isNull && filters.hasNameFilter then
    let filter := filters.filterNameList
    if !filter.isNull then filter.findName p.methodName p.methodNameLen else filter
  else filter

/-- `TR_Debug::methodSigCanBeFound(methodSig, filters, filter, methodType)`: the returned
boolean with the value left in the reference parameter `filter`, or `none` when the
call has undefined behaviour (a `NULL` from `strchr` or a `NULL` pattern is
dereferenced). -/
def methodSigCanBeFound {R : Type} (FILTER_HASH_SIZE : Nat) (re : SimpleRegex R)
    (methodSig : List Char) (filters : CompilationFilters R) (filter : TR_FilterBST R)
    (methodType : MethodType) : Option (Bool × TR_FilterBST R) :=
  match splitMethodSig methodSig methodType with
  | none => none
  | some p =>
    let filter := searchNamed FILTER_HASH_SIZE p filters filter
    let found : Option (TR_FilterBST R) :=
      if filter.isNull && filters.hasRegexFilter then
        let filter := filters.filterRegexList
        if !filter.isNull then filter.findRegex re methodSig else some filter
      else some filter
    match found with
    | none => none
    | some filter =>
      let excluded :=
        match filter with
        | .null => filters.defaultExclude
        | .node info _ _ _ => excludedByType info.filterType
      some (!excluded, filter)

/-! ### Sequences of `addFilter` calls and reference searches -/

/-- The arguments of one `addFilter` call on a given set. -/
structure Directive where
  filterString : List Char
  scanningExclude : Int
  optionSetIndex : Int
  lineNum : Int
  deriving DecidableEq, Repr

/-- A directive in the name form: its text does not open a regular expression. -/
def Directive.isNameForm (d : Directive) : Bool :=
  !(d.filterString.head? == some '{')

/-- The filter that `addFilter` builds from a directive in the name form. -/
def Directive.rule {R : Type} (d : Directive) : FilterInfo R :=
  (scanFilterName d.filterString
    (newFilter d.scanningExclude d.optionSetIndex d.lineNum)).2

/-- A sequence of `addFilter` calls on one set, each of which returns a filter; `none`
when some call returns 0. -/
def addFilters {R : Type} (FILTER_HASH_SIZE : Nat) (re : SimpleRegex R) :
    List Directive → CompilationFilters R → Option (CompilationFilters R)
  | [], filters => some filters
  | d :: ds, filters =>
    let r := addFilter FILTER_HASH_SIZE re d.filterString d.scanningExclude
      d.optionSetIndex d.lineNum (some filters)
    match r.filterBST with
    | none => none
    | some _ => addFilters FILTER_HASH_SIZE re ds r.filters

/-- The rules stored in the hash buckets `0 .. FILTER_HASH_SIZE - 1` of a set. -/
def CompilationFilters.hashRules {R : Type} (FILTER_HASH_SIZE : Nat)
    (filters : CompilationFilters R) : List (FilterInfo R) :=
  (List.range FILTER_HASH_SIZE).flatMap fun b => (filters.filterHash b).members

/-- The rules stored in the name-only tree of a set. -/
def CompilationFilters.nameRules {R : Type} (filters : CompilationFilters R) :
    List (FilterInfo R) :=
  filters.filterNameList.members

/-- The kinds of the rules with a class, a name and a signature. -/
def FilterType.isSpecific (t : FilterType) : Bool :=
  t == .TR_FILTER_SPECIFIC_METHOD || t == .TR_FILTER_EXCLUDE_SPECIFIC_METHOD

/-- The kinds of the rules with a name and a signature. -/
def FilterType.isNameSig (t : FilterType) : Bool :=
  t == .TR_FILTER_NAME_AND_SIG || t == .TR_FILTER_EXCLUDE_NAME_AND_SIG

/-- The kinds of the rules with a name only. -/
def FilterType.isNameOnly (t : FilterType) : Bool :=
  t == .TR_FILTER_NAME_ONLY || t == .TR_FILTER_EXCLUDE_NAME_ONLY

/-- The descent shared by the two `find` overloads, for any three-way comparison of
the searched key with a node. -/
def TR_FilterBST.findBy {R : Type} (f : FilterInfo R → Int) : TR_FilterBST R → TR_FilterBST R
  | .null => .null
  | .node info child0 child1 next =>
    if f info = 0 then .node info child0 child1 next
    else if f info < 0 then TR_FilterBST.findBy f child0
    else TR_FilterBST.findBy f child1

/-- The comparison of a key given as three whole strings with a node, in the order of
`insert`: name, then class, then signature. -/
def keyCompare {R : Type} (name className signature : List Char) (node : FilterInfo R) : Int :=
  let rc := strcmp name node.name
  if rc = 0 then
    let rc := strcmp className node.className
    if rc = 0 then strcmp signature node.signature else rc
  else rc

/-- The assignment to a tree root made by `addFilter`: the new filter becomes the root
of an empty tree and is inserted into any other. -/
def TR_FilterBST.insertRoot {R : Type} (this : FilterInfo R) (root : TR_FilterBST R) :
    TR_FilterBST R :=
  if root.isNull then TR_FilterBST.leaf this else TR_FilterBST.insert this root

/-- What holds of the locals of `scanFilterName` when the loop has read the text up to
offset `pos`: each recorded part ends at or before `pos`, a `NULL` part has length 0,
the kind keeps the polarity `ex` of the filter, and in the default dialect a name-only
kind has seen neither a class nor a name and a name-and-signature kind no class. -/
structure ScanInv (omr ex : Bool) (pos : Nat) (st : ScanState) : Prop where
  sig : ∃ sc, st.signatureChars = some sc ∧ sc + st.signatureLen ≤ pos
  name : ∀ nc, st.nameChars = some nc → nc + st.nameLen ≤ pos
  nameNull : st.nameChars = none → st.nameLen = 0
  cls : ∀ cc, st.classChars = some cc → cc + st.classLen ≤ pos
  clsNull : st.classChars = none → st.classLen = 0
  polarity : st.filterType.isExclude = ex
  kinds : st.filterType.isNameOnly = true ∨ st.filterType.isNameSig = true ∨
    st.filterType.isSpecific = true
  nameOnly : omr = false → st.filterType.isNameOnly = true →
    st.nameChars = none ∧ st.classChars = none
  nameSig : omr = false → st.filterType.isNameSig = true → st.classChars = none

/-- What holds of every set built by `addFilter` calls from a cleared set: a rule of a
hash bucket has a kind with a signature, sits in the bucket given by the total length
of its strings and is what a search for its key finds; a rule of the name-only tree has
a name-only kind and nothing but a name and is what a search for its name finds; the
has-filter flags are set for the kinds present; every node of the regex chain has a
pattern. -/
structure FilterInv {R : Type} (FILTER_HASH_SIZE : Nat) (filters : CompilationFilters R) :
    Prop where
  hash : ∀ b, ∀ r ∈ (filters.filterHash b).members,
    b = (r.name.length + r.className.length + r.signature.length) % FILTER_HASH_SIZE ∧
    (r.filterType.isNameSig = true ∨ r.filterType.isSpecific = true) ∧
    (TR_FilterBST.findBy (keyCompare r.name r.className r.signature)
      (filters.filterHash b)).info? = some r ∧
    (r.filterType.isNameSig = true → r.className = [] ∧ filters.hasNameSigFilter = true) ∧
    (r.filterType.isSpecific = true → filters.hasClassNameSigFilter = true)
  names : ∀ r ∈ filters.filterNameList.members,
    r.filterType.isNameOnly = true ∧ r.className = [] ∧ r.signature = [] ∧
    (TR_FilterBST.findBy (fun node => strcmp r.name node.name)
      filters.filterNameList).info? = some r ∧
    filters.hasNameFilter = true
  regex : ∀ r ∈ filters.filterRegexList.chain, r.regex.isSome = true

/-- The rule that a search of the hash buckets for the key (name, class, signature)
finds: the descent, by `keyCompare`, of the bucket given by the total length of the
key. -/
def hashLookup {R : Type} (FILTER_HASH_SIZE : Nat) (filters : CompilationFilters R)
    (name className signature : List Char) : TR_FilterBST R :=
  TR_FilterBST.findBy (keyCompare name className signature)
    (filters.filterHash
      ((name.length + signature.length + className.length) % FILTER_HASH_SIZE))

/-- The rule that a search of the name-only tree for a name finds. -/
def nameLookup {R : Type} (filters : CompilationFilters R) (name : List Char) :
    TR_FilterBST R :=
  TR_FilterBST.findBy (fun node => strcmp name node.name) filters.filterNameList

/-- A character that the default dialect of `scanFilterName` only counts: neither a
terminator nor a space, a dot or an opening parenthesis. -/
def plainChar (c : Char) : Bool :=
  !(c == '\t' || c == ',' || c == '\n' || c == ' ' || c == '.' || c == '(')

/-! ### Concrete filter sets used to exercise the definitions -/

/-- A regex component that accepts no pattern. -/
def noRegex : SimpleRegex Unit :=
  { create := fun _ => none, isMatch := fun _ _ => false }

/-- An include directive of option set 0. -/
def includeDirective (text : String) (lineNum : Int) : Directive :=
  { filterString := text.toList, scanningExclude := 0, optionSetIndex := 0, lineNum := lineNum }

/-- An exclude directive of option set 0. -/
def excludeDirective (text : String) (lineNum : Int) : Directive :=
  { filterString := text.toList, scanningExclude := 1, optionSetIndex := 0, lineNum := lineNum }

/-- The set built from a cleared set by a sequence of directives, all accepted. -/
def builtSet (ds : List Directive) : CompilationFilters Unit :=
  (addFilters 211 noRegex ds clearFilters).getD clearFilters

/-- A name-form rule with its three strings. -/
def mkRule (filterType : FilterType) (lineNum : Int) (name className signature : String) :
    FilterInfo Unit :=
  { filterType := filterType, optionSet := 0, lineNumber := lineNum, name := name.toList,
    className := className.toList, signature := signature.toList, regex := none }

/-- Four directives: two include rules of class `Foo`, an exclude directive that repeats
the key of the first, and a name-only rule. -/
def roundTripDirectives : List Directive :=
  [includeDirective "Foo.bar(I)V" 1, includeDirective "Foo.baz(I)V" 2,
    excludeDirective "Foo.bar(I)V" 3, includeDirective "bar" 4]

/-- Three include directives: a rule whose class, between two dots, is empty, a
name-and-signature rule for another method, and a name-only rule. -/
def shadowDirectives : List Directive :=
  [includeDirective "a..bar(I)V" 1, includeDirective "bazz(I)V" 2, includeDirective "bar" 3]

/-- The directives of `shadowDirectives` without the name-and-signature rule. -/
def unflaggedDirectives : List Directive :=
  [includeDirective "a..bar(I)V" 1, includeDirective "bar" 3]

end OMR

namespace OMR

/-! ### Regex rules, the compile-or-relocate query and a small regex component -/

/-- The filter that `addFilter` builds from a directive in the regex form: `none` when
the text does not open a regular expression or does not compile. -/
def Directive.regexRule {R : Type} (re : SimpleRegex R) (d : Directive) :
    Option (FilterInfo R) :=
  if d.filterString.head? = some '{' then
    match re.create d.filterString with
    | none => none
    | some (regex, _) =>
      some
        { (newFilter d.scanningExclude d.optionSetIndex d.lineNum : FilterInfo R) with
          filterType :=
            if d.scanningExclude ≠ 0 then .TR_FILTER_EXCLUDE_REGEX else .TR_FILTER_REGEX
          regex := some regex }
  else none

/-- The regex rules built by the directives of a sequence, in the order of the
sequence. -/
def regexRules {R : Type} (re : SimpleRegex R) (ds : List Directive) : List (FilterInfo R) :=
  ds.filterMap (Directive.regexRule re)

/-- The test `f->_regex->match(methodSpec)` of `findRegex` on a node that has a
pattern. -/
def FilterInfo.matchesSpec {R : Type} (re : SimpleRegex R) (methodSpec : List Char)
    (r : FilterInfo R) : Bool :=
  match r.regex with
  | some rx => re.isMatch rx methodSpec
  | none => false

/-- The filter sets that `TR_Debug` owns: `_compilationFilters`, `_relocationFilters` and
`_inlineFilters`, each `none` until it is created. -/
structure TR_Debug (R : Type) where
  compilationFilters : Option (CompilationFilters R)
  relocationFilters : Option (CompilationFilters R)
  inlineFilters : Option (CompilationFilters R)

/-- `TR_Debug::methodSigCanBeCompiledOrRelocated(methodSig, filter, loadLimit,
methodType)`: the returned boolean with the value left in the reference parameter
`filter`, or `none` when the call of `methodSigCanBeFound` has undefined behaviour. -/
def methodSigCanBeCompiledOrRelocated {R : Type} (FILTER_HASH_SIZE : Nat) (re : SimpleRegex R)
    (debug : TR_Debug R) (methodSig : List Char) (filter : TR_FilterBST R) (loadLimit : Bool)
    (methodType : MethodType) : Option (Bool × TR_FilterBST R) :=
  match (if loadLimit then debug.relocationFilters else debug.compilationFilters) with
  | none => some (true, filter)
  | some compOrReloFilter =>
    match methodSigCanBeFound FILTER_HASH_SIZE re methodSig compOrReloFilter filter
        methodType with
    | none => none
    | some (found, filter) =>
      if !found then
        if !compOrReloFilter.excludedMethodFilter.isNull then
          some (true, compOrReloFilter.excludedMethodFilter)
        else some (found, filter)
      else some (found, filter)

/-- The text between an opening brace at the head of a text and the first closing
brace after it, with the number of characters up to and including that brace. -/
def bracedText : List Char → Option (List Char × Nat)
  | '{' :: rest =>
    if '}' ∈ rest then
      some (rest.takeWhile (fun c => c != '}'), (rest.takeWhile (fun c => c != '}')).length + 2)
    else none
  | _ => none

/-- A small regex component for concrete sets: `{text}` compiles to a pattern that
matches every subject starting with `text`; a text without a closing brace does not
compile. -/
def prefixRegex : SimpleRegex (List Char) :=
  { create := bracedText, isMatch := fun pattern subject => pattern.isPrefixOf subject }

/-- The regex chain of a set agrees with its flag: a set whose `hasRegexFilter` flag is
clear has an empty chain.  Every set built by `addFilter` from a cleared set is so. -/
def RegexOk {R : Type} (filters : CompilationFilters R) : Prop :=
  filters.hasRegexFilter = false → filters.filterRegexList = .null

/-- The set built with `prefixRegex` from a cleared set by a sequence of directives, all
accepted. -/
def builtRegexSet (ds : List Directive) : CompilationFilters (List Char) :=
  (addFilters 211 prefixRegex ds clearFilters).getD clearFilters

/-- Two regex directives whose patterns both match `Foo.bar()V`: an include added first
and an exclude added second. -/
def twoRegexDirectives : List Directive :=
  [includeDirective "{Foo}" 1, excludeDirective "{Foo.b}" 2]

/-- A regex rule of `prefixRegex` with its pattern. -/
def mkRegexRule (filterType : FilterType) (lineNum : Int) (pattern : String) :
    FilterInfo (List Char) :=
  { filterType := filterType, optionSet := 0, lineNumber := lineNum, name := [],
    className := [], signature := [], regex := some pattern.toList }

/-- The parts into which `methodSigCanBeFound` splits the signature `Foo.bar()V` of a J9
method. -/
def fooBarParts : SigParts :=
  { methodClass := "Foo.bar()V".toList, methodClassLen := 3
    methodName := "bar()V".toList, methodNameLen := 3
    methodSignature := "()V".toList, methodSignatureLen := 3 }

/-- Whether the text after a token ends the token in the default dialect of
`scanFilterName`: the end of the string, or a space, tab, comma or newline. -/
def terminated : List Char → Bool
  | [] => true
  | c :: _ => c == ' ' || c == '\t' || c == ',' || c == '\n'

/-- A character that is not a terminator of the default dialect. -/
def noTerminator (c : Char) : Bool :=
  !(c == ' ' || c == '\t' || c == ',' || c == '\n')

/-! ### Rule lines of a limit file or an inline file -/

/-- The loop `for (p++; *p && *p != ')'; p++) {}` that skips the hotness level, after
its initial `p++`: the text from the first closing parenthesis on, or the empty text at
the end of the string. -/
def skipHotness : List Char → List Char
  | [] => []
  | c :: rest => if c = ')' then c :: rest else skipHotness rest

/-- The `'+'`/`'-'` branch of `scanInlineFilters` and of `limitfileOption` after the
option set has been read, up to the call of `addFilter`: the text `p` passed to
`addFilter` with the option set, or `none` where the code sets the error flag and leaves
the loop.  At the end of the string `*p` is the terminating zero, which is none of the
characters tested. -/
def ruleLineAfterDigit (optionSet : Int) (p : List Char) : Option (Int × List Char) :=
  if p.head? ≠ some ' ' then none
  else
    let p := p.drop 1
    if p.head? = some '(' then
      let p := skipHotness (p.drop 1)
      if p.head? ≠ some ')' then none
      else
        let p := p.drop 1
        if p.head? ≠ some ' ' then none
        else some (optionSet, p.drop 1)
    else some (optionSet, p)

/-- The `'+'`/`'-'` branch of `scanInlineFilters` and of `limitfileOption` from
`p = limitReadBuffer + 1` up to the call of `addFilter`: the option set and the text `p`
passed to `addFilter`, or `none` where the code sets the error flag and leaves the
loop. -/
def ruleLinePrefix (p : List Char) : Option (Int × List Char) :=
  match p with
  | c :: rest =>
    if '0' ≤ c ∧ c ≤ '9' then ruleLineAfterDigit ((c.toNat : Int) - ('0'.toNat : Int)) rest
    else ruleLineAfterDigit 0 p
  | [] => ruleLineAfterDigit 0 p

/-- The `'+'`/`'-'` branch of `scanInlineFilters` and of `limitfileOption`, for the flag
`includeFlag` and the text `p` after it: `none` when the line is rejected before
`addFilter` is called, otherwise what the call
`addFilter(p, ('+' == includeFlag) ? 0 : 1, optionSet, lineNumber, filters)` leaves. -/
def ruleLine {R : Type} (FILTER_HASH_SIZE : Nat) (re : SimpleRegex R) (includeFlag : Char)
    (p : List Char) (lineNumber : Int) (filters : CompilationFilters R) :
    Option (AddFilterResult R) :=
  match ruleLinePrefix p with
  | none => none
  | some (optionSet, p) =>
    some (addFilter FILTER_HASH_SIZE re p (if '+' = includeFlag then 0 else 1) optionSet
      lineNumber (some filters))

/-- The parts of a rule line after its sign, in the words of the specification:
`[digit] ' ' ['(' hotness ')' ' '] method-spec`. -/
structure RuleLineParts where
  digit : Option Char
  hotness : Option (List Char)
  methodSpec : List Char
  deriving DecidableEq, Repr

/-- The text of the optional hotness part of a rule line: `'(' hotness ')' ' '`. -/
def hotnessText : Option (List Char) → List Char
  | some h => '(' :: (h ++ [')', ' '])
  | none => []

/-- The text of a rule line after its sign. -/
def RuleLineParts.text (l : RuleLineParts) : List Char :=
  l.digit.toList ++ ' ' :: (hotnessText l.hotness ++ l.methodSpec)

/-- The option set index that the specification gives a rule line: the value of the
digit, 0 when it is absent. -/
def RuleLineParts.optionSet (l : RuleLineParts) : Int :=
  match l.digit with
  | some d => (d.toNat : Int) - 48
  | none => 0

/-- The conditions on the parts of a rule line: the digit is one of `0` to `9`, the
hotness token holds no closing parenthesis, and a method text that follows the space
directly does not open a parenthesis. -/
def RuleLineParts.wellFormed (l : RuleLineParts) : Prop :=
  (∀ d, l.digit = some d → '0' ≤ d ∧ d ≤ '9') ∧
  (∀ h, l.hotness = some h → ')' ∉ h) ∧
  (l.hotness = none → l.methodSpec.head? ≠ some '(')

/-! ### Inline files and nested scopes -/

/-- Modelled from the spec: the field `subGroup` of a rule, declared outside the sources
at hand, is a nullable pointer to a filter set owned by the rule, `NULL` in a newly
allocated rule.  A filter set is kept together with the sub-groups of its rules: each set
that has been created stands under the line number given to its rule when the rule was
allocated, which identifies the rule within one scan since every line adds at most one
rule; a rule without an entry has the `subGroup` `NULL`.  The table stands for the
pointers only for a set that one scan has filled, starting from a set without rules: a
second file scanned into the same set could give two rules the same line number, which
the table does not tell apart. -/
inductive InlineFilters (R : Type) where
  | mk (filters : CompilationFilters R) (subGroups : List (Int × InlineFilters R))

/-- The filter set itself. -/
def InlineFilters.filters {R : Type} : InlineFilters R → CompilationFilters R
  | .mk filters _ => filters

/-- The sub-groups created so far, by the line number of the owning rule. -/
def InlineFilters.subGroups {R : Type} : InlineFilters R → List (Int × InlineFilters R)
  | .mk _ subGroups => subGroups

/-- The value of `filter->subGroup` for the rule allocated at line `lineNumber`; `none`
is `NULL`. -/
def InlineFilters.subGroup {R : Type} (s : InlineFilters R) (lineNumber : Int) :
    Option (InlineFilters R) :=
  (s.subGroups.find? (fun e => e.1 == lineNumber)).map Prod.snd

/-- The assignment to `filter->subGroup`, and through it to the set it points to, for the
rule allocated at line `lineNumber`. -/
def InlineFilters.setSubGroup {R : Type} (s : InlineFilters R) (lineNumber : Int)
    (g : InlineFilters R) : InlineFilters R :=
  .mk s.filters ((lineNumber, g) :: s.subGroups.filter (fun e => e.1 != lineNumber))

/-- An update of the filter set that leaves the sub-groups alone. -/
def InlineFilters.setFilters {R : Type} (s : InlineFilters R) (filters : CompilationFilters R) :
    InlineFilters R :=
  .mk filters s.subGroups

/-- What a call of `scanInlineFilters` leaves behind: the returned value, the lines of the
file not yet read, the line counter, passed by reference, and the set worked on. -/
structure InlineScan (R : Type) where
  ok : Bool
  rest : List (List Char)
  lineNumber : Int
  filters : InlineFilters R

/-- The `while` loop of `TR_Debug::scanInlineFilters(inlineFile, lineNumber, filters)`
with the locals `filter` and `inlineFileError`, on the buffers that the successive calls
of `fgets` return.  Every iteration and every nested call uses up one unit of `fuel`;
`none` means that the fuel ran out. -/
def scanInlineFiltersLoop {R : Type} (FILTER_HASH_SIZE : Nat) (re : SimpleRegex R) :
    Nat → List (List Char) → Int → InlineFilters R → Option (FilterInfo R) → Bool →
      Option (InlineScan R)
  | 0, _, _, _, _, _ => none
  | _ + 1, [], lineNumber, filters, _, inlineFileError =>
    some { ok := !inlineFileError, rest := [], lineNumber := lineNumber, filters := filters }
  | fuel + 1, limitReadBuffer :: rest, lineNumber, filters, filter, inlineFileError =>
    let lineNumber := lineNumber + 1
    let includeFlag := limitReadBuffer.head?
    if includeFlag = some '[' then
      match filter with
      | some f =>
        let subGroup : InlineFilters R :=
          match filters.subGroup f.lineNumber with
          | some g => g
          | none => .mk clearFilters []
        let subGroup := subGroup.setFilters { subGroup.filters with defaultExclude := true }
        match scanInlineFiltersLoop FILTER_HASH_SIZE re fuel rest lineNumber subGroup none false with
        | none => none
        | some r =>
          scanInlineFiltersLoop FILTER_HASH_SIZE re fuel r.rest r.lineNumber
            (filters.setSubGroup f.lineNumber r.filters) filter (!r.ok)
      | none =>
        scanInlineFiltersLoop FILTER_HASH_SIZE re fuel rest lineNumber filters filter
          inlineFileError
    else if includeFlag = some ']' then
      some { ok := true, rest := rest, lineNumber := lineNumber, filters := filters }
    else if includeFlag = some '+' ∨ includeFlag = some '-' then
      match ruleLine FILTER_HASH_SIZE re (limitReadBuffer.headD '+') (limitReadBuffer.drop 1)
          lineNumber filters.filters with
      | none =>
        some { ok := false, rest := rest, lineNumber := lineNumber, filters := filters }
      | some res =>
        match res.filterBST with
        | none =>
          some { ok := false, rest := rest, lineNumber := lineNumber
                 filters := filters.setFilters res.filters }
        | some f =>
          scanInlineFiltersLoop FILTER_HASH_SIZE re fuel rest lineNumber
            (filters.setFilters res.filters) (some f) inlineFileError
    else
      scanInlineFiltersLoop FILTER_HASH_SIZE re fuel rest lineNumber filters filter
        inlineFileError

/-- `TR_Debug::scanInlineFilters(inlineFile, lineNumber, filters)`: the loop entered with
no rule added yet and no error. -/
def scanInlineFilters {R : Type} (FILTER_HASH_SIZE : Nat) (re : SimpleRegex R) (fuel : Nat)
    (inlineFile : List (List Char)) (lineNumber : Int) (filters : InlineFilters R) :
    Option (InlineScan R) :=
  scanInlineFiltersLoop FILTER_HASH_SIZE re fuel inlineFile lineNumber filters none false

/-- The call of `addFilter` that a rule line makes when it is read as line `lineNumber`;
`none` for a line that is not a rule line or is rejected before the call. -/
def lineDirective (limitReadBuffer : List Char) (lineNumber : Int) : Option Directive :=
  match limitReadBuffer with
  | includeFlag :: p =>
    if includeFlag = '+' ∨ includeFlag = '-' then
      (ruleLinePrefix p).map fun os =>
        { filterString := os.2, scanningExclude := if '+' = includeFlag then 0 else 1
          optionSetIndex := os.1, lineNum := lineNumber }
    else none
  | [] => none

/-- The calls of `addFilter` made by consecutive rule lines read after line
`lineNumber`. -/
def lineDirectives : List (List Char) → Int → Option (List Directive)
  | [], _ => some []
  | limitReadBuffer :: rest, lineNumber =>
    match lineDirective limitReadBuffer (lineNumber + 1), lineDirectives rest (lineNumber + 1) with
    | some d, some ds => some (d :: ds)
    | _, _ => none

/-- The name, class and signature of a rule, which `insert` compares. -/
def ruleKey {R : Type} (r : FilterInfo R) : List Char × List Char × List Char :=
  (r.name, r.className, r.signature)

/-- The rule that `addFilter` builds from a directive. -/
def Directive.builtRule {R : Type} (re : SimpleRegex R) (d : Directive) : Option (FilterInfo R) :=
  if d.filterString.head? = some '{' then Directive.regexRule re d else some d.rule

/-- The rules stored in the trees of a set: the hash buckets and the name-only tree. -/
def CompilationFilters.treeRules {R : Type} (FILTER_HASH_SIZE : Nat)
    (filters : CompilationFilters R) : List (FilterInfo R) :=
  filters.hashRules FILTER_HASH_SIZE ++ filters.nameRules

/-- All the rules stored in a set: those of the trees and those of the regex chain. -/
def CompilationFilters.allRules {R : Type} (FILTER_HASH_SIZE : Nat)
    (filters : CompilationFilters R) : List (FilterInfo R) :=
  filters.treeRules FILTER_HASH_SIZE ++ filters.filterRegexList.chain

/-- The keys of the directives of a sequence that are in the name form are pairwise
distinct. -/
def distinctKeys (R : Type) (ds : List Directive) : Prop :=
  ((ds.filter Directive.isNameForm).map (fun d => ruleKey (d.rule : FilterInfo R))).Nodup

/-- A newly created set whose default has been turned to exclude, as `inlinefileOption`
passes to `scanInlineFilters`. -/
def inlineFresh : CompilationFilters Unit :=
  { (clearFilters : CompilationFilters Unit) with defaultExclude := true }

/-- The buffers read from the inline file `+0 Foo.bar()V / [ / +0 Baz.qux()V / ]`, each
with its newline. -/
def nestedInlineFile : List (List Char) :=
  ["+0 Foo.bar()V\n".toList, "[\n".toList, "+0 Baz.qux()V\n".toList, "]\n".toList]

/-- The top-level set after the first line of `nestedInlineFile`. -/
def nestedTop : CompilationFilters Unit :=
  (addFilter 211 noRegex "Foo.bar()V\n".toList 0 0 1 (some inlineFresh)).filters

/-- The nested set after the third line of `nestedInlineFile`. -/
def nestedSub : CompilationFilters Unit :=
  (addFilters 211 noRegex [includeDirective "Baz.qux()V\n" 3] inlineFresh).getD clearFilters

end OMR

namespace OMR

/-! ### Limit files, inline files and strategy files -/

/-- The buffers read from the inline file `+ Foo.bar()V / [ / +bad / ]`, each with its
newline: the third line, inside the nested group, has no space after its sign. -/
def nestedErrorFile : List (List Char) :=
  ["+ Foo.bar()V\n".toList, "[\n".toList, "+bad\n".toList, "]\n".toList]

/-- The set that the statements `filter->subGroup = findOrCreateFilters(filter->subGroup)`
and `filter->subGroup->setDefaultExclude(true)` leave as the sub-group of the rule
allocated at line `lineNumber`, before the nested call reads into it. -/
def InlineFilters.openSubGroup {R : Type} (filters : InlineFilters R) (lineNumber : Int) :
    InlineFilters R :=
  (match filters.subGroup lineNumber with
    | some g => g
    | none => InlineFilters.mk clearFilters []).setFilters
    { (match filters.subGroup lineNumber with
        | some g => g
        | none => InlineFilters.mk clearFilters []).filters with
      defaultExclude := true }

/-- The variables of `scanInlineFilters` at the head of its `while` loop: the lines not
yet read, the line counter, the set worked on and the locals `filter` and
`inlineFileError`. -/
structure InlineLoop (R : Type) where
  rest : List (List Char)
  lineNumber : Int
  filters : InlineFilters R
  filter : Option (FilterInfo R)
  inlineFileError : Bool

/-- The call of `scanInlineFilters` that stands at the head of its loop in the first
state comes back to the head of its loop in the second state, after zero or more complete
iterations: an iteration that ignores its line (a line that starts with none of `[`, `]`,
`+`, `-`, or a `[` line when no rule has been added yet), one that adds the rule of a
rule line, or one that reads a `[` line and makes a nested call that returns.  The
iterations that leave the function (a `]` line, a rejected rule line) are not steps. -/
inductive TopLevelReaches {R : Type} (FILTER_HASH_SIZE : Nat) (re : SimpleRegex R) :
    InlineLoop R → InlineLoop R → Prop
  | here (st : InlineLoop R) : TopLevelReaches FILTER_HASH_SIZE re st st
  | ignored (limitReadBuffer : List Char) (rest : List (List Char)) (lineNumber : Int)
      (filters : InlineFilters R) (filter : Option (FilterInfo R)) (inlineFileError : Bool)
      (st : InlineLoop R)
      (hflag : limitReadBuffer.head? = some '[' ∧ filter = none ∨
        limitReadBuffer.head? ≠ some '[' ∧ limitReadBuffer.head? ≠ some ']' ∧
          limitReadBuffer.head? ≠ some '+' ∧ limitReadBuffer.head? ≠ some '-')
      (hnext : TopLevelReaches FILTER_HASH_SIZE re
        { rest := rest, lineNumber := lineNumber + 1, filters := filters, filter := filter
          inlineFileError := inlineFileError } st) :
      TopLevelReaches FILTER_HASH_SIZE re
        { rest := limitReadBuffer :: rest, lineNumber := lineNumber, filters := filters
          filter := filter, inlineFileError := inlineFileError } st
  | rule (limitReadBuffer : List Char) (rest : List (List Char)) (lineNumber : Int)
      (filters : InlineFilters R) (filter : Option (FilterInfo R)) (inlineFileError : Bool)
      (res : AddFilterResult R) (f : FilterInfo R) (st : InlineLoop R)
      (hflag : limitReadBuffer.head? = some '+' ∨ limitReadBuffer.head? = some '-')
      (hline : ruleLine FILTER_HASH_SIZE re (limitReadBuffer.headD '+') (limitReadBuffer.drop 1)
        (lineNumber + 1) filters.filters = some res)
      (hfilter : res.filterBST = some f)
      (hnext : TopLevelReaches FILTER_HASH_SIZE re
        { rest := rest, lineNumber := lineNumber + 1, filters := filters.setFilters res.filters
          filter := some f, inlineFileError := inlineFileError } st) :
      TopLevelReaches FILTER_HASH_SIZE re
        { rest := limitReadBuffer :: rest, lineNumber := lineNumber, filters := filters
          filter := filter, inlineFileError := inlineFileError } st
  | group (limitReadBuffer : List Char) (rest : List (List Char)) (lineNumber : Int)
      (filters : InlineFilters R) (f : FilterInfo R) (inlineFileError : Bool)
      (fuel : Nat) (r : InlineScan R) (st : InlineLoop R)
      (hflag : limitReadBuffer.head? = some '[')
      (hcall : scanInlineFiltersLoop FILTER_HASH_SIZE re fuel rest (lineNumber + 1)
        (filters.openSubGroup f.lineNumber) none false = some r)
      (hnext : TopLevelReaches FILTER_HASH_SIZE re
        { rest := r.rest, lineNumber := r.lineNumber
          filters := filters.setSubGroup f.lineNumber r.filters, filter := some f
          inlineFileError := !r.ok } st) :
      TopLevelReaches FILTER_HASH_SIZE re
        { rest := limitReadBuffer :: rest, lineNumber := lineNumber, filters := filters
          filter := some f, inlineFileError := inlineFileError } st

/-! ### Limit files -/

/-- Modelled from the spec: the macro `OMR_ISDIGIT`, defined outside the sources at hand,
tests for a decimal digit; the argument is the character under the pointer, `none` for
the terminating zero. -/
def OMR_ISDIGIT (c : Option Char) : Bool :=
  match c with
  | some c => decide ('0' ≤ c ∧ c ≤ '9')
  | none => false

/-- The value of a text of decimal digits read from the left, starting from the value
`acc` of the digits already read; 48 is the code of the digit `0`. -/
def digitsValue : List Char → Nat → Nat
  | [], acc => acc
  | c :: rest, acc => digitsValue rest (acc * 10 + (c.toNat - 48))

/-- The C library `atoi` on a text that starts with a digit: the value of the leading
digits, or `none` when it does not fit an `int`, in which case the behaviour is
undefined. -/
def atoi (p : List Char) : Option Int :=
  let v := digitsValue (p.takeWhile fun c => OMR_ISDIGIT (some c)) 0
  if v ≤ 2147483647 then some (v : Int) else none

/-- `TR_PseudoRandomNumbersListElement` without its `_next` link, which is the position in
the list that holds the chain: the entries of `_pseudoRandomNumbers` written so far, in
index order, and `_curIndex`. -/
structure TR_PseudoRandomNumbersListElement where
  pseudoRandomNumbers : List Int
  curIndex : Nat
  deriving DecidableEq, Repr

/-- The store `_pseudoRandomNumbers[index] = value` into the entries written so far. -/
def storeNumber (numbers : List Int) (index : Nat) (value : Int) : List Int :=
  if index < numbers.length then numbers.set index value else numbers ++ [value]

/-- The pseudo-random variables of `limitfileOption`: the chain that starts at
`*pseudoRandomListHeadPtr`, the position in it of `curPseudoRandomListElem` (`none` for
`NULL`) and `curIndex`. -/
structure PseudoRandomState where
  list : List TR_PseudoRandomNumbersListElement
  cur : Option Nat
  curIndex : Nat
  deriving DecidableEq, Repr

/-- The allocation of a new list element in `limitfileOption` when there is no current
element or the current one is full: the new element becomes the head of the list or the
successor of the current element, and the current element.  `none` when the head is to be
stored through a `NULL` `pseudoRandomListHeadPtr`. -/
def linkNewElement (hasHeadPtr : Bool) (st : PseudoRandomState) : Option PseudoRandomState :=
  match st.cur with
  | none =>
    if hasHeadPtr then
      some { list := [{ pseudoRandomNumbers := [], curIndex := 0 }], cur := some 0, curIndex := 0 }
    else none
  | some i =>
    some { list := st.list.take (i + 1) ++ [{ pseudoRandomNumbers := [], curIndex := 0 }]
           cur := some (i + 1), curIndex := 0 }

/-- The two stores `curPseudoRandomListElem->_pseudoRandomNumbers[curIndex++] = randNum`
and `curPseudoRandomListElem->_curIndex = curIndex`. -/
def storeRandNum (st : PseudoRandomState) (i : Nat) (randNum : Int) : PseudoRandomState :=
  { list := st.list.modify
      (fun e => { pseudoRandomNumbers := storeNumber e.pseudoRandomNumbers st.curIndex randNum
                  curIndex := st.curIndex + 1 }) i
    cur := some i, curIndex := st.curIndex + 1 }

/-- The loop `while (OMR_ISDIGIT(p[0]))` of `limitfileOption` over the numbers of a
pseudo-random line, with `PSEUDO_RANDOM_NUMBERS_SIZE` as a parameter: the pseudo-random
variables and `limitFileError` when the loop is left; each `break` of the loop leaves this
loop only.  Every iteration uses up one unit of `fuel`; `none` means that the fuel ran
out or that the behaviour is undefined (a number that does not fit an `int`, a store
through a `NULL` head pointer or past the end of an element). -/
def pseudoRandomNumbersLoop (PSEUDO_RANDOM_NUMBERS_SIZE : Nat) (hasHeadPtr : Bool) :
    Nat → List Char → Bool → PseudoRandomState → Bool → Option (PseudoRandomState × Bool)
  | 0, _, _, _, _ => none
  | fuel + 1, p, isNegative, st, limitFileError =>
    if !OMR_ISDIGIT p.head? then some (st, limitFileError)
    else
      match atoi p with
      | none => none
      | some randNum =>
        let p := p.dropWhile fun c => OMR_ISDIGIT (some c)
        let randNum := if isNegative then -1 * randNum else randNum
        match (if st.cur.isNone || st.curIndex == PSEUDO_RANDOM_NUMBERS_SIZE then
            linkNewElement hasHeadPtr st else some st) with
        | none => none
        | some st =>
          match st.cur with
          | none => some (st, true)
          | some i =>
            if PSEUDO_RANDOM_NUMBERS_SIZE ≤ st.curIndex then none
            else
              let st := storeRandNum st i randNum
              if p.head? = some '#' then some (st, limitFileError)
              else if p.head? ≠ some ' ' then some (st, true)
              else
                let p := p.drop 1
                if p.head? = some '-' then
                  pseudoRandomNumbersLoop PSEUDO_RANDOM_NUMBERS_SIZE hasHeadPtr fuel (p.drop 1)
                    true st limitFileError
                else
                  pseudoRandomNumbersLoop PSEUDO_RANDOM_NUMBERS_SIZE hasHeadPtr fuel p false st
                    limitFileError

/-- The filter set that a flag `loadLimit` selects: `_relocationFilters` when it is true,
`_compilationFilters` otherwise. -/
def TR_Debug.selected {R : Type} (debug : TR_Debug R) (loadLimit : Bool) :
    Option (CompilationFilters R) :=
  if loadLimit then debug.relocationFilters else debug.compilationFilters

/-- An assignment to the filter set that `loadLimit` selects. -/
def TR_Debug.setSelected {R : Type} (debug : TR_Debug R) (loadLimit : Bool)
    (filters : CompilationFilters R) : TR_Debug R :=
  if loadLimit then { debug with relocationFilters := some filters }
  else { debug with compilationFilters := some filters }

/-- `TR_Debug::addFilter(filterString, scanningExclude, optionSetIndex, lineNum,
loadLimit)`: the selected set is found or created and the filter is added to it; the
returned filter and the debug object after the call. -/
def TR_Debug.addFilter {R : Type} (FILTER_HASH_SIZE : Nat) (re : SimpleRegex R)
    (debug : TR_Debug R) (filterString : List Char) (scanningExclude optionSetIndex lineNum : Int)
    (loadLimit : Bool) : Option (FilterInfo R) × TR_Debug R :=
  let r := OMR.addFilter FILTER_HASH_SIZE re filterString scanningExclude optionSetIndex lineNum
    (debug.selected loadLimit)
  (r.filterBST, debug.setSelected loadLimit r.filters)

/-- The variables of `limitfileOption` that its loop over the lines changes: the debug
object with its filter sets, `limitFileError`, `lineNumber` and the pseudo-random
variables. -/
structure LimitFileState (R : Type) where
  debug : TR_Debug R
  limitFileError : Bool
  lineNumber : Int
  random : PseudoRandomState

/-- The outcome of a call of `addFilter` in the loop of `limitfileOption`: a returned 0
sets `limitFileError` and leaves the loop (the boolean is true). -/
def limitFileAdd {R : Type} (st : LimitFileState R) (r : Option (FilterInfo R) × TR_Debug R) :
    LimitFileState R × Bool :=
  if r.1.isNone then ({ st with debug := r.2, limitFileError := true }, true)
  else ({ st with debug := r.2 }, false)

/-- The array `char limitReadBuffer[1024]` of `limitfileOption` after a call of `fgets`
has stored a line in it: the text of the line, the terminator, and behind it the bytes
that the array held before.  A byte that has never been written is `none`. -/
def fgets (limitReadBuffer : List (Option Char)) (line : List Char) : List (Option Char) :=
  line.map some ++ some (Char.ofNat 0) :: limitReadBuffer.drop (line.length + 1)

/-- The C string that starts at the head of a part of the array: the bytes before the
first terminator; `none` when a byte that has never been written, or the end of the array,
comes first. -/
def cString : List (Option Char) → Option (List Char)
  | [] => none
  | none :: _ => none
  | some c :: rest => if c = Char.ofNat 0 then some [] else (cString rest).map fun p => c :: p

/-- The C string that starts one position behind the terminator of line `lineNumber` in
`limitReadBuffer`, when the lines of the file up to that line have been read into the
array one after the other: what the earlier, longer lines have left there, `none` when
no line has written that far. -/
def staleBytes (limitFile : List (List Char)) (lineNumber : Int) : Option (List Char) :=
  match limitFile.get? (lineNumber.toNat - 1) with
  | none => none
  | some line =>
    cString (((limitFile.take lineNumber.toNat).foldl fgets (List.replicate 1024 none)).drop
      (line.length + 1))

/-- The pointer `limitReadBuffer + k` read as a C string, where `limitReadBuffer` holds a
text and `stale` is the C string behind its terminator: inside the text and at the
terminator the rest of the text, one position behind the terminator `stale`, which is
`none` when the bytes there are indeterminate. -/
def bufferFrom (limitReadBuffer : List Char) (stale : Option (List Char)) (k : Nat) :
    Option (List Char) :=
  if k ≤ limitReadBuffer.length then some (limitReadBuffer.drop k)
  else if k = limitReadBuffer.length + 1 then stale
  else none

/-- The body of the loop of `limitfileOption` for a line inside the range, read into
`limitReadBuffer` as line `st.lineNumber`: the state after the line and whether the loop
is left by `break`.  The pointers `limitReadBuffer + 18` and `limitReadBuffer + 20` are
taken without a look at the length of the text: for a line that is just
`-precompileMethod` or `-noprecompileMethod`, without a line end, they point one position
behind the terminator, and the filter string is `stale`, the bytes that earlier lines
left in the array.  `none` when the behaviour is undefined: those bytes are
indeterminate, or the loop over pseudo-random numbers has no defined result. -/
def limitFileLine {R : Type} (FILTER_HASH_SIZE : Nat) (re : SimpleRegex R)
    (PSEUDO_RANDOM_NUMBERS_SIZE : Nat) (hasHeadPtr : Bool) (loadLimit : Bool)
    (stale : Option (List Char)) (limitReadBuffer : List Char) (st : LimitFileState R) :
    Option (LimitFileState R × Bool) :=
  let includeFlag := limitReadBuffer.head?
  if strncmp limitReadBuffer "-precompileMethod".toList 17 = 0 then
    match bufferFrom limitReadBuffer stale 18 with
    | none => none
    | some p =>
      some (limitFileAdd st (st.debug.addFilter FILTER_HASH_SIZE re p 0 0 st.lineNumber
        loadLimit))
  else if strncmp limitReadBuffer "-noprecompileMethod".toList 19 = 0 then
    match bufferFrom limitReadBuffer stale 20 with
    | none => none
    | some p =>
      some (limitFileAdd st (st.debug.addFilter FILTER_HASH_SIZE re p 1 0 st.lineNumber
        loadLimit))
  else if includeFlag = some '+' ∨ includeFlag = some '-' then
    match ruleLinePrefix (limitReadBuffer.drop 1) with
    | none => some ({ st with limitFileError := true }, true)
    | some (optionSet, p) =>
      some (limitFileAdd st (st.debug.addFilter FILTER_HASH_SIZE re p
        (if some '+' = includeFlag then 0 else 1) optionSet st.lineNumber loadLimit))
  else if strncmp limitReadBuffer "#num".toList 4 = 0 then
    let p := limitReadBuffer.drop 4
    if p.head? ≠ some ' ' then some ({ st with limitFileError := true }, true)
    else
      let p := p.drop 1
      let isNegative : Bool := p.head? = some '-'
      let p := if isNegative then p.drop 1 else p
      match pseudoRandomNumbersLoop PSEUDO_RANDOM_NUMBERS_SIZE hasHeadPtr (p.length + 1) p
          isNegative st.random st.limitFileError with
      | none => none
      | some (random, limitFileError) =>
        some ({ st with random := random, limitFileError := limitFileError }, false)
  else some (st, false)

/-- The loop `while (fgets(...))` of `limitfileOption` over the buffers read from the
file, with the range `firstLine .. lastLine`: the state when the loop is left, and whether
it was left by `break`.  `stale` gives, for a line number, the C string behind the
terminator of that line in the array. -/
def limitFileLoop {R : Type} (FILTER_HASH_SIZE : Nat) (re : SimpleRegex R)
    (PSEUDO_RANDOM_NUMBERS_SIZE : Nat) (hasHeadPtr : Bool) (loadLimit : Bool)
    (stale : Int → Option (List Char)) (firstLine lastLine : Int) :
    List (List Char) → LimitFileState R → Option (LimitFileState R × Bool)
  | [], st => some (st, false)
  | limitReadBuffer :: rest, st =>
    let st := { st with lineNumber := st.lineNumber + 1 }
    if st.lineNumber < firstLine ∨ st.lineNumber > lastLine then
      limitFileLoop FILTER_HASH_SIZE re PSEUDO_RANDOM_NUMBERS_SIZE hasHeadPtr loadLimit stale
        firstLine lastLine rest st
    else
      match limitFileLine FILTER_HASH_SIZE re PSEUDO_RANDOM_NUMBERS_SIZE hasHeadPtr loadLimit
          (stale st.lineNumber) limitReadBuffer st with
      | none => none
      | some (st, true) => some (st, true)
      | some (st, false) =>
        limitFileLoop FILTER_HASH_SIZE re PSEUDO_RANDOM_NUMBERS_SIZE hasHeadPtr loadLimit stale
          firstLine lastLine rest st

/-- What a call of `limitfileOption` leaves behind: the returned pointer into the option
text, the debug object with its filter sets, and the chain at `*pseudoRandomListHeadPtr`
(`none` when that pointer is `NULL`). -/
structure LimitFileResult (R : Type) where
  ret : List Char
  debug : TR_Debug R
  pseudoRandomList : Option (List TR_PseudoRandomNumbersListElement)

/-- The part of `limitfileOption` that reads the range of the form `(name,first,last)`,
entered with `endOpt` at the end of the file name: the first line, the last line and
`endOpt` after the closing parenthesis, or `none` where the code returns `option`.
`TR::Options::getNumericValue`, defined outside the sources at hand, is a parameter: it
gives the value read and the cursor after it. -/
def limitFileRange (getNumericValue : List Char → Int × List Char) (endOpt : List Char) :
    Option (Int × Int × List Char) :=
  if endOpt.head? = none then none
  else
    let first := getNumericValue (endOpt.drop 1)
    let last : Int × List Char :=
      if first.2.head? = some ',' then getNumericValue (first.2.drop 1)
      else (2147483647, first.2)
    if last.2.head? ≠ some ')' then none
    else some (first.1, last.1, last.2.drop 1)

/-- What `limitfileOption` reads from the option text before it opens the file: the file
name, the range and the pointer `endOpt` that a successful call returns. -/
structure LimitFileOptionParts where
  limitFileName : List Char
  firstLine : Int
  lastLine : Int
  endOpt : List Char
  deriving DecidableEq, Repr

/-- The first part of `limitfileOption`, up to the call of `fopen`: `none` where the code
returns `option`, for an empty file name or a malformed range. -/
def limitFileOptionParts (getNumericValue : List Char → Int × List Char) (option : List Char) :
    Option LimitFileOptionParts :=
  let range : Bool := option.head? = some '('
  let name := if range then option.drop 1 else option
  let endOpt := name.dropWhile fun c => c ≠ ','
  let len := name.length - endOpt.length
  if len = 0 then none
  else
    let limitFileName := name.take len
    if range then
      match limitFileRange getNumericValue endOpt with
      | none => none
      | some (firstLine, lastLine, endOpt) =>
        some { limitFileName := limitFileName, firstLine := firstLine, lastLine := lastLine
               endOpt := endOpt }
    else
      some { limitFileName := limitFileName, firstLine := 1, lastLine := 2147483647
             endOpt := endOpt }

/-- The variables of `limitfileOption` when it enters its loop over the lines: the
selected set has been found or created and its default set to exclude. -/
def limitFileInitial {R : Type} (debug : TR_Debug R) (loadLimit : Bool)
    (pseudoRandomListHeadPtr : Option (List TR_PseudoRandomNumbersListElement)) :
    LimitFileState R :=
  { debug := debug.setSelected loadLimit
      { findOrCreateFilters (debug.selected loadLimit) with defaultExclude := true }
    limitFileError := false
    lineNumber := 0
    random :=
      { list := pseudoRandomListHeadPtr.getD []
        cur := if (pseudoRandomListHeadPtr.getD []).isEmpty then none else some 0
        curIndex := 0 } }

/-- `TR_Debug::limitfileOption(option, base, entry, cmdLineOptions, loadLimit,
pseudoRandomListHeadPtr)`.  The parameters are `FILTER_HASH_SIZE`, the regex component,
`PSEUDO_RANDOM_NUMBERS_SIZE`, `TR::Options::getNumericValue` and the file system: `fopen`
gives the texts that the calls of `fgets` store in `limitReadBuffer`, or `none` for a file
that cannot be opened; the array is not initialised and keeps, behind the terminator of a
line, the bytes of the lines read before (`staleBytes`).  `pseudoRandomListHeadPtr` is
`none` for `NULL`, otherwise the chain it points to.  The result is `none` when the
behaviour is undefined. -/
def limitfileOption {R : Type} (FILTER_HASH_SIZE : Nat) (re : SimpleRegex R)
    (PSEUDO_RANDOM_NUMBERS_SIZE : Nat) (getNumericValue : List Char → Int × List Char)
    (fopen : List Char → Option (List (List Char))) (option : List Char) (debug : TR_Debug R)
    (loadLimit : Bool)
    (pseudoRandomListHeadPtr : Option (List TR_PseudoRandomNumbersListElement)) :
    Option (LimitFileResult R) :=
  match limitFileOptionParts getNumericValue option with
  | none => some { ret := option, debug := debug, pseudoRandomList := pseudoRandomListHeadPtr }
  | some parts =>
    match fopen parts.limitFileName with
    | none =>
      some { ret := option, debug := debug, pseudoRandomList := pseudoRandomListHeadPtr }
    | some limitFile =>
      match limitFileLoop FILTER_HASH_SIZE re PSEUDO_RANDOM_NUMBERS_SIZE
          pseudoRandomListHeadPtr.isSome loadLimit (staleBytes limitFile) parts.firstLine
          parts.lastLine limitFile (limitFileInitial debug loadLimit pseudoRandomListHeadPtr) with
      | none => none
      | some (st, _) =>
        some
          { ret := if st.limitFileError then option else parts.endOpt
            debug := st.debug
            pseudoRandomList := pseudoRandomListHeadPtr.map fun _ => st.random.list }

/-- What a call of `inlinefileOption` leaves behind: the returned pointer into the option
text and `_inlineFilters` with the sub-groups of its rules. -/
structure InlineFileResult (R : Type) where
  ret : List Char
  inlineFilters : Option (InlineFilters R)

/-- `TR_Debug::inlinefileOption(option, base, entry, cmdLineOptions)` on the inline set of
the debug object, with the file system as for `limitfileOption`; the call of
`scanInlineFilters` is given more fuel than the file has lines. -/
def inlinefileOption {R : Type} (FILTER_HASH_SIZE : Nat) (re : SimpleRegex R)
    (fopen : List Char → Option (List (List Char))) (option : List Char)
    (inlineFilters : Option (InlineFilters R)) : Option (InlineFileResult R) :=
  let endOpt := option.dropWhile fun c => c ≠ ','
  let len := option.length - endOpt.length
  if len = 0 then some { ret := option, inlineFilters := inlineFilters }
  else
    let inlineFileName := option.take len
    match fopen inlineFileName with
    | none => some { ret := option, inlineFilters := inlineFilters }
    | some inlineFile =>
      let filters : InlineFilters R :=
        match inlineFilters with
        | some f => f
        | none => .mk clearFilters []
      let filters := filters.setFilters { filters.filters with defaultExclude := true }
      match scanInlineFilters FILTER_HASH_SIZE re (inlineFile.length + 1) inlineFile 0 filters with
      | none => none
      | some r =>
        some { ret := if !r.ok then option else endOpt, inlineFilters := some r.filters }

/-- A reader of numeric values in the option text, used to exercise the definitions: the
value of the leading decimal digits and the text after them. -/
def readDecimal (p : List Char) : Int × List Char :=
  ((digitsValue (p.takeWhile fun c => OMR_ISDIGIT (some c)) 0 : Nat),
    p.dropWhile fun c => OMR_ISDIGIT (some c))

/-- A file system with the one file `limit.txt`. -/
def oneFile (limitFile : List (List Char)) (name : List Char) : Option (List (List Char)) :=
  if name = "limit.txt".toList then some limitFile else none

/-- A debug object without any filter set. -/
def noFilters : TR_Debug Unit :=
  { compilationFilters := none, relocationFilters := none, inlineFilters := none }

/-- The lines of a file read after line `lineNumber`, with every line whose number lies
outside `firstLine .. lastLine` replaced by an empty buffer. -/
def maskLines (firstLine lastLine : Int) : Int → List (List Char) → List (List Char)
  | _, [] => []
  | lineNumber, limitReadBuffer :: rest =>
    (if lineNumber + 1 < firstLine ∨ lineNumber + 1 > lastLine then [] else limitReadBuffer) ::
      maskLines firstLine lastLine (lineNumber + 1) rest

/-- The limit file `+ A.a()V / + B.b()V / +bad`, whose third line is rejected. -/
def threeLineFile : List (List Char) :=
  ["+ A.a()V\n".toList, "+ B.b()V\n".toList, "+bad\n".toList]

/-- The set that `loadLimit` selects exists and has the default exclude. -/
def SelectedExcludes {R : Type} (ll : Bool) (debug : TR_Debug R) : Prop :=
  ∃ fs, debug.selected ll = some fs ∧ fs.defaultExclude = true

/-- The pointer `name` of `limitfileOption`: the option text, after the opening
parenthesis of the range form. -/
def limitFileNameStart (option : List Char) : List Char :=
  if option.head? = some '(' then option.drop 1 else option

/-- The pointer `endOpt` of `limitfileOption` after the loop that skips the file name: the
next comma or the end of the string. -/
def limitFileNameEnd (option : List Char) : List Char :=
  (limitFileNameStart option).dropWhile fun c => c ≠ ','

/-- The pointer `endOpt` of `limitfileOption` in the range form after the numbers have
been read, where the code expects the closing parenthesis. -/
def limitFileRangeEnd (getNumericValue : List Char → Int × List Char) (endOpt : List Char) :
    List Char :=
  if (getNumericValue (endOpt.drop 1)).2.head? = some ',' then
    (getNumericValue ((getNumericValue (endOpt.drop 1)).2.drop 1)).2
  else (getNumericValue (endOpt.drop 1)).2

/-! ### Pseudo-random lines -/

/-- The fields of a `TR::OptionSet` that `limitOption` sets: the option string given to
`init`, the method regex and the opt-level regex (`none` for `NULL`). -/
structure OptionSet (R : Type) where
  optionString : List Char
  methodRegex : R
  optLevelRegex : Option R
  deriving DecidableEq, Repr

/-- The loop `for (; *p; p++)` of `limitOption` that looks for the parenthesis closing the
option subset: `parenNest` and `p` when the loop is left. -/
def parenScan : List Char → Int → Int × List Char
  | [], parenNest => (parenNest, [])
  | c :: p, parenNest =>
    if c = '(' then parenScan p (parenNest + 1)
    else if c = ')' then
      if parenNest - 1 = 0 then (0, p) else parenScan p (parenNest - 1)
    else parenScan p parenNest

/-- What a call of `limitOption` leaves behind: the returned pointer, the set `filters`
passed by reference, the text stored as `entry->msgInfo` (`none` when it is not
assigned) and the option set passed to `saveOptionSet` (`none` when it is not called). -/
structure LimitOptionResult (R : Type) where
  ret : List Char
  filters : CompilationFilters R
  msgInfo : Option (List Char)
  newSet : Option (OptionSet R)

/-- `TR_Debug::limitOption(option, base, entry, cmdLineOptions, filters)`, with
`FILTER_HASH_SIZE` and the regex component as parameters; `parm1` is `entry->parm1`,
taken within the range of `int32_t`. -/
def limitOption {R : Type} (FILTER_HASH_SIZE : Nat) (re : SimpleRegex R) (option : List Char)
    (parm1 : Int) (filters : Option (CompilationFilters R)) : LimitOptionResult R :=
  let filters := findOrCreateFilters filters
  let added := addFilter FILTER_HASH_SIZE re option parm1 0 0 (some filters)
  let p := added.filterString
  match added.filterBST with
  | none => { ret := option, filters := added.filters, msgInfo := none, newSet := none }
  | some filter =>
    let len := option.length - p.length
    let limitName := option.take len
    match filter.regex with
    | none => { ret := p, filters := added.filters, msgInfo := some limitName, newSet := none }
    | some methodRegex =>
      if parm1 = 0 ∧ (p.head? = some '(' ∨ p.head? = some '{') then
        let optLevel : Option (Option R × List Char) :=
          if p.head? = some '{' then
            match re.create p with
            | none => none
            | some (optLevelRegex, n) =>
              if (p.drop n).head? ≠ some '(' then none else some (some optLevelRegex, p.drop n)
          else some (none, p)
        match optLevel with
        | none =>
          { ret := option, filters := added.filters, msgInfo := some limitName, newSet := none }
        | some (optLevelRegex, p) =>
          let startOptString := p.drop 1
          let scanned := parenScan startOptString 1
          if scanned.1 ≠ 0 then
            { ret := startOptString, filters := added.filters, msgInfo := some limitName
              newSet := none }
          else
            { ret := scanned.2, filters := added.filters, msgInfo := some limitName
              newSet := some { optionString := startOptString, methodRegex := methodRegex
                               optLevelRegex := optLevelRegex } }
      else { ret := p, filters := added.filters, msgInfo := some limitName, newSet := none }

/-! ### loadCustomStrategy -/

/-- The C library `isspace` in the C locale: space, `\t`, `\n`, `\v`, `\f`, `\r`. -/
def isspace (c : Char) : Bool :=
  c = ' ' || (9 ≤ c.toNat && c.toNat ≤ 13)

/-- The C library `strcspn`: the length of the longest initial part of `s` without any
character of `reject`. -/
def strcspn (s reject : List Char) : Nat :=
  (s.takeWhile fun c => !reject.contains c).length

/-- The C library `strstr`: the suffix of `haystack` that starts at the first occurrence of
`needle`, or `none` for `NULL`. -/
def strstr : List Char → List Char → Option (List Char)
  | [], needle => if needle.isEmpty then some [] else none
  | c :: rest, needle =>
    if needle.isPrefixOf (c :: rest) then some (c :: rest) else strstr rest needle

/-- The matching of the ordinary characters of a `sscanf` format against the input: the
input after them, or the value that `sscanf` returns when the matching stops before any
conversion: `EOF` (-1) when the input ends first, 0 at a character that differs. -/
def scanLiteral : List Char → List Char → Except Int (List Char)
  | [], input => .ok input
  | _ :: _, [] => .error (-1)
  | f :: format, c :: input => if f = c then scanLiteral format input else .error 0

/-- The value of the C library call `sscanf(lineBuffer, "Performing %d: ", &optIndex)`: -1
(`EOF`) when the input ends before the conversion `%d` has read a character, 0 when the
text does not match up to a decimal integer, 1 when the integer has been read (the rest
of the format cannot change the value any more).  The integer itself is not used by the
caller. -/
def sscanfPerforming (lineBuffer : List Char) : Int :=
  match scanLiteral "Performing".toList lineBuffer with
  | .error r => r
  | .ok input =>
    let input := input.dropWhile isspace
    if input.isEmpty then -1
    else
      let digits :=
        if input.head? = some '+' ∨ input.head? = some '-' then input.drop 1 else input
      if OMR_ISDIGIT digits.head? then 1 else 0

/-- The loop `for (optNum = 0; optNum < OMR::numOpts; optNum++)` of `loadCustomStrategy`,
entered at `optNum` with `count` values still to try: the first value whose optimization
name compares equal to `name` over `nameLen` characters, or `none` when the loop ends with
`optNum == OMR::numOpts`.  `OMR::Optimizer::getOptimizationName`, defined outside the
sources at hand, is a parameter. -/
def findOptimization (getOptimizationName : Nat → List Char) (name : List Char) (nameLen : Nat) :
    Nat → Nat → Option Nat
  | 0, _ => none
  | count + 1, optNum =>
    if strncmp name (getOptimizationName optNum) nameLen = 0 then some optNum
    else findOptimization getOptimizationName name nameLen count (optNum + 1)

/-- The loop `while (fgets(...))` of `loadCustomStrategy` over the buffers read from the
file: the entries of `optNumBuffer` below `optCount` when the loop is left.  `OMR::numOpts`
and `TR::Options::MustBeDone`, defined outside the sources at hand, are parameters, and the
entries are kept as bit patterns.  `none` when the behaviour is undefined: `sscanf` has
not returned 0 and the line has no colon, or nothing but the end of the text after the
colon. -/
def loadCustomStrategyLoop (numOpts : Nat) (getOptimizationName : Nat → List Char)
    (MustBeDone : Nat) : List (List Char) → List Nat → Option (List Nat)
  | [], optNumBuffer => some optNumBuffer
  | lineBuffer :: rest, optNumBuffer =>
    if optNumBuffer.length ≥ 1000 then some optNumBuffer
    else if sscanfPerforming lineBuffer = 0 then
      loadCustomStrategyLoop numOpts getOptimizationName MustBeDone rest optNumBuffer
    else
      match strchr lineBuffer ':' with
      | none => none
      | some colon =>
        if colon.length < 2 then none
        else
          let name := colon.drop 2
          let nameLen := strcspn name " \n".toList
          match findOptimization getOptimizationName name nameLen numOpts 0 with
          | some optNum =>
            let flags := if (strstr (name.drop nameLen) "mustBeDone".toList).isSome then
              MustBeDone else 0
            loadCustomStrategyLoop numOpts getOptimizationName MustBeDone rest
              (optNumBuffer ++ [optNum ||| flags])
          | none =>
            loadCustomStrategyLoop numOpts getOptimizationName MustBeDone rest optNumBuffer

/-- `TR_Debug::loadCustomStrategy(fileName)`: the array `customStrategy`, or `none` for
`NULL`; the outer `none` means undefined behaviour.  The file system is the parameter
`fopen`, which gives the buffers that `fgets` reads from a file or `none` when the file
cannot be opened; `OMR::endOpts` is a parameter. -/
def loadCustomStrategy (numOpts : Nat) (getOptimizationName : Nat → List Char)
    (MustBeDone endOpts : Nat) (fopen : List Char → Option (List (List Char)))
    (fileName : List Char) : Option (Option (List Nat)) :=
  match fopen fileName with
  | none => some none
  | some optFile =>
    match loadCustomStrategyLoop numOpts getOptimizationName MustBeDone optFile [] with
    | none => none
    | some optNumBuffer =>
      if optNumBuffer.length > 0 then some (some (optNumBuffer ++ [endOpts])) else some none

/-- A registry of three optimization names. -/
def threeOpts (optNum : Nat) : List Char :=
  match optNum with
  | 0 => "inlining".toList
  | 1 => "deadTreesElimination".toList
  | _ => "treeSimplification".toList

/-- A file system with the one file `strategy.txt`. -/
def strategyFile (optFile : List (List Char)) (name : List Char) : Option (List (List Char)) :=
  if name = "strategy.txt".toList then some optFile else none

end OMR

namespace OMR

/-! ### Construction of the register file, the stub and the link-register flag -/

/-- The enumerators of `TR::RealRegister::RegNum` that `initialiseRegisterFile` and the
link-register accessors name.  The enumeration is declared outside the sources read
here, so its values are a parameter of the embedding: `x i` is the ordinal of the
enumerator `x0` .. `x29` for `i < 30`, `v i` that of `v0` .. `v31` for `i < 32`, and
`NumRegisters` is the size of the table that the constructor allocates. -/
structure RegOrdinals where
  NoReg : Nat
  SpilledReg : Nat
  x : Nat → Nat
  lr : Nat
  v : Nat → Nat
  NumRegisters : Nat

/-- The ordinals of the general-purpose registers that `initialiseRegisterFile` fills:
`x0` .. `x29` and `lr`. -/
def RegOrdinals.gprs (n : RegOrdinals) : List Nat :=
  (List.range 30).map n.x ++ [n.lr]

/-- The ordinals of the floating-point registers that `initialiseRegisterFile` fills:
`v0` .. `v31`. -/
def RegOrdinals.fprs (n : RegOrdinals) : List Nat :=
  (List.range 32).map n.v

/-- The assignments of `initialiseRegisterFile`, in the order of the source: the slot
and the pointer stored in it.  The two sentinels get `NULL`; every register gets a
descriptor constructed with its kind, the weight 0, the state `Free` and its own
ordinal as register number. -/
def registerFileStores (n : RegOrdinals) : List (Nat × Option RealRegister) :=
  (n.NoReg, none) :: (n.SpilledReg, none) ::
    (n.gprs.map (fun o => (o, some (mkRegister .TR_GPR 0 .Free o))) ++
      n.fprs.map (fun o => (o, some (mkRegister .TR_FPR 0 .Free o))))

/-- The store `_registerFile[i] = p`; a store outside the table is undefined
behaviour (`none`). -/
def Machine.store (m : Machine) (i : Nat) (p : Option RealRegister) : Option Machine :=
  if i < m.registerFile.length then some { registerFile := m.registerFile.set i p } else none

/-- A sequence of stores into `_registerFile`. -/
def Machine.storeAll : List (Nat × Option RealRegister) → Machine → Option Machine
  | [], m => some m
  | (i, p) :: rest, m =>
    match m.store i p with
    | none => none
    | some m => Machine.storeAll rest m

/-- `OMR::ARM64::Machine::initialiseRegisterFile`.  Every descriptor is allocated with
`new (self()->cg()->trHeapMemory())`, which reads the member `_cg` and dereferences it:
`cg` is the value of that member, `none` when nothing has been stored in it, and then the
behaviour is undefined (`none`). -/
def initialiseRegisterFile {CodeGenerator : Type} (n : RegOrdinals) (cg : Option CodeGenerator)
    (m : Machine) : Option Machine :=
  match cg with
  | none => none
  | some _ => Machine.storeAll (registerFileStores n) m

set_option linter.unusedVariables false in
/-- The constructor `OMR::ARM64::Machine::Machine(cg)`: the table is allocated through the
argument `cg`, with `NumRegisters` slots whose content `memory` is whatever the allocator
returns, and `initialiseRegisterFile` is called.  The constructor has no initialiser for
the member `_cg` and does not assign it, so the member holds no value when
`initialiseRegisterFile` reads it, whatever the argument is. -/
def newMachine {CodeGenerator : Type} (n : RegOrdinals) (cg : CodeGenerator)
    (memory : List (Option RealRegister)) : Option Machine :=
  let _cg : Option CodeGenerator := none
  if memory.length = n.NumRegisters then initialiseRegisterFile n _cg { registerFile := memory }
  else none

/-- The ordinals of the AArch64 registers in one numbering that agrees with
`aarch64RegNum`: `NoReg` is 0, `x0` .. `x29` are 1 .. 30, `lr` is 31, `v0` .. `v31` are
33 .. 64, `SpilledReg` is 65 and the table has 66 slots. -/
def aarch64Ordinals : RegOrdinals :=
  { NoReg := 0, SpilledReg := 65, x := fun i => i + 1, lr := 31, v := fun i => i + 33
    NumRegisters := 66 }

/-- The register file of 66 slots that `initialiseRegisterFile` builds with the ordinals
`aarch64Ordinals` from a table of `NULL` pointers: slots 0, 32 and 65 are `NULL`, every
other slot holds a free descriptor of weight 0. -/
def freshMachine : Machine :=
  { registerFile := (List.range 66).map fun i =>
      if i = 0 ∨ i = 32 ∨ i = 65 then none
      else if i < 32 then some (mkRegister .TR_GPR 0 .Free i)
      else some (mkRegister .TR_FPR 0 .Free i) }

/-- Why a call does not return: the only cause in the sources at hand is a failed
assertion. -/
inductive Abort where
  | fatalAssertion
  deriving DecidableEq, Repr

/-- Modelled from the spec: the macro `TR_ASSERT` of `infra/Assert.hpp`, which is not
part of the sources read here; the spec calls the assertion of `freeBestRegister` a
fatal assertion that aborts execution.  An assertion whose condition holds lets the
execution go on. -/
def TR_ASSERT (condition : Bool) : Except Abort Unit :=
  if condition then .ok () else .error .fatalAssertion

set_option linter.unusedVariables false in
/-- `OMR::ARM64::Machine::freeBestRegister(currentInstruction, rk, forced,
excludeGPR0)`: the assertion `TR_ASSERT(false, ...)` and, where it lets the execution go
on, `return NULL`.  The behaviour of the assertion macro is the parameter `assertion`;
the result is what the call does (the returned pointer, `none` for `NULL`, or the abort)
with the machine that it leaves. -/
def freeBestRegister {Instruction : Type} (assertion : Bool → Except Abort Unit) (m : Machine)
    (currentInstruction : Instruction) (rk : TR_RegisterKinds) (forced : Option Nat)
    (excludeGPR0 : Bool) : Except Abort (Option Nat) × Machine :=
  match assertion false with
  | .error e => (.error e, m)
  | .ok _ => (.ok none, m)

/-- Modelled from the spec: `TR::RealRegister::getHasBeenAssignedInMethod`, declared
outside the sources read here: the flag "has been assigned in this method" of the
descriptor. -/
def RealRegister.getHasBeenAssignedInMethod (r : RealRegister) : Bool :=
  r.hasBeenAssignedInMethod

/-- Modelled from the spec: `TR::RealRegister::setHasBeenAssignedInMethod(b)`, declared
outside the sources read here: the flag is written and the value written is returned;
no other field of the descriptor changes. -/
def RealRegister.setHasBeenAssignedInMethod (r : RealRegister) (b : Bool) :
    Bool × RealRegister :=
  (b, { r with hasBeenAssignedInMethod := b })

/-- `getLinkRegisterKilled()`, with the ordinal `lr` as a parameter; `none` when the
slot of the link register holds `NULL`, which the call dereferences. -/
def Machine.getLinkRegisterKilled (lr : Nat) (m : Machine) : Option Bool :=
  match m.deref lr with
  | none => none
  | some r => some r.getHasBeenAssignedInMethod

/-- `setLinkRegisterKilled(b)`, with the ordinal `lr` as a parameter: the returned value
and the machine after the call; `none` when the slot of the link register holds
`NULL`. -/
def Machine.setLinkRegisterKilled (lr : Nat) (m : Machine) (b : Bool) :
    Option (Bool × Machine) :=
  match m.deref lr with
  | none => none
  | some r =>
    some ((r.setHasBeenAssignedInMethod b).1,
      { registerFile := m.registerFile.set lr (some (r.setHasBeenAssignedInMethod b).2) })

/-- A register file of 66 slots in which `x0` is free with weight 5 and `x1` is
unlatched with weight 0; every other register is assigned. -/
def latchedMachine : Machine :=
  { registerFile := (List.range 66).map fun i =>
      if i = 0 ∨ i = 32 ∨ i = 65 then none
      else if i = 1 then some (mkRegister .TR_GPR 5 .Free 1)
      else if i = 2 then some (mkRegister .TR_GPR 0 .Unlatched 2)
      else if i < 32 then some (mkRegister .TR_GPR 0 .Assigned i)
      else some (mkRegister .TR_FPR 0 .Assigned i) }

/-! ### Placement of the rules in a set -/

/-- The tree of a set in which `addFilter` stores a name-form rule: the name-only tree for
a name-only kind, otherwise the hash bucket given by the total length of the three strings
of the rule. -/
def CompilationFilters.treeOf {R : Type} (FILTER_HASH_SIZE : Nat)
    (filters : CompilationFilters R) (r : FilterInfo R) : TR_FilterBST R :=
  if r.filterType.isNameOnly then filters.filterNameList
  else
    filters.filterHash
      ((r.name.length + r.className.length + r.signature.length) % FILTER_HASH_SIZE)

/-- The search that `methodSigCanBeFound` makes for a key in one tree of a set: the
one-key `find` in the name-only tree, or the three-key `find` in the hash bucket given by
the total length of the key. -/
def CompilationFilters.lookup {R : Type} (FILTER_HASH_SIZE : Nat)
    (filters : CompilationFilters R) (name className signature : List Char) (nameOnly : Bool) :
    TR_FilterBST R :=
  if nameOnly then filters.filterNameList.findName name name.length
  else
    (filters.filterHash
      ((name.length + signature.length + className.length) % FILTER_HASH_SIZE)).find
      name name.length className className.length signature signature.length

/-- The nodes reachable from a pointer through any of the three links of a node: the
two children and `getNext()`. -/
def TR_FilterBST.reachable {R : Type} : TR_FilterBST R → List (FilterInfo R)
  | .null => []
  | .node info child0 child1 next =>
    info :: (child0.reachable ++ child1.reachable ++ next.reachable)

/-- No node reachable from the pointer through child links has a `getNext()` link. -/
def TR_FilterBST.noNext {R : Type} : TR_FilterBST R → Prop
  | .null => True
  | .node _ child0 child1 next => next = .null ∧ child0.noNext ∧ child1.noNext

/-- No node reachable from the pointer through `getNext()` links has a child. -/
def TR_FilterBST.noChild {R : Type} : TR_FilterBST R → Prop
  | .null => True
  | .node _ child0 child1 next => child0 = .null ∧ child1 = .null ∧ next.noChild

/-- The kinds of the regex rules. -/
def FilterType.isRegex (t : FilterType) : Bool :=
  t == .TR_FILTER_REGEX || t == .TR_FILTER_EXCLUDE_REGEX

/-- What holds of the links of every set built by `addFilter` calls from a cleared set:
the nodes of the hash buckets and of the name-only tree have no `getNext()` link, the
nodes of the regex chain have no children and a regex kind. -/
structure LinkInv {R : Type} (filters : CompilationFilters R) : Prop where
  hash : ∀ b, (filters.filterHash b).noNext
  names : filters.filterNameList.noNext
  chain : filters.filterRegexList.noChild
  kinds : ∀ r ∈ filters.filterRegexList.chain, r.filterType.isRegex = true

/-! ### Search trees -/

/-- The lexicographic order on the keys (name, class, signature) of two rules, each
string compared character by character by code: the key of `a` comes before the key of
`b`. -/
def keyLess {R : Type} (a b : FilterInfo R) : Prop :=
  a.name < b.name ∨
  (a.name = b.name ∧
    (a.className < b.className ∨ (a.className = b.className ∧ a.signature < b.signature)))

/-- The tree reachable from a pointer through child links is a binary search tree for
`keyLess`: the keys of the nodes under `getChild(0)` come before the key of the node,
the keys of the nodes under `getChild(1)` come after it, and the same holds of both
subtrees. -/
def TR_FilterBST.isBST {R : Type} : TR_FilterBST R → Prop
  | .null => True
  | .node info child0 child1 _ =>
    (∀ x ∈ child0.members, keyLess x info) ∧ (∀ x ∈ child1.members, keyLess info x) ∧
    child0.isBST ∧ child1.isBST

/-- The include rule of the directive `Foo.bar(I)V` at line 1. -/
def barRule : FilterInfo Unit :=
  mkRule .TR_FILTER_SPECIFIC_METHOD 1 "bar" "Foo" "(I)V"

/-- The include rule of the directive `Foo.baz(I)V` at line 2. -/
def bazRule : FilterInfo Unit :=
  mkRule .TR_FILTER_SPECIFIC_METHOD 2 "baz" "Foo" "(I)V"

/-- The buffers read from the inline file `+ Foo.bar()V / + Foo.bar()V / [ / + A.a()V /
]`, each with its newline: the second rule line repeats the key of the first and is
followed by a group. -/
def repeatedKeyFile : List (List Char) :=
  ["+ Foo.bar()V\n".toList, "+ Foo.bar()V\n".toList, "[\n".toList, "+ A.a()V\n".toList,
    "]\n".toList]

end OMR

namespace OMR

/-! ## Properties of the register file -/

theorem deref_eq_some {m : Machine} {i : Nat} {r : RealRegister} :
    m.deref i = some r ↔ m.registerFile.get? i = some (some r) := by
  unfold Machine.deref
  cases h : m.registerFile.get? i with
  | none => simp
  | some o => cases o <;> simp

/-- What the loop computes: either nothing in the visited ordinals beats the
incoming best weight, or the result is the first visited ordinal of least weight
among the eligible ones. -/
theorem scanLoop_spec (m : Machine) (cu : Bool) (l : List Nat) (b : Nat) (f : Option Nat)
    (b' : Nat) (f' : Option Nat) (h : scanLoop m cu l b f = some (b', f')) :
    (∀ j ∈ l, ∃ r, m.deref j = some r) ∧
    ((b' = b ∧ f' = f ∧
        ∀ j ∈ l, ∀ r, m.deref j = some r → eligible cu r = true → b ≤ r.weight) ∨
     (∃ i r l1 l2, f' = some i ∧ l = l1 ++ i :: l2 ∧ m.deref i = some r ∧
        eligible cu r = true ∧ r.weight = b' ∧ b' < b ∧
        (∀ j ∈ l1, ∀ r1, m.deref j = some r1 → eligible cu r1 = true → b' < r1.weight) ∧
        (∀ j ∈ l2, ∀ r2, m.deref j = some r2 → eligible cu r2 = true → b' ≤ r2.weight))) := by
  induction l generalizing b f with
  | nil =>
    simp only [scanLoop, Option.some.injEq, Prod.mk.injEq] at h
    obtain ⟨h1, h2⟩ := h
    subst h1; subst h2
    exact ⟨by simp, Or.inl ⟨rfl, rfl, by simp⟩⟩
  | cons i rest ih =>
    rw [scanLoop] at h
    cases hd : m.deref i with
    | none => simp [hd] at h
    | some r =>
      simp only [hd] at h
      by_cases hc : (eligible cu r && decide (r.weight < b)) = true
      · rw [if_pos hc] at h
        simp only [Bool.and_eq_true, decide_eq_true_eq] at hc
        obtain ⟨hall, hres⟩ := ih _ _ h
        refine ⟨?_, Or.inr ?_⟩
        · intro j hj
          rcases List.mem_cons.1 hj with rfl | hj
          · exact ⟨r, hd⟩
          · exact hall j hj
        · rcases hres with ⟨hb, hf, hrest⟩ | ⟨i', r', l1, l2, hf, hl, hd', he, hw, hlt, h1, h2⟩
          · exact ⟨i, r, [], rest, hf, rfl, hd, hc.1, hb.symm, hb ▸ hc.2, by simp,
              fun j hj r2 hr2 he2 => hb ▸ hrest j hj r2 hr2 he2⟩
          · refine ⟨i', r', i :: l1, l2, hf, by simp [hl], hd', he, hw, by omega, ?_, h2⟩
            intro j hj r1 hr1 he1
            rcases List.mem_cons.1 hj with rfl | hj
            · rw [hd] at hr1
              cases hr1
              exact hlt
            · exact h1 j hj r1 hr1 he1
      · rw [if_neg hc] at h
        simp only [Bool.and_eq_true, decide_eq_true_eq, not_and, Nat.not_lt] at hc
        obtain ⟨hall, hres⟩ := ih _ _ h
        refine ⟨?_, ?_⟩
        · intro j hj
          rcases List.mem_cons.1 hj with rfl | hj
          · exact ⟨r, hd⟩
          · exact hall j hj
        · rcases hres with ⟨hb, hf, hrest⟩ | ⟨i', r', l1, l2, hf, hl, hd', he, hw, hlt, h1, h2⟩
          · refine Or.inl ⟨hb, hf, ?_⟩
            intro j hj r1 hr1 he1
            rcases List.mem_cons.1 hj with rfl | hj
            · rw [hd] at hr1
              cases hr1
              exact hc he1
            · exact hrest j hj r1 hr1 he1
          · refine Or.inr ⟨i', r', i :: l1, l2, hf, by simp [hl], hd', he, hw, hlt, ?_, h2⟩
            intro j hj r1 hr1 he1
            rcases List.mem_cons.1 hj with rfl | hj
            · rw [hd] at hr1
              cases hr1
              have := hc he1
              omega
            · exact h1 j hj r1 hr1 he1

/-- The loop runs to its end when every visited slot holds a descriptor. -/
theorem scanLoop_total (m : Machine) (cu : Bool) (l : List Nat) (b : Nat) (f : Option Nat)
    (h : ∀ j ∈ l, ∃ r, m.deref j = some r) : ∃ b' f', scanLoop m cu l b f = some (b', f') := by
  induction l generalizing b f with
  | nil => exact ⟨b, f, rfl⟩
  | cons i rest ih =>
    obtain ⟨r, hr⟩ := h i (List.mem_cons_self _ _)
    have hrest : ∀ j ∈ rest, ∃ r, m.deref j = some r := fun j hj => h j (List.mem_cons_of_mem _ hj)
    rw [scanLoop, hr]
    simp only
    split
    · exact ih _ _ hrest
    · exact ih _ _ hrest

/-- An ordinal that precedes `i` in an ascending range lies in the part of the range
before `i`. -/
theorem range_split_lt {first n i j : Nat} {l1 l2 : List Nat}
    (hl : List.range' first n = l1 ++ i :: l2) :
    (∀ a ∈ l1, a < i) ∧ (∀ a ∈ l2, i < a) ∧ first ≤ i ∧ i < first + n ∧
    (first ≤ j → j < first + n → j ∈ l1 ∨ j = i ∨ j ∈ l2) := by
  have hs : List.Pairwise (· < ·) (l1 ++ i :: l2) := hl ▸ List.pairwise_lt_range' first n
  rw [List.pairwise_append] at hs
  obtain ⟨_, h2, h3⟩ := hs
  have hi : i ∈ List.range' first n := by rw [hl]; simp
  rw [List.mem_range'_1] at hi
  refine ⟨fun a ha => h3 a ha i (List.mem_cons_self _ _), ?_, hi.1, hi.2, ?_⟩
  · intro a ha
    exact (List.pairwise_cons.1 h2).1 a ha
  · intro h1 h2
    have hj : j ∈ List.range' first n := List.mem_range'_1.2 ⟨h1, h2⟩
    rw [hl] at hj
    simpa using hj

/-- The call returns a descriptor: where it comes from and how it compares with the
other eligible descriptors of the scanned range. -/
theorem findBest_some {c : RegNum} {m m' : Machine} {rk : TR_RegisterKinds} {ex cu : Bool}
    {i : Nat} (h : findBestFreeRegister c m rk ex cu = some (some i, m')) :
    ∃ first last r, scanRange c rk ex = some (first, last) ∧ first ≤ i ∧ i ≤ last ∧
      m.deref i = some r ∧ eligible cu r = true ∧ r.weight < 0xffffffff ∧
      (∀ j r', first ≤ j → j ≤ last → m.deref j = some r' → eligible cu r' = true →
        r.weight ≤ r'.weight ∧ (j < i → r.weight < r'.weight)) ∧
      m' = (if r.state = RegState.Unlatched then m.normalize i r else m) := by
  unfold findBestFreeRegister at h
  cases hr : scanRange c rk ex with
  | none => simp [hr] at h
  | some fl =>
    obtain ⟨first, last⟩ := fl
    simp only [hr] at h
    cases hs : scanLoop m cu (List.range' first (last + 1 - first)) 0xffffffff none with
    | none => simp [hs] at h
    | some bf =>
      obtain ⟨b', f'⟩ := bf
      simp only [hs] at h
      obtain ⟨_, hres⟩ := scanLoop_spec m cu _ _ _ _ _ hs
      rcases hres with ⟨_, hf, _⟩ | ⟨i', r, l1, l2, hf, hl, hd, he, hw, hlt, h1, h2⟩
      · subst hf
        simp at h
      · subst hf
        simp only [hd] at h
        have hi' : i' = i ∧ (if r.state = RegState.Unlatched then m.normalize i' r else m) = m' := by
          split at h <;> rename_i hst
          · simp only [Option.some.injEq, Prod.mk.injEq] at h
            exact ⟨h.1, by rw [if_pos hst]; exact h.2⟩
          · simp only [Option.some.injEq, Prod.mk.injEq] at h
            exact ⟨h.1, by rw [if_neg hst]; exact h.2⟩
        obtain ⟨hii, hm⟩ := hi'
        subst hii
        refine ⟨first, last, r, rfl, ?_, ?_, hd, he, by omega, ?_, hm.symm⟩
        · exact (range_split_lt (j := 0) hl).2.2.1
        · have h3 := (range_split_lt (j := 0) hl).2.2.2.1
          have h4 := (range_split_lt (j := 0) hl).2.2.1
          omega
        · intro j r' hj1 hj2 hdj hej
          obtain ⟨hl1, hl2, _, _, hmem⟩ := range_split_lt (j := j) hl
          rcases hmem hj1 (by omega) with hj | hj | hj
          · have := h1 j hj r' hdj hej
            exact ⟨by omega, fun _ => by omega⟩
          · subst hj
            rw [hd] at hdj
            cases hdj
            exact ⟨by omega, fun hlt => absurd hlt (lt_irrefl _)⟩
          · have := h2 j hj r' hdj hej
            have := hl2 j hj
            exact ⟨by omega, fun _ => by omega⟩

/-- The call returns `NULL`: the machine is untouched and no eligible descriptor of
the scanned range has a weight below the initial `bestWeightSoFar`. -/
theorem findBest_none {c : RegNum} {m m' : Machine} {rk : TR_RegisterKinds} {ex cu : Bool}
    (h : findBestFreeRegister c m rk ex cu = some (none, m')) :
    m' = m ∧ ∃ first last, scanRange c rk ex = some (first, last) ∧
      ∀ j, first ≤ j → j ≤ last → ∃ r, m.deref j = some r ∧
        (eligible cu r = true → 0xffffffff ≤ r.weight) := by
  unfold findBestFreeRegister at h
  cases hr : scanRange c rk ex with
  | none => simp [hr] at h
  | some fl =>
    obtain ⟨first, last⟩ := fl
    simp only [hr] at h
    cases hs : scanLoop m cu (List.range' first (last + 1 - first)) 0xffffffff none with
    | none => simp [hs] at h
    | some bf =>
      obtain ⟨b', f'⟩ := bf
      simp only [hs] at h
      obtain ⟨hall, hres⟩ := scanLoop_spec m cu _ _ _ _ _ hs
      rcases hres with ⟨_, hf, hrest⟩ | ⟨i', r, l1, l2, hf, hl, hd, he, hw, hlt, h1, h2⟩
      · subst hf
        simp only [Option.some.injEq, Prod.mk.injEq, true_and] at h
        refine ⟨h.symm, first, last, rfl, ?_⟩
        intro j hj1 hj2
        have hj : j ∈ List.range' first (last + 1 - first) :=
          List.mem_range'_1.2 ⟨hj1, by omega⟩
        obtain ⟨r, hdr⟩ := hall j hj
        exact ⟨r, hdr, fun he => hrest j hj r hdr he⟩
      · subst hf
        simp only [hd] at h
        split at h <;> simp at h

/-- The call is defined whenever the kind has a case in the switch and every slot of
the scanned range holds a descriptor. -/
theorem findBest_total {c : RegNum} {m : Machine} {rk : TR_RegisterKinds} {ex cu : Bool}
    {first last : Nat} (hr : scanRange c rk ex = some (first, last))
    (hall : ∀ j, first ≤ j → j ≤ last → ∃ r, m.deref j = some r) :
    ∃ res m', findBestFreeRegister c m rk ex cu = some (res, m') := by
  have hall' : ∀ j ∈ List.range' first (last + 1 - first), ∃ r, m.deref j = some r := by
    intro j hj
    rw [List.mem_range'_1] at hj
    exact hall j hj.1 (by omega)
  obtain ⟨b', f', hs⟩ := scanLoop_total m cu _ 0xffffffff none hall'
  unfold findBestFreeRegister
  simp only [hr, hs]
  cases f' with
  | none => exact ⟨_, _, rfl⟩
  | some i =>
    obtain ⟨_, hres⟩ := scanLoop_spec m cu _ _ _ _ _ hs
    rcases hres with ⟨_, hf, _⟩ | ⟨i', r, l1, l2, hf, hl, hd, _⟩
    · cases hf
    · cases hf
      simp only [hd]
      split
      · exact ⟨_, _, rfl⟩
      · exact ⟨_, _, rfl⟩

/-- The call returns `NULL` exactly when no eligible descriptor of the scanned range has a
weight below the initial `bestWeightSoFar`. -/
theorem findBest_none_iff (c : RegNum) (m : Machine) (rk : TR_RegisterKinds)
    (ex cu : Bool) (first last : Nat) (hr : scanRange c rk ex = some (first, last))
    (hall : ∀ j, first ≤ j → j ≤ last → ∃ r, m.deref j = some r) :
    findBestFreeRegister c m rk ex cu = some (none, m) ↔
      ¬ ∃ j r, first ≤ j ∧ j ≤ last ∧ m.deref j = some r ∧ eligible cu r = true ∧
        r.weight < 0xffffffff := by
  constructor
  · intro h
    obtain ⟨_, f, l, hr', hno⟩ := findBest_none h
    rw [hr] at hr'
    simp only [Option.some.injEq, Prod.mk.injEq] at hr'
    obtain ⟨hf, hl⟩ := hr'
    subst hf; subst hl
    rintro ⟨j, r, h1, h2, hd, he, hw⟩
    obtain ⟨r0, hd0, hw0⟩ := hno j h1 h2
    rw [hd] at hd0
    cases hd0
    have := hw0 he
    omega
  · intro hno
    obtain ⟨res, m', hres⟩ := @findBest_total c m rk ex cu first last hr hall
    cases res with
    | none =>
      obtain ⟨hm, _⟩ := findBest_none hres
      rw [hres, hm]
    | some i =>
      exfalso
      obtain ⟨f, l, r, hr', h1, h2, hd, he, hw, _, _⟩ := findBest_some hres
      rw [hr] at hr'
      simp only [Option.some.injEq, Prod.mk.injEq] at hr'
      obtain ⟨hf, hl⟩ := hr'
      subst hf; subst hl
      exact hno ⟨i, r, h1, h2, hd, he, hw⟩

/-- A weight of a register file whose weights fit `W` bits, with `W` below 32, is below
the initial `bestWeightSoFar`. -/
theorem weightsFit_lt {W : Nat} {m : Machine} (hW : W < 32) (h : m.weightsFit W = true)
    {j : Nat} {r : RealRegister} (hd : m.deref j = some r) : r.weight < 0xffffffff := by
  rw [deref_eq_some] at hd
  have hmem : some r ∈ m.registerFile := List.get?_mem hd
  unfold Machine.weightsFit at h
  rw [List.all_eq_true] at h
  have h1 := h (some r) hmem
  simp only [decide_eq_true_eq] at h1
  have h2 : 2 ^ W ≤ 2 ^ 31 := Nat.pow_le_pow_right (by decide) (by omega)
  have h3 : (2 : Nat) ^ 31 < 0xffffffff := by decide
  omega

end OMR

namespace OMR

/-! ## Properties of the filter engine -/

/-! ### String comparisons -/

theorem strcmp_eq_zero (a b : List Char) : strcmp a b = 0 ↔ a = b := by
  induction a generalizing b with
  | nil => cases b <;> simp [strcmp]
  | cons x xs ih =>
    cases b with
    | nil => simp [strcmp]
    | cons y ys =>
      rw [strcmp]
      by_cases hxy : x = y
      · simp [hxy, ih]
      · rw [if_neg hxy]
        constructor
        · intro h
          split at h <;> simp at h
        · intro h
          exact absurd (List.cons.inj h).1 hxy

theorem strcmp_self (a : List Char) : strcmp a a = 0 := (strcmp_eq_zero a a).2 rfl

/-- The pair `strncmp` and length difference used by the `find` overloads on a key that
is a prefix of the searched text orders like `strcmp` on the key. -/
theorem strncmp_prefix (a rest b : List Char) :
    ((if strncmp (a ++ rest) b a.length = 0 then (a.length : Int) - (b.length : Int)
        else strncmp (a ++ rest) b a.length) = 0 ↔ strcmp a b = 0) ∧
    ((if strncmp (a ++ rest) b a.length = 0 then (a.length : Int) - (b.length : Int)
        else strncmp (a ++ rest) b a.length) < 0 ↔ strcmp a b < 0) := by
  induction a generalizing b with
  | nil =>
    cases b with
    | nil => simp [strncmp, strcmp]
    | cons y ys =>
      simp only [List.nil_append, List.length_nil, strncmp, if_true, strcmp, List.length_cons]
      constructor
      · constructor
        · intro h; omega
        · intro h; omega
      · constructor
        · intro _; omega
        · intro _; omega
  | cons x xs ih =>
    cases b with
    | nil => simp [strncmp, strcmp]
    | cons y ys =>
      simp only [List.cons_append, List.length_cons, strncmp, strcmp]
      by_cases hxy : x = y
      · simp only [hxy, if_true]
        have := ih ys
        have e : ((xs.length + 1 : Nat) : Int) - ((ys.length + 1 : Nat) : Int)
            = (xs.length : Int) - (ys.length : Int) := by push_cast; ring
        rw [e]
        exact this
      · simp only [if_neg hxy]
        by_cases hlt : x < y
        · simp [hlt]
        · simp [hlt]

/-! ### Searching and inserting in a tree -/

theorem insertCompare_eq_keyCompare {R : Type} (this node : FilterInfo R) :
    TR_FilterBST.insertCompare this node
      = keyCompare this.name this.className this.signature node := rfl

theorem keyCompare_eq_zero {R : Type} (n c s : List Char) (node : FilterInfo R) :
    keyCompare n c s node = 0 ↔ node.name = n ∧ node.className = c ∧ node.signature = s := by
  unfold keyCompare
  simp only
  by_cases h1 : strcmp n node.name = 0
  · rw [if_pos h1]
    by_cases h2 : strcmp c node.className = 0
    · rw [if_pos h2]
      rw [strcmp_eq_zero] at h1 h2 ⊢
      constructor
      · intro h; exact ⟨h1.symm, h2.symm, h.symm⟩
      · intro h; exact h.2.2.symm
    · rw [if_neg h2]
      rw [strcmp_eq_zero] at h2
      constructor
      · intro h; exact absurd h (by rwa [strcmp_eq_zero])
      · intro h; exact absurd h.2.1.symm h2
  · rw [if_neg h1]
    rw [strcmp_eq_zero] at h1
    constructor
    · intro h; exact absurd h (by rwa [strcmp_eq_zero])
    · intro h; exact absurd h.1.symm h1

/-- Two comparisons with the same signs on the nodes of a tree drive the same
descent. -/
theorem findBy_congr {R : Type} (f g : FilterInfo R → Int) (t : TR_FilterBST R)
    (h : ∀ node ∈ t.members, (f node = 0 ↔ g node = 0) ∧ (f node < 0 ↔ g node < 0)) :
    TR_FilterBST.findBy f t = TR_FilterBST.findBy g t := by
  induction t with
  | null => rfl
  | node info c0 c1 next ih0 ih1 _ =>
    have hi := h info (by simp [TR_FilterBST.members])
    have h0 : ∀ node ∈ c0.members, (f node = 0 ↔ g node = 0) ∧ (f node < 0 ↔ g node < 0) :=
      fun node hn => h node (by simp [TR_FilterBST.members, hn])
    have h1 : ∀ node ∈ c1.members, (f node = 0 ↔ g node = 0) ∧ (f node < 0 ↔ g node < 0) :=
      fun node hn => h node (by simp [TR_FilterBST.members, hn])
    simp only [TR_FilterBST.findBy]
    by_cases hz : f info = 0
    · rw [if_pos hz, if_pos (hi.1.1 hz)]
    · rw [if_neg hz, if_neg (fun hg => hz (hi.1.2 hg))]
      by_cases hl : f info < 0
      · rw [if_pos hl, if_pos (hi.2.1 hl)]
        exact ih0 h0
      · rw [if_neg hl, if_neg (fun hg => hl (hi.2.2 hg))]
        exact ih1 h1

theorem find_eq_findBy {R : Type} (mn : List Char) (nl : Nat) (mc : List Char) (cl : Nat)
    (ms : List Char) (sl : Nat) (t : TR_FilterBST R) :
    TR_FilterBST.find mn nl mc cl ms sl t
      = TR_FilterBST.findBy (TR_FilterBST.findCompare mn nl mc cl ms sl) t := by
  induction t with
  | null => rfl
  | node info c0 c1 next ih0 ih1 _ =>
    simp only [TR_FilterBST.find, TR_FilterBST.findBy, ih0, ih1]

theorem findName_eq_findBy {R : Type} (mn : List Char) (nl : Nat) (t : TR_FilterBST R) :
    TR_FilterBST.findName mn nl t
      = TR_FilterBST.findBy (TR_FilterBST.findNameCompare mn nl) t := by
  induction t with
  | null => rfl
  | node info c0 c1 next ih0 ih1 _ =>
    simp only [TR_FilterBST.findName, TR_FilterBST.findBy, ih0, ih1]

/-- The comparison of the three-key `find`, called on a key whose parts are prefixes of
the texts passed, has the signs of `keyCompare` on the key. -/
theorem findCompare_signs {R : Type} (n r1 c r2 s r3 : List Char) (node : FilterInfo R) :
    (TR_FilterBST.findCompare (n ++ r1) n.length (c ++ r2) c.length (s ++ r3) s.length node = 0
      ↔ keyCompare n c s node = 0) ∧
    (TR_FilterBST.findCompare (n ++ r1) n.length (c ++ r2) c.length (s ++ r3) s.length node < 0
      ↔ keyCompare n c s node < 0) := by
  obtain ⟨hn0, hnl⟩ := strncmp_prefix n r1 node.name
  obtain ⟨hc0, hcl⟩ := strncmp_prefix c r2 node.className
  obtain ⟨hs0, hsl⟩ := strncmp_prefix s r3 node.signature
  unfold TR_FilterBST.findCompare keyCompare
  simp only
  by_cases h1 : strcmp n node.name = 0
  · rw [if_pos (hn0.2 h1), if_pos h1]
    by_cases h2 : strcmp c node.className = 0
    · rw [if_pos (hc0.2 h2), if_pos h2]
      exact ⟨hs0, hsl⟩
    · rw [if_neg (fun h => h2 (hc0.1 h)), if_neg h2]
      exact ⟨hc0, hcl⟩
  · rw [if_neg (fun h => h1 (hn0.1 h)), if_neg h1]
    exact ⟨hn0, hnl⟩

/-- The comparison of the one-key `find`, called on a name that is a prefix of the text
passed, has the signs of `strcmp` on the name. -/
theorem findNameCompare_signs {R : Type} (n r1 : List Char) (node : FilterInfo R) :
    (TR_FilterBST.findNameCompare (n ++ r1) n.length node = 0 ↔ strcmp n node.name = 0) ∧
    (TR_FilterBST.findNameCompare (n ++ r1) n.length node < 0 ↔ strcmp n node.name < 0) :=
  strncmp_prefix n r1 node.name

/-- A node found by a descent is a node of the tree, and the comparison is zero on
it. -/
theorem findBy_some {R : Type} (f : FilterInfo R → Int) (t : TR_FilterBST R) (r : FilterInfo R)
    (h : (TR_FilterBST.findBy f t).info? = some r) : r ∈ t.members ∧ f r = 0 := by
  induction t with
  | null => simp [TR_FilterBST.findBy, TR_FilterBST.info?] at h
  | node info c0 c1 next ih0 ih1 _ =>
    simp only [TR_FilterBST.findBy] at h
    by_cases hz : f info = 0
    · rw [if_pos hz] at h
      simp only [TR_FilterBST.info?, Option.some.injEq] at h
      subst h
      exact ⟨by simp [TR_FilterBST.members], hz⟩
    · rw [if_neg hz] at h
      by_cases hl : f info < 0
      · rw [if_pos hl] at h
        obtain ⟨hm, h0⟩ := ih0 h
        exact ⟨by simp [TR_FilterBST.members, hm], h0⟩
      · rw [if_neg hl] at h
        obtain ⟨hm, h0⟩ := ih1 h
        exact ⟨by simp [TR_FilterBST.members, hm], h0⟩

theorem findBy_leaf {R : Type} (f : FilterInfo R → Int) (x : FilterInfo R) :
    (TR_FilterBST.findBy f (TR_FilterBST.leaf x)).info? = if f x = 0 then some x else none := by
  simp only [TR_FilterBST.leaf, TR_FilterBST.findBy]
  by_cases hz : f x = 0
  · simp [hz, TR_FilterBST.info?]
  · rw [if_neg hz, if_neg hz]
    split <;> rfl

/-- Inserting a filter on which the searched key does not compare equal changes no
search result. -/
theorem findBy_insert_ne {R : Type} (f : FilterInfo R → Int) (x : FilterInfo R)
    (t : TR_FilterBST R) (hx : f x ≠ 0) :
    (TR_FilterBST.findBy f (TR_FilterBST.insert x t)).info? = (TR_FilterBST.findBy f t).info? := by
  induction t with
  | null => rfl
  | node info c0 c1 next ih0 ih1 _ =>
    simp only [TR_FilterBST.insert]
    by_cases hg : TR_FilterBST.insertCompare x info = 0
    · rw [if_pos hg]
    · rw [if_neg hg]
      by_cases hgl : TR_FilterBST.insertCompare x info < 0
      · rw [if_pos hgl]
        cases c0 with
        | null =>
          simp only [TR_FilterBST.isNull, if_true, TR_FilterBST.findBy]
          by_cases hz : f info = 0
          · simp [hz, TR_FilterBST.info?]
          · rw [if_neg hz, if_neg hz]
            by_cases hl : f info < 0
            · rw [if_pos hl, if_pos hl]
              have := findBy_leaf f x
              rw [if_neg hx] at this
              exact this
            · rw [if_neg hl, if_neg hl]
        | node i0 a b c =>
          simp only [TR_FilterBST.isNull, Bool.false_eq_true, if_false]
          rw [TR_FilterBST.findBy, TR_FilterBST.findBy]
          by_cases hz : f info = 0
          · simp [hz, TR_FilterBST.info?]
          · rw [if_neg hz, if_neg hz]
            by_cases hl : f info < 0
            · rw [if_pos hl, if_pos hl]
              exact ih0
            · rw [if_neg hl, if_neg hl]
      · rw [if_neg hgl]
        cases c1 with
        | null =>
          simp only [TR_FilterBST.isNull, if_true, TR_FilterBST.findBy]
          by_cases hz : f info = 0
          · simp [hz, TR_FilterBST.info?]
          · rw [if_neg hz, if_neg hz]
            by_cases hl : f info < 0
            · rw [if_pos hl, if_pos hl]
            · rw [if_neg hl, if_neg hl]
              have := findBy_leaf f x
              rw [if_neg hx] at this
              exact this
        | node i0 a b c =>
          simp only [TR_FilterBST.isNull, Bool.false_eq_true, if_false]
          rw [TR_FilterBST.findBy, TR_FilterBST.findBy]
          by_cases hz : f info = 0
          · simp [hz, TR_FilterBST.info?]
          · rw [if_neg hz, if_neg hz]
            by_cases hl : f info < 0
            · rw [if_pos hl, if_pos hl]
            · rw [if_neg hl, if_neg hl]
              exact ih1

/-- Inserting a filter with the searched key: the search now finds what it found
before, and the new filter when it found nothing. -/
theorem findBy_insert_same {R : Type} (f : FilterInfo R → Int) (x : FilterInfo R)
    (t : TR_FilterBST R) (hx : f x = 0) (ht : t.isNull = false)
    (h : ∀ node ∈ t.members, (f node = 0 ↔ TR_FilterBST.insertCompare x node = 0) ∧
      (f node < 0 ↔ TR_FilterBST.insertCompare x node < 0)) :
    (TR_FilterBST.findBy f (TR_FilterBST.insert x t)).info?
      = some ((TR_FilterBST.findBy f t).info?.getD x) := by
  induction t with
  | null => simp [TR_FilterBST.isNull] at ht
  | node info c0 c1 next ih0 ih1 _ =>
    have hi := h info (by simp [TR_FilterBST.members])
    have h0 : ∀ node ∈ c0.members, (f node = 0 ↔ TR_FilterBST.insertCompare x node = 0) ∧
        (f node < 0 ↔ TR_FilterBST.insertCompare x node < 0) :=
      fun node hn => h node (by simp [TR_FilterBST.members, hn])
    have h1 : ∀ node ∈ c1.members, (f node = 0 ↔ TR_FilterBST.insertCompare x node = 0) ∧
        (f node < 0 ↔ TR_FilterBST.insertCompare x node < 0) :=
      fun node hn => h node (by simp [TR_FilterBST.members, hn])
    simp only [TR_FilterBST.insert]
    by_cases hg : TR_FilterBST.insertCompare x info = 0
    · rw [if_pos hg]
      simp [TR_FilterBST.findBy, hi.1.2 hg, TR_FilterBST.info?]
    · rw [if_neg hg]
      have hz : ¬ f info = 0 := fun hf => hg (hi.1.1 hf)
      by_cases hgl : TR_FilterBST.insertCompare x info < 0
      · rw [if_pos hgl]
        have hl : f info < 0 := hi.2.2 hgl
        cases c0 with
        | null =>
          simp only [TR_FilterBST.isNull, if_true]
          rw [TR_FilterBST.findBy, if_neg hz, if_pos hl, TR_FilterBST.findBy, if_neg hz,
            if_pos hl, findBy_leaf, if_pos hx]
          rfl
        | node i0 a b c =>
          simp only [TR_FilterBST.isNull, Bool.false_eq_true, if_false]
          rw [TR_FilterBST.findBy, if_neg hz, if_pos hl, TR_FilterBST.findBy, if_neg hz,
            if_pos hl]
          exact ih0 rfl h0
      · rw [if_neg hgl]
        have hl : ¬ f info < 0 := fun hf => hgl (hi.2.1 hf)
        cases c1 with
        | null =>
          simp only [TR_FilterBST.isNull, if_true]
          rw [TR_FilterBST.findBy, if_neg hz, if_neg hl, TR_FilterBST.findBy, if_neg hz,
            if_neg hl, findBy_leaf, if_pos hx]
          rfl
        | node i0 a b c =>
          simp only [TR_FilterBST.isNull, Bool.false_eq_true, if_false]
          rw [TR_FilterBST.findBy, if_neg hz, if_neg hl, TR_FilterBST.findBy, if_neg hz,
            if_neg hl]
          exact ih1 rfl h1

theorem members_node {R : Type} (info : FilterInfo R) (c0 c1 next : TR_FilterBST R)
    (r : FilterInfo R) :
    r ∈ (TR_FilterBST.node info c0 c1 next).members ↔
      r ∈ c0.members ∨ r = info ∨ r ∈ c1.members := by
  rw [TR_FilterBST.members, List.mem_append, List.mem_cons]

theorem members_leaf {R : Type} (x r : FilterInfo R) :
    r ∈ (TR_FilterBST.leaf x).members ↔ r = x := by
  simp [TR_FilterBST.leaf, TR_FilterBST.members]

/-- The nodes of a tree after an insertion: the nodes it had, and the new filter when
no node had its key. -/
theorem mem_insert {R : Type} (x r : FilterInfo R) (t : TR_FilterBST R) (ht : t.isNull = false) :
    r ∈ (TR_FilterBST.insert x t).members ↔
      r ∈ t.members ∨
        (r = x ∧ (TR_FilterBST.findBy (TR_FilterBST.insertCompare x) t).info? = none) := by
  induction t with
  | null => simp [TR_FilterBST.isNull] at ht
  | node info c0 c1 next ih0 ih1 _ =>
    rw [TR_FilterBST.insert, TR_FilterBST.findBy]
    by_cases hg : TR_FilterBST.insertCompare x info = 0
    · simp only [hg, if_true, TR_FilterBST.info?]
      constructor
      · intro h; exact Or.inl h
      · rintro (h | ⟨_, h⟩)
        · exact h
        · cases h
    · simp only [if_neg hg]
      by_cases hgl : TR_FilterBST.insertCompare x info < 0
      · simp only [if_pos hgl]
        cases c0 with
        | null =>
          simp only [TR_FilterBST.isNull, if_true]
          rw [members_node, members_node, members_leaf]
          have e : (TR_FilterBST.findBy (TR_FilterBST.insertCompare x)
              (TR_FilterBST.null : TR_FilterBST R)).info? = none := rfl
          have e0 : ¬ r ∈ (TR_FilterBST.null : TR_FilterBST R).members := by
            simp [TR_FilterBST.members]
          constructor
          · rintro (h | h | h)
            · exact Or.inr ⟨h, e⟩
            · exact Or.inl (Or.inr (Or.inl h))
            · exact Or.inl (Or.inr (Or.inr h))
          · rintro ((h | h | h) | ⟨h, _⟩)
            · exact absurd h e0
            · exact Or.inr (Or.inl h)
            · exact Or.inr (Or.inr h)
            · exact Or.inl h
        | node i0 a b c =>
          simp only [TR_FilterBST.isNull, Bool.false_eq_true, if_false]
          rw [members_node, members_node, ih0 rfl]
          constructor
          · rintro ((h | h) | h | h)
            · exact Or.inl (Or.inl h)
            · exact Or.inr h
            · exact Or.inl (Or.inr (Or.inl h))
            · exact Or.inl (Or.inr (Or.inr h))
          · rintro ((h | h | h) | h)
            · exact Or.inl (Or.inl h)
            · exact Or.inr (Or.inl h)
            · exact Or.inr (Or.inr h)
            · exact Or.inl (Or.inr h)
      · simp only [if_neg hgl]
        cases c1 with
        | null =>
          simp only [TR_FilterBST.isNull, if_true]
          rw [members_node, members_node, members_leaf]
          have e : (TR_FilterBST.findBy (TR_FilterBST.insertCompare x)
              (TR_FilterBST.null : TR_FilterBST R)).info? = none := rfl
          have e0 : ¬ r ∈ (TR_FilterBST.null : TR_FilterBST R).members := by
            simp [TR_FilterBST.members]
          constructor
          · rintro (h | h | h)
            · exact Or.inl (Or.inl h)
            · exact Or.inl (Or.inr (Or.inl h))
            · exact Or.inr ⟨h, e⟩
          · rintro ((h | h | h) | ⟨h, _⟩)
            · exact Or.inl h
            · exact Or.inr (Or.inl h)
            · exact absurd h e0
            · exact Or.inr (Or.inr h)
        | node i0 a b c =>
          simp only [TR_FilterBST.isNull, Bool.false_eq_true, if_false]
          rw [members_node, members_node, ih1 rfl]
          constructor
          · rintro (h | h | h | h)
            · exact Or.inl (Or.inl h)
            · exact Or.inl (Or.inr (Or.inl h))
            · exact Or.inl (Or.inr (Or.inr h))
            · exact Or.inr h
          · rintro ((h | h | h) | h)
            · exact Or.inl h
            · exact Or.inr (Or.inl h)
            · exact Or.inr (Or.inr (Or.inl h))
            · exact Or.inr (Or.inr (Or.inr h))

theorem mem_insertRoot {R : Type} (x r : FilterInfo R) (t : TR_FilterBST R) :
    r ∈ (TR_FilterBST.insertRoot x t).members ↔
      r ∈ t.members ∨
        (r = x ∧ (TR_FilterBST.findBy (TR_FilterBST.insertCompare x) t).info? = none) := by
  unfold TR_FilterBST.insertRoot
  cases t with
  | null =>
    simp [TR_FilterBST.isNull, TR_FilterBST.leaf, TR_FilterBST.members, TR_FilterBST.findBy,
      TR_FilterBST.info?]
  | node i0 a b c =>
    simp only [TR_FilterBST.isNull, Bool.false_eq_true, if_false]
    exact mem_insert x r _ rfl

theorem findBy_insertRoot_ne {R : Type} (f : FilterInfo R → Int) (x : FilterInfo R)
    (t : TR_FilterBST R) (hx : f x ≠ 0) :
    (TR_FilterBST.findBy f (TR_FilterBST.insertRoot x t)).info?
      = (TR_FilterBST.findBy f t).info? := by
  unfold TR_FilterBST.insertRoot
  cases t with
  | null =>
    simp only [TR_FilterBST.isNull, if_true]
    rw [findBy_leaf, if_neg hx]
    rfl
  | node i0 a b c =>
    simp only [TR_FilterBST.isNull, Bool.false_eq_true, if_false]
    exact findBy_insert_ne f x _ hx

theorem findBy_insertRoot_same {R : Type} (f : FilterInfo R → Int) (x : FilterInfo R)
    (t : TR_FilterBST R) (hx : f x = 0)
    (h : ∀ node ∈ t.members, (f node = 0 ↔ TR_FilterBST.insertCompare x node = 0) ∧
      (f node < 0 ↔ TR_FilterBST.insertCompare x node < 0)) :
    (TR_FilterBST.findBy f (TR_FilterBST.insertRoot x t)).info?
      = some ((TR_FilterBST.findBy f t).info?.getD x) := by
  unfold TR_FilterBST.insertRoot
  cases t with
  | null =>
    simp only [TR_FilterBST.isNull, if_true]
    rw [findBy_leaf, if_pos hx]
    rfl
  | node i0 a b c =>
    simp only [TR_FilterBST.isNull, Bool.false_eq_true, if_false]
    exact findBy_insert_same f x _ hx rfl h

theorem isNull_iff_info? {R : Type} (t : TR_FilterBST R) : t.isNull = true ↔ t.info? = none := by
  cases t <;> simp [TR_FilterBST.isNull, TR_FilterBST.info?]

/-! ### The scan of a filter name -/

theorem ScanInv.mono {omr ex : Bool} {pos pos' : Nat} {st : ScanState} (h : ScanInv omr ex pos st)
    (hp : pos ≤ pos') : ScanInv omr ex pos' st := by
  obtain ⟨sc, hsc, hsb⟩ := h.sig
  exact ⟨⟨sc, hsc, by omega⟩, fun nc e => by have := h.name nc e; omega, h.nameNull,
    fun cc e => by have := h.cls cc e; omega, h.clsNull, h.polarity, h.kinds, h.nameOnly,
    h.nameSig⟩

theorem scanLoop_inv (omr ex : Bool) (rest : List Char) (pos : Nat) (st : ScanState)
    (h : ScanInv omr ex pos st) :
    ∃ pos', pos' ≤ pos + rest.length ∧
      ScanInv omr ex pos' (scanFilterNameLoop omr ex rest pos st) := by
  induction rest generalizing pos st with
  | nil => exact ⟨pos, by simp, h⟩
  | cons ch rest ih =>
    have step : ∀ st', ScanInv omr ex (pos + 1) st' →
        ∃ pos', pos' ≤ pos + (ch :: rest).length ∧
          ScanInv omr ex pos' (scanFilterNameLoop omr ex rest (pos + 1) st') := by
      intro st' h'
      obtain ⟨p, hp, hi⟩ := ih (pos + 1) st' h'
      exact ⟨p, by simp only [List.length_cons]; omega, hi⟩
    have stop : ∃ pos', pos' ≤ pos + (ch :: rest).length ∧ ScanInv omr ex pos' st :=
      ⟨pos, by omega, h⟩
    obtain ⟨sc, hsc, hsb⟩ := h.sig
    have hn := h.name
    have hc := h.cls
    rw [scanFilterNameLoop]
    split
    · exact stop
    · split
      · rename_i ho
        split
        · split
          · apply step
            refine ⟨⟨pos + 1, rfl, by simp⟩, fun nc e => ?_, h.nameNull, fun cc e => ?_, ?_,
              h.polarity, h.kinds, ?_, ?_⟩
            · have := hn nc e; simp only; omega
            · simp only [hsc, Option.some.injEq] at e; subst e; simp only; omega
            · intro e; simp [hsc] at e
            · intro e; simp [e] at ho
            · intro e; simp [e] at ho
          · split
            · apply step
              refine ⟨⟨pos + 1, rfl, by simp⟩, fun nc e => ?_, ?_, fun cc e => ?_, h.clsNull,
                h.polarity, h.kinds, ?_, ?_⟩
              · simp only [hsc, Option.some.injEq] at e; subst e; simp only; omega
              · intro e; simp [hsc] at e
              · have := hc cc e; simp only; omega
              · intro e; simp [e] at ho
              · intro e; simp [e] at ho
            · exact step st (h.mono (by omega))
        · split
          · exact stop
          · apply step
            refine ⟨⟨sc, hsc, by simp only; omega⟩, fun nc e => ?_, h.nameNull, fun cc e => ?_,
              h.clsNull, h.polarity, h.kinds, h.nameOnly, h.nameSig⟩
            · have := hn nc e; simp only; omega
            · have := hc cc e; simp only; omega
      · rename_i ho
        have ho' : omr = false := by simpa using ho
        split
        · exact stop
        · split
          · apply step
            refine ⟨⟨pos + 1, rfl, by simp⟩, fun nc e => ?_, h.nameNull, fun cc e => ?_, ?_,
              ?_, ?_, ?_, ?_⟩
            · have := hn nc e; simp only; omega
            · simp only [hsc, Option.some.injEq] at e; subst e; simp only; omega
            · intro e; simp [hsc] at e
            · have := h.polarity; cases ex <;> simp [FilterType.isExclude]
            · cases ex <;> simp [FilterType.isSpecific]
            · intro _ e; cases ex <;> simp [FilterType.isNameOnly] at e
            · intro _ e; cases ex <;> simp [FilterType.isNameSig] at e
          · split
            · apply step
              have hpol := h.polarity
              have hk := h.kinds
              have hno := h.nameOnly ho'
              have hns := h.nameSig ho'
              refine ⟨⟨pos, rfl, by simp⟩, fun nc e => ?_, ?_, fun cc e => ?_, h.clsNull,
                ?_, ?_, ?_, ?_⟩
              · simp only [hsc, Option.some.injEq] at e; subst e; simp only; omega
              · intro e; simp [hsc] at e
              · have := hc cc e; simp only; omega
              · simp only
                split
                · cases ex <;> simp [FilterType.isExclude]
                · exact hpol
              · simp only
                split
                · cases ex <;> simp [FilterType.isNameSig]
                · exact hk
              · intro _ e
                simp only at e
                split at e
                · cases ex <;> simp [FilterType.isNameOnly] at e
                · rename_i hne
                  exfalso
                  apply hne
                  revert e
                  cases st.filterType <;> simp [FilterType.isNameOnly]
              · intro _ e
                simp only at e ⊢
                split at e
                · rename_i hno'
                  apply (hno _).2
                  revert hno'
                  cases st.filterType <;> simp [FilterType.isNameOnly]
                · exact hns e
            · apply step
              refine ⟨⟨sc, hsc, by simp only; omega⟩, fun nc e => ?_, h.nameNull,
                fun cc e => ?_, h.clsNull, h.polarity, h.kinds, h.nameOnly, h.nameSig⟩
              · have := hn nc e; simp only; omega
              · have := hc cc e; simp only; omega
theorem copyChars_length (s : List Char) (chars : Option Nat) (len : Nat)
    (h1 : ∀ off, chars = some off → off + len ≤ s.length) (h2 : chars = none → len = 0) :
    (copyChars s chars len).length = len := by
  cases chars with
  | none => simp [copyChars, h2 rfl]
  | some off =>
    have := h1 off rfl
    simp only [copyChars, List.length_take, List.length_drop]
    omega

/-- The locals of `scanFilterName` after the swap: every part lies inside the text,
and the kind tells which parts are present. -/
theorem scanFinish_inv (omr ex : Bool) (pos L : Nat) (st : ScanState) (h : ScanInv omr ex pos st)
    (hp : pos ≤ L) :
    (∀ o, (scanFilterNameFinish omr ex st).nameChars = some o →
      o + (scanFilterNameFinish omr ex st).nameLen ≤ L) ∧
    ((scanFilterNameFinish omr ex st).nameChars = none →
      (scanFilterNameFinish omr ex st).nameLen = 0) ∧
    (∀ o, (scanFilterNameFinish omr ex st).classChars = some o →
      o + (scanFilterNameFinish omr ex st).classLen ≤ L) ∧
    ((scanFilterNameFinish omr ex st).classChars = none →
      (scanFilterNameFinish omr ex st).classLen = 0) ∧
    (∀ o, (scanFilterNameFinish omr ex st).signatureChars = some o →
      o + (scanFilterNameFinish omr ex st).signatureLen ≤ L) ∧
    ((scanFilterNameFinish omr ex st).signatureChars = none →
      (scanFilterNameFinish omr ex st).signatureLen = 0) ∧
    (scanFilterNameFinish omr ex st).filterType.isExclude = ex ∧
    ((scanFilterNameFinish omr ex st).filterType.isNameOnly = true ∨
      (scanFilterNameFinish omr ex st).filterType.isNameSig = true ∨
      (scanFilterNameFinish omr ex st).filterType.isSpecific = true) ∧
    ((scanFilterNameFinish omr ex st).filterType.isNameOnly = true →
      (scanFilterNameFinish omr ex st).classChars = none ∧
      (scanFilterNameFinish omr ex st).signatureChars = none) ∧
    ((scanFilterNameFinish omr ex st).filterType.isNameSig = true →
      (scanFilterNameFinish omr ex st).classChars = none) := by
  obtain ⟨sc, hsc, hsb⟩ := h.sig
  have hn := h.name
  have hnn := h.nameNull
  have hc := h.cls
  have hcn := h.clsNull
  have hpol := h.polarity
  have hk := h.kinds
  have hno := h.nameOnly
  have hns := h.nameSig
  obtain ⟨a, b, nc, nl, cc, cl, sc', sl, ft⟩ := st
  simp only at hsc hsb hn hnn hc hcn hpol hk hno hns
  subst hsc
  cases omr
  · cases nc with
    | none =>
      simp only [scanFilterNameFinish, Option.isNone_none, if_true, Bool.false_eq_true, if_false]
      refine ⟨fun o e => ?_, fun e => ?_, fun o e => ?_, hcn, fun o e => ?_, by simp, hpol,
        hk, fun e => ⟨(hno rfl e).2, by simp⟩, hns rfl⟩
      · cases e; omega
      · cases e
      · have := hc o e; omega
      · cases e
    | some n0 =>
      simp only [scanFilterNameFinish, Option.isNone_some, Bool.false_eq_true, if_false]
      refine ⟨fun o e => ?_, fun e => ?_, fun o e => ?_, hcn, fun o e => ?_, fun e => ?_, hpol,
        hk, fun e => ?_, hns rfl⟩
      · have := hn o e; omega
      · cases e
      · have := hc o e; omega
      · cases e; omega
      · cases e
      · have := (hno rfl e).1
        cases this
  · cases nc with
    | none =>
      simp only [scanFilterNameFinish, Option.isNone_none, if_true]
      refine ⟨fun o e => ?_, by simp, fun o e => ?_, hcn, fun o e => ?_, fun e => ?_, ?_,
        ?_, fun e => ?_, fun e => ?_⟩
      · cases e
      · have := hc o e; omega
      · cases e; omega
      · cases e
      · cases ex <;> simp [FilterType.isExclude]
      · cases ex <;> simp [FilterType.isSpecific]
      · cases ex <;> simp [FilterType.isNameOnly] at e
      · cases ex <;> simp [FilterType.isNameSig] at e
    | some n0 =>
      simp only [scanFilterNameFinish, Option.isNone_some, Bool.false_eq_true, if_false, if_true]
      refine ⟨fun o e => ?_, fun e => ?_, fun o e => ?_, hcn, fun o e => ?_, fun e => ?_, ?_,
        ?_, fun e => ?_, fun e => ?_⟩
      · cases e; omega
      · cases e
      · have := hc o e; omega
      · have := hn o e; omega
      · cases e
      · cases ex <;> simp [FilterType.isExclude]
      · cases ex <;> simp [FilterType.isSpecific]
      · cases ex <;> simp [FilterType.isNameOnly] at e
      · cases ex <;> simp [FilterType.isNameSig] at e

/-- What `scanFilterName` does to a filter of a name-only kind: the returned length is
the total length of the three recorded strings, the kind is a name-form kind of the same
polarity, a name-only kind has neither class nor signature and a name-and-signature kind
no class; the other fields are kept. -/
theorem scanFilterName_spec {R : Type} (s : List Char) (f : FilterInfo R)
    (hf : f.filterType.isNameOnly = true) :
    (scanFilterName s f).1 = (scanFilterName s f).2.name.length +
      (scanFilterName s f).2.className.length + (scanFilterName s f).2.signature.length ∧
    (scanFilterName s f).2.filterType.isExclude = f.filterType.isExclude ∧
    ((scanFilterName s f).2.filterType.isNameOnly = true ∨
      (scanFilterName s f).2.filterType.isNameSig = true ∨
      (scanFilterName s f).2.filterType.isSpecific = true) ∧
    ((scanFilterName s f).2.filterType.isNameOnly = true →
      (scanFilterName s f).2.className = [] ∧ (scanFilterName s f).2.signature = []) ∧
    ((scanFilterName s f).2.filterType.isNameSig = true →
      (scanFilterName s f).2.className = []) ∧
    (scanFilterName s f).2.optionSet = f.optionSet ∧
    (scanFilterName s f).2.lineNumber = f.lineNumber ∧
    (scanFilterName s f).2.regex = f.regex := by
  have h0 : ScanInv (s.head? == some '/' || s.head? == some '.') f.filterType.isExclude 0
      { seenFileName := false, seenLineNumber := false,
        nameChars := none, nameLen := 0, classChars := none, classLen := 0,
        signatureChars := some 0, signatureLen := 0, filterType := f.filterType } :=
    ⟨⟨0, rfl, by simp⟩, fun _ e => (by cases e), fun _ => rfl, fun _ e => (by cases e),
      fun _ => rfl, rfl, Or.inl hf, fun _ _ => ⟨rfl, rfl⟩, fun _ _ => rfl⟩
  obtain ⟨pos', hp, hinv⟩ := scanLoop_inv _ _ s 0 _ h0
  obtain ⟨n1, n2, c1, c2, s1, s2, hpol, hk, hno, hns⟩ :=
    scanFinish_inv _ _ pos' s.length _ hinv (by omega)
  unfold scanFilterName
  dsimp only
  generalize scanFilterNameFinish _ _ _ = st at *
  refine ⟨?_, hpol, hk, ?_, ?_⟩
  · rw [copyChars_length s _ _ n1 n2, copyChars_length s _ _ c1 c2,
      copyChars_length s _ _ s1 s2]
  · intro e
    obtain ⟨e1, e2⟩ := hno e
    rw [e1, e2]
    exact ⟨rfl, rfl⟩
  · refine ⟨fun e => ?_, rfl, rfl, rfl⟩
    rw [hns e]
    rfl
/-! ### The sets built by `addFilter` -/

theorem isNameOnly_iff (t : FilterType) :
    (t = .TR_FILTER_EXCLUDE_NAME_ONLY ∨ t = .TR_FILTER_NAME_ONLY) ↔ t.isNameOnly = true := by
  cases t <;> simp [FilterType.isNameOnly]

theorem isNameSig_iff (t : FilterType) :
    (t = .TR_FILTER_NAME_AND_SIG ∨ t = .TR_FILTER_EXCLUDE_NAME_AND_SIG) ↔ t.isNameSig = true := by
  cases t <;> simp [FilterType.isNameSig]

theorem newFilter_isNameOnly {R : Type} (ex osi ln : Int) :
    (newFilter ex osi ln : FilterInfo R).filterType.isNameOnly = true := by
  unfold newFilter
  by_cases h : ex ≠ 0 <;> simp [h, FilterType.isNameOnly]

/-- The three ways in which a call of `addFilter` returns a filter. -/
theorem addFilter_some {R : Type} (H : Nat) (re : SimpleRegex R) (s : List Char)
    (ex osi ln : Int) (fs : CompilationFilters R) (y : FilterInfo R)
    (h : (addFilter H re s ex osi ln (some fs)).filterBST = some y) :
    (s.head? = some '{' ∧ ∃ rx n, re.create s = some (rx, n) ∧
      addFilter H re s ex osi ln (some fs) =
        addFilterFinish s ex osi n
          { (newFilter ex osi ln : FilterInfo R) with
            filterType :=
              if ex ≠ 0 then .TR_FILTER_EXCLUDE_REGEX else .TR_FILTER_REGEX
            regex := some rx }
          { fs with
            filterRegexList :=
              .node
                { (newFilter ex osi ln : FilterInfo R) with
                  filterType :=
                    if ex ≠ 0 then .TR_FILTER_EXCLUDE_REGEX else .TR_FILTER_REGEX
                  regex := some rx }
                .null .null (if fs.hasRegexFilter then fs.filterRegexList else .null)
            hasRegexFilter := true }) ∨
    (s.head? ≠ some '{' ∧ (scanFilterName s (newFilter ex osi ln : FilterInfo R)).1 ≠ 0 ∧
      (scanFilterName s (newFilter ex osi ln : FilterInfo R)).2.filterType.isNameOnly = true ∧
      addFilter H re s ex osi ln (some fs) =
        addFilterFinish s ex osi (scanFilterName s (newFilter ex osi ln : FilterInfo R)).1
          (scanFilterName s (newFilter ex osi ln : FilterInfo R)).2
          { fs with
            filterNameList :=
              TR_FilterBST.insertRoot (scanFilterName s (newFilter ex osi ln : FilterInfo R)).2
                fs.filterNameList
            hasNameFilter := true }) ∨
    (s.head? ≠ some '{' ∧ (scanFilterName s (newFilter ex osi ln : FilterInfo R)).1 ≠ 0 ∧
      (scanFilterName s (newFilter ex osi ln : FilterInfo R)).2.filterType.isNameOnly = false ∧
      addFilter H re s ex osi ln (some fs) =
        addFilterFinish s ex osi (scanFilterName s (newFilter ex osi ln : FilterInfo R)).1
          (scanFilterName s (newFilter ex osi ln : FilterInfo R)).2
          { fs with
            filterHash :=
              Function.update fs.filterHash
                ((scanFilterName s (newFilter ex osi ln : FilterInfo R)).1 % H)
                (TR_FilterBST.insertRoot (scanFilterName s (newFilter ex osi ln : FilterInfo R)).2
                  (fs.filterHash ((scanFilterName s (newFilter ex osi ln : FilterInfo R)).1 % H)))
            hasNameSigFilter :=
              if (scanFilterName s (newFilter ex osi ln : FilterInfo R)).2.filterType.isNameSig
              then true else fs.hasNameSigFilter
            hasClassNameSigFilter :=
              if (scanFilterName s (newFilter ex osi ln : FilterInfo R)).2.filterType.isNameSig
              then fs.hasClassNameSigFilter else true }) := by
  by_cases hb : s.head? = some '{'
  · left
    refine ⟨hb, ?_⟩
    unfold addFilter at h ⊢
    simp only [findOrCreateFilters, hb, if_true] at h ⊢
    cases hc : re.create s with
    | none => simp [hc] at h
    | some p =>
      obtain ⟨rx, n⟩ := p
      exact ⟨rx, n, rfl, rfl⟩
  · right
    by_cases hz : (scanFilterName s (newFilter ex osi ln : FilterInfo R)).1 = 0
    · unfold addFilter at h
      simp [findOrCreateFilters, hb, hz] at h
    · by_cases hn : (scanFilterName s (newFilter ex osi ln : FilterInfo R)).2.filterType.isNameOnly
          = true
      · left
        have hn' := (isNameOnly_iff _).2 hn
        refine ⟨hb, hz, hn, ?_⟩
        unfold addFilter
        simp only [findOrCreateFilters, hb, hz, hn', if_true, if_false]
        rfl
      · right
        have hn' : ¬ _ := fun hh => hn ((isNameOnly_iff _).1 hh)
        refine ⟨hb, hz, by simpa using hn, ?_⟩
        unfold addFilter
        simp only [findOrCreateFilters, hb, hz, hn', if_false]
        by_cases hs : (scanFilterName s (newFilter ex osi ln : FilterInfo R)).2.filterType.isNameSig
            = true
        · have hs' := (isNameSig_iff _).2 hs
          simp only [hs, hs', if_true]
          rfl
        · have hs' : ¬ _ := fun hh => hs ((isNameSig_iff _).1 hh)
          simp only [hs, hs', if_false]
          rfl

theorem FilterInv_clear {R : Type} (H : Nat) : FilterInv H (clearFilters : CompilationFilters R) :=
  ⟨fun _ r hr => by simp [clearFilters, TR_FilterBST.members] at hr,
   fun r hr => by simp [clearFilters, TR_FilterBST.members] at hr,
   fun r hr => by simp [clearFilters, TR_FilterBST.chain] at hr⟩

theorem FilterInv_finish {R : Type} (H : Nat) (s : List Char) (ex osi : Int) (n : Nat)
    (y : FilterInfo R) (fs : CompilationFilters R) (h : FilterInv H fs) :
    FilterInv H (addFilterFinish s ex osi n y fs).filters := by
  unfold addFilterFinish
  simp only
  split
  · exact ⟨h.hash, h.names, h.regex⟩
  · exact h

/-- The search for the key of a filter in a tree into which a filter was inserted. -/
theorem findBy_key_insertRoot {R : Type} (x r : FilterInfo R) (t : TR_FilterBST R) :
    (TR_FilterBST.findBy (keyCompare r.name r.className r.signature)
        (TR_FilterBST.insertRoot x t)).info? =
      if x.name = r.name ∧ x.className = r.className ∧ x.signature = r.signature then
        some ((TR_FilterBST.findBy (keyCompare r.name r.className r.signature) t).info?.getD x)
      else (TR_FilterBST.findBy (keyCompare r.name r.className r.signature) t).info? := by
  by_cases hk : x.name = r.name ∧ x.className = r.className ∧ x.signature = r.signature
  · rw [if_pos hk]
    have hx : keyCompare r.name r.className r.signature x = 0 := (keyCompare_eq_zero _ _ _ _).2 hk
    apply findBy_insertRoot_same _ x t hx
    intro node _
    rw [insertCompare_eq_keyCompare, hk.1, hk.2.1, hk.2.2]
    exact ⟨Iff.rfl, Iff.rfl⟩
  · rw [if_neg hk]
    apply findBy_insertRoot_ne
    intro hx
    exact hk ((keyCompare_eq_zero _ _ _ _).1 hx)

theorem keyCompare_nameOnly {R : Type} (n : List Char) (node : FilterInfo R)
    (hc : node.className = []) (hs : node.signature = []) :
    keyCompare n [] [] node = strcmp n node.name := by
  unfold keyCompare
  simp only [hc, hs, strcmp, if_true]
  split
  · rename_i h; exact h.symm
  · rfl

/-- A call of `addFilter` that returns a filter keeps the invariant of the sets. -/
theorem FilterInv_addFilter {R : Type} (H : Nat) (re : SimpleRegex R) (s : List Char)
    (ex osi ln : Int) (fs : CompilationFilters R) (y : FilterInfo R) (hinv : FilterInv H fs)
    (h : (addFilter H re s ex osi ln (some fs)).filterBST = some y) :
    FilterInv H (addFilter H re s ex osi ln (some fs)).filters := by
  obtain ⟨hlen, _, hk, hno, hns, _, _, _⟩ :=
    scanFilterName_spec s (newFilter ex osi ln : FilterInfo R) (newFilter_isNameOnly ex osi ln)
  rcases addFilter_some H re s ex osi ln fs y h with
    ⟨_, rx, n, _, e⟩ | ⟨_, _, hn, e⟩ | ⟨_, _, hn, e⟩
  · rw [e]
    apply FilterInv_finish
    refine ⟨hinv.hash, hinv.names, ?_⟩
    intro r hr
    simp only [TR_FilterBST.chain, List.mem_cons] at hr
    rcases hr with rfl | hr
    · rfl
    · split at hr
      · exact hinv.regex r hr
      · simp [TR_FilterBST.chain] at hr
  · rw [e]
    apply FilterInv_finish
    generalize (scanFilterName s (newFilter ex osi ln : FilterInfo R)).2 = x at *
    refine ⟨hinv.hash, ?_, hinv.regex⟩
    intro r hr
    simp only at hr ⊢
    have hxk : keyCompare x.name [] [] = TR_FilterBST.insertCompare x := by
      funext node
      rw [insertCompare_eq_keyCompare, (hno hn).1, (hno hn).2]
    have hsame : ∀ n0 : List Char, ∀ node ∈ fs.filterNameList.members,
        keyCompare n0 [] [] node = strcmp n0 node.name := fun n0 node hm =>
      keyCompare_nameOnly n0 node (hinv.names node hm).2.1 (hinv.names node hm).2.2.1
    have hfind : ∀ n0 : List Char, ∀ t : TR_FilterBST R,
        (∀ node ∈ t.members, node.className = [] ∧ node.signature = []) →
        TR_FilterBST.findBy (fun node => strcmp n0 node.name) t
          = TR_FilterBST.findBy (keyCompare n0 [] []) t := by
      intro n0 t ht
      apply findBy_congr
      intro node hm
      rw [keyCompare_nameOnly n0 node (ht node hm).1 (ht node hm).2]
      exact ⟨Iff.rfl, Iff.rfl⟩
    have hold : ∀ node ∈ fs.filterNameList.members, node.className = [] ∧ node.signature = [] :=
      fun node hm => ⟨(hinv.names node hm).2.1, (hinv.names node hm).2.2.1⟩
    have hnew : ∀ node ∈ (TR_FilterBST.insertRoot x fs.filterNameList).members,
        node.className = [] ∧ node.signature = [] := by
      intro node hm
      rcases (mem_insertRoot x node _).1 hm with hm | ⟨rfl, _⟩
      · exact hold node hm
      · exact hno hn
    have hr' := (mem_insertRoot x r _).1 hr
    have hrc : r.className = [] ∧ r.signature = [] := hnew r hr
    have hlook := findBy_key_insertRoot x r fs.filterNameList
    rw [hrc.1, hrc.2] at hlook
    rw [hfind r.name _ hnew, hlook, ← hfind r.name _ hold]
    rcases hr' with hm | ⟨rfl, hnone⟩
    · obtain ⟨a1, a2, a3, a4, _⟩ := hinv.names r hm
      refine ⟨a1, a2, a3, ?_, trivial⟩
      rw [a4]
      split <;> rfl
    · refine ⟨hn, hrc.1, hrc.2, ?_, trivial⟩
      rw [← hxk, ← hfind r.name _ hold] at hnone
      rw [hnone]
      simp [hrc.1, hrc.2]
  · rw [e]
    apply FilterInv_finish
    generalize hb0 : (scanFilterName s (newFilter ex osi ln : FilterInfo R)).1 % H = b0 at *
    rw [hlen] at hb0
    generalize (scanFilterName s (newFilter ex osi ln : FilterInfo R)).2 = x at *
    have hkx : x.filterType.isNameSig = true ∨ x.filterType.isSpecific = true := by
      rcases hk with hk | hk
      · rw [hn] at hk; cases hk
      · exact hk
    refine ⟨?_, ?_, hinv.regex⟩
    · intro b r hr
      simp only at hr ⊢
      by_cases hb : b = b0
      · subst hb
        rw [Function.update_same] at hr ⊢
        rw [findBy_key_insertRoot]
        rcases (mem_insertRoot x r _).1 hr with hm | ⟨rfl, hnone⟩
        · obtain ⟨a1, a2, a3, a4, a5⟩ := hinv.hash _ r hm
          refine ⟨a1, a2, ?_, fun hh => ⟨(a4 hh).1, ?_⟩, fun hh => ?_⟩
          · rw [a3]
            split <;> rfl
          · rw [(a4 hh).2]; split <;> rfl
          · rw [a5 hh]; split <;> rfl
        · refine ⟨hb0.symm, hkx, ?_, fun hh => ⟨hns hh, ?_⟩, fun hh => ?_⟩
          · have hfk : TR_FilterBST.insertCompare r
                = keyCompare r.name r.className r.signature := by
              funext node
              rfl
            rw [hfk] at hnone
            rw [hnone]
            simp
          · rw [if_pos hh]
          · have : r.filterType.isNameSig = false := by
              revert hh
              cases r.filterType <;> simp [FilterType.isSpecific, FilterType.isNameSig]
            rw [this]
            rfl
      · rw [Function.update_noteq hb] at hr ⊢
        obtain ⟨a1, a2, a3, a4, a5⟩ := hinv.hash _ r hr
        refine ⟨a1, a2, a3, fun hh => ⟨(a4 hh).1, ?_⟩, fun hh => ?_⟩
        · rw [(a4 hh).2]; split <;> rfl
        · rw [a5 hh]; split <;> rfl
    · exact hinv.names
/-! ### Queries on a conventional signature -/

theorem strchr_append (a b : List Char) (c : Char) (h : c ∉ a) :
    strchr (a ++ c :: b) c = some (c :: b) := by
  induction a with
  | nil => simp [strchr]
  | cons x xs ih =>
    have hx : x ≠ c := fun e => h (by simp [e])
    have hxs : c ∉ xs := fun e => h (by simp [e])
    simp only [List.cons_append, strchr, if_neg hx]
    exact ih hxs

/-- The split of a conventional signature `C.n(S` with `C` free of dots and not starting
with a slash and `n` free of opening parentheses; `sg` is the signature part from its
parenthesis on. -/
theorem splitMethodSig_conventional (C n sg : List Char) (hC : '.' ∉ C)
    (hC' : C.head? ≠ some '/') (hn : '(' ∉ n) (hsg : sg.head? = some '(') :
    splitMethodSig (C ++ '.' :: (n ++ sg)) MethodType.J9 = some
      { methodClass := C ++ '.' :: (n ++ sg), methodClassLen := C.length
        methodName := n ++ sg, methodNameLen := n.length
        methodSignature := sg, methodSignatureLen := sg.length } := by
  obtain ⟨S, rfl⟩ : ∃ S, sg = '(' :: S := by
    cases sg with
    | nil => simp at hsg
    | cons c S => simp at hsg; exact ⟨S, by rw [hsg]⟩
  have hhead : (C ++ '.' :: (n ++ '(' :: S)).head? ≠ some '/' := by
    cases C with
    | nil => simp
    | cons c cs => simpa using hC'
  unfold splitMethodSig
  simp only [ne_eq, not_true_eq_false, if_false, hhead]
  rw [strchr_append C _ '.' hC]
  simp only [List.drop_one, List.tail_cons]
  rw [strchr_append n _ '(' hn]
  simp only [List.length_append, List.length_cons]
  congr 2
  all_goals omega

/-- The searches of `methodSigCanBeFound` through the hash buckets and the name-only
tree on a conventional signature, as three searches by key. -/
theorem searchNamed_conventional {R : Type} (H : Nat) (fs : CompilationFilters R)
    (C n sg rest : List Char) :
    searchNamed H
      { methodClass := C ++ rest, methodClassLen := C.length
        methodName := n ++ sg, methodNameLen := n.length
        methodSignature := sg, methodSignatureLen := sg.length } fs .null =
      (if ((if ((if fs.hasClassNameSigFilter then hashLookup H fs n C sg else .null).isNull
              && fs.hasNameSigFilter) then hashLookup H fs n [] sg
            else (if fs.hasClassNameSigFilter then hashLookup H fs n C sg else .null)).isNull
          && fs.hasNameFilter) then nameLookup fs n
        else (if ((if fs.hasClassNameSigFilter then hashLookup H fs n C sg else .null).isNull
              && fs.hasNameSigFilter) then hashLookup H fs n [] sg
            else (if fs.hasClassNameSigFilter then hashLookup H fs n C sg else .null))) := by
  have e1 : ∀ t : TR_FilterBST R,
      (if (!t.isNull) = true then t.find (n ++ sg) n.length (C ++ rest) C.length sg sg.length
        else t) = TR_FilterBST.findBy (keyCompare n C sg) t := by
    intro t
    cases t with
    | null => rfl
    | node i a b c =>
      simp only [TR_FilterBST.isNull, Bool.not_false, if_true]
      rw [find_eq_findBy]
      apply findBy_congr
      intro node _
      have := findCompare_signs n sg C rest sg [] node
      rwa [List.append_nil] at this
  have e2 : ∀ t : TR_FilterBST R,
      (if (!t.isNull) = true then t.find (n ++ sg) n.length [] 0 sg sg.length
        else t) = TR_FilterBST.findBy (keyCompare n [] sg) t := by
    intro t
    cases t with
    | null => rfl
    | node i a b c =>
      simp only [TR_FilterBST.isNull, Bool.not_false, if_true]
      rw [find_eq_findBy]
      apply findBy_congr
      intro node _
      have := findCompare_signs n sg [] [] sg [] node
      rwa [List.append_nil, List.append_nil] at this
  have e3 : ∀ t : TR_FilterBST R,
      (if (!t.isNull) = true then t.findName (n ++ sg) n.length else t)
        = TR_FilterBST.findBy (fun node => strcmp n node.name) t := by
    intro t
    cases t with
    | null => rfl
    | node i a b c =>
      simp only [TR_FilterBST.isNull, Bool.not_false, if_true]
      rw [findName_eq_findBy]
      apply findBy_congr
      intro node _
      exact findNameCompare_signs n sg node
  unfold searchNamed hashLookup nameLookup
  simp only [e1, e2, e3, List.length_nil, Nat.add_zero]
  cases h1 : fs.hasClassNameSigFilter <;> cases h2 : fs.hasNameSigFilter <;>
    simp [TR_FilterBST.isNull]
/-- The result of `methodSigCanBeFound` on a conventional signature when the searches by
name find a rule. -/
theorem methodSig_conventional_found {R : Type} (H : Nat) (re : SimpleRegex R)
    (fs : CompilationFilters R) (C n sg : List Char) (hC : '.' ∉ C)
    (hC' : C.head? ≠ some '/') (hn : '(' ∉ n) (hsg : sg.head? = some '(')
    (t : TR_FilterBST R) (r : FilterInfo R)
    (ht : searchNamed H
      { methodClass := C ++ '.' :: (n ++ sg), methodClassLen := C.length
        methodName := n ++ sg, methodNameLen := n.length
        methodSignature := sg, methodSignatureLen := sg.length } fs .null = t)
    (hr : t.info? = some r) :
    methodSigCanBeFound H re (C ++ '.' :: (n ++ sg)) fs .null MethodType.J9
      = some (!excludedByType r.filterType, t) := by
  unfold methodSigCanBeFound
  rw [splitMethodSig_conventional C n sg hC hC' hn hsg]
  simp only [ht]
  cases t with
  | null => simp [TR_FilterBST.info?] at hr
  | node i a b c =>
    simp only [TR_FilterBST.info?, Option.some.injEq] at hr
    subst hr
    simp [TR_FilterBST.isNull]

/-- The result of `methodSigCanBeFound` on a conventional signature when the searches by
name find nothing and the set has no regex rule. -/
theorem methodSig_conventional_none {R : Type} (H : Nat) (re : SimpleRegex R)
    (fs : CompilationFilters R) (C n sg : List Char) (hC : '.' ∉ C)
    (hC' : C.head? ≠ some '/') (hn : '(' ∉ n) (hsg : sg.head? = some '(')
    (ht : searchNamed H
      { methodClass := C ++ '.' :: (n ++ sg), methodClassLen := C.length
        methodName := n ++ sg, methodNameLen := n.length
        methodSignature := sg, methodSignatureLen := sg.length } fs .null = .null)
    (hre : fs.filterRegexList = .null) :
    methodSigCanBeFound H re (C ++ '.' :: (n ++ sg)) fs .null MethodType.J9
      = some (!fs.defaultExclude, .null) := by
  unfold methodSigCanBeFound
  rw [splitMethodSig_conventional C n sg hC hC' hn hsg]
  simp only [ht, hre]
  cases fs.hasRegexFilter <;> simp [TR_FilterBST.isNull]

theorem addFilters_inv {R : Type} (H : Nat) (re : SimpleRegex R) (ds : List Directive)
    (fs fs' : CompilationFilters R) (h : addFilters H re ds fs = some fs')
    (hinv : FilterInv H fs) : FilterInv H fs' := by
  induction ds generalizing fs with
  | nil =>
    simp only [addFilters, Option.some.injEq] at h
    exact h ▸ hinv
  | cons d ds ih =>
    rw [addFilters] at h
    cases hb : (addFilter H re d.filterString d.scanningExclude d.optionSetIndex d.lineNum
        (some fs)).filterBST with
    | none => simp [hb] at h
    | some y =>
      simp only [hb] at h
      exact ih _ h (FilterInv_addFilter H re _ _ _ _ fs y hinv hb)

/-- A sequence of name-form directives adds no regex rule. -/
theorem addFilters_nameForm_regex {R : Type} (H : Nat) (re : SimpleRegex R)
    (ds : List Directive) (fs fs' : CompilationFilters R)
    (h : addFilters H re ds fs = some fs') (hform : ∀ d ∈ ds, d.isNameForm = true) :
    fs'.filterRegexList = fs.filterRegexList := by
  induction ds generalizing fs with
  | nil =>
    simp only [addFilters, Option.some.injEq] at h
    rw [h]
  | cons d ds ih =>
    rw [addFilters] at h
    have hd : d.filterString.head? ≠ some '{' := by
      have := hform d (List.mem_cons_self _ _)
      simpa [Directive.isNameForm] using this
    cases hb : (addFilter H re d.filterString d.scanningExclude d.optionSetIndex d.lineNum
        (some fs)).filterBST with
    | none => simp [hb] at h
    | some y =>
      simp only [hb] at h
      rw [ih _ h (fun d' hd' => hform d' (List.mem_cons_of_mem _ hd'))]
      rcases addFilter_some H re _ _ _ _ fs y hb with ⟨hh, _⟩ | ⟨_, _, _, e⟩ | ⟨_, _, _, e⟩
      · exact absurd hh hd
      · rw [e]; unfold addFilterFinish; simp only; split <;> rfl
      · rw [e]; unfold addFilterFinish; simp only; split <;> rfl

/-- The default-exclude flag of the set after a call of `addFilter` that returns a
filter. -/
theorem addFilter_defaultExclude {R : Type} (H : Nat) (re : SimpleRegex R) (s : List Char)
    (ex osi ln : Int) (fs : CompilationFilters R) (y : FilterInfo R)
    (h : (addFilter H re s ex osi ln (some fs)).filterBST = some y) :
    (addFilter H re s ex osi ln (some fs)).filters.defaultExclude
      = (fs.defaultExclude || (decide (ex = 0) && decide (osi = 0))) := by
  rcases addFilter_some H re s ex osi ln fs y h with ⟨_, _, _, _, e⟩ | ⟨_, _, _, e⟩ | ⟨_, _, _, e⟩ <;>
  · rw [e]
    unfold addFilterFinish
    simp only
    by_cases hc : ex = 0 ∧ osi = 0
    · rw [if_pos hc]; simp [hc.1, hc.2]
    · rw [if_neg hc]
      have : (decide (ex = 0) && decide (osi = 0)) = false := by
        simpa using hc
      rw [this, Bool.or_false]

theorem addFilters_defaultExclude_mono {R : Type} (H : Nat) (re : SimpleRegex R)
    (ds : List Directive) (fs fs' : CompilationFilters R)
    (h : addFilters H re ds fs = some fs') (hd : fs.defaultExclude = true) :
    fs'.defaultExclude = true := by
  induction ds generalizing fs with
  | nil =>
    simp only [addFilters, Option.some.injEq] at h
    rw [← h]; exact hd
  | cons d ds ih =>
    rw [addFilters] at h
    cases hb : (addFilter H re d.filterString d.scanningExclude d.optionSetIndex d.lineNum
        (some fs)).filterBST with
    | none => simp [hb] at h
    | some y =>
      simp only [hb] at h
      apply ih _ h
      rw [addFilter_defaultExclude H re _ _ _ _ fs y hb, hd]
      rfl

/-- Once a sequence holds a top-level include directive, the set excludes by default. -/
theorem addFilters_defaultExclude {R : Type} (H : Nat) (re : SimpleRegex R)
    (ds : List Directive) (fs fs' : CompilationFilters R)
    (h : addFilters H re ds fs = some fs')
    (hd : ∃ d ∈ ds, d.scanningExclude = 0 ∧ d.optionSetIndex = 0) :
    fs'.defaultExclude = true := by
  induction ds generalizing fs with
  | nil => simp at hd
  | cons d ds ih =>
    rw [addFilters] at h
    cases hb : (addFilter H re d.filterString d.scanningExclude d.optionSetIndex d.lineNum
        (some fs)).filterBST with
    | none => simp [hb] at h
    | some y =>
      simp only [hb] at h
      obtain ⟨d0, hd0, h1, h2⟩ := hd
      rcases List.mem_cons.1 hd0 with rfl | hd0
      · apply addFilters_defaultExclude_mono H re ds _ fs' h
        rw [addFilter_defaultExclude H re _ _ _ _ fs y hb, h1, h2]
        simp
      · exact ih _ h ⟨d0, hd0, h1, h2⟩
/-- The search for a key in a tree into which a filter was inserted. -/
theorem findBy_keyCompare_insertRoot {R : Type} (x : FilterInfo R) (n c sg : List Char)
    (t : TR_FilterBST R) :
    (TR_FilterBST.findBy (keyCompare n c sg) (TR_FilterBST.insertRoot x t)).info? =
      if x.name = n ∧ x.className = c ∧ x.signature = sg then
        some ((TR_FilterBST.findBy (keyCompare n c sg) t).info?.getD x)
      else (TR_FilterBST.findBy (keyCompare n c sg) t).info? := by
  by_cases hk : x.name = n ∧ x.className = c ∧ x.signature = sg
  · rw [if_pos hk]
    have hx : keyCompare n c sg x = 0 := (keyCompare_eq_zero _ _ _ _).2 hk
    apply findBy_insertRoot_same _ x t hx
    intro node _
    rw [insertCompare_eq_keyCompare, hk.1, hk.2.1, hk.2.2]
    exact ⟨Iff.rfl, Iff.rfl⟩
  · rw [if_neg hk]
    apply findBy_insertRoot_ne
    intro hx
    exact hk ((keyCompare_eq_zero _ _ _ _).1 hx)

/-- The search of the hash buckets after a name-form call of `addFilter`: a key found
before is found as before, and the key of the new rule, when it was not found before,
now finds the new rule. -/
theorem hashLookup_addFilter {R : Type} (H : Nat) (re : SimpleRegex R) (d : Directive)
    (fs : CompilationFilters R) (y : FilterInfo R) (hd : d.isNameForm = true)
    (h : (addFilter H re d.filterString d.scanningExclude d.optionSetIndex d.lineNum
      (some fs)).filterBST = some y) (n c sg : List Char) :
    (hashLookup H (addFilter H re d.filterString d.scanningExclude d.optionSetIndex d.lineNum
        (some fs)).filters n c sg).info? =
      if (@Directive.rule R d).filterType.isNameOnly = false ∧ (@Directive.rule R d).name = n ∧
          (@Directive.rule R d).className = c ∧ (@Directive.rule R d).signature = sg then
        some ((hashLookup H fs n c sg).info?.getD (@Directive.rule R d))
      else (hashLookup H fs n c sg).info? := by
  have hd' : d.filterString.head? ≠ some '{' := by
    simpa [Directive.isNameForm] using hd
  obtain ⟨hlen, _⟩ := scanFilterName_spec d.filterString
    (newFilter d.scanningExclude d.optionSetIndex d.lineNum : FilterInfo R)
    (newFilter_isNameOnly _ _ _)
  rcases addFilter_some H re _ _ _ _ fs y h with ⟨hh, _⟩ | ⟨_, _, hn, e⟩ | ⟨_, _, hn, e⟩
  · exact absurd hh hd'
  · have hn' : (@Directive.rule R d).filterType.isNameOnly = true := hn
    rw [e, if_neg (by rw [hn']; simp)]
    unfold addFilterFinish hashLookup
    simp only
    split <;> rfl
  · have hn' : (@Directive.rule R d).filterType.isNameOnly = false := hn
    have hfilters : ∀ fs0 : CompilationFilters R,
        (addFilterFinish d.filterString d.scanningExclude d.optionSetIndex
          (scanFilterName d.filterString
            (newFilter d.scanningExclude d.optionSetIndex d.lineNum : FilterInfo R)).1
          (scanFilterName d.filterString
            (newFilter d.scanningExclude d.optionSetIndex d.lineNum : FilterInfo R)).2
          fs0).filters.filterHash = fs0.filterHash := by
      intro fs0
      unfold addFilterFinish
      simp only
      split <;> rfl
    rw [e]
    unfold hashLookup
    rw [hfilters]
    simp only
    rw [hlen]
    change (TR_FilterBST.findBy (keyCompare n c sg)
      (Function.update fs.filterHash
        (((@Directive.rule R d).name.length + (@Directive.rule R d).className.length +
          (@Directive.rule R d).signature.length) % H)
        (TR_FilterBST.insertRoot (@Directive.rule R d)
          (fs.filterHash (((@Directive.rule R d).name.length +
            (@Directive.rule R d).className.length +
            (@Directive.rule R d).signature.length) % H)))
        ((n.length + sg.length + c.length) % H))).info? = _
    generalize @Directive.rule R d = x at *
    by_cases hk : x.name = n ∧ x.className = c ∧ x.signature = sg
    · have hidx : (x.name.length + x.className.length + x.signature.length) % H
          = (n.length + sg.length + c.length) % H := by
        rw [hk.1, hk.2.1, hk.2.2]
        congr 1
        omega
      rw [if_pos ⟨hn', hk⟩, hidx, Function.update_same, findBy_keyCompare_insertRoot,
        if_pos hk]
    · rw [if_neg (fun hh => hk hh.2)]
      by_cases hidx : (n.length + sg.length + c.length) % H
          = (x.name.length + x.className.length + x.signature.length) % H
      · rw [hidx, Function.update_same, findBy_keyCompare_insertRoot, if_neg hk]
      · rw [Function.update_noteq hidx]

/-- The search of the hash buckets of a set built by name-form directives finds, for
every key, what it found in the initial set or else the rule of the first directive with
that key whose kind is not name-only. -/
theorem hashLookup_addFilters {R : Type} (H : Nat) (re : SimpleRegex R) (ds : List Directive)
    (fs fs' : CompilationFilters R) (h : addFilters H re ds fs = some fs')
    (hform : ∀ d ∈ ds, d.isNameForm = true) (n c sg : List Char) :
    (hashLookup H fs' n c sg).info? =
      ((hashLookup H fs n c sg).info?).orElse fun _ =>
        (ds.map (@Directive.rule R)).find? fun x =>
          decide (x.filterType.isNameOnly = false ∧ x.name = n ∧ x.className = c ∧
            x.signature = sg) := by
  induction ds generalizing fs with
  | nil =>
    simp only [addFilters, Option.some.injEq] at h
    subst h
    cases (hashLookup H fs n c sg).info? <;> rfl
  | cons d ds ih =>
    rw [addFilters] at h
    cases hb : (addFilter H re d.filterString d.scanningExclude d.optionSetIndex d.lineNum
        (some fs)).filterBST with
    | none => simp [hb] at h
    | some y =>
      simp only [hb] at h
      rw [ih _ h (fun d' hd' => hform d' (List.mem_cons_of_mem _ hd')),
        hashLookup_addFilter H re d fs y (hform d (List.mem_cons_self _ _)) hb n c sg]
      simp only [List.map_cons, List.find?_cons]
      by_cases hk : (@Directive.rule R d).filterType.isNameOnly = false ∧
          (@Directive.rule R d).name = n ∧ (@Directive.rule R d).className = c ∧
          (@Directive.rule R d).signature = sg
      · rw [if_pos hk]
        simp only [hk, and_self, decide_True]
        cases (hashLookup H fs n c sg).info? <;> rfl
      · rw [if_neg hk]
        simp only [hk, decide_False]
theorem plainChar_spec {c : Char} (h : plainChar c = true) :
    c ≠ '\t' ∧ c ≠ ',' ∧ c ≠ '\n' ∧ c ≠ ' ' ∧ c ≠ '.' ∧ c ≠ '(' := by
  simp only [plainChar, Bool.not_eq_true', Bool.or_eq_false_iff, beq_eq_false_iff_ne, ne_eq] at h
  obtain ⟨⟨⟨⟨⟨h1, h2⟩, h3⟩, h4⟩, h5⟩, h6⟩ := h
  exact ⟨h1, h2, h3, h4, h5, h6⟩

/-- In the default dialect the loop of `scanFilterName` only counts plain characters. -/
theorem scanLoop_plain (ex : Bool) (l rest : List Char) (pos : Nat) (st : ScanState)
    (hl : ∀ c ∈ l, plainChar c = true) :
    scanFilterNameLoop false ex (l ++ rest) pos st =
      scanFilterNameLoop false ex rest (pos + l.length)
        { st with signatureLen := st.signatureLen + l.length } := by
  induction l generalizing pos st with
  | nil => rfl
  | cons c cs ih =>
    obtain ⟨h1, h2, h3, h4, h5, h6⟩ := plainChar_spec (hl c (List.mem_cons_self _ _))
    have hcs : ∀ c' ∈ cs, plainChar c' = true := fun c' hc' => hl c' (List.mem_cons_of_mem _ hc')
    rw [List.cons_append, scanFilterNameLoop]
    simp only [h1, h2, h3, h4, h5, h6, or_self, if_false, Bool.false_eq_true]
    rw [ih _ _ hcs]
    simp only [List.length_cons]
    have e1 : pos + 1 + cs.length = pos + (cs.length + 1) := by omega
    have e2 : st.signatureLen + 1 + cs.length = st.signatureLen + (cs.length + 1) := by omega
    rw [e1, e2]

/-- The scan of a text `n(S` made of a plain name and, after the parenthesis, plain
characters: a name-and-signature rule with the name `n` and the signature `(S`. -/
theorem scanFilterName_nameSig {R : Type} (n S : List Char) (f : FilterInfo R)
    (hf : f.filterType = .TR_FILTER_NAME_ONLY) (hn : ∀ c ∈ n, plainChar c = true)
    (hn0 : n.head? ≠ some '/') (hS : ∀ c ∈ S, plainChar c = true) :
    scanFilterName (n ++ '(' :: S) f =
      (n.length + (S.length + 1),
        { f with
          name := n, className := [], signature := '(' :: S
          filterType := .TR_FILTER_NAME_AND_SIG }) := by
  have hhead : ((n ++ '(' :: S).head? == some '/' || (n ++ '(' :: S).head? == some '.') = false := by
    cases n with
    | nil => simp
    | cons c cs =>
      have := (plainChar_spec (hn c (List.mem_cons_self _ _))).2.2.2.2.1
      simp only [List.head?_cons, ne_eq, Option.some.injEq] at hn0
      simp [hn0, this]
  unfold scanFilterName
  simp only [hhead]
  rw [scanLoop_plain _ n _ _ _ hn, scanFilterNameLoop]
  simp only [Char.reduceEq, or_self, if_false, Bool.false_eq_true, hf, FilterType.isExclude,
    or_true, if_true]
  have := scanLoop_plain false S [] (0 + n.length + 1)
    { seenFileName := false, seenLineNumber := false, nameChars := some 0,
      nameLen := 0 + n.length, classChars := none, classLen := 0,
      signatureChars := some (0 + n.length), signatureLen := 1,
      filterType := .TR_FILTER_NAME_AND_SIG } hS
  rw [List.append_nil] at this
  rw [this]
  simp only [scanFilterNameLoop, scanFilterNameFinish, Option.isNone_some, Bool.false_eq_true,
    if_false, copyChars, Nat.zero_add, List.drop_zero, List.take_left', List.drop_left',
    Prod.mk.injEq]
  refine ⟨by omega, ?_⟩
  congr 1
  rw [List.take_of_length_le]
  simp only [List.length_cons]
  omega
theorem mem_hashRules {R : Type} (H : Nat) (fs : CompilationFilters R) (r : FilterInfo R) :
    r ∈ fs.hashRules H ↔ ∃ b, b < H ∧ r ∈ (fs.filterHash b).members := by
  simp [CompilationFilters.hashRules, List.mem_flatMap, List.mem_range]

theorem find?_ext {α : Type} (p q : α → Bool) (l : List α) (h : ∀ x ∈ l, p x = q x) :
    l.find? p = l.find? q := by
  induction l with
  | nil => rfl
  | cons a l ih =>
    have ha := h a (List.mem_cons_self _ _)
    have hl : ∀ x ∈ l, p x = q x := fun x hx => h x (List.mem_cons_of_mem _ hx)
    simp only [List.find?_cons, ha, ih hl]

theorem info?_isNull {R : Type} {t : TR_FilterBST R} {r : FilterInfo R} (h : t.info? = some r) :
    t.isNull = false := by
  cases t with
  | null => simp [TR_FilterBST.info?] at h
  | node _ _ _ _ => rfl

theorem eq_null_of_info? {R : Type} {t : TR_FilterBST R} (h : t.info? = none) : t = .null := by
  cases t with
  | null => rfl
  | node _ _ _ _ => simp [TR_FilterBST.info?] at h

/-- A rule stored in a hash bucket of a set built from a cleared set is what the search of
the hash buckets for its key finds, and the flag of its kind is set. -/
theorem hashLookup_stored {R : Type} (H : Nat) (fs : CompilationFilters R) (hinv : FilterInv H fs)
    (r : FilterInfo R) (hmem : r ∈ fs.hashRules H) :
    (hashLookup H fs r.name r.className r.signature).info? = some r ∧
    (r.filterType.isNameSig = true ∨ r.filterType.isSpecific = true) ∧
    (r.filterType.isNameSig = true → r.className = [] ∧ fs.hasNameSigFilter = true) ∧
    (r.filterType.isSpecific = true → fs.hasClassNameSigFilter = true) := by
  obtain ⟨b, _, hb⟩ := (mem_hashRules H fs r).1 hmem
  obtain ⟨h1, h2, h3, h4, h5⟩ := hinv.hash b r hb
  refine ⟨?_, h2, h4, h5⟩
  unfold hashLookup
  have : (r.name.length + r.signature.length + r.className.length) % H = b := by
    rw [h1]; congr 1; omega
  rw [this]
  exact h3

/-- A rule found by the search of the hash buckets is stored there and has the searched
key. -/
theorem hashLookup_some {R : Type} (H : Nat) (hH : 0 < H) (fs : CompilationFilters R)
    (n c sg : List Char) (r : FilterInfo R) (h : (hashLookup H fs n c sg).info? = some r) :
    r ∈ fs.hashRules H ∧ r.name = n ∧ r.className = c ∧ r.signature = sg := by
  unfold hashLookup at h
  obtain ⟨hm, hz⟩ := findBy_some _ _ _ h
  exact ⟨(mem_hashRules H fs r).2 ⟨_, Nat.mod_lt _ hH, hm⟩, (keyCompare_eq_zero _ _ _ _).1 hz⟩

theorem nameLookup_stored {R : Type} (H : Nat) (fs : CompilationFilters R) (hinv : FilterInv H fs)
    (r : FilterInfo R) (hmem : r ∈ fs.nameRules) :
    (nameLookup fs r.name).info? = some r ∧ fs.hasNameFilter = true ∧
      r.filterType.isNameOnly = true :=
  ⟨(hinv.names r hmem).2.2.2.1, (hinv.names r hmem).2.2.2.2, (hinv.names r hmem).1⟩

theorem nameLookup_some {R : Type} (fs : CompilationFilters R) (n : List Char) (r : FilterInfo R)
    (h : (nameLookup fs n).info? = some r) : r ∈ fs.nameRules ∧ r.name = n := by
  unfold nameLookup at h
  obtain ⟨hm, hz⟩ := findBy_some _ _ _ h
  exact ⟨hm, ((strcmp_eq_zero _ _).1 hz).symm⟩

/-- The rule of a name-form directive with a signature is not of a name-only kind. -/
theorem rule_sig_not_nameOnly {R : Type} (d : Directive)
    (h : (@Directive.rule R d).signature ≠ []) :
    (@Directive.rule R d).filterType.isNameOnly = false := by
  obtain ⟨_, _, _, hno, _⟩ := scanFilterName_spec d.filterString
    (newFilter d.scanningExclude d.optionSetIndex d.lineNum : FilterInfo R)
    (newFilter_isNameOnly _ _ _)
  cases hk : (@Directive.rule R d).filterType.isNameOnly with
  | false => rfl
  | true => exact absurd (hno hk).2 h
theorem isNull_null {R : Type} : (TR_FilterBST.null : TR_FilterBST R).isNull = true := rfl

end OMR

namespace OMR

/-! ### Failing calls of `addFilter` -/

/-- A call of `addFilter` returns 0 exactly when the regex text does not compile or the
name scan consumes nothing, and then the call leaves the set and the cursor as they
were. -/
theorem addFilter_none {R : Type} (H : Nat) (re : SimpleRegex R) (s : List Char)
    (ex osi ln : Int) (anyFilters : Option (CompilationFilters R)) :
    ((addFilter H re s ex osi ln anyFilters).filterBST = none ↔
      ((s.head? = some '{' ∧ re.create s = none) ∨
        (s.head? ≠ some '{' ∧ (scanFilterName s (newFilter ex osi ln : FilterInfo R)).1 = 0))) ∧
    ((addFilter H re s ex osi ln anyFilters).filterBST = none →
      (addFilter H re s ex osi ln anyFilters).filters = findOrCreateFilters anyFilters ∧
      (addFilter H re s ex osi ln anyFilters).filterString = s) := by
  unfold addFilter
  by_cases hb : s.head? = some '{'
  · simp only [hb, if_true]
    cases hc : re.create s with
    | none => simp
    | some p =>
      obtain ⟨rx, n⟩ := p
      simp [addFilterFinish]
  · simp only [hb, if_false]
    by_cases hz : (scanFilterName s (newFilter ex osi ln : FilterInfo R)).1 = 0
    · simp [hz, hb]
    · simp only [hz, if_false]
      split <;> simp [addFilterFinish]

/-! ### The regex chain -/

/-- `findRegex` on a chain whose nodes all have a pattern returns the first node whose
pattern matches. -/
theorem findRegex_chain {R : Type} (re : SimpleRegex R) (sig : List Char) (t : TR_FilterBST R)
    (h : ∀ r ∈ t.chain, r.regex.isSome = true) :
    ∃ t', TR_FilterBST.findRegex re sig t = some t' ∧
      t'.info? = t.chain.find? (FilterInfo.matchesSpec re sig) := by
  induction t with
  | null => exact ⟨.null, rfl, rfl⟩
  | node info c0 c1 next _ _ ih =>
    have hi := h info (by simp [TR_FilterBST.chain])
    have hn : ∀ r ∈ next.chain, r.regex.isSome = true :=
      fun r hr => h r (by simp [TR_FilterBST.chain, hr])
    cases hrx : info.regex with
    | none => rw [hrx] at hi; cases hi
    | some rx =>
      simp only [TR_FilterBST.findRegex, hrx, TR_FilterBST.chain, List.find?_cons,
        FilterInfo.matchesSpec]
      by_cases hm : re.isMatch rx sig = true
      · simp only [hm, if_true]
        exact ⟨_, rfl, rfl⟩
      · have hm' : re.isMatch rx sig = false := by simpa using hm
        simp only [hm', Bool.false_eq_true, if_false]
        exact ih hn

theorem regexRule_kind {R : Type} (re : SimpleRegex R) (d : Directive) (r : FilterInfo R)
    (h : Directive.regexRule re d = some r) :
    (r.filterType = .TR_FILTER_REGEX ∨ r.filterType = .TR_FILTER_EXCLUDE_REGEX) ∧
    r.regex.isSome = true ∧ r.lineNumber = d.lineNum ∧ r.optionSet = d.optionSetIndex ∧
    (r.filterType = .TR_FILTER_REGEX ↔ d.scanningExclude = 0) := by
  unfold Directive.regexRule at h
  split at h
  · split at h
    · cases h
    · simp only [Option.some.injEq] at h
      subst h
      by_cases hx : d.scanningExclude = 0 <;> simp [hx, newFilter]
  · cases h

/-- The regex chain after a call of `addFilter` that returns a filter: the new regex
rule, if the directive is one, before the chain as it was. -/
theorem addFilter_chain {R : Type} (H : Nat) (re : SimpleRegex R) (d : Directive)
    (fs : CompilationFilters R) (y : FilterInfo R) (hok : RegexOk fs)
    (h : (addFilter H re d.filterString d.scanningExclude d.optionSetIndex d.lineNum
      (some fs)).filterBST = some y) :
    (addFilter H re d.filterString d.scanningExclude d.optionSetIndex d.lineNum
        (some fs)).filters.filterRegexList.chain =
      (Directive.regexRule re d).toList ++ fs.filterRegexList.chain ∧
    RegexOk (addFilter H re d.filterString d.scanningExclude d.optionSetIndex d.lineNum
        (some fs)).filters := by
  have hfin : ∀ (n : Nat) (x : FilterInfo R) (fs0 : CompilationFilters R),
      (addFilterFinish d.filterString d.scanningExclude d.optionSetIndex n x
          fs0).filters.filterRegexList = fs0.filterRegexList ∧
      (addFilterFinish d.filterString d.scanningExclude d.optionSetIndex n x
          fs0).filters.hasRegexFilter = fs0.hasRegexFilter := by
    intro n x fs0
    unfold addFilterFinish
    simp only
    split <;> exact ⟨rfl, rfl⟩
  rcases addFilter_some H re _ _ _ _ fs y h with ⟨hh, rx, n, hc, e⟩ | ⟨hh, _, _, e⟩ |
      ⟨hh, _, _, e⟩
  · rw [e]
    unfold RegexOk
    rw [(hfin _ _ _).1, (hfin _ _ _).2]
    refine ⟨?_, fun hf => by cases hf⟩
    simp only [TR_FilterBST.chain, Directive.regexRule, hh, if_true, hc, Option.toList,
      List.singleton_append, List.cons.injEq, true_and]
    cases hf : fs.hasRegexFilter with
    | true => rfl
    | false => rw [hok hf]; rfl
  · rw [e]
    unfold RegexOk
    rw [(hfin _ _ _).1, (hfin _ _ _).2]
    refine ⟨?_, hok⟩
    simp [Directive.regexRule, hh]
  · rw [e]
    unfold RegexOk
    rw [(hfin _ _ _).1, (hfin _ _ _).2]
    refine ⟨?_, hok⟩
    simp [Directive.regexRule, hh]

/-- The regex chain of a set built by a sequence of directives: the regex rules of the
sequence, the last added first, before the chain of the initial set. -/
theorem addFilters_chain {R : Type} (H : Nat) (re : SimpleRegex R) (ds : List Directive)
    (fs fs' : CompilationFilters R) (h : addFilters H re ds fs = some fs') (hok : RegexOk fs) :
    fs'.filterRegexList.chain = (regexRules re ds).reverse ++ fs.filterRegexList.chain ∧
    RegexOk fs' := by
  induction ds generalizing fs with
  | nil =>
    simp only [addFilters, Option.some.injEq] at h
    subst h
    exact ⟨by simp [regexRules], hok⟩
  | cons d ds ih =>
    rw [addFilters] at h
    cases hb : (addFilter H re d.filterString d.scanningExclude d.optionSetIndex d.lineNum
        (some fs)).filterBST with
    | none => simp [hb] at h
    | some y =>
      simp only [hb] at h
      obtain ⟨hc, hok'⟩ := addFilter_chain H re d fs y hok hb
      obtain ⟨hc', hok''⟩ := ih _ h hok'
      refine ⟨?_, hok''⟩
      rw [hc', hc]
      cases hr : Directive.regexRule re d with
      | none => simp [regexRules, List.filterMap_cons, hr]
      | some r => simp [regexRules, List.filterMap_cons, hr]

theorem RegexOk_clear {R : Type} : RegexOk (clearFilters : CompilationFilters R) :=
  fun _ => rfl

/-- The result of `methodSigCanBeFound` when the searches by name find nothing: the
first node of the regex chain whose pattern matches the signature as given. -/
theorem methodSigCanBeFound_regex {R : Type} (H : Nat) (re : SimpleRegex R)
    (fs : CompilationFilters R) (sig : List Char) (mt : MethodType) (p : SigParts)
    (hsplit : splitMethodSig sig mt = some p) (hnone : searchNamed H p fs .null = .null)
    (hre : ∀ r ∈ fs.filterRegexList.chain, r.regex.isSome = true) (hok : RegexOk fs) :
    ∃ t, methodSigCanBeFound H re sig fs .null mt =
        some ((match t.info? with
          | some r => !excludedByType r.filterType
          | none => !fs.defaultExclude), t) ∧
      t.info? = fs.filterRegexList.chain.find? (FilterInfo.matchesSpec re sig) := by
  obtain ⟨t', ht, hinfo⟩ := findRegex_chain re sig fs.filterRegexList hre
  unfold methodSigCanBeFound
  simp only [hsplit, hnone, isNull_null, Bool.true_and]
  cases hf : fs.hasRegexFilter with
  | false =>
    have hl := hok hf
    refine ⟨.null, by simp [TR_FilterBST.info?], ?_⟩
    rw [hl]
    rfl
  | true =>
    simp only [if_true]
    cases hl : fs.filterRegexList with
    | null =>
      refine ⟨.null, by simp [TR_FilterBST.isNull, TR_FilterBST.info?], ?_⟩
      rfl
    | node i a b c =>
      rw [hl] at ht hinfo
      simp only [TR_FilterBST.isNull, Bool.not_false, if_true, ht]
      refine ⟨t', ?_, hinfo⟩
      cases t' with
      | null => rfl
      | node i' a' b' c' => rfl

theorem searchNamed_no_flags {R : Type} (H : Nat) (p : SigParts) (fs : CompilationFilters R)
    (h1 : fs.hasClassNameSigFilter = false) (h2 : fs.hasNameSigFilter = false)
    (h3 : fs.hasNameFilter = false) : searchNamed H p fs .null = .null := by
  unfold searchNamed
  simp [h1, h2, h3]

/-- The last element of a list that satisfies a test, found from the end. -/
theorem find?_reverse_some {α : Type} (q : α → Bool) (l : List α) (r : α)
    (h : l.reverse.find? q = some r) :
    ∃ l1 l2, l = l1 ++ r :: l2 ∧ q r = true ∧ ∀ x ∈ l2, q x = false := by
  induction l using List.reverseRecOn with
  | nil => simp at h
  | append_singleton l a ih =>
    rw [List.reverse_append, List.reverse_singleton, List.singleton_append,
      List.find?_cons] at h
    cases hq : q a with
    | true =>
      rw [hq] at h
      simp only [Option.some.injEq] at h
      subst h
      exact ⟨l, [], rfl, hq, by simp⟩
    | false =>
      rw [hq] at h
      obtain ⟨l1, l2, e, h1, h2⟩ := ih h
      refine ⟨l1, l2 ++ [a], by rw [e]; simp, h1, ?_⟩
      intro x hx
      rcases List.mem_append.1 hx with hx | hx
      · exact h2 x hx
      · simp only [List.mem_singleton] at hx
        rw [hx]; exact hq

theorem find?_reverse_none {α : Type} (q : α → Bool) (l : List α)
    (h : l.reverse.find? q = none) : ∀ x ∈ l, q x = false := by
  intro x hx
  have := List.find?_eq_none.1 h x (List.mem_reverse.2 hx)
  simpa using this

/-- The query on a set built from a cleared set when the searches by name find nothing:
the matched rule is the regex rule of the sequence that matches and was added last, and
the method is allowed exactly when that rule is an include regex. -/
theorem regex_query {R : Type} (H : Nat) (re : SimpleRegex R) (ds : List Directive)
    (fs : CompilationFilters R) (hbuild : addFilters H re ds clearFilters = some fs)
    (sig : List Char) (mt : MethodType) (p : SigParts)
    (hsplit : splitMethodSig sig mt = some p) (hnone : searchNamed H p fs .null = .null) :
    ∃ t, methodSigCanBeFound H re sig fs .null mt =
        some ((t.info?.map (fun r => decide (r.filterType = .TR_FILTER_REGEX))).getD
          (!fs.defaultExclude), t) ∧
      t.info? = (regexRules re ds).reverse.find? (FilterInfo.matchesSpec re sig) := by
  have hinv := addFilters_inv H re ds _ fs hbuild (FilterInv_clear H)
  obtain ⟨hchain, hok⟩ := addFilters_chain H re ds _ fs hbuild RegexOk_clear
  have hc0 : (clearFilters : CompilationFilters R).filterRegexList.chain = [] := rfl
  rw [hc0, List.append_nil] at hchain
  obtain ⟨t, ht, hinfo⟩ := methodSigCanBeFound_regex H re fs sig mt p hsplit hnone hinv.regex hok
  rw [hchain] at hinfo
  refine ⟨t, ?_, hinfo⟩
  rw [ht]
  cases hti : t.info? with
  | none => rfl
  | some r =>
    simp only
    rw [hti] at hinfo
    have hmem : r ∈ regexRules re ds :=
      List.mem_reverse.1 (List.mem_of_find?_eq_some hinfo.symm)
    obtain ⟨d, _, hd⟩ := List.mem_filterMap.1 hmem
    rcases (regexRule_kind re d r hd).1 with hk | hk <;> simp [hk, excludedByType]

theorem scanLoop_terminated (omr ex : Bool) (rest : List Char) (pos : Nat) (st : ScanState)
    (hrest : terminated rest = true) (hs : omr = true → st.seenLineNumber = true) :
    scanFilterNameLoop omr ex rest pos st = st := by
  cases rest with
  | nil => rfl
  | cons c cs =>
    simp only [terminated, Bool.or_eq_true, beq_iff_eq] at hrest
    rw [scanFilterNameLoop]
    by_cases h1 : c = '\t' ∨ c = ',' ∨ c = '\n'
    · rw [if_pos h1]
    · have hc : c = ' ' := by tauto
      subst hc
      rw [if_neg h1]
      cases omr with
      | false => simp
      | true => simp [hs rfl]

theorem drop_take_mid {α : Type} (a b c : List α) (k : Nat) (hk : k = a.length) (m : Nat)
    (hm : m = b.length) : ((a ++ (b ++ c)).drop k).take m = b := by
  subst hk hm
  rw [List.drop_left', List.take_left']
  all_goals rfl

theorem scanFilterName_specific {R : Type} (C n S rest : List Char) (f : FilterInfo R)
    (hf : f.filterType = .TR_FILTER_NAME_ONLY ∨ f.filterType = .TR_FILTER_EXCLUDE_NAME_ONLY)
    (hC : ∀ c ∈ C, plainChar c = true) (hC0 : C ≠ []) (hC1 : C.head? ≠ some '/')
    (hn : ∀ c ∈ n, plainChar c = true) (hS : ∀ c ∈ S, plainChar c = true)
    (hrest : terminated rest = true) :
    scanFilterName (C ++ '.' :: (n ++ '(' :: (S ++ rest))) f =
      (n.length + C.length + (S.length + 1),
        { f with
          name := n, className := C, signature := '(' :: S
          filterType :=
            if f.filterType.isExclude then .TR_FILTER_EXCLUDE_SPECIFIC_METHOD
            else .TR_FILTER_SPECIFIC_METHOD }) := by
  have hhead : ((C ++ '.' :: (n ++ '(' :: (S ++ rest))).head? == some '/' ||
      (C ++ '.' :: (n ++ '(' :: (S ++ rest))).head? == some '.') = false := by
    cases C with
    | nil => exact absurd rfl hC0
    | cons c cs =>
      have := (plainChar_spec (hC c (List.mem_cons_self _ _))).2.2.2.2.1
      simp only [List.head?_cons, ne_eq, Option.some.injEq] at hC1
      simp [hC1, this]
  unfold scanFilterName
  simp only [hhead]
  rw [scanLoop_plain _ C _ _ _ hC, scanFilterNameLoop]
  simp only [Char.reduceEq, or_self, if_false, Bool.false_eq_true, if_true]
  rw [scanLoop_plain _ n _ _ _ hn, scanFilterNameLoop]
  simp only [Char.reduceEq, or_self, if_false, Bool.false_eq_true, if_true]
  rw [scanLoop_plain _ S _ _ _ hS, scanLoop_terminated _ _ _ _ _ hrest (by simp)]
  simp only [scanFilterNameFinish, Option.isNone_some, Bool.false_eq_true,
    if_false, copyChars, Nat.zero_add, List.drop_zero, Prod.mk.injEq]
  refine ⟨by omega, ?_⟩
  have e1 : List.take C.length (C ++ '.' :: (n ++ '(' :: (S ++ rest))) = C := by
    rw [List.take_left']; rfl
  have e2 : List.take n.length (List.drop (C.length + 1) (C ++ '.' :: (n ++ '(' :: (S ++ rest))))
      = n := by
    have := drop_take_mid (C ++ ['.']) n ('(' :: (S ++ rest)) (C.length + 1) (by simp)
      n.length rfl
    simp
  have e3 : List.take (1 + S.length)
      (List.drop (C.length + 1 + n.length) (C ++ '.' :: (n ++ '(' :: (S ++ rest))))
      = '(' :: S := by
    have := drop_take_mid (C ++ '.' :: n) ('(' :: S) rest (C.length + 1 + n.length)
      (by simp; omega) (1 + S.length) (by simp; omega)
    simpa using this
  rcases hf with hf | hf <;>
    simp [hf, FilterType.isExclude, e1, e2, e3]

theorem scanLoop_noDot (ex : Bool) (l rest : List Char) (pos : Nat) (st : ScanState)
    (hl : ∀ c ∈ l, c ≠ '.' ∧ noTerminator c = true)
    (hc : st.classChars = none)
    (ht : st.filterType = (if ex then .TR_FILTER_EXCLUDE_NAME_AND_SIG else .TR_FILTER_NAME_AND_SIG))
    (hn : st.nameChars.isSome = true) (hs : st.signatureChars.isSome = true) :
    ∃ pos2 st2, scanFilterNameLoop false ex (l ++ rest) pos st
        = scanFilterNameLoop false ex rest pos2 st2 ∧
      st2.classChars = none ∧ st2.classLen = st.classLen ∧ st2.filterType = st.filterType ∧
      st2.nameChars.isSome = true := by
  induction l generalizing pos st with
  | nil => exact ⟨pos, st, rfl, hc, rfl, rfl, hn⟩
  | cons c cs ih =>
    obtain ⟨h5, hterm⟩ := hl c (List.mem_cons_self _ _)
    simp only [noTerminator, Bool.not_eq_true', Bool.or_eq_false_iff, beq_eq_false_iff_ne,
      ne_eq] at hterm
    obtain ⟨⟨⟨h4, h1⟩, h2⟩, h3⟩ := hterm
    have hcs : ∀ c' ∈ cs, c' ≠ '.' ∧ noTerminator c' = true :=
      fun c' hc' => hl c' (List.mem_cons_of_mem _ hc')
    rw [List.cons_append, scanFilterNameLoop]
    simp only [h1, h2, h3, h4, h5, or_self, if_false, Bool.false_eq_true]
    by_cases h6 : c = '('
    · rw [if_pos h6]
      obtain ⟨pos2, st2, e, a1, a2, a3, a4⟩ := ih (pos + 1) _ hcs
        (show ({ st with
            nameChars := st.signatureChars, nameLen := st.signatureLen,
            signatureChars := some pos, signatureLen := 1,
            filterType :=
              if st.filterType = .TR_FILTER_EXCLUDE_NAME_ONLY ∨
                  st.filterType = .TR_FILTER_NAME_ONLY then
                (if ex then .TR_FILTER_EXCLUDE_NAME_AND_SIG
                 else .TR_FILTER_NAME_AND_SIG)
              else st.filterType } : ScanState).classChars = none from hc)
        (by cases ex <;> simp [ht]) hs rfl
      exact ⟨pos2, st2, e, a1, a2, by rw [a3]; cases ex <;> simp [ht], a4⟩
    · rw [if_neg h6]
      obtain ⟨pos2, st2, e, a1, a2, a3, a4⟩ := ih (pos + 1)
        { st with signatureLen := st.signatureLen + 1 } hcs hc ht hn hs
      exact ⟨pos2, st2, e, a1, a2, a3, a4⟩

theorem head_not_omr (n tail : List Char) (hn : ∀ c ∈ n, plainChar c = true)
    (hn0 : n.head? ≠ some '/') (ht : tail.head? ≠ some '/' ∧ tail.head? ≠ some '.') :
    ((n ++ tail).head? == some '/' || (n ++ tail).head? == some '.') = false := by
  cases n with
  | nil => simpa using ht
  | cons c cs =>
    have := (plainChar_spec (hn c (List.mem_cons_self _ _))).2.2.2.2.1
    simp only [List.head?_cons, ne_eq, Option.some.injEq] at hn0
    simp [hn0, this]

theorem terminated_head (rest : List Char) (h : terminated rest = true) :
    rest.head? ≠ some '/' ∧ rest.head? ≠ some '.' := by
  cases rest with
  | nil => simp
  | cons c cs =>
    simp only [terminated, Bool.or_eq_true, beq_iff_eq] at h
    simp only [List.head?_cons, ne_eq, Option.some.injEq]
    rcases h with ((h | h) | h) | h <;> subst h <;> decide

theorem scanFilterName_nameSig_kind {R : Type} (n b rest : List Char) (f : FilterInfo R)
    (hf : f.filterType = .TR_FILTER_NAME_ONLY ∨ f.filterType = .TR_FILTER_EXCLUDE_NAME_ONLY)
    (hn : ∀ c ∈ n, plainChar c = true) (hn0 : n.head? ≠ some '/')
    (hb : ∀ c ∈ b, c ≠ '.' ∧ noTerminator c = true) (hrest : terminated rest = true) :
    (scanFilterName (n ++ '(' :: (b ++ rest)) f).2.className = [] ∧
    (scanFilterName (n ++ '(' :: (b ++ rest)) f).2.filterType =
      (if f.filterType.isExclude then .TR_FILTER_EXCLUDE_NAME_AND_SIG
       else .TR_FILTER_NAME_AND_SIG) := by
  have hhead := head_not_omr n ('(' :: (b ++ rest)) hn hn0 (by simp)
  unfold scanFilterName
  simp only [hhead]
  rw [scanLoop_plain _ n _ _ _ hn, scanFilterNameLoop]
  simp only [Char.reduceEq, or_self, if_false, Bool.false_eq_true, if_true]
  obtain ⟨pos2, st2, e, a1, a2, a3, a4⟩ := scanLoop_noDot f.filterType.isExclude b rest
    (0 + n.length + 1)
    { seenFileName := false, seenLineNumber := false, nameChars := some 0,
      nameLen := 0 + n.length, classChars := none, classLen := 0,
      signatureChars := some (0 + n.length), signatureLen := 1,
      filterType :=
        if f.filterType = .TR_FILTER_EXCLUDE_NAME_ONLY ∨ f.filterType = .TR_FILTER_NAME_ONLY then
          (if f.filterType.isExclude then .TR_FILTER_EXCLUDE_NAME_AND_SIG
           else .TR_FILTER_NAME_AND_SIG)
        else f.filterType } hb rfl
    (by rcases hf with hf | hf <;> simp [hf, FilterType.isExclude]) rfl rfl
  rw [e, scanLoop_terminated _ _ _ _ _ hrest (by simp)]
  simp only [scanFilterNameFinish, Bool.false_eq_true, if_false]
  have hno : st2.nameChars.isNone = false := by
    cases h : st2.nameChars with
    | none => rw [h] at a4; cases a4
    | some _ => rfl
  simp only [hno, Bool.false_eq_true, if_false, a1, copyChars, a3, true_and]
  rcases hf with hf | hf <;> simp [hf, FilterType.isExclude]

theorem scanFilterName_nameOnly {R : Type} (n rest : List Char) (f : FilterInfo R)
    (hn : ∀ c ∈ n, plainChar c = true) (hn0 : n.head? ≠ some '/')
    (hrest : terminated rest = true) :
    scanFilterName (n ++ rest) f =
      (n.length, { f with name := n, className := [], signature := [] }) := by
  have hhead := head_not_omr n rest hn hn0 (terminated_head rest hrest)
  unfold scanFilterName
  simp only [hhead]
  rw [scanLoop_plain _ n _ _ _ hn, scanLoop_terminated _ _ _ _ _ hrest (by simp)]
  simp [scanFilterNameFinish, copyChars]

theorem skipHotness_append (h t : List Char) (hh : ')' ∉ h) :
    skipHotness (h ++ ')' :: t) = ')' :: t := by
  induction h with
  | nil => simp [skipHotness]
  | cons c cs ih =>
    have hc : c ≠ ')' := fun e => hh (by simp [e])
    have hcs : ')' ∉ cs := fun e => hh (List.mem_cons_of_mem _ e)
    simp [skipHotness, hc, ih hcs]

theorem skipHotness_eq_cons (q t : List Char) (c : Char) (h : skipHotness q = c :: t) :
    c = ')' ∧ ∃ hot, ')' ∉ hot ∧ q = hot ++ ')' :: t := by
  induction q with
  | nil => simp [skipHotness] at h
  | cons a as ih =>
    rw [skipHotness] at h
    by_cases ha : a = ')'
    · rw [if_pos ha] at h
      injection h with h1 h2
      subst h2
      exact ⟨by rw [← h1, ha], [], by simp, by simp [ha]⟩
    · rw [if_neg ha] at h
      obtain ⟨hc, hot, h1, h2⟩ := ih h
      refine ⟨hc, a :: hot, ?_, by simp [h2]⟩
      intro hm
      rcases List.mem_cons.1 hm with e | e
      · exact ha e.symm
      · exact h1 e

theorem ruleLineAfterDigit_text (o : Int) (hot : Option (List Char)) (spec : List Char)
    (hh : ∀ h, hot = some h → ')' ∉ h) (hs : hot = none → spec.head? ≠ some '(') :
    ruleLineAfterDigit o (' ' :: (hotnessText hot ++ spec)) = some (o, spec) := by
  cases hot with
  | none =>
    have := hs rfl
    simp [ruleLineAfterDigit, hotnessText, this]
  | some h =>
    have hh2 := hh h rfl
    have e : skipHotness (h ++ (')' :: ' ' :: spec)) = ')' :: ' ' :: spec :=
      skipHotness_append _ _ hh2
    simp [ruleLineAfterDigit, hotnessText, e]

theorem ruleLinePrefix_text (l : RuleLineParts) (hl : l.wellFormed) :
    ruleLinePrefix l.text = some (l.optionSet, l.methodSpec) := by
  obtain ⟨hd, hh, hs⟩ := hl
  rcases l with ⟨digit, hot, spec⟩
  cases digit with
  | none =>
    have hsp : ¬ ('0' ≤ ' ' ∧ ' ' ≤ '9') := by decide
    simp only [RuleLineParts.text, Option.toList, List.nil_append, ruleLinePrefix,
      RuleLineParts.optionSet, hsp, if_false]
    exact ruleLineAfterDigit_text 0 hot spec hh hs
  | some d =>
    have hd2 := hd d rfl
    simp only [RuleLineParts.text, Option.toList, List.singleton_append, ruleLinePrefix,
      RuleLineParts.optionSet, hd2, and_self, if_true]
    exact ruleLineAfterDigit_text _ hot spec hh hs

theorem ruleLineAfterDigit_some (o osi : Int) (p spec : List Char)
    (h : ruleLineAfterDigit o p = some (osi, spec)) :
    osi = o ∧ ∃ hot : Option (List Char), (∀ h, hot = some h → ')' ∉ h) ∧
      (hot = none → spec.head? ≠ some '(') ∧ p = ' ' :: (hotnessText hot ++ spec) := by
  unfold ruleLineAfterDigit at h
  cases p with
  | nil => simp at h
  | cons c q =>
    by_cases hc : c = ' '
    · subst hc
      simp only [List.head?_cons, ne_eq, not_true_eq_false, if_false, List.drop_succ_cons,
        List.drop_zero] at h
      by_cases hq : q.head? = some '('
      · rw [if_pos hq] at h
        cases q with
        | nil => simp at hq
        | cons a q2 =>
          simp only [List.head?_cons, Option.some.injEq] at hq
          subst hq
          simp only [List.drop_succ_cons, List.drop_zero] at h
          cases hsk : skipHotness q2 with
          | nil => rw [hsk] at h; simp at h
          | cons b t =>
            rw [hsk] at h
            obtain ⟨hb, hot, hh, e⟩ := skipHotness_eq_cons _ _ _ hsk
            subst hb
            simp only [List.head?_cons, ne_eq, not_true_eq_false, if_false, List.drop_succ_cons,
              List.drop_zero] at h
            cases t with
            | nil => simp at h
            | cons b2 t2 =>
              by_cases hb2 : b2 = ' '
              · subst hb2
                simp only [List.head?_cons, ne_eq, not_true_eq_false, if_false,
                  List.drop_succ_cons, List.drop_zero, Option.some.injEq, Prod.mk.injEq] at h
                obtain ⟨h1, h2⟩ := h
                subst h1 h2
                refine ⟨rfl, some hot, ?_, by simp, ?_⟩
                · intro h' e'; cases e'; exact hh
                · simp [hotnessText, e]
              · simp [hb2] at h
      · rw [if_neg hq] at h
        simp only [Option.some.injEq, Prod.mk.injEq] at h
        obtain ⟨h1, h2⟩ := h
        subst h1 h2
        exact ⟨rfl, none, by simp, fun _ => hq, by simp [hotnessText]⟩
    · simp [hc] at h

theorem ruleLinePrefix_some (p : List Char) (osi : Int) (spec : List Char)
    (h : ruleLinePrefix p = some (osi, spec)) :
    ∃ l : RuleLineParts, l.wellFormed ∧ p = l.text ∧ l.optionSet = osi ∧ l.methodSpec = spec := by
  unfold ruleLinePrefix at h
  cases p with
  | nil =>
    obtain ⟨_, hot, _, _, e⟩ := ruleLineAfterDigit_some _ _ _ _ h
    cases e
  | cons c rest =>
    simp only at h
    by_cases hc : '0' ≤ c ∧ c ≤ '9'
    · rw [if_pos hc] at h
      obtain ⟨ho, hot, hh, hs, e⟩ := ruleLineAfterDigit_some _ _ _ _ h
      refine ⟨⟨some c, hot, spec⟩, ⟨?_, hh, hs⟩, ?_, ?_, rfl⟩
      · intro d hd; cases hd; exact hc
      · simp [RuleLineParts.text, e]
      · simp only [RuleLineParts.optionSet, ho]; rfl
    · rw [if_neg hc] at h
      obtain ⟨ho, hot, hh, hs, e⟩ := ruleLineAfterDigit_some _ _ _ _ h
      refine ⟨⟨none, hot, spec⟩, ⟨?_, hh, hs⟩, ?_, ?_, rfl⟩
      · intro d hd; cases hd
      · simp [RuleLineParts.text, e]
      · simp only [RuleLineParts.optionSet, ho]

theorem lineDirective_some (buf : List Char) (ln : Int) (d : Directive)
    (h : lineDirective buf ln = some d) :
    ∃ flag p, buf = flag :: p ∧ (flag = '+' ∨ flag = '-') ∧
      ruleLinePrefix p = some (d.optionSetIndex, d.filterString) ∧
      d.scanningExclude = (if '+' = flag then 0 else 1) ∧ d.lineNum = ln := by
  cases buf with
  | nil => simp [lineDirective] at h
  | cons flag p =>
    simp only [lineDirective] at h
    by_cases hf : flag = '+' ∨ flag = '-'
    · rw [if_pos hf] at h
      cases hp : ruleLinePrefix p with
      | none => rw [hp] at h; simp at h
      | some os =>
        rw [hp] at h
        simp only [Option.map_some', Option.some.injEq] at h
        subst h
        exact ⟨flag, p, rfl, hf, hp, rfl, rfl⟩
    · rw [if_neg hf] at h; cases h

theorem scanLoop_rule_line {R : Type} (H : Nat) (re : SimpleRegex R) (buf : List Char)
    (rest : List (List Char)) (ln : Int) (d : Directive) (s : InlineFilters R)
    (f0 : Option (FilterInfo R)) (err : Bool) (fuel : Nat) (y : FilterInfo R)
    (hd : lineDirective buf (ln + 1) = some d)
    (hy : (addFilter H re d.filterString d.scanningExclude d.optionSetIndex d.lineNum
      (some s.filters)).filterBST = some y) :
    scanInlineFiltersLoop H re (fuel + 1) (buf :: rest) ln s f0 err
      = scanInlineFiltersLoop H re fuel rest (ln + 1)
          (s.setFilters (addFilter H re d.filterString d.scanningExclude d.optionSetIndex
            d.lineNum (some s.filters)).filters) (some y) err := by
  obtain ⟨flag, p, rfl, hf, hp, hex, hln⟩ := lineDirective_some _ _ _ hd
  have h1 : flag ≠ '[' := by rcases hf with h | h <;> rw [h] <;> decide
  have h2 : flag ≠ ']' := by rcases hf with h | h <;> rw [h] <;> decide
  have h3 : (some flag = some '+' ∨ some flag = some '-') := by
    rcases hf with h | h <;> simp [h]
  simp only [scanInlineFiltersLoop, List.head?_cons, Option.some.injEq, h1, h2, if_false, h3, if_true, List.headD_cons,
    List.drop_succ_cons, List.drop_zero, ruleLine, hp]
  rw [← hex, ← hln, hy, if_pos hf]


theorem scanLoop_rule_lines {R : Type} (H : Nat) (re : SimpleRegex R) (Ls : List (List Char)) :
    ∀ (ln : Int) (ds : List Directive) (fs fs1 : CompilationFilters R)
      (sg : List (Int × InlineFilters R)) (tail : List (List Char))
      (f0 : Option (FilterInfo R)) (err : Bool) (fuel : Nat),
      lineDirectives Ls ln = some ds → addFilters H re ds fs = some fs1 →
      ∃ f1, scanInlineFiltersLoop H re (fuel + Ls.length) (Ls ++ tail) ln (.mk fs sg) f0 err
        = scanInlineFiltersLoop H re fuel tail (ln + Ls.length) (.mk fs1 sg) f1 err := by
  induction Ls with
  | nil =>
    intro ln ds fs fs1 sg tail f0 err fuel hd ha
    simp only [lineDirectives, Option.some.injEq] at hd
    subst hd
    simp only [addFilters, Option.some.injEq] at ha
    subst ha
    exact ⟨f0, by simp⟩
  | cons buf rest ih =>
    intro ln ds fs fs1 sg tail f0 err fuel hd ha
    simp only [lineDirectives] at hd
    cases h1 : lineDirective buf (ln + 1) with
    | none => rw [h1] at hd; simp at hd
    | some d =>
      cases h2 : lineDirectives rest (ln + 1) with
      | none => rw [h1, h2] at hd; simp at hd
      | some ds1 =>
        rw [h1, h2] at hd
        simp only [Option.some.injEq] at hd
        subst hd
        simp only [addFilters] at ha
        cases hy : (addFilter H re d.filterString d.scanningExclude d.optionSetIndex d.lineNum
            (some fs)).filterBST with
        | none => rw [hy] at ha; simp at ha
        | some y =>
          rw [hy] at ha
          simp only at ha
          obtain ⟨f1, e⟩ := ih (ln + 1) ds1 _ fs1 sg tail (some y) err fuel h2 ha
          refine ⟨f1, ?_⟩
          have step := scanLoop_rule_line H re buf (rest ++ tail) ln d (.mk fs sg) f0 err
            (fuel + rest.length) y h1 hy
          simp only [List.length_cons, List.cons_append]
          rw [show fuel + (rest.length + 1) = fuel + rest.length + 1 from rfl, step]
          simp only [InlineFilters.setFilters, InlineFilters.filters, InlineFilters.subGroups]
          rw [e]
          congr 1
          push_cast
          ring

/-- With more fuel than there are lines to read, the loop of `scanInlineFilters` returns,
and it leaves no more lines unread than it was given. -/
theorem scanInlineFiltersLoop_total {R : Type} (H : Nat) (re : SimpleRegex R) (fuel : Nat) :
    ∀ (lines : List (List Char)) (ln : Int) (s : InlineFilters R) (f : Option (FilterInfo R))
      (err : Bool), lines.length < fuel →
      ∃ r, scanInlineFiltersLoop H re fuel lines ln s f err = some r ∧
        r.rest.length ≤ lines.length := by
  induction fuel with
  | zero => intro lines ln s f err h; omega
  | succ fuel ih =>
    intro lines ln s f err h
    cases lines with
    | nil =>
      simp only [scanInlineFiltersLoop]
      exact ⟨_, rfl, by simp⟩
    | cons buf rest =>
      have hr : rest.length < fuel := by simp only [List.length_cons] at h; omega
      simp only [scanInlineFiltersLoop]
      split
      · cases f with
        | none =>
          obtain ⟨r, e, hl⟩ := ih rest (ln + 1) s none err hr
          exact ⟨r, e, by simp only [List.length_cons]; omega⟩
        | some f =>
          simp only
          obtain ⟨r, e, hl⟩ := ih rest (ln + 1)
            ((match s.subGroup f.lineNumber with
              | some g => g
              | none => InlineFilters.mk clearFilters []).setFilters
              { (match s.subGroup f.lineNumber with
                  | some g => g
                  | none => InlineFilters.mk clearFilters []).filters with
                defaultExclude := true }) none false hr
          rw [e]
          simp only
          obtain ⟨r2, e2, hl2⟩ := ih r.rest r.lineNumber (s.setSubGroup f.lineNumber r.filters)
            (some f) (!r.ok) (by omega)
          exact ⟨r2, e2, by simp only [List.length_cons]; omega⟩
      · split
        · exact ⟨_, rfl, by simp⟩
        · split
          · split
            · exact ⟨_, rfl, by simp⟩
            · split
              · exact ⟨_, rfl, by simp⟩
              · obtain ⟨r, e, hl⟩ := ih rest (ln + 1) (s.setFilters _) (some _) err hr
                exact ⟨r, e, by simp only [List.length_cons]; omega⟩
          · obtain ⟨r, e, hl⟩ := ih rest (ln + 1) s f err hr
            exact ⟨r, e, by simp only [List.length_cons]; omega⟩

theorem findBy_none_of_fresh {R : Type} (y : FilterInfo R) (t : TR_FilterBST R)
    (h : ∀ x ∈ t.members, ruleKey x ≠ ruleKey y) :
    (TR_FilterBST.findBy (TR_FilterBST.insertCompare y) t).info? = none := by
  cases hf : (TR_FilterBST.findBy (TR_FilterBST.insertCompare y) t).info? with
  | none => rfl
  | some x =>
    obtain ⟨hm, hz⟩ := findBy_some _ _ _ hf
    have hk : keyCompare y.name y.className y.signature x = 0 := hz
    rw [keyCompare_eq_zero] at hk
    exact absurd (by simp [ruleKey, hk.1, hk.2.1, hk.2.2]) (h x hm)

theorem addFilterFinish_fields {R : Type} (s : List Char) (ex osi : Int) (n : Nat)
    (x : FilterInfo R) (fs0 : CompilationFilters R) :
    (addFilterFinish s ex osi n x fs0).filterBST = some x ∧
    (addFilterFinish s ex osi n x fs0).filters.filterHash = fs0.filterHash ∧
    (addFilterFinish s ex osi n x fs0).filters.filterNameList = fs0.filterNameList ∧
    (addFilterFinish s ex osi n x fs0).filters.filterRegexList = fs0.filterRegexList := by
  unfold addFilterFinish
  simp only
  split <;> simp

theorem mem_treeRules {R : Type} (H : Nat) (fs : CompilationFilters R) (r : FilterInfo R) :
    r ∈ fs.treeRules H ↔
      (∃ b, b < H ∧ r ∈ (fs.filterHash b).members) ∨ r ∈ fs.filterNameList.members := by
  simp only [CompilationFilters.treeRules, List.mem_append, mem_hashRules,
    CompilationFilters.nameRules]

/-- The rules of a set after a call of `addFilter` that returns a filter whose key is not
yet in the trees: the rules before the call and the returned filter. -/
theorem addFilter_rules {R : Type} (H : Nat) (hH : 0 < H) (re : SimpleRegex R) (d : Directive)
    (fs : CompilationFilters R) (y : FilterInfo R) (hok : RegexOk fs)
    (h : (addFilter H re d.filterString d.scanningExclude d.optionSetIndex d.lineNum
      (some fs)).filterBST = some y)
    (hfresh : d.isNameForm = true →
      ∀ x ∈ fs.treeRules H, ruleKey x ≠ ruleKey (d.rule : FilterInfo R)) :
    d.builtRule re = some y ∧
    (d.isNameForm = true → y = d.rule) ∧
    (∀ r, r ∈ (addFilter H re d.filterString d.scanningExclude d.optionSetIndex d.lineNum
        (some fs)).filters.treeRules H ↔ r ∈ fs.treeRules H ∨ (d.isNameForm = true ∧ r = y)) ∧
    (∀ r, r ∈ (addFilter H re d.filterString d.scanningExclude d.optionSetIndex d.lineNum
        (some fs)).filters.allRules H ↔ r ∈ fs.allRules H ∨ r = y) := by
  obtain ⟨hchain, _⟩ := addFilter_chain H re d fs y hok h
  have key : d.builtRule re = some y ∧ (d.isNameForm = true → y = d.rule) ∧
      (∀ r, r ∈ (addFilter H re d.filterString d.scanningExclude d.optionSetIndex d.lineNum
        (some fs)).filters.treeRules H ↔ r ∈ fs.treeRules H ∨ (d.isNameForm = true ∧ r = y)) := by
    rcases addFilter_some H re _ _ _ _ fs y h with ⟨hh, rx, n, hc, e⟩ | ⟨hh, _, hno, e⟩ |
        ⟨hh, _, hno, e⟩
    · have hy := h
      rw [e, (addFilterFinish_fields _ _ _ _ _ _).1] at hy
      have hy := (Option.some.inj hy).symm
      have hnf : d.isNameForm = false := by simp [Directive.isNameForm, hh]
      refine ⟨?_, by simp [hnf], ?_⟩
      · simp only [Directive.builtRule, hh, if_true, Directive.regexRule, hc, hy]
      · intro r
        rw [mem_treeRules, mem_treeRules, e, (addFilterFinish_fields _ _ _ _ _ _).2.1,
          (addFilterFinish_fields _ _ _ _ _ _).2.2.1]
        simp [hnf]
    · have hy : y = d.rule := by
        rw [e, (addFilterFinish_fields _ _ _ _ _ _).1] at h
        exact (Option.some.inj h).symm
      have hnf : d.isNameForm = true := by simp [Directive.isNameForm, hh]
      refine ⟨?_, fun _ => hy, ?_⟩
      · simp only [Directive.builtRule, hh, if_false, hy]
      · intro r
        have hfr := findBy_none_of_fresh y fs.filterNameList (fun x hx =>
          hy ▸ hfresh hnf x ((mem_treeRules H fs x).2 (Or.inr hx)))
        rw [mem_treeRules, mem_treeRules, e, (addFilterFinish_fields _ _ _ _ _ _).2.1,
          (addFilterFinish_fields _ _ _ _ _ _).2.2.1]
        simp only
        rw [show (scanFilterName d.filterString
            (newFilter d.scanningExclude d.optionSetIndex d.lineNum : FilterInfo R)).2 = y from
          hy.symm, mem_insertRoot, hfr]
        simp only [hnf, true_and, and_true]
        rw [or_assoc]
    · have hy : y = d.rule := by
        rw [e, (addFilterFinish_fields _ _ _ _ _ _).1] at h
        exact (Option.some.inj h).symm
      have hnf : d.isNameForm = true := by simp [Directive.isNameForm, hh]
      refine ⟨?_, fun _ => hy, ?_⟩
      · simp only [Directive.builtRule, hh, if_false, hy]
      · intro r
        have hb : (scanFilterName d.filterString
            (newFilter d.scanningExclude d.optionSetIndex d.lineNum : FilterInfo R)).1 % H < H :=
          Nat.mod_lt _ hH
        have hfr := findBy_none_of_fresh y (fs.filterHash ((scanFilterName d.filterString
            (newFilter d.scanningExclude d.optionSetIndex d.lineNum : FilterInfo R)).1 % H))
          (fun x hx => hy ▸ hfresh hnf x ((mem_treeRules H fs x).2 (Or.inl ⟨_, hb, hx⟩)))
        rw [mem_treeRules, mem_treeRules, e, (addFilterFinish_fields _ _ _ _ _ _).2.1,
          (addFilterFinish_fields _ _ _ _ _ _).2.2.1]
        simp only
        rw [show (scanFilterName d.filterString
            (newFilter d.scanningExclude d.optionSetIndex d.lineNum : FilterInfo R)).2 = y from
          hy.symm]
        generalize (scanFilterName d.filterString
            (newFilter d.scanningExclude d.optionSetIndex d.lineNum : FilterInfo R)).1 % H = b
          at hb hfr
        simp only [hnf, true_and]
        constructor
        · rintro (⟨b1, hb1, hm⟩ | hm)
          · by_cases hbb : b1 = b
            · subst hbb
              rw [Function.update_same, mem_insertRoot] at hm
              rcases hm with hm | ⟨hm, _⟩
              · exact Or.inl (Or.inl ⟨b1, hb1, hm⟩)
              · exact Or.inr hm
            · rw [Function.update_noteq hbb] at hm
              exact Or.inl (Or.inl ⟨b1, hb1, hm⟩)
          · exact Or.inl (Or.inr hm)
        · rintro ((⟨b1, hb1, hm⟩ | hm) | hm)
          · refine Or.inl ⟨b1, hb1, ?_⟩
            by_cases hbb : b1 = b
            · subst hbb
              rw [Function.update_same, mem_insertRoot]
              exact Or.inl hm
            · rw [Function.update_noteq hbb]
              exact hm
          · exact Or.inr hm
          · refine Or.inl ⟨b, hb, ?_⟩
            rw [Function.update_same, mem_insertRoot]
            exact Or.inr ⟨hm, hfr⟩
  refine ⟨key.1, key.2.1, key.2.2, ?_⟩
  intro r
  simp only [CompilationFilters.allRules, List.mem_append, hchain, key.2.2 r]
  have hb := key.1
  unfold Directive.builtRule at hb
  by_cases hh : d.filterString.head? = some '{'
  · rw [if_pos hh] at hb
    have hnf : d.isNameForm = false := by simp [Directive.isNameForm, hh]
    simp only [hb, Option.toList, List.mem_singleton, hnf, Bool.false_eq_true, false_and,
      or_false]
    tauto
  · rw [if_neg hh] at hb
    have hnf : d.isNameForm = true := by simp [Directive.isNameForm, hh]
    have hre : Directive.regexRule re d = none := by simp [Directive.regexRule, hh]
    simp only [hre, Option.toList, List.not_mem_nil, false_or, hnf, true_and]
    tauto


/-- The rules of a set built by a sequence of directives whose name-form keys are
pairwise distinct and not yet in the set: the rules before and the rules built from the
directives. -/
theorem addFilters_rules {R : Type} (H : Nat) (hH : 0 < H) (re : SimpleRegex R)
    (ds : List Directive) :
    ∀ (fs fs1 : CompilationFilters R), addFilters H re ds fs = some fs1 → RegexOk fs →
      distinctKeys R ds →
      (∀ x ∈ fs.treeRules H, ∀ d ∈ ds, d.isNameForm = true →
        ruleKey x ≠ ruleKey (d.rule : FilterInfo R)) →
      ∀ r, r ∈ fs1.allRules H ↔ r ∈ fs.allRules H ∨ r ∈ ds.filterMap (Directive.builtRule re) := by
  induction ds with
  | nil =>
    intro fs fs1 ha _ _ _ r
    simp only [addFilters, Option.some.injEq] at ha
    subst ha
    simp
  | cons d ds ih =>
    intro fs fs1 ha hok hdk hfr r
    simp only [addFilters] at ha
    cases hy : (addFilter H re d.filterString d.scanningExclude d.optionSetIndex d.lineNum
        (some fs)).filterBST with
    | none => rw [hy] at ha; simp at ha
    | some y =>
      rw [hy] at ha
      simp only at ha
      obtain ⟨hb, hrule, htree, hall⟩ := addFilter_rules H hH re d fs y hok hy
        (fun hnf x hx => hfr x hx d (List.mem_cons_self _ _) hnf)
      have hok2 := (addFilter_chain H re d fs y hok hy).2
      have hdk2 : distinctKeys R ds := by
        unfold distinctKeys at hdk ⊢
        by_cases hnf : d.isNameForm = true
        · rw [List.filter_cons_of_pos hnf, List.map_cons, List.nodup_cons] at hdk
          exact hdk.2
        · rw [List.filter_cons_of_neg hnf] at hdk
          exact hdk
      have hfr2 : ∀ x ∈ (addFilter H re d.filterString d.scanningExclude d.optionSetIndex
          d.lineNum (some fs)).filters.treeRules H, ∀ d1 ∈ ds, d1.isNameForm = true →
          ruleKey x ≠ ruleKey (d1.rule : FilterInfo R) := by
        intro x hx d1 hd1 hnf1
        rcases (htree x).1 hx with hx | ⟨hnf, hx⟩
        · exact hfr x hx d1 (List.mem_cons_of_mem _ hd1) hnf1
        · rw [hx, hrule hnf]
          unfold distinctKeys at hdk
          rw [List.filter_cons_of_pos hnf, List.map_cons, List.nodup_cons] at hdk
          intro hk
          apply hdk.1
          rw [hk]
          exact List.mem_map.2 ⟨d1, List.mem_filter.2 ⟨hd1, hnf1⟩, rfl⟩
      rw [ih _ fs1 ha hok2 hdk2 hfr2 r, hall r, List.filterMap_cons, hb]
      simp only [List.mem_cons]
      rw [or_assoc]

theorem rule_lineNumber {R : Type} (d : Directive) :
    (d.rule : FilterInfo R).lineNumber = d.lineNum := rfl

theorem builtRule_lineNumber {R : Type} (re : SimpleRegex R) (d : Directive) (r : FilterInfo R)
    (h : d.builtRule re = some r) : r.lineNumber = d.lineNum := by
  unfold Directive.builtRule at h
  split at h
  · exact (regexRule_kind re d r h).2.2.1
  · cases h; rfl

theorem lineDirectives_spec (Ls : List (List Char)) :
    ∀ (ln : Int) (ds : List Directive), lineDirectives Ls ln = some ds →
      ds.length = Ls.length ∧ ∀ d ∈ ds, ln < d.lineNum := by
  induction Ls with
  | nil =>
    intro ln ds h
    simp only [lineDirectives, Option.some.injEq] at h
    subst h
    simp
  | cons buf rest ih =>
    intro ln ds h
    simp only [lineDirectives] at h
    cases h1 : lineDirective buf (ln + 1) with
    | none => rw [h1] at h; simp at h
    | some d =>
      cases h2 : lineDirectives rest (ln + 1) with
      | none => rw [h1, h2] at h; simp at h
      | some ds1 =>
        rw [h1, h2] at h
        simp only [Option.some.injEq] at h
        subst h
        obtain ⟨hl, hn⟩ := ih (ln + 1) ds1 h2
        obtain ⟨_, _, _, _, _, _, hln⟩ := lineDirective_some _ _ _ h1
        refine ⟨by simp [hl], ?_⟩
        intro d1 hd1
        rcases List.mem_cons.1 hd1 with e | e
        · rw [e, hln]; omega
        · have := hn d1 e; omega

theorem addFilters_built {R : Type} (H : Nat) (re : SimpleRegex R) (ds : List Directive) :
    ∀ (fs fs1 : CompilationFilters R), addFilters H re ds fs = some fs1 → RegexOk fs →
      (ds.filterMap (Directive.builtRule re)).length = ds.length := by
  induction ds with
  | nil => intro _ _ _ _; rfl
  | cons d ds ih =>
    intro fs fs1 ha hok
    simp only [addFilters] at ha
    cases hy : (addFilter H re d.filterString d.scanningExclude d.optionSetIndex d.lineNum
        (some fs)).filterBST with
    | none => rw [hy] at ha; simp at ha
    | some y =>
      rw [hy] at ha
      simp only at ha
      have hb : d.builtRule re = some y := by
        rcases addFilter_some H re _ _ _ _ fs y hy with ⟨hh, rx, n, hc, e⟩ | ⟨hh, _, hno, e⟩ |
            ⟨hh, _, hno, e⟩
        · have h2 := hy
          rw [e, (addFilterFinish_fields _ _ _ _ _ _).1] at h2
          simp only [Directive.builtRule, hh, if_true, Directive.regexRule, hc, ← h2]
        · have h2 := hy
          rw [e, (addFilterFinish_fields _ _ _ _ _ _).1] at h2
          simp only [Directive.builtRule, hh, if_false, ← h2]
          rfl
        · have h2 := hy
          rw [e, (addFilterFinish_fields _ _ _ _ _ _).1] at h2
          simp only [Directive.builtRule, hh, if_false, ← h2]
          rfl
      rw [List.filterMap_cons, hb]
      simp only [List.length_cons]
      rw [ih _ fs1 ha (addFilter_chain H re d fs y hok hy).2]

theorem allRules_fresh {R : Type} (H : Nat) (dx : Bool) (r : FilterInfo R) :
    r ∉ ({ (clearFilters : CompilationFilters R) with defaultExclude := dx }).allRules H := by
  simp [CompilationFilters.allRules, mem_treeRules, clearFilters, TR_FilterBST.members,
    TR_FilterBST.chain]

theorem RegexOk_fresh {R : Type} (dx : Bool) :
    RegexOk ({ (clearFilters : CompilationFilters R) with defaultExclude := dx }) :=
  fun _ => rfl

theorem scanLoop_nil {R : Type} (H : Nat) (re : SimpleRegex R) (fuel : Nat) (ln : Int)
    (s : InlineFilters R) (f : Option (FilterInfo R)) (err : Bool) (h : 0 < fuel) :
    scanInlineFiltersLoop H re fuel [] ln s f err
      = some { ok := !err, rest := [], lineNumber := ln, filters := s } := by
  cases fuel with
  | zero => omega
  | succ n => simp only [scanInlineFiltersLoop]

end OMR

namespace OMR

/-- The lines that a call of the loop of `scanInlineFilters` leaves unread are a suffix of
the lines it was given, a proper one when there was a line to read. -/
theorem scanInlineFiltersLoop_rest {R : Type} (H : Nat) (re : SimpleRegex R) (fuel : Nat) :
    ∀ (lines : List (List Char)) (ln : Int) (s : InlineFilters R) (f : Option (FilterInfo R))
      (err : Bool) (r : InlineScan R),
      scanInlineFiltersLoop H re fuel lines ln s f err = some r →
      ∃ P, lines = P ++ r.rest ∧ (lines ≠ [] → P ≠ []) := by
  induction fuel with
  | zero => intro lines ln s f err r h; simp [scanInlineFiltersLoop] at h
  | succ fuel ih =>
    intro lines ln s f err r h
    cases lines with
    | nil =>
      simp only [scanInlineFiltersLoop, Option.some.injEq] at h
      subst h
      exact ⟨[], rfl, fun h => absurd rfl h⟩
    | cons buf rest =>
      have wrap : ∀ r1 : InlineScan R, (∃ P, rest = P ++ r1.rest ∧ (rest ≠ [] → P ≠ [])) →
          ∃ P, buf :: rest = P ++ r1.rest ∧ (buf :: rest ≠ [] → P ≠ []) := by
        rintro r1 ⟨P, e, _⟩
        exact ⟨buf :: P, by rw [List.cons_append, ← e], fun _ => List.cons_ne_nil _ _⟩
      have here : ∀ r1 : InlineScan R, r1.rest = rest →
          ∃ P, buf :: rest = P ++ r1.rest ∧ (buf :: rest ≠ [] → P ≠ []) := by
        intro r1 e
        exact ⟨[buf], by rw [e]; rfl, fun _ => List.cons_ne_nil _ _⟩
      simp only [scanInlineFiltersLoop] at h
      split at h
      · cases f with
        | none => exact wrap r (ih _ _ _ _ _ _ h)
        | some f =>
          simp only at h
          split at h
          · cases h
          · rename_i r1 h1
            obtain ⟨P1, e1, _⟩ := ih _ _ _ _ _ _ h1
            obtain ⟨P2, e2, _⟩ := ih _ _ _ _ _ _ h
            exact ⟨buf :: (P1 ++ P2), by rw [List.cons_append, List.append_assoc, ← e2, ← e1],
              fun _ => List.cons_ne_nil _ _⟩
      · split at h
        · simp only [Option.some.injEq] at h
          exact here r (by rw [← h])
        · split at h
          · split at h
            · simp only [Option.some.injEq] at h
              exact here r (by rw [← h])
            · split at h
              · simp only [Option.some.injEq] at h
                exact here r (by rw [← h])
              · exact wrap r (ih _ _ _ _ _ _ h)
          · exact wrap r (ih _ _ _ _ _ _ h)

/-- More fuel does not change what the loop of `scanInlineFilters` returns. -/
theorem scanInlineFiltersLoop_fuel {R : Type} (H : Nat) (re : SimpleRegex R) (fuel : Nat) :
    ∀ (lines : List (List Char)) (ln : Int) (s : InlineFilters R) (f : Option (FilterInfo R))
      (err : Bool) (r : InlineScan R),
      scanInlineFiltersLoop H re fuel lines ln s f err = some r →
      scanInlineFiltersLoop H re (fuel + 1) lines ln s f err = some r := by
  induction fuel with
  | zero => intro lines ln s f err r h; simp [scanInlineFiltersLoop] at h
  | succ fuel ih =>
    intro lines ln s f err r h
    cases lines with
    | nil =>
      simp only [scanInlineFiltersLoop] at h ⊢
      exact h
    | cons buf rest =>
      by_cases hb : buf.head? = some '['
      · cases f with
        | none =>
          simp only [scanInlineFiltersLoop, hb, if_true] at h ⊢
          exact ih _ _ _ _ _ _ h
        | some f =>
          simp only [scanInlineFiltersLoop, hb, if_true] at h ⊢
          split at h
          · cases h
          · rename_i r1 h1
            rw [ih _ _ _ _ _ _ h1]
            exact ih _ _ _ _ _ _ h
      · by_cases hc : buf.head? = some ']'
        · simp only [scanInlineFiltersLoop, hb, hc, if_true, if_false] at h ⊢
          exact h
        · by_cases hd : buf.head? = some '+' ∨ buf.head? = some '-'
          · simp only [scanInlineFiltersLoop, hb, hc, hd, if_true, if_false] at h ⊢
            split
            · rename_i hr
              rw [hr] at h
              exact h
            · rename_i res hr
              rw [hr] at h
              simp only at h ⊢
              split
              · rename_i hy
                rw [hy] at h
                exact h
              · rename_i y hy
                rw [hy] at h
                exact ih _ _ _ _ _ _ h
          · simp only [scanInlineFiltersLoop, hb, hc, hd, if_true, if_false] at h ⊢
            exact ih _ _ _ _ _ _ h

theorem scanInlineFiltersLoop_fuel_add {R : Type} (H : Nat) (re : SimpleRegex R) (fuel n : Nat)
    (lines : List (List Char)) (ln : Int) (s : InlineFilters R) (f : Option (FilterInfo R))
    (err : Bool) (r : InlineScan R)
    (h : scanInlineFiltersLoop H re fuel lines ln s f err = some r) :
    scanInlineFiltersLoop H re (fuel + n) lines ln s f err = some r := by
  induction n with
  | zero => exact h
  | succ n ih => exact scanInlineFiltersLoop_fuel H re _ _ _ _ _ _ _ ih

/-- The iteration of the loop of `scanInlineFilters` on a `[` line when a rule has been
added: the nested call, then the rest of the loop. -/
theorem scanLoop_group {R : Type} (H : Nat) (re : SimpleRegex R) (fuel : Nat) (buf : List Char)
    (rest : List (List Char)) (ln : Int) (s : InlineFilters R) (f : FilterInfo R) (err : Bool)
    (hflag : buf.head? = some '[') :
    scanInlineFiltersLoop H re (fuel + 1) (buf :: rest) ln s (some f) err =
      match scanInlineFiltersLoop H re fuel rest (ln + 1) (s.openSubGroup f.lineNumber)
        none false with
      | none => none
      | some r =>
        scanInlineFiltersLoop H re fuel r.rest r.lineNumber (s.setSubGroup f.lineNumber r.filters)
          (some f) (!r.ok) := by
  simp only [scanInlineFiltersLoop, hflag, if_true, InlineFilters.openSubGroup]

/-- An iteration of the loop of `scanInlineFilters` that ignores its line. -/
theorem scanLoop_ignored {R : Type} (H : Nat) (re : SimpleRegex R) (fuel : Nat) (buf : List Char)
    (rest : List (List Char)) (ln : Int) (s : InlineFilters R) (f : Option (FilterInfo R))
    (err : Bool)
    (hflag : buf.head? = some '[' ∧ f = none ∨
      buf.head? ≠ some '[' ∧ buf.head? ≠ some ']' ∧ buf.head? ≠ some '+' ∧ buf.head? ≠ some '-') :
    scanInlineFiltersLoop H re (fuel + 1) (buf :: rest) ln s f err =
      scanInlineFiltersLoop H re fuel rest (ln + 1) s f err := by
  rcases hflag with ⟨hb, hf⟩ | ⟨hb, hc, hp, hm⟩
  · subst hf
    simp only [scanInlineFiltersLoop, hb, if_true]
  · simp only [scanInlineFiltersLoop, hb, hc, hp, hm, if_false, or_self]

/-- An iteration of the loop of `scanInlineFilters` on a rule line that adds a rule. -/
theorem scanLoop_rule {R : Type} (H : Nat) (re : SimpleRegex R) (fuel : Nat) (buf : List Char)
    (rest : List (List Char)) (ln : Int) (s : InlineFilters R) (f : Option (FilterInfo R))
    (err : Bool) (res : AddFilterResult R) (y : FilterInfo R)
    (hflag : buf.head? = some '+' ∨ buf.head? = some '-')
    (hline : ruleLine H re (buf.headD '+') (buf.drop 1) (ln + 1) s.filters = some res)
    (hy : res.filterBST = some y) :
    scanInlineFiltersLoop H re (fuel + 1) (buf :: rest) ln s f err =
      scanInlineFiltersLoop H re fuel rest (ln + 1) (s.setFilters res.filters) (some y) err := by
  have hb : buf.head? ≠ some '[' := by
    rcases hflag with e | e <;> rw [e] <;> decide
  have hc : buf.head? ≠ some ']' := by
    rcases hflag with e | e <;> rw [e] <;> decide
  simp only [scanInlineFiltersLoop, hb, hc, if_false, hflag, if_true, hline, hy]

/-- The iteration of the loop of `scanInlineFilters` on a `]` line: the function returns
true. -/
theorem scanLoop_close {R : Type} (H : Nat) (re : SimpleRegex R) (fuel : Nat) (buf : List Char)
    (rest : List (List Char)) (ln : Int) (s : InlineFilters R) (f : Option (FilterInfo R))
    (err : Bool) (hflag : buf.head? = some ']') :
    scanInlineFiltersLoop H re (fuel + 1) (buf :: rest) ln s f err =
      some { ok := true, rest := rest, lineNumber := ln + 1, filters := s } := by
  have hb : buf.head? ≠ some '[' := by rw [hflag]; decide
  simp only [scanInlineFiltersLoop, if_neg hb, if_pos hflag]

/-- The loop of `scanInlineFilters` returns from a state what it returns from any state
that it comes back to at the head of the loop. -/
theorem TopLevelReaches.returns {R : Type} {H : Nat} {re : SimpleRegex R} {st st2 : InlineLoop R}
    (h : TopLevelReaches H re st st2) :
    ∀ (fuel : Nat) (r : InlineScan R),
      scanInlineFiltersLoop H re fuel st2.rest st2.lineNumber st2.filters st2.filter
        st2.inlineFileError = some r →
      ∃ fuel1, scanInlineFiltersLoop H re fuel1 st.rest st.lineNumber st.filters st.filter
        st.inlineFileError = some r := by
  induction h with
  | here st => intro fuel r h; exact ⟨fuel, h⟩
  | ignored buf rest ln s f err st hflag _ ih =>
    intro fuel r h
    obtain ⟨fuel1, h1⟩ := ih fuel r h
    exact ⟨fuel1 + 1, by rw [scanLoop_ignored H re fuel1 buf rest ln s f err hflag]; exact h1⟩
  | rule buf rest ln s f err res y st hflag hline hy _ ih =>
    intro fuel r h
    obtain ⟨fuel1, h1⟩ := ih fuel r h
    exact ⟨fuel1 + 1, by
      rw [scanLoop_rule H re fuel1 buf rest ln s f err res y hflag hline hy]; exact h1⟩
  | group buf rest ln s f err fuelg rg st hflag hcall _ ih =>
    intro fuel r h
    obtain ⟨fuel1, h1⟩ := ih fuel r h
    refine ⟨fuel1 + fuelg + 1, ?_⟩
    have e1 := scanInlineFiltersLoop_fuel_add H re fuelg fuel1 _ _ _ _ _ _ hcall
    rw [Nat.add_comm fuelg fuel1] at e1
    rw [scanLoop_group H re _ buf rest ln s f err hflag, e1]
    exact scanInlineFiltersLoop_fuel_add H re fuel1 fuelg _ _ _ _ _ _ h1

/-- The lines unread in a state that the loop comes back to are a suffix of the lines
unread before. -/
theorem TopLevelReaches.suffix {R : Type} {H : Nat} {re : SimpleRegex R} {st st2 : InlineLoop R}
    (h : TopLevelReaches H re st st2) : ∃ P, st.rest = P ++ st2.rest := by
  induction h with
  | here st => exact ⟨[], rfl⟩
  | ignored buf rest ln s f err st _ _ ih =>
    obtain ⟨P, e⟩ := ih
    exact ⟨buf :: P, by simp only at e ⊢; rw [e]; rfl⟩
  | rule buf rest ln s f err res y st _ _ _ _ ih =>
    obtain ⟨P, e⟩ := ih
    exact ⟨buf :: P, by simp only at e ⊢; rw [e]; rfl⟩
  | group buf rest ln s f err fuelg rg st _ hcall _ ih =>
    obtain ⟨P, e⟩ := ih
    obtain ⟨P1, e1, _⟩ := scanInlineFiltersLoop_rest H re _ _ _ _ _ _ _ hcall
    exact ⟨buf :: (P1 ++ P), by simp only at e ⊢; rw [e1, e]; simp⟩

/-- The iteration of the loop of `scanInlineFilters` on a rule line that is rejected
before `addFilter` is called: the function returns false. -/
theorem scanLoop_rule_rejected {R : Type} (H : Nat) (re : SimpleRegex R) (fuel : Nat)
    (buf : List Char) (rest : List (List Char)) (ln : Int) (s : InlineFilters R)
    (f : Option (FilterInfo R)) (err : Bool)
    (hflag : buf.head? = some '+' ∨ buf.head? = some '-')
    (hline : ruleLine H re (buf.headD '+') (buf.drop 1) (ln + 1) s.filters = none) :
    scanInlineFiltersLoop H re (fuel + 1) (buf :: rest) ln s f err =
      some { ok := false, rest := rest, lineNumber := ln + 1, filters := s } := by
  have hb : buf.head? ≠ some '[' := by
    rcases hflag with e | e <;> rw [e] <;> decide
  have hc : buf.head? ≠ some ']' := by
    rcases hflag with e | e <;> rw [e] <;> decide
  simp only [scanInlineFiltersLoop, hb, hc, if_false, hflag, if_true, hline]

/-- The iteration of the loop of `scanInlineFilters` on a rule line whose method text
`addFilter` rejects: the function returns false. -/
theorem scanLoop_rule_failed {R : Type} (H : Nat) (re : SimpleRegex R) (fuel : Nat)
    (buf : List Char) (rest : List (List Char)) (ln : Int) (s : InlineFilters R)
    (f : Option (FilterInfo R)) (err : Bool) (res : AddFilterResult R)
    (hflag : buf.head? = some '+' ∨ buf.head? = some '-')
    (hline : ruleLine H re (buf.headD '+') (buf.drop 1) (ln + 1) s.filters = some res)
    (hy : res.filterBST = none) :
    scanInlineFiltersLoop H re (fuel + 1) (buf :: rest) ln s f err =
      some { ok := false, rest := rest, lineNumber := ln + 1
             filters := s.setFilters res.filters } := by
  have hb : buf.head? ≠ some '[' := by
    rcases hflag with e | e <;> rw [e] <;> decide
  have hc : buf.head? ≠ some ']' := by
    rcases hflag with e | e <;> rw [e] <;> decide
  simp only [scanInlineFiltersLoop, hb, hc, if_false, hflag, if_true, hline, hy]

/-- A call of the loop of `scanInlineFilters` that leaves a tail of lines unread does not
depend on that tail: with any other tail in its place it returns the same, with that
other tail unread. -/
theorem scanInlineFiltersLoop_local {R : Type} (H : Nat) (re : SimpleRegex R) (fuel : Nat) :
    ∀ (A B : List (List Char)) (ln : Int) (s : InlineFilters R) (f : Option (FilterInfo R))
      (err : Bool) (r : InlineScan R) (C : List (List Char)), B ≠ [] →
      scanInlineFiltersLoop H re fuel (A ++ B) ln s f err = some r → r.rest = C ++ B →
      ∀ B1 : List (List Char),
        scanInlineFiltersLoop H re fuel (A ++ B1) ln s f err = some { r with rest := C ++ B1 } := by
  induction fuel with
  | zero => intro A B ln s f err r C _ h; simp [scanInlineFiltersLoop] at h
  | succ fuel ih =>
    intro A B ln s f err r C hB h hr B1
    cases A with
    | nil =>
      exfalso
      rw [List.nil_append] at h
      obtain ⟨P, e, hP⟩ := scanInlineFiltersLoop_rest H re _ _ _ _ _ _ _ h
      have hl := congrArg List.length e
      rw [hr] at hl
      simp only [List.length_append] at hl
      have : P = [] := List.length_eq_zero.1 (by omega)
      exact hP hB this
    | cons buf A1 =>
      rw [List.cons_append] at h ⊢
      by_cases hb : buf.head? = some '['
      · cases f with
        | none =>
          rw [scanLoop_ignored H re fuel buf _ ln s none err (Or.inl ⟨hb, rfl⟩)] at h ⊢
          exact ih _ _ _ _ _ _ _ _ hB h hr B1
        | some f =>
          rw [scanLoop_group H re fuel buf _ ln s f err hb] at h ⊢
          cases hin : scanInlineFiltersLoop H re fuel (A1 ++ B) (ln + 1)
              (s.openSubGroup f.lineNumber) none false with
          | none => rw [hin] at h; cases h
          | some r1 =>
            rw [hin] at h
            simp only at h
            obtain ⟨P2, e2, _⟩ := scanInlineFiltersLoop_rest H re _ _ _ _ _ _ _ h
            have e3 : r1.rest = (P2 ++ C) ++ B := by rw [e2, hr, List.append_assoc]
            rw [ih _ _ _ _ _ _ _ _ hB hin e3 B1]
            simp only
            rw [e3] at h
            exact ih _ _ _ _ _ _ _ _ hB h hr B1
      · by_cases hc : buf.head? = some ']'
        · rw [scanLoop_close H re fuel buf _ ln s f err hc] at h ⊢
          simp only [Option.some.injEq] at h
          subst h
          simp only at hr
          rw [List.append_cancel_right hr]
        · by_cases hd : buf.head? = some '+' ∨ buf.head? = some '-'
          · cases hl : ruleLine H re (buf.headD '+') (buf.drop 1) (ln + 1) s.filters with
            | none =>
              rw [scanLoop_rule_rejected H re fuel buf _ ln s f err hd hl] at h ⊢
              simp only [Option.some.injEq] at h
              subst h
              simp only at hr
              rw [List.append_cancel_right hr]
            | some res =>
              cases hy : res.filterBST with
              | none =>
                rw [scanLoop_rule_failed H re fuel buf _ ln s f err res hd hl hy] at h ⊢
                simp only [Option.some.injEq] at h
                subst h
                simp only at hr
                rw [List.append_cancel_right hr]
              | some y =>
                rw [scanLoop_rule H re fuel buf _ ln s f err res y hd hl hy] at h ⊢
                exact ih _ _ _ _ _ _ _ _ hB h hr B1
          · have hi : buf.head? = some '[' ∧ f = none ∨
                buf.head? ≠ some '[' ∧ buf.head? ≠ some ']' ∧ buf.head? ≠ some '+' ∧
                  buf.head? ≠ some '-' :=
              Or.inr ⟨hb, hc, fun e => hd (Or.inl e), fun e => hd (Or.inr e)⟩
            rw [scanLoop_ignored H re fuel buf _ ln s f err hi] at h ⊢
            exact ih _ _ _ _ _ _ _ _ hB h hr B1

/-- The iterations that bring the loop back to its head with a tail of lines unread do
not depend on that tail: they do the same with any other tail in its place. -/
theorem TopLevelReaches.truncate {R : Type} {H : Nat} {re : SimpleRegex R}
    {st st2 : InlineLoop R} (h : TopLevelReaches H re st st2) :
    ∀ (A B : List (List Char)), st.rest = A ++ B → st2.rest = B → B ≠ [] →
      ∀ B1 : List (List Char),
        TopLevelReaches H re { st with rest := A ++ B1 } { st2 with rest := B1 } := by
  induction h with
  | here st =>
    intro A B e1 e2 _ B1
    have hl := congrArg List.length e1
    rw [e2] at hl
    simp only [List.length_append] at hl
    have hA : A = [] := List.length_eq_zero.1 (by omega)
    subst hA
    exact TopLevelReaches.here _
  | ignored buf rest ln s f err st hflag hnext ih =>
    intro A B e1 e2 hB B1
    simp only at e1
    cases A with
    | nil =>
      exfalso
      obtain ⟨P, e⟩ := hnext.suffix
      simp only at e
      rw [List.nil_append] at e1
      have hl := congrArg List.length e
      rw [e2, ← e1] at hl
      simp only [List.length_append, List.length_cons] at hl
      omega
    | cons a A1 =>
      rw [List.cons_append] at e1
      injection e1 with ea er
      subst ea
      exact TopLevelReaches.ignored buf (A1 ++ B1) ln s f err _ hflag (ih A1 B er e2 hB B1)
  | rule buf rest ln s f err res y st hflag hline hy hnext ih =>
    intro A B e1 e2 hB B1
    simp only at e1
    cases A with
    | nil =>
      exfalso
      obtain ⟨P, e⟩ := hnext.suffix
      simp only at e
      rw [List.nil_append] at e1
      have hl := congrArg List.length e
      rw [e2, ← e1] at hl
      simp only [List.length_append, List.length_cons] at hl
      omega
    | cons a A1 =>
      rw [List.cons_append] at e1
      injection e1 with ea er
      subst ea
      exact TopLevelReaches.rule buf (A1 ++ B1) ln s f err res y _ hflag hline hy (ih A1 B er e2 hB B1)
  | group buf rest ln s f err fuelg rg st hflag hcall hnext ih =>
    intro A B e1 e2 hB B1
    simp only at e1
    obtain ⟨P, e⟩ := hnext.suffix
    simp only at e
    rw [e2] at e
    cases A with
    | nil =>
      exfalso
      obtain ⟨P1, ep, _⟩ := scanInlineFiltersLoop_rest H re _ _ _ _ _ _ _ hcall
      rw [List.nil_append] at e1
      have hl := congrArg List.length ep
      rw [e, ← e1] at hl
      simp only [List.length_append, List.length_cons] at hl
      omega
    | cons a A1 =>
      rw [List.cons_append] at e1
      injection e1 with ea er
      subst ea
      rw [er] at hcall
      have hloc := scanInlineFiltersLoop_local H re fuelg A1 B _ _ _ _ rg P hB hcall e B1
      exact TopLevelReaches.group buf (A1 ++ B1) ln s f err fuelg { rg with rest := P ++ B1 } _
        hflag hloc (ih P B e e2 hB B1)

/-- An empty buffer is a line that the loop of `limitfileOption` ignores. -/
theorem limitFileLine_empty {R : Type} (H : Nat) (re : SimpleRegex R) (SIZE : Nat)
    (hp ll : Bool) (bh : Option (List Char)) (st : LimitFileState R) :
    limitFileLine H re SIZE hp ll bh [] st = some (st, false) := by
  unfold limitFileLine
  simp [strncmp]

theorem limitFileAdd_fields {R : Type} (st : LimitFileState R)
    (r : Option (FilterInfo R) × TR_Debug R) :
    (limitFileAdd st r).1.lineNumber = st.lineNumber ∧
    (limitFileAdd st r).1.random = st.random ∧
    (limitFileAdd st r).1.debug = r.2 ∧
    (st.limitFileError = true → (limitFileAdd st r).1.limitFileError = true) ∧
    ((limitFileAdd st r).2 = true → (limitFileAdd st r).1.limitFileError = true) ∧
    ((limitFileAdd st r).2 = false → (limitFileAdd st r).1.limitFileError = st.limitFileError) := by
  unfold limitFileAdd
  split <;> simp

/-- A line of a limit file does not change the line counter. -/
theorem limitFileLine_lineNumber {R : Type} (H : Nat) (re : SimpleRegex R) (SIZE : Nat)
    (hp ll : Bool) (bh : Option (List Char)) (buf : List Char) (st st1 : LimitFileState R) (b : Bool)
    (h : limitFileLine H re SIZE hp ll bh buf st = some (st1, b)) :
    st1.lineNumber = st.lineNumber := by
  unfold limitFileLine at h
  simp only at h
  split at h
  · split at h
    · cases h
    · simp only [Option.some.injEq] at h
      rw [← (limitFileAdd_fields st _).1, h]
  · split at h
    · split at h
      · cases h
      · simp only [Option.some.injEq] at h
        rw [← (limitFileAdd_fields st _).1, h]
    · split at h
      · split at h
        · simp only [Option.some.injEq, Prod.mk.injEq] at h
          rw [← h.1]
        · simp only [Option.some.injEq] at h
          rw [← (limitFileAdd_fields st _).1, h]
      · split at h
        · split at h
          · simp only [Option.some.injEq, Prod.mk.injEq] at h
            rw [← h.1]
          · split at h
            · cases h
            · simp only [Option.some.injEq, Prod.mk.injEq] at h
              rw [← h.1]
        · simp only [Option.some.injEq, Prod.mk.injEq] at h
          rw [← h.1]

/-- The loop of `limitfileOption` with a range does what the loop with a range that holds
every line number does on the file with the lines outside the range blanked. -/
theorem limitFileLoop_mask {R : Type} (H : Nat) (re : SimpleRegex R) (SIZE : Nat)
    (hp ll : Bool) (bh : Int → Option (List Char)) (first last lo hi : Int) (lines : List (List Char)) :
    ∀ st : LimitFileState R, lo ≤ st.lineNumber + 1 → st.lineNumber + lines.length ≤ hi →
      limitFileLoop H re SIZE hp ll bh first last lines st =
        limitFileLoop H re SIZE hp ll bh lo hi (maskLines first last st.lineNumber lines) st := by
  induction lines with
  | nil => intro st _ _; rfl
  | cons buf rest ih =>
    intro st hlo hhi
    simp only [List.length_cons, Nat.cast_add, Nat.cast_one] at hhi
    have hin : ¬ (st.lineNumber + 1 < lo ∨ st.lineNumber + 1 > hi) := by
      have : (0 : Int) ≤ rest.length := Int.natCast_nonneg _
      omega
    have ih1 := ih { st with lineNumber := st.lineNumber + 1 } (by simp only; omega)
      (by simp only; omega)
    simp only [maskLines, limitFileLoop, hin, if_false]
    by_cases hr : st.lineNumber + 1 < first ∨ st.lineNumber + 1 > last
    · simp only [hr, if_true, limitFileLine_empty]
      exact ih1
    · simp only [hr, if_false]
      cases hl : limitFileLine H re SIZE hp ll (bh (st.lineNumber + 1)) buf
          { st with lineNumber := st.lineNumber + 1 } with
      | none => rfl
      | some res =>
        obtain ⟨st1, b⟩ := res
        cases b with
        | true => rfl
        | false =>
          simp only
          have hln := limitFileLine_lineNumber H re SIZE hp ll _ buf _ st1 false hl
          simp only at hln
          have := ih st1 (by rw [hln]; omega) (by rw [hln]; omega)
          rw [hln] at this
          exact this

theorem maskLines_getD (first last : Int) (lines : List (List Char)) :
    ∀ (ln : Int) (n : Nat), (maskLines first last ln lines).getD n [] =
      if first ≤ ln + n + 1 ∧ ln + n + 1 ≤ last then lines.getD n [] else [] := by
  induction lines with
  | nil => intro ln n; simp [maskLines]
  | cons buf rest ih =>
    intro ln n
    cases n with
    | zero =>
      simp only [maskLines, List.getD_cons_zero, Nat.cast_zero, add_zero]
      by_cases h : ln + 1 < first ∨ ln + 1 > last
      · rw [if_pos h, if_neg (by omega)]
      · rw [if_neg h, if_pos (by omega)]
    | succ n =>
      simp only [maskLines, List.getD_cons_succ, ih (ln + 1) n, Nat.cast_add, Nat.cast_one]
      have e : ln + 1 + (n : Int) + 1 = ln + ((n : Int) + 1) + 1 := by ring
      rw [e]

theorem maskLines_all (lo hi : Int) (lines : List (List Char)) :
    ∀ ln : Int, lo ≤ ln + 1 → ln + lines.length ≤ hi → maskLines lo hi ln lines = lines := by
  induction lines with
  | nil => intro ln _ _; rfl
  | cons buf rest ih =>
    intro ln hlo hhi
    simp only [List.length_cons, Nat.cast_add, Nat.cast_one] at hhi
    have : (0 : Int) ≤ rest.length := Int.natCast_nonneg _
    have hin : ¬ (ln + 1 < lo ∨ ln + 1 > hi) := by omega
    simp only [maskLines, hin, if_false]
    rw [ih (ln + 1) (by omega) (by omega)]

/-- A call of `addFilter` on an existing set whose default is exclude leaves the default
at exclude, whether or not it returns a filter. -/
theorem addFilter_keeps_exclude {R : Type} (H : Nat) (re : SimpleRegex R) (s : List Char)
    (ex osi ln : Int) (fs : CompilationFilters R) (hd : fs.defaultExclude = true) :
    (addFilter H re s ex osi ln (some fs)).filters.defaultExclude = true := by
  cases hb : (addFilter H re s ex osi ln (some fs)).filterBST with
  | none =>
    rw [((addFilter_none H re s ex osi ln (some fs)).2 hb).1]
    exact hd
  | some y =>
    rw [addFilter_defaultExclude H re s ex osi ln fs y hb, hd]
    rfl

theorem selected_setSelected {R : Type} (debug : TR_Debug R) (ll : Bool)
    (fs : CompilationFilters R) : (debug.setSelected ll fs).selected ll = some fs := by
  cases ll <;> rfl

theorem debugAddFilter_excludes {R : Type} (H : Nat) (re : SimpleRegex R) (debug : TR_Debug R)
    (s : List Char) (ex osi ln : Int) (ll : Bool) (h : SelectedExcludes ll debug) :
    SelectedExcludes ll (debug.addFilter H re s ex osi ln ll).2 := by
  obtain ⟨fs, hs, hd⟩ := h
  unfold TR_Debug.addFilter
  simp only [hs]
  exact ⟨_, selected_setSelected _ _ _, addFilter_keeps_exclude H re s ex osi ln fs hd⟩

theorem limitFileLine_excludes {R : Type} (H : Nat) (re : SimpleRegex R) (SIZE : Nat)
    (hp ll : Bool) (bh : Option (List Char)) (buf : List Char) (st st1 : LimitFileState R) (b : Bool)
    (h : limitFileLine H re SIZE hp ll bh buf st = some (st1, b))
    (hs : SelectedExcludes ll st.debug) : SelectedExcludes ll st1.debug := by
  unfold limitFileLine at h
  simp only at h
  split at h
  · split at h
    · cases h
    · simp only [Option.some.injEq] at h
      have e := congrArg Prod.fst h
      simp only at e
      subst e
      rw [(limitFileAdd_fields st _).2.2.1]
      exact debugAddFilter_excludes H re _ _ _ _ _ _ hs
  · split at h
    · split at h
      · cases h
      · simp only [Option.some.injEq] at h
        have e := congrArg Prod.fst h
        simp only at e
        subst e
        rw [(limitFileAdd_fields st _).2.2.1]
        exact debugAddFilter_excludes H re _ _ _ _ _ _ hs
    · split at h
      · split at h
        · simp only [Option.some.injEq, Prod.mk.injEq] at h
          rw [← h.1]; exact hs
        · simp only [Option.some.injEq] at h
          have e := congrArg Prod.fst h
          simp only at e
          subst e
          rw [(limitFileAdd_fields st _).2.2.1]
          exact debugAddFilter_excludes H re _ _ _ _ _ _ hs
      · split at h
        · split at h
          · simp only [Option.some.injEq, Prod.mk.injEq] at h
            rw [← h.1]; exact hs
          · split at h
            · cases h
            · simp only [Option.some.injEq, Prod.mk.injEq] at h
              rw [← h.1]; exact hs
        · simp only [Option.some.injEq, Prod.mk.injEq] at h
          rw [← h.1]; exact hs

theorem limitFileLoop_excludes {R : Type} (H : Nat) (re : SimpleRegex R) (SIZE : Nat)
    (hp ll : Bool) (bh : Int → Option (List Char)) (first last : Int) (lines : List (List Char)) :
    ∀ (st st1 : LimitFileState R) (b : Bool),
      limitFileLoop H re SIZE hp ll bh first last lines st = some (st1, b) →
      SelectedExcludes ll st.debug → SelectedExcludes ll st1.debug := by
  induction lines with
  | nil =>
    intro st st1 b h hs
    simp only [limitFileLoop, Option.some.injEq, Prod.mk.injEq] at h
    rw [← h.1]; exact hs
  | cons buf rest ih =>
    intro st st1 b h hs
    simp only [limitFileLoop] at h
    split at h
    · exact ih _ _ _ h hs
    · split at h
      · cases h
      · rename_i st2 hl
        simp only [Option.some.injEq, Prod.mk.injEq] at h
        rw [← h.1]
        exact limitFileLine_excludes H re SIZE hp ll _ buf _ st2 true hl hs
      · rename_i st2 hl
        exact ih _ _ _ h (limitFileLine_excludes H re SIZE hp ll _ buf _ st2 false hl hs)

/-- When `methodSigCanBeFound`, called with no prior matched rule, reports no rule, the
boolean it returns is the negation of the `defaultExclude` flag. -/
theorem methodSigCanBeFound_null {R : Type} (H : Nat) (re : SimpleRegex R)
    (methodSig : List Char) (fs : CompilationFilters R) (methodType : MethodType)
    (allowed : Bool)
    (h : methodSigCanBeFound H re methodSig fs .null methodType = some (allowed, .null)) :
    allowed = !fs.defaultExclude := by
  unfold methodSigCanBeFound at h
  cases hs : splitMethodSig methodSig methodType with
  | none => simp [hs] at h
  | some p =>
    simp only [hs] at h
    split at h
    · cases h
    · rename_i filter _
      simp only [Option.some.injEq, Prod.mk.injEq] at h
      obtain ⟨ha, ht⟩ := h
      subst ht
      rw [← ha]

theorem ruleLine_keeps_exclude {R : Type} (H : Nat) (re : SimpleRegex R) (flag : Char)
    (p : List Char) (ln : Int) (fs : CompilationFilters R) (res : AddFilterResult R)
    (h : ruleLine H re flag p ln fs = some res) (hd : fs.defaultExclude = true) :
    res.filters.defaultExclude = true := by
  unfold ruleLine at h
  split at h
  · cases h
  · simp only [Option.some.injEq] at h
    rw [← h]
    exact addFilter_keeps_exclude H re _ _ _ _ fs hd

/-- The top-level set of a call of the loop of `scanInlineFilters` keeps a default that is
exclude. -/
theorem scanInlineFiltersLoop_excludes {R : Type} (H : Nat) (re : SimpleRegex R) (fuel : Nat) :
    ∀ (lines : List (List Char)) (ln : Int) (s : InlineFilters R) (f : Option (FilterInfo R))
      (err : Bool) (r : InlineScan R),
      scanInlineFiltersLoop H re fuel lines ln s f err = some r →
      s.filters.defaultExclude = true → r.filters.filters.defaultExclude = true := by
  induction fuel with
  | zero => intro lines ln s f err r h; simp [scanInlineFiltersLoop] at h
  | succ fuel ih =>
    intro lines ln s f err r h hd
    cases lines with
    | nil =>
      simp only [scanInlineFiltersLoop, Option.some.injEq] at h
      rw [← h]; exact hd
    | cons buf rest =>
      by_cases hb : buf.head? = some '['
      · cases f with
        | none =>
          rw [scanLoop_ignored H re fuel buf _ ln s none err (Or.inl ⟨hb, rfl⟩)] at h
          exact ih _ _ _ _ _ _ h hd
        | some f =>
          rw [scanLoop_group H re fuel buf _ ln s f err hb] at h
          split at h
          · cases h
          · exact ih _ _ _ _ _ _ h (by cases s; exact hd)
      · by_cases hc : buf.head? = some ']'
        · rw [scanLoop_close H re fuel buf _ ln s f err hc] at h
          simp only [Option.some.injEq] at h
          rw [← h]; exact hd
        · by_cases hp : buf.head? = some '+' ∨ buf.head? = some '-'
          · cases hl : ruleLine H re (buf.headD '+') (buf.drop 1) (ln + 1) s.filters with
            | none =>
              rw [scanLoop_rule_rejected H re fuel buf _ ln s f err hp hl] at h
              simp only [Option.some.injEq] at h
              rw [← h]; exact hd
            | some res =>
              have hres := ruleLine_keeps_exclude H re _ _ _ _ res hl hd
              cases hy : res.filterBST with
              | none =>
                rw [scanLoop_rule_failed H re fuel buf _ ln s f err res hp hl hy] at h
                simp only [Option.some.injEq] at h
                rw [← h]; cases s; exact hres
              | some y =>
                rw [scanLoop_rule H re fuel buf _ ln s f err res y hp hl hy] at h
                exact ih _ _ _ _ _ _ h (by cases s; exact hres)
          · have hi : buf.head? = some '[' ∧ f = none ∨
                buf.head? ≠ some '[' ∧ buf.head? ≠ some ']' ∧ buf.head? ≠ some '+' ∧
                  buf.head? ≠ some '-' :=
              Or.inr ⟨hb, hc, fun e => hp (Or.inl e), fun e => hp (Or.inr e)⟩
            rw [scanLoop_ignored H re fuel buf _ ln s f err hi] at h
            exact ih _ _ _ _ _ _ h hd

/-- The three ways in which a call of `limitfileOption` returns. -/
theorem limitfileOption_some {R : Type} (H : Nat) (re : SimpleRegex R) (SIZE : Nat)
    (getNumericValue : List Char → Int × List Char)
    (fopen : List Char → Option (List (List Char))) (option : List Char) (debug : TR_Debug R)
    (ll : Bool) (ptr : Option (List TR_PseudoRandomNumbersListElement))
    (res : LimitFileResult R)
    (h : limitfileOption H re SIZE getNumericValue fopen option debug ll ptr = some res) :
    (limitFileOptionParts getNumericValue option = none ∧
      res = { ret := option, debug := debug, pseudoRandomList := ptr }) ∨
    (∃ parts, limitFileOptionParts getNumericValue option = some parts ∧
      fopen parts.limitFileName = none ∧
      res = { ret := option, debug := debug, pseudoRandomList := ptr }) ∨
    (∃ parts lines st b, limitFileOptionParts getNumericValue option = some parts ∧
      fopen parts.limitFileName = some lines ∧
      limitFileLoop H re SIZE ptr.isSome ll (staleBytes lines) parts.firstLine parts.lastLine
        lines
        (limitFileInitial debug ll ptr) = some (st, b) ∧
      res = { ret := if st.limitFileError then option else parts.endOpt
              debug := st.debug
              pseudoRandomList := ptr.map fun _ => st.random.list }) := by
  unfold limitfileOption at h
  cases hp : limitFileOptionParts getNumericValue option with
  | none =>
    rw [hp] at h
    simp only [Option.some.injEq] at h
    exact Or.inl ⟨rfl, h.symm⟩
  | some parts =>
    rw [hp] at h
    simp only at h
    cases hf : fopen parts.limitFileName with
    | none =>
      rw [hf] at h
      simp only [Option.some.injEq] at h
      exact Or.inr (Or.inl ⟨parts, rfl, hf, h.symm⟩)
    | some lines =>
      rw [hf] at h
      simp only at h
      cases hl : limitFileLoop H re SIZE ptr.isSome ll (staleBytes lines) parts.firstLine parts.lastLine
        lines
          (limitFileInitial debug ll ptr) with
      | none => rw [hl] at h; cases h
      | some sb =>
        obtain ⟨st, b⟩ := sb
        rw [hl] at h
        simp only [Option.some.injEq] at h
        exact Or.inr (Or.inr ⟨parts, lines, st, b, rfl, hf, hl, h.symm⟩)

/-- The loop over the numbers of a pseudo-random line never clears `limitFileError`. -/
theorem pseudoRandomNumbersLoop_sticky (SIZE : Nat) (hp : Bool) (fuel : Nat) :
    ∀ (p : List Char) (neg : Bool) (st st1 : PseudoRandomState) (err1 : Bool),
      pseudoRandomNumbersLoop SIZE hp fuel p neg st true = some (st1, err1) → err1 = true := by
  induction fuel with
  | zero => intro p neg st st1 err1 h; simp [pseudoRandomNumbersLoop] at h
  | succ fuel ih =>
    intro p neg st st1 err1 h
    simp only [pseudoRandomNumbersLoop] at h
    split at h
    · simp only [Option.some.injEq, Prod.mk.injEq] at h
      exact h.2.symm
    · split at h
      · cases h
      · split at h
        · cases h
        · split at h
          · simp only [Option.some.injEq, Prod.mk.injEq] at h
            exact h.2.symm
          · split at h
            · cases h
            · split at h
              · simp only [Option.some.injEq, Prod.mk.injEq] at h
                exact h.2.symm
              · split at h
                · simp only [Option.some.injEq, Prod.mk.injEq] at h
                  exact h.2.symm
                · split at h
                  · exact ih _ _ _ _ _ h
                  · exact ih _ _ _ _ _ h

/-- A line of a limit file never clears `limitFileError`, and sets it when it leaves the
loop. -/
theorem limitFileLine_error {R : Type} (H : Nat) (re : SimpleRegex R) (SIZE : Nat)
    (hp ll : Bool) (bh : Option (List Char)) (buf : List Char) (st st1 : LimitFileState R) (b : Bool)
    (h : limitFileLine H re SIZE hp ll bh buf st = some (st1, b)) :
    (st.limitFileError = true → st1.limitFileError = true) ∧
    (b = true → st1.limitFileError = true) := by
  have add : ∀ r : Option (FilterInfo R) × TR_Debug R, limitFileAdd st r = (st1, b) →
      (st.limitFileError = true → st1.limitFileError = true) ∧
      (b = true → st1.limitFileError = true) := by
    intro r e
    have e1 := congrArg Prod.fst e
    have e2 := congrArg Prod.snd e
    simp only at e1 e2
    subst e1 e2
    exact ⟨(limitFileAdd_fields st r).2.2.2.1, (limitFileAdd_fields st r).2.2.2.2.1⟩
  unfold limitFileLine at h
  simp only at h
  split at h
  · split at h
    · cases h
    · simp only [Option.some.injEq] at h
      exact add _ h
  · split at h
    · split at h
      · cases h
      · simp only [Option.some.injEq] at h
        exact add _ h
    · split at h
      · split at h
        · simp only [Option.some.injEq, Prod.mk.injEq] at h
          rw [← h.1]
          exact ⟨fun _ => rfl, fun _ => rfl⟩
        · simp only [Option.some.injEq] at h
          exact add _ h
      · split at h
        · split at h
          · simp only [Option.some.injEq, Prod.mk.injEq] at h
            rw [← h.1]
            exact ⟨fun _ => rfl, fun _ => rfl⟩
          · split at h
            · cases h
            · rename_i rs err hloop
              simp only [Option.some.injEq, Prod.mk.injEq] at h
              rw [← h.1, ← h.2]
              refine ⟨fun he => ?_, fun hb => by cases hb⟩
              simp only
              rw [he] at hloop
              exact pseudoRandomNumbersLoop_sticky SIZE hp _ _ _ _ _ _ hloop
        · simp only [Option.some.injEq, Prod.mk.injEq] at h
          rw [← h.1, ← h.2]
          exact ⟨fun he => he, fun hb => by cases hb⟩

/-- The loop of `limitfileOption` never clears `limitFileError`, and has it set when it
is left by `break`. -/
theorem limitFileLoop_error {R : Type} (H : Nat) (re : SimpleRegex R) (SIZE : Nat)
    (hp ll : Bool) (bh : Int → Option (List Char)) (first last : Int) (lines : List (List Char)) :
    ∀ (st st1 : LimitFileState R) (b : Bool),
      limitFileLoop H re SIZE hp ll bh first last lines st = some (st1, b) →
      (st.limitFileError = true → st1.limitFileError = true) ∧
      (b = true → st1.limitFileError = true) := by
  induction lines with
  | nil =>
    intro st st1 b h
    simp only [limitFileLoop, Option.some.injEq, Prod.mk.injEq] at h
    rw [← h.1, ← h.2]
    exact ⟨fun he => he, fun hb => by cases hb⟩
  | cons buf rest ih =>
    intro st st1 b h
    simp only [limitFileLoop] at h
    split at h
    · have := ih _ _ _ h
      exact this
    · split at h
      · cases h
      · rename_i st2 hl
        simp only [Option.some.injEq, Prod.mk.injEq] at h
        rw [← h.1, ← h.2]
        have := limitFileLine_error H re SIZE hp ll _ buf _ st2 true hl
        exact ⟨fun _ => this.2 rfl, fun _ => this.2 rfl⟩
      · rename_i st2 hl
        have h1 := limitFileLine_error H re SIZE hp ll _ buf _ st2 false hl
        have h2 := ih _ _ _ h
        exact ⟨fun he => h2.1 (h1.1 he), h2.2⟩

/-- The loop of `limitfileOption` over a file read in two parts. -/
theorem limitFileLoop_append {R : Type} (H : Nat) (re : SimpleRegex R) (SIZE : Nat)
    (hp ll : Bool) (bh : Int → Option (List Char)) (first last : Int) (pre post : List (List Char)) :
    ∀ (st st1 : LimitFileState R),
      limitFileLoop H re SIZE hp ll bh first last pre st = some (st1, false) →
      limitFileLoop H re SIZE hp ll bh first last (pre ++ post) st =
        limitFileLoop H re SIZE hp ll bh first last post st1 := by
  induction pre with
  | nil =>
    intro st st1 h
    simp only [limitFileLoop, Option.some.injEq, Prod.mk.injEq] at h
    rw [List.nil_append, h.1]
  | cons buf rest ih =>
    intro st st1 h
    simp only [limitFileLoop, List.cons_append] at h ⊢
    split at h
    · rename_i hr
      rw [if_pos hr]
      exact ih _ _ h
    · rename_i hr
      rw [if_neg hr]
      split at h
      · cases h
      · simp only [Option.some.injEq, Prod.mk.injEq] at h
        cases h.2
      · exact ih _ _ h

theorem dropWhile_comma (l : List Char) :
    (l.dropWhile fun c => c ≠ ',') = [] ∨ (l.dropWhile fun c => c ≠ ',').head? = some ',' := by
  induction l with
  | nil => exact Or.inl rfl
  | cons c cs ih =>
    by_cases h : c = ','
    · right; simp [List.dropWhile, h]
    · simp only [List.dropWhile, ne_eq, h, not_false_eq_true, decide_True]
      exact ih

theorem limitFileRange_none (gnv : List Char → Int × List Char) (e : List Char) :
    limitFileRange gnv e = none ↔
      e.head? = none ∨ (limitFileRangeEnd gnv e).head? ≠ some ')' := by
  unfold limitFileRange limitFileRangeEnd
  by_cases h1 : e.head? = none
  · simp [h1]
  · simp only [h1, if_false, false_or]
    by_cases h2 : (gnv (e.drop 1)).2.head? = some ','
    · simp only [h2, if_true]
      split <;> simp_all
    · simp only [h2, if_false]
      split <;> simp_all

theorem limitFileRange_some (gnv : List Char → Int × List Char) (e : List Char)
    (first last : Int) (e1 : List Char) (h : limitFileRange gnv e = some (first, last, e1)) :
    limitFileRangeEnd gnv e = ')' :: e1 ∧ first = (gnv (e.drop 1)).1 := by
  unfold limitFileRange at h
  unfold limitFileRangeEnd
  by_cases h1 : e.head? = none
  · simp [h1] at h
  · simp only [h1, if_false] at h
    by_cases h2 : (gnv (e.drop 1)).2.head? = some ','
    · simp only [h2, if_true] at h ⊢
      split at h
      · cases h
      · rename_i h3
        simp only [ne_eq, Decidable.not_not] at h3
        simp only [Option.some.injEq, Prod.mk.injEq] at h
        obtain ⟨ha, _, hc⟩ := h
        refine ⟨?_, ha.symm⟩
        rw [← hc]
        cases hx : (gnv (List.drop 1 (gnv (List.drop 1 e)).2)).2 with
        | nil => rw [hx] at h3; cases h3
        | cons a as =>
          rw [hx] at h3
          simp only [List.head?_cons, Option.some.injEq] at h3
          rw [h3]; rfl
    · simp only [h2, if_false] at h ⊢
      split at h
      · cases h
      · rename_i h3
        simp only [ne_eq, Decidable.not_not] at h3
        simp only [Option.some.injEq, Prod.mk.injEq] at h
        obtain ⟨ha, _, hc⟩ := h
        refine ⟨?_, ha.symm⟩
        rw [← hc]
        cases hx : (gnv (List.drop 1 e)).2 with
        | nil => rw [hx] at h3; cases h3
        | cons a as =>
          rw [hx] at h3
          simp only [List.head?_cons, Option.some.injEq] at h3
          rw [h3]; rfl

/-- When the first part of `limitfileOption` has no result: the file name is empty or
the range is malformed. -/
theorem limitFileOptionParts_none (gnv : List Char → Int × List Char) (option : List Char) :
    limitFileOptionParts gnv option = none ↔
      (limitFileNameStart option).length - (limitFileNameEnd option).length = 0 ∨
      (option.head? = some '(' ∧
        ((limitFileNameEnd option).head? = none ∨
          (limitFileRangeEnd gnv (limitFileNameEnd option)).head? ≠ some ')')) := by
  unfold limitFileOptionParts limitFileNameEnd limitFileNameStart
  by_cases h0 : option.head? = some '('
  · simp only [h0, decide_True, if_true, true_and]
    by_cases hl : (option.drop 1).length -
        ((option.drop 1).dropWhile fun c => decide (c ≠ ',')).length = 0
    · rw [if_pos hl]
      exact ⟨fun _ => Or.inl hl, fun _ => rfl⟩
    · rw [if_neg hl]
      simp only [hl, false_or]
      rw [← limitFileRange_none]
      split
      · rename_i hr; rw [hr]; exact ⟨fun _ => rfl, fun _ => rfl⟩
      · rename_i hr; rw [hr]; exact ⟨fun hh => (by cases hh), fun hh => (by cases hh)⟩
  · simp only [h0, decide_False, if_false, false_and, or_false, Bool.false_eq_true]
    by_cases hl : option.length - (option.dropWhile fun c => decide (c ≠ ',')).length = 0
    · rw [if_pos hl]
      exact ⟨fun _ => hl, fun _ => rfl⟩
    · rw [if_neg hl]
      exact ⟨fun hh => (by cases hh), fun hh => absurd hh hl⟩

/-- What the first part of `limitfileOption` gives: the file name, the default range in
the plain form, and as `endOpt` the next comma or the end of the string in the plain form,
the character after the closing parenthesis in the range form. -/
theorem limitFileOptionParts_some (gnv : List Char → Int × List Char) (option : List Char)
    (parts : LimitFileOptionParts) (h : limitFileOptionParts gnv option = some parts) :
    parts.limitFileName = (limitFileNameStart option).take
      ((limitFileNameStart option).length - (limitFileNameEnd option).length) ∧
    parts.limitFileName ≠ [] ∧
    (option.head? ≠ some '(' →
      parts.endOpt = limitFileNameEnd option ∧
      (parts.endOpt = [] ∨ parts.endOpt.head? = some ',') ∧
      parts.firstLine = 1 ∧ parts.lastLine = 2147483647) ∧
    (option.head? = some '(' →
      limitFileRangeEnd gnv (limitFileNameEnd option) = ')' :: parts.endOpt) := by
  have hne : ∀ (l : List Char) (n : Nat), n ≠ 0 → n ≤ l.length → l.take n ≠ [] := by
    intro l n hn hle hnil
    have := congrArg List.length hnil
    simp only [List.length_take, List.length_nil] at this
    omega
  unfold limitFileOptionParts at h
  unfold limitFileNameEnd limitFileNameStart
  by_cases h0 : option.head? = some '('
  · simp only [h0, decide_True, if_true] at h ⊢
    split at h
    · cases h
    · rename_i hl
      split at h
      · cases h
      · rename_i first last e hr
        simp only [Option.some.injEq] at h
        subst h
        refine ⟨rfl, hne _ _ hl (by omega), fun hh => absurd rfl hh, fun _ => ?_⟩
        exact (limitFileRange_some gnv _ first last e hr).1
  · simp only [h0, decide_False, if_false, Bool.false_eq_true] at h ⊢
    split at h
    · cases h
    · rename_i hl
      simp only [Option.some.injEq] at h
      subst h
      exact ⟨rfl, hne _ _ hl (by omega), fun _ => ⟨rfl, dropWhile_comma option, rfl, rfl⟩,
        fun hh => absurd hh (by simp)⟩

/-- What a call of `limitfileOption` that has a result returns: `option` when the first
part of the function has no result - which happens exactly for an empty file name and, in
the range form, for a file name that ends the string or numbers that are not followed by
`)` -, when the file cannot be opened, and when `limitFileError` is set after the loop, as
it is whenever a line that the loop processes sets it; otherwise `endOpt`, which is the
next comma or the end of the string in the plain form and the character after the closing
parenthesis in the range form. -/
theorem limitfileOption_ret {R : Type} (H : Nat) (re : SimpleRegex R) (SIZE : Nat)
    (getNumericValue : List Char → Int × List Char)
    (fopen : List Char → Option (List (List Char))) (option : List Char) (debug : TR_Debug R)
    (ll : Bool) (ptr : Option (List TR_PseudoRandomNumbersListElement))
    (res : LimitFileResult R)
    (h : limitfileOption H re SIZE getNumericValue fopen option debug ll ptr = some res) :
    (limitFileOptionParts getNumericValue option = none → res.ret = option) ∧
    (limitFileOptionParts getNumericValue option = none ↔
      (limitFileNameStart option).length - (limitFileNameEnd option).length = 0 ∨
      (option.head? = some '(' ∧
        ((limitFileNameEnd option).head? = none ∨
          (limitFileRangeEnd getNumericValue (limitFileNameEnd option)).head? ≠ some ')'))) ∧
    (∀ parts, limitFileOptionParts getNumericValue option = some parts →
      (fopen parts.limitFileName = none → res.ret = option) ∧
      (option.head? ≠ some '(' →
        parts.endOpt = limitFileNameEnd option ∧
        (parts.endOpt = [] ∨ parts.endOpt.head? = some ',')) ∧
      (option.head? = some '(' →
        limitFileRangeEnd getNumericValue (limitFileNameEnd option) = ')' :: parts.endOpt) ∧
      ∀ lines, fopen parts.limitFileName = some lines →
        ∃ st b, limitFileLoop H re SIZE ptr.isSome ll (staleBytes lines) parts.firstLine
            parts.lastLine lines (limitFileInitial debug ll ptr) = some (st, b) ∧
          res.ret = (if st.limitFileError then option else parts.endOpt) ∧
          ∀ pre l post st1 st2 b2, lines = pre ++ l :: post →
            limitFileLoop H re SIZE ptr.isSome ll (staleBytes lines) parts.firstLine
              parts.lastLine pre (limitFileInitial debug ll ptr) = some (st1, false) →
            ¬ (st1.lineNumber + 1 < parts.firstLine ∨ st1.lineNumber + 1 > parts.lastLine) →
            limitFileLine H re SIZE ptr.isSome ll (staleBytes lines (st1.lineNumber + 1)) l
              { st1 with lineNumber := st1.lineNumber + 1 } = some (st2, b2) →
            st2.limitFileError = true → res.ret = option) := by
  refine ⟨?_, limitFileOptionParts_none getNumericValue option, ?_⟩
  · intro hp
    rcases limitfileOption_some H re SIZE getNumericValue fopen option debug ll ptr res h with
      ⟨_, e⟩ | ⟨parts, hp2, _, _⟩ | ⟨parts, _, _, _, hp2, _, _, _⟩
    · rw [e]
    · rw [hp] at hp2; cases hp2
    · rw [hp] at hp2; cases hp2
  · intro parts hp
    obtain ⟨_, _, hplain, hrange⟩ := limitFileOptionParts_some getNumericValue option parts hp
    refine ⟨?_, fun h0 => ⟨(hplain h0).1, (hplain h0).2.1⟩, hrange, ?_⟩
    · intro hf
      rcases limitfileOption_some H re SIZE getNumericValue fopen option debug ll ptr res h with
        ⟨hp2, _⟩ | ⟨parts2, hp2, _, e⟩ | ⟨parts2, _, _, _, hp2, hf2, _, _⟩
      · rw [hp] at hp2; cases hp2
      · rw [e]
      · rw [hp] at hp2; cases hp2; rw [hf] at hf2; cases hf2
    · intro lines hf
      rcases limitfileOption_some H re SIZE getNumericValue fopen option debug ll ptr res h with
        ⟨hp2, _⟩ | ⟨parts2, hp2, hf2, _⟩ | ⟨parts2, lines2, st, b, hp2, hf2, hloop, e⟩
      · rw [hp] at hp2; cases hp2
      · rw [hp] at hp2; cases hp2; rw [hf] at hf2; cases hf2
      · rw [hp] at hp2; cases hp2
        rw [hf] at hf2; cases hf2
        have hret : res.ret = (if st.limitFileError then option else parts.endOpt) := by rw [e]
        refine ⟨st, b, hloop, hret, ?_⟩
        intro pre l post st1 st2 b2 hlines hpre hin hline herr
        rw [hlines] at hpre hline
        rw [hlines, limitFileLoop_append H re SIZE _ ll _ _ _ pre (l :: post) _ st1 hpre,
          limitFileLoop] at hloop
        simp only [hin, if_false, hline] at hloop
        have hfin : st.limitFileError = true := by
          cases b2 with
          | true =>
            simp only [Option.some.injEq, Prod.mk.injEq] at hloop
            rw [← hloop.1]; exact herr
          | false =>
            simp only at hloop
            exact (limitFileLoop_error H re SIZE _ ll _ _ _ post st2 st b hloop).1 herr
        rw [hret, hfin]
        rfl

end OMR

namespace OMR

/-! ## Properties of the construction of the register file -/

theorem storeAll_spec : ∀ (stores : List (Nat × Option RealRegister)) (m : Machine),
    (∀ s ∈ stores, s.1 < m.registerFile.length) → (stores.map Prod.fst).Nodup →
    ∃ m', Machine.storeAll stores m = some m' ∧
      m'.registerFile.length = m.registerFile.length ∧
      (∀ s ∈ stores, m'.registerFile.get? s.1 = some s.2) ∧
      (∀ i, i ∉ stores.map Prod.fst → m'.registerFile.get? i = m.registerFile.get? i) := by
  intro stores
  induction stores with
  | nil => intro m _ _; exact ⟨m, rfl, rfl, by simp, fun _ _ => rfl⟩
  | cons s rest ih =>
    intro m hb hn
    obtain ⟨i, p⟩ := s
    have hi : i < m.registerFile.length := hb (i, p) (List.mem_cons_self _ _)
    simp only [List.map_cons, List.nodup_cons] at hn
    obtain ⟨m', h1, h2, h3, h4⟩ := ih { registerFile := m.registerFile.set i p }
      (by
        intro s hs
        simp only [List.length_set]
        exact hb s (List.mem_cons_of_mem _ hs)) hn.2
    refine ⟨m', ?_, ?_, ?_, ?_⟩
    · simp only [Machine.storeAll, Machine.store, hi, if_true]
      exact h1
    · rw [h2, List.length_set]
    · intro s hs
      rcases List.mem_cons.1 hs with rfl | hs
      · rw [h4 i hn.1]
        simp [hi]
      · exact h3 s hs
    · intro j hj
      simp only [List.map_cons, List.mem_cons, not_or] at hj
      rw [h4 j hj.2]
      simp [List.getElem?_set, Ne.symm hj.1]

/-- A scan that starts with the best weight 0 changes nothing. -/
theorem scanLoop_zero (m : Machine) (cu : Bool) : ∀ (l : List Nat) (f : Option Nat),
    (∀ j ∈ l, ∃ r, m.deref j = some r) → scanLoop m cu l 0 f = some (0, f) := by
  intro l
  induction l with
  | nil => intro f _; rfl
  | cons i rest ih =>
    intro f h
    obtain ⟨r, hr⟩ := h i (List.mem_cons_self _ _)
    simp only [scanLoop, hr, Nat.not_lt_zero, decide_False, Bool.and_false, Bool.false_eq_true,
      if_false]
    exact ih f fun j hj => h j (List.mem_cons_of_mem _ hj)

/-- On a range of free descriptors of weight 0 `findBestFreeRegister` returns the first
one and leaves the machine as it is. -/
theorem findBest_fresh (c : RegNum) (m : Machine) (rk : TR_RegisterKinds) (ex cu : Bool)
    (first last : Nat) (hr : scanRange c rk ex = some (first, last)) (hfl : first ≤ last)
    (hall : ∀ j, first ≤ j → j ≤ last →
      ∃ r, m.deref j = some r ∧ r.state = RegState.Free ∧ r.weight = 0) :
    findBestFreeRegister c m rk ex cu = some (some first, m) := by
  obtain ⟨r, hd, hs, hw⟩ := hall first (le_refl _) hfl
  have hrange : List.range' first (last + 1 - first)
      = first :: List.range' (first + 1) (last - first) := by
    have : last + 1 - first = (last - first) + 1 := by omega
    rw [this, List.range'_succ]
  have hrest : ∀ j ∈ List.range' (first + 1) (last - first), ∃ r, m.deref j = some r := by
    intro j hj
    rw [List.mem_range'_1] at hj
    obtain ⟨r', h', _⟩ := hall j (by omega) (by omega)
    exact ⟨r', h'⟩
  unfold findBestFreeRegister
  simp only [hr, hrange, scanLoop, hd, eligible, hs, hw, beq_self_eq_true, Bool.true_or,
    Bool.true_and]
  rw [if_pos (by decide), scanLoop_zero m cu _ _ hrest]
  simp only [hd, hs]
  rw [if_neg (by decide)]

/-- A call that returns has found a descriptor in every slot of the scanned range. -/
theorem findBest_defined {c : RegNum} {m m' : Machine} {rk : TR_RegisterKinds} {ex cu : Bool}
    {res : Option Nat} (h : findBestFreeRegister c m rk ex cu = some (res, m')) :
    ∃ first last, scanRange c rk ex = some (first, last) ∧
      ∀ j, first ≤ j → j ≤ last → ∃ r, m.deref j = some r := by
  unfold findBestFreeRegister at h
  cases hr : scanRange c rk ex with
  | none => simp [hr] at h
  | some fl =>
    obtain ⟨first, last⟩ := fl
    simp only [hr] at h
    cases hs : scanLoop m cu (List.range' first (last + 1 - first)) 0xffffffff none with
    | none => simp [hs] at h
    | some bf =>
      obtain ⟨hall, _⟩ := scanLoop_spec m cu _ _ _ _ _ hs
      exact ⟨first, last, rfl, fun j h1 h2 => hall j (List.mem_range'_1.2 ⟨h1, by omega⟩)⟩

/-- The slots of a machine after the descriptor of slot `i` has been normalised. -/
theorem deref_normalize (m : Machine) (i : Nat) (r : RealRegister) (h : m.deref i = some r)
    (j : Nat) :
    (m.normalize i r).deref j =
      if j = i then some { r with assignedRegister := none, state := RegState.Free }
      else m.deref j := by
  have hlen : i < m.registerFile.length := by
    rw [deref_eq_some] at h
    exact (List.get?_eq_some.1 h).1
  by_cases hj : j = i
  · subst hj
    rw [if_pos rfl, deref_eq_some]
    simp [Machine.normalize, hlen]
  · rw [if_neg hj]
    simp [Machine.deref, Machine.normalize, List.getElem?_set, Ne.symm hj]

/-- A second call with the same kind and `excludeGPR0`, and with `considerUnlatched` set
only if it was set in the first call, returns the descriptor that the first call
returned and changes nothing. -/
theorem findBest_again {c : RegNum} {m m1 : Machine} {rk : TR_RegisterKinds}
    {ex cu cu2 : Bool} {i : Nat} (h : findBestFreeRegister c m rk ex cu = some (some i, m1))
    (hcu : cu2 = true → cu = true) :
    findBestFreeRegister c m1 rk ex cu2 = some (some i, m1) := by
  obtain ⟨first, last, r, hr, hi1, hi2, hd, he, hw, hmin, hm1⟩ := findBest_some h
  obtain ⟨first', last', hr', hall⟩ := findBest_defined h
  rw [hr] at hr'
  simp only [Option.some.injEq, Prod.mk.injEq] at hr'
  obtain ⟨e1, e2⟩ := hr'
  subst e1; subst e2
  -- the slots of the machine after the first call
  have hslot : ∃ r1, m1.deref i = some r1 ∧ r1.state = RegState.Free ∧ r1.weight = r.weight ∧
      ∀ j, j ≠ i → m1.deref j = m.deref j := by
    by_cases hst : r.state = RegState.Unlatched
    · rw [if_pos hst] at hm1
      subst hm1
      refine ⟨{ r with assignedRegister := none, state := RegState.Free }, ?_, rfl, rfl, ?_⟩
      · rw [deref_normalize m i r hd, if_pos rfl]
      · intro j hj
        rw [deref_normalize m i r hd, if_neg hj]
    · rw [if_neg hst] at hm1
      subst hm1
      refine ⟨r, hd, ?_, rfl, fun _ _ => rfl⟩
      simp only [eligible, Bool.or_eq_true, beq_iff_eq, Bool.and_eq_true] at he
      rcases he with he | he
      · exact he
      · exact absurd he.2 hst
  obtain ⟨r1, hd1, hs1, hw1, hother⟩ := hslot
  have hel1 : eligible cu2 r1 = true := by simp [eligible, hs1]
  have hall1 : ∀ j, first ≤ j → j ≤ last → ∃ r', m1.deref j = some r' := by
    intro j h1 h2
    by_cases hj : j = i
    · subst hj; exact ⟨r1, hd1⟩
    · rw [hother j hj]; exact hall j h1 h2
  obtain ⟨res2, m2, h2⟩ := @findBest_total c m1 rk ex cu2 first last hr hall1
  cases res2 with
  | none =>
    obtain ⟨_, f2, l2, hr2, hno⟩ := findBest_none h2
    rw [hr] at hr2
    simp only [Option.some.injEq, Prod.mk.injEq] at hr2
    obtain ⟨e1, e2⟩ := hr2
    subst e1; subst e2
    obtain ⟨r', hd', hbig⟩ := hno i hi1 hi2
    rw [hd1] at hd'
    cases hd'
    have := hbig hel1
    omega
  | some i2 =>
    obtain ⟨f2, l2, r2, hr2, hj1, hj2, hd2, he2, _, hmin2, hm2⟩ := findBest_some h2
    rw [hr] at hr2
    simp only [Option.some.injEq, Prod.mk.injEq] at hr2
    obtain ⟨e1, e2⟩ := hr2
    subst e1; subst e2
    have hii : i2 = i := by
      by_contra hne
      have hd2' : m.deref i2 = some r2 := by rw [← hother i2 hne]; exact hd2
      have hel2 : eligible cu r2 = true := by
        simp only [eligible, Bool.or_eq_true, beq_iff_eq, Bool.and_eq_true] at he2 ⊢
        rcases he2 with he2 | he2
        · exact Or.inl he2
        · exact Or.inr ⟨hcu he2.1, he2.2⟩
      obtain ⟨a1, a2⟩ := hmin i2 r2 hj1 hj2 hd2' hel2
      obtain ⟨b1, b2⟩ := hmin2 i r1 hi1 hi2 hd1 hel1
      rcases Nat.lt_or_gt_of_ne hne with hlt | hgt
      · have := a2 hlt
        omega
      · have := b2 hgt
        omega
    subst hii
    rw [hd1] at hd2
    cases hd2
    rw [if_neg (by rw [hs1]; decide)] at hm2
    rw [h2, hm2]

/-! ## Properties of the placement of rules -/

/-- The trees and the chain of a set after a call of `addFilter` that returns a filter:
a regex rule becomes the head of the chain, a name-only rule goes to the name-only tree
and any other rule to the hash bucket given by the total length of its strings. -/
theorem addFilter_trees {R : Type} (H : Nat) (re : SimpleRegex R) (s : List Char)
    (ex osi ln : Int) (fs : CompilationFilters R) (y : FilterInfo R)
    (h : (addFilter H re s ex osi ln (some fs)).filterBST = some y) :
    (s.head? = some '{' ∧
      (y.filterType = .TR_FILTER_REGEX ∨ y.filterType = .TR_FILTER_EXCLUDE_REGEX) ∧
      (addFilter H re s ex osi ln (some fs)).filters.filterHash = fs.filterHash ∧
      (addFilter H re s ex osi ln (some fs)).filters.filterNameList = fs.filterNameList ∧
      (addFilter H re s ex osi ln (some fs)).filters.filterRegexList =
        .node y .null .null (if fs.hasRegexFilter then fs.filterRegexList else .null)) ∨
    (s.head? ≠ some '{' ∧ y = (scanFilterName s (newFilter ex osi ln : FilterInfo R)).2 ∧
      y.filterType.isNameOnly = true ∧ y.className = [] ∧ y.signature = [] ∧
      (addFilter H re s ex osi ln (some fs)).filters.filterHash = fs.filterHash ∧
      (addFilter H re s ex osi ln (some fs)).filters.filterNameList =
        TR_FilterBST.insertRoot y fs.filterNameList ∧
      (addFilter H re s ex osi ln (some fs)).filters.filterRegexList = fs.filterRegexList) ∨
    (s.head? ≠ some '{' ∧ y = (scanFilterName s (newFilter ex osi ln : FilterInfo R)).2 ∧
      y.filterType.isNameOnly = false ∧
      (y.filterType.isNameSig = true ∨ y.filterType.isSpecific = true) ∧
      (addFilter H re s ex osi ln (some fs)).filters.filterHash =
        Function.update fs.filterHash
          ((y.name.length + y.className.length + y.signature.length) % H)
          (TR_FilterBST.insertRoot y
            (fs.filterHash ((y.name.length + y.className.length + y.signature.length) % H))) ∧
      (addFilter H re s ex osi ln (some fs)).filters.filterNameList = fs.filterNameList ∧
      (addFilter H re s ex osi ln (some fs)).filters.filterRegexList = fs.filterRegexList) := by
  obtain ⟨hlen, _, hk, hno, _, _, _, _⟩ :=
    scanFilterName_spec s (newFilter ex osi ln : FilterInfo R) (newFilter_isNameOnly ex osi ln)
  rcases addFilter_some H re s ex osi ln fs y h with
    ⟨hs, rx, n, _, e⟩ | ⟨hs, _, hn, e⟩ | ⟨hs, _, hn, e⟩
  · refine Or.inl ⟨hs, ?_⟩
    have h' := h
    rw [e] at h'
    simp only [addFilterFinish] at h'
    cases h'
    rw [e]
    simp only [addFilterFinish]
    refine ⟨?_, ?_, ?_, ?_⟩
    · by_cases hex : ex = 0
      · exact Or.inl (by simp [hex])
      · exact Or.inr (by simp [hex])
    all_goals split <;> rfl
  · refine Or.inr (Or.inl ⟨hs, ?_⟩)
    have h' := h
    rw [e] at h'
    simp only [addFilterFinish] at h'
    cases h'
    rw [e]
    simp only [addFilterFinish]
    refine ⟨trivial, hn, (hno hn).1, (hno hn).2, ?_, ?_, ?_⟩ <;> split <;> rfl
  · refine Or.inr (Or.inr ⟨hs, ?_⟩)
    have hkx : (scanFilterName s (newFilter ex osi ln : FilterInfo R)).2.filterType.isNameSig
          = true ∨
        (scanFilterName s (newFilter ex osi ln : FilterInfo R)).2.filterType.isSpecific
          = true := by
      rcases hk with hk | hk
      · rw [hn] at hk; cases hk
      · exact hk
    have h' := h
    rw [e] at h'
    simp only [addFilterFinish] at h'
    cases h'
    rw [e]
    simp only [addFilterFinish]
    rw [← hlen]
    refine ⟨trivial, hn, hkx, ?_, ?_, ?_⟩ <;> split <;> rfl

/-- A filter whose key the descent of `insert` finds in the tree is not inserted: the
tree stays as it is. -/
theorem insert_found {R : Type} (x : FilterInfo R) :
    ∀ t : TR_FilterBST R, (TR_FilterBST.findBy (TR_FilterBST.insertCompare x) t).isNull = false →
      TR_FilterBST.insert x t = t := by
  intro t
  induction t with
  | null => intro h; simp [TR_FilterBST.findBy, TR_FilterBST.isNull] at h
  | node info c0 c1 next ih0 ih1 _ =>
    intro h
    simp only [TR_FilterBST.findBy] at h
    simp only [TR_FilterBST.insert]
    by_cases h0 : TR_FilterBST.insertCompare x info = 0
    · simp only [h0, if_true]
    · simp only [h0, if_false] at h ⊢
      by_cases h1 : TR_FilterBST.insertCompare x info < 0
      · simp only [h1, if_true] at h ⊢
        have hc : c0.isNull = false := by
          cases c0 with
          | null => simp [TR_FilterBST.findBy, TR_FilterBST.isNull] at h
          | node _ _ _ _ => rfl
        simp only [hc, Bool.false_eq_true, if_false, ih0 h]
      · simp only [h1, if_false] at h ⊢
        have hc : c1.isNull = false := by
          cases c1 with
          | null => simp [TR_FilterBST.findBy, TR_FilterBST.isNull] at h
          | node _ _ _ _ => rfl
        simp only [hc, Bool.false_eq_true, if_false, ih1 h]

theorem insertRoot_found {R : Type} (x : FilterInfo R) (t : TR_FilterBST R)
    (h : (TR_FilterBST.findBy (TR_FilterBST.insertCompare x) t).isNull = false) :
    TR_FilterBST.insertRoot x t = t := by
  have ht : t.isNull = false := by
    cases t with
    | null => simp [TR_FilterBST.findBy, TR_FilterBST.isNull] at h
    | node _ _ _ _ => rfl
  simp only [TR_FilterBST.insertRoot, ht, Bool.false_eq_true, if_false]
  exact insert_found x t h

/-- The rules of the trees of a set stay where they are when `addFilter` adds a rule. -/
theorem addFilter_members_mono {R : Type} (H : Nat) (re : SimpleRegex R) (s : List Char)
    (ex osi ln : Int) (fs : CompilationFilters R) (y : FilterInfo R)
    (h : (addFilter H re s ex osi ln (some fs)).filterBST = some y) (r : FilterInfo R) :
    (∀ b, r ∈ (fs.filterHash b).members →
      r ∈ ((addFilter H re s ex osi ln (some fs)).filters.filterHash b).members) ∧
    (r ∈ fs.filterNameList.members →
      r ∈ (addFilter H re s ex osi ln (some fs)).filters.filterNameList.members) := by
  rcases addFilter_trees H re s ex osi ln fs y h with
    ⟨_, _, e1, e2, _⟩ | ⟨_, _, _, _, _, e1, e2, _⟩ | ⟨_, _, _, _, e1, e2, _⟩
  · rw [e1, e2]
    exact ⟨fun _ hb => hb, fun hn => hn⟩
  · rw [e1, e2]
    exact ⟨fun _ hb => hb, fun hn => (mem_insertRoot y r _).2 (Or.inl hn)⟩
  · rw [e1, e2]
    refine ⟨fun b hb => ?_, fun hn => hn⟩
    by_cases hbb : b = (y.name.length + y.className.length + y.signature.length) % H
    · subst hbb
      rw [Function.update_same]
      exact (mem_insertRoot y r _).2 (Or.inl hb)
    · rw [Function.update_noteq hbb]
      exact hb

theorem addFilters_members_mono {R : Type} (H : Nat) (re : SimpleRegex R)
    (ds : List Directive) : ∀ (fs fs1 : CompilationFilters R),
    addFilters H re ds fs = some fs1 → ∀ r : FilterInfo R,
    (∀ b, r ∈ (fs.filterHash b).members → r ∈ (fs1.filterHash b).members) ∧
    (r ∈ fs.filterNameList.members → r ∈ fs1.filterNameList.members) := by
  induction ds with
  | nil =>
    intro fs fs1 h r
    simp only [addFilters, Option.some.injEq] at h
    subst h
    exact ⟨fun _ hb => hb, fun hn => hn⟩
  | cons d ds ih =>
    intro fs fs1 h r
    simp only [addFilters] at h
    cases hy : (addFilter H re d.filterString d.scanningExclude d.optionSetIndex d.lineNum
      (some fs)).filterBST with
    | none => simp [hy] at h
    | some y =>
      simp only [hy] at h
      obtain ⟨a1, a2⟩ := addFilter_members_mono H re _ _ _ _ fs y hy r
      obtain ⟨b1, b2⟩ := ih _ _ h r
      exact ⟨fun b hb => b1 b (a1 b hb), fun hn => b2 (a2 hn)⟩

/-- The search of `methodSigCanBeFound` for the key of a rule stored in a tree of a set
built by `addFilter` finds that rule. -/
theorem lookup_stored {R : Type} (H : Nat) (fs : CompilationFilters R) (hinv : FilterInv H fs)
    (r : FilterInfo R) (hmem : r ∈ (fs.treeOf H r).members) :
    (fs.lookup H r.name r.className r.signature r.filterType.isNameOnly).info? = some r := by
  unfold CompilationFilters.lookup
  unfold CompilationFilters.treeOf at hmem
  by_cases hno : r.filterType.isNameOnly = true
  · simp only [hno, if_true] at hmem ⊢
    obtain ⟨_, _, _, hfind, _⟩ := hinv.names r hmem
    rw [findName_eq_findBy, ← hfind]
    congr 1
    apply findBy_congr
    intro node _
    have := findNameCompare_signs r.name [] node
    rw [List.append_nil] at this
    exact this
  · simp only [hno, Bool.false_eq_true, if_false] at hmem ⊢
    obtain ⟨_, _, hfind, _⟩ := hinv.hash _ r hmem
    have hidx : (r.name.length + r.signature.length + r.className.length) % H
        = (r.name.length + r.className.length + r.signature.length) % H := by
      congr 1; omega
    rw [hidx, find_eq_findBy, ← hfind]
    congr 1
    apply findBy_congr
    intro node _
    have := findCompare_signs r.name [] r.className [] r.signature [] node
    simp only [List.append_nil] at this
    exact this

theorem reachable_noNext {R : Type} : ∀ t : TR_FilterBST R, t.noNext →
    ∀ r, r ∈ t.reachable ↔ r ∈ t.members := by
  intro t
  induction t with
  | null => intro _ r; simp [TR_FilterBST.reachable, TR_FilterBST.members]
  | node info c0 c1 next ih0 ih1 _ =>
    intro h r
    obtain ⟨hn, h0, h1⟩ := h
    subst hn
    simp only [TR_FilterBST.reachable, TR_FilterBST.members, List.mem_cons, List.mem_append,
      ih0 h0 r, ih1 h1 r, List.not_mem_nil, or_false]
    tauto

theorem reachable_noChild {R : Type} : ∀ t : TR_FilterBST R, t.noChild →
    ∀ r, r ∈ t.reachable ↔ r ∈ t.chain := by
  intro t
  induction t with
  | null => intro _ r; simp [TR_FilterBST.reachable, TR_FilterBST.chain]
  | node info c0 c1 next _ _ ih =>
    intro h r
    obtain ⟨h0, h1, hn⟩ := h
    subst h0; subst h1
    simp only [TR_FilterBST.reachable, TR_FilterBST.chain, List.mem_cons, List.mem_append,
      ih hn r, List.not_mem_nil, false_or]

theorem noNext_insert {R : Type} (x : FilterInfo R) : ∀ t : TR_FilterBST R, t.noNext →
    (TR_FilterBST.insert x t).noNext := by
  intro t
  induction t with
  | null => intro _; trivial
  | node info c0 c1 next ih0 ih1 _ =>
    intro h
    obtain ⟨hn, h0, h1⟩ := h
    simp only [TR_FilterBST.insert]
    split
    · exact ⟨hn, h0, h1⟩
    · split
      · split
        · exact ⟨hn, ⟨rfl, trivial, trivial⟩, h1⟩
        · exact ⟨hn, ih0 h0, h1⟩
      · split
        · exact ⟨hn, h0, ⟨rfl, trivial, trivial⟩⟩
        · exact ⟨hn, h0, ih1 h1⟩

theorem noNext_insertRoot {R : Type} (x : FilterInfo R) (t : TR_FilterBST R) (h : t.noNext) :
    (TR_FilterBST.insertRoot x t).noNext := by
  unfold TR_FilterBST.insertRoot
  split
  · exact ⟨rfl, trivial, trivial⟩
  · exact noNext_insert x t h

theorem LinkInv_clear {R : Type} : LinkInv (clearFilters : CompilationFilters R) :=
  ⟨fun _ => trivial, trivial, trivial, fun r hr => by cases hr⟩

theorem LinkInv_addFilter {R : Type} (H : Nat) (re : SimpleRegex R) (s : List Char)
    (ex osi ln : Int) (fs : CompilationFilters R) (y : FilterInfo R) (hinv : LinkInv fs)
    (h : (addFilter H re s ex osi ln (some fs)).filterBST = some y) :
    LinkInv (addFilter H re s ex osi ln (some fs)).filters := by
  rcases addFilter_trees H re s ex osi ln fs y h with
    ⟨_, hk, e1, e2, e3⟩ | ⟨_, _, _, _, _, e1, e2, e3⟩ | ⟨_, _, _, _, e1, e2, e3⟩
  · refine ⟨by rw [e1]; exact hinv.hash, by rw [e2]; exact hinv.names, ?_, ?_⟩
    · rw [e3]
      refine ⟨rfl, rfl, ?_⟩
      split
      · exact hinv.chain
      · trivial
    · rw [e3]
      intro r hr
      simp only [TR_FilterBST.chain, List.mem_cons] at hr
      rcases hr with rfl | hr
      · rcases hk with hk | hk <;> rw [hk] <;> rfl
      · split at hr
        · exact hinv.kinds r hr
        · cases hr
  · refine ⟨by rw [e1]; exact hinv.hash, ?_, by rw [e3]; exact hinv.chain,
      by rw [e3]; exact hinv.kinds⟩
    rw [e2]
    exact noNext_insertRoot y _ hinv.names
  · refine ⟨?_, by rw [e2]; exact hinv.names, by rw [e3]; exact hinv.chain,
      by rw [e3]; exact hinv.kinds⟩
    rw [e1]
    intro b
    by_cases hb : b = (y.name.length + y.className.length + y.signature.length) % H
    · subst hb
      rw [Function.update_same]
      exact noNext_insertRoot y _ (hinv.hash _)
    · rw [Function.update_noteq hb]
      exact hinv.hash b

theorem addFilters_linkInv {R : Type} (H : Nat) (re : SimpleRegex R) (ds : List Directive) :
    ∀ (fs fs1 : CompilationFilters R), addFilters H re ds fs = some fs1 → LinkInv fs →
      LinkInv fs1 := by
  induction ds with
  | nil =>
    intro fs fs1 h hinv
    simp only [addFilters, Option.some.injEq] at h
    subst h
    exact hinv
  | cons d ds ih =>
    intro fs fs1 h hinv
    simp only [addFilters] at h
    cases hy : (addFilter H re d.filterString d.scanningExclude d.optionSetIndex d.lineNum
      (some fs)).filterBST with
    | none => simp [hy] at h
    | some y =>
      simp only [hy] at h
      exact ih _ _ h (LinkInv_addFilter H re _ _ _ _ fs y hinv hy)

/-! ## Properties of the search trees -/

theorem strcmp_lt : ∀ a b : List Char, strcmp a b < 0 ↔ a < b := by
  intro a
  induction a with
  | nil =>
    intro b
    cases b with
    | nil => simp [strcmp]
    | cons c cs => exact ⟨fun _ => List.Lex.nil, fun _ => by simp [strcmp]⟩
  | cons x xs ih =>
    intro b
    cases b with
    | nil => simp [strcmp]
    | cons c cs =>
      simp only [strcmp]
      by_cases h : x = c
      · subst h
        simp only [if_true, ih cs]
        exact (List.Lex.cons_iff).symm
      · simp only [h, if_false]
        by_cases h2 : x < c
        · simp only [h2, if_true]
          exact ⟨fun _ => List.Lex.rel h2, fun _ => by decide⟩
        · simp only [h2, if_false]
          refine ⟨fun hh => absurd hh (by decide), fun hh => ?_⟩
          cases hh with
          | cons _ => exact absurd rfl h
          | rel hr => exact absurd hr h2

theorem strcmp_gt : ∀ a b : List Char, 0 < strcmp a b ↔ b < a := by
  intro a
  induction a with
  | nil =>
    intro b
    cases b with
    | nil => simp [strcmp]
    | cons c cs => simp [strcmp]
  | cons x xs ih =>
    intro b
    cases b with
    | nil => exact ⟨fun _ => List.Lex.nil, fun _ => by simp [strcmp]⟩
    | cons c cs =>
      simp only [strcmp]
      by_cases h : x = c
      · subst h
        simp only [if_true, ih cs]
        exact (List.Lex.cons_iff).symm
      · simp only [h, if_false]
        by_cases h2 : x < c
        · simp only [h2, if_true]
          refine ⟨fun hh => absurd hh (by decide), fun hh => ?_⟩
          cases hh with
          | cons _ => exact absurd rfl h
          | rel hr => exact absurd hr (lt_asymm h2)
        · simp only [h2, if_false]
          have hcx : c < x := lt_of_le_of_ne (not_lt.1 h2) (Ne.symm h)
          exact ⟨fun _ => List.Lex.rel hcx, fun _ => by decide⟩

/-- The sign of the comparison that `insert` and `find` make says how the two keys stand
in the lexicographic order. -/
theorem keyCompare_less {R : Type} (a b : FilterInfo R) :
    (keyCompare a.name a.className a.signature b < 0 ↔ keyLess a b) ∧
    (0 < keyCompare a.name a.className a.signature b ↔ keyLess b a) ∧
    (keyCompare a.name a.className a.signature b = 0 ↔ ruleKey a = ruleKey b) := by
  have e0 : ∀ x y : List Char, strcmp x y = 0 ↔ x = y := strcmp_eq_zero
  refine ⟨?_, ?_, ?_⟩
  · unfold keyCompare keyLess
    by_cases h1 : strcmp a.name b.name = 0
    · have n1 := (e0 _ _).1 h1
      simp only [h1, if_true]
      by_cases h2 : strcmp a.className b.className = 0
      · have n2 := (e0 _ _).1 h2
        simp only [h2, if_true, strcmp_lt]
        simp only [n1, n2, lt_irrefl, true_and, false_or]
      · have n2 : a.className ≠ b.className := fun e => h2 ((e0 _ _).2 e)
        simp only [h2, if_false, strcmp_lt]
        simp only [n1, n2, lt_irrefl, true_and, false_or, false_and, or_false]
    · have n1 : a.name ≠ b.name := fun e => h1 ((e0 _ _).2 e)
      simp only [h1, if_false, strcmp_lt]
      simp only [n1, false_and, or_false]
  · unfold keyCompare keyLess
    by_cases h1 : strcmp a.name b.name = 0
    · have n1 := (e0 _ _).1 h1
      simp only [h1, if_true]
      by_cases h2 : strcmp a.className b.className = 0
      · have n2 := (e0 _ _).1 h2
        simp only [h2, if_true, strcmp_gt]
        simp only [n1, n2, lt_irrefl, true_and, false_or]
      · have n2 : b.className ≠ a.className := fun e => h2 ((e0 _ _).2 e.symm)
        simp only [h2, if_false, strcmp_gt]
        simp only [n1, n2, lt_irrefl, true_and, false_or, false_and, or_false]
    · have n1 : b.name ≠ a.name := fun e => h1 ((e0 _ _).2 e.symm)
      simp only [h1, if_false, strcmp_gt]
      simp only [n1, false_and, or_false]
  · rw [keyCompare_eq_zero]
    simp only [ruleKey, Prod.mk.injEq]
    constructor
    · rintro ⟨h1, h2, h3⟩; exact ⟨h1.symm, h2.symm, h3.symm⟩
    · rintro ⟨h1, h2, h3⟩; exact ⟨h1.symm, h2.symm, h3.symm⟩

theorem keyLess_irrefl {R : Type} (a b : FilterInfo R) (h : keyLess a b)
    (hk : ruleKey a = ruleKey b) : False := by
  simp only [ruleKey, Prod.mk.injEq] at hk
  obtain ⟨k1, k2, k3⟩ := hk
  unfold keyLess at h
  rw [k1, k2, k3] at h
  simp only [lt_irrefl, true_and, false_or, and_false] at h

theorem keyLess_asymm {R : Type} (a b : FilterInfo R) (h : keyLess a b) (h' : keyLess b a) :
    False := by
  have h1 := (keyCompare_less a b).1.2 h
  have h2 := (keyCompare_less a b).2.1.2 h'
  omega

theorem keyLess_trans {R : Type} (a b c : FilterInfo R) (h : keyLess a b) (h' : keyLess b c) :
    keyLess a c := by
  unfold keyLess at *
  rcases h with h | ⟨e1, h | ⟨e2, h⟩⟩ <;> rcases h' with h' | ⟨f1, h' | ⟨f2, h'⟩⟩
  · exact Or.inl (lt_trans h h')
  · exact Or.inl (f1 ▸ h)
  · exact Or.inl (f1 ▸ h)
  · exact Or.inl (e1 ▸ h')
  · exact Or.inr ⟨e1.trans f1, Or.inl (lt_trans h h')⟩
  · exact Or.inr ⟨e1.trans f1, Or.inl (f2 ▸ h)⟩
  · exact Or.inl (e1 ▸ h')
  · exact Or.inr ⟨e1.trans f1, Or.inl (e2 ▸ h')⟩
  · exact Or.inr ⟨e1.trans f1, Or.inr ⟨e2.trans f2, lt_trans h h'⟩⟩

/-- A key that differs from the key of a rule comes before it or after it. -/
theorem keyLess_total {R : Type} (a b : FilterInfo R) :
    keyLess a b ∨ ruleKey a = ruleKey b ∨ keyLess b a := by
  obtain ⟨h1, h2, h3⟩ := keyCompare_less a b
  rcases lt_trichotomy (keyCompare a.name a.className a.signature b) 0 with h | h | h
  · exact Or.inl (h1.1 h)
  · exact Or.inr (Or.inl (h3.1 h))
  · exact Or.inr (Or.inr (h2.1 h))

theorem isBST_leaf {R : Type} (x : FilterInfo R) : (TR_FilterBST.leaf x).isBST :=
  ⟨fun _ h => (by cases h), fun _ h => (by cases h), trivial, trivial⟩

/-- `insert` keeps a binary search tree a binary search tree. -/
theorem isBST_insert {R : Type} (x : FilterInfo R) : ∀ t : TR_FilterBST R, t.isBST →
    (TR_FilterBST.insert x t).isBST := by
  intro t
  induction t with
  | null => intro _; trivial
  | node info c0 c1 next ih0 ih1 _ =>
    intro h
    obtain ⟨h0, h1, b0, b1⟩ := h
    have hc := keyCompare_less x info
    rw [← insertCompare_eq_keyCompare] at hc
    simp only [TR_FilterBST.insert]
    by_cases e0 : TR_FilterBST.insertCompare x info = 0
    · simp only [e0, if_true]
      exact ⟨h0, h1, b0, b1⟩
    · simp only [e0, if_false]
      by_cases e1 : TR_FilterBST.insertCompare x info < 0
      · simp only [e1, if_true]
        by_cases hn : c0.isNull = true
        · simp only [hn, if_true]
          refine ⟨fun y hy => ?_, h1, isBST_leaf x, b1⟩
          rw [members_leaf] at hy
          subst hy
          exact hc.1.1 e1
        · simp only [hn, Bool.false_eq_true, if_false]
          refine ⟨fun y hy => ?_, h1, ih0 b0, b1⟩
          have hn' : c0.isNull = false := by cases hb : c0.isNull <;> simp_all
          rcases (mem_insert x y c0 hn').1 hy with hy | ⟨rfl, _⟩
          · exact h0 y hy
          · exact hc.1.1 e1
      · simp only [e1, if_false]
        have e2 : 0 < TR_FilterBST.insertCompare x info := by omega
        by_cases hn : c1.isNull = true
        · simp only [hn, if_true]
          refine ⟨h0, fun y hy => ?_, b0, isBST_leaf x⟩
          rw [members_leaf] at hy
          subst hy
          exact hc.2.1.1 e2
        · simp only [hn, Bool.false_eq_true, if_false]
          refine ⟨h0, fun y hy => ?_, b0, ih1 b1⟩
          have hn' : c1.isNull = false := by cases hb : c1.isNull <;> simp_all
          rcases (mem_insert x y c1 hn').1 hy with hy | ⟨rfl, _⟩
          · exact h1 y hy
          · exact hc.2.1.1 e2

theorem isBST_insertRoot {R : Type} (x : FilterInfo R) (t : TR_FilterBST R) (h : t.isBST) :
    (TR_FilterBST.insertRoot x t).isBST := by
  unfold TR_FilterBST.insertRoot
  split
  · exact isBST_leaf x
  · exact isBST_insert x t h

/-- `insert` leaves the nodes of the tree in their order; at most the new node comes in
between. -/
theorem members_insert_sublist {R : Type} (x : FilterInfo R) : ∀ t : TR_FilterBST R,
    t.members.Sublist (TR_FilterBST.insert x t).members := by
  intro t
  induction t with
  | null => exact List.Sublist.refl _
  | node info c0 c1 next ih0 ih1 _ =>
    have hnil : ∀ c : TR_FilterBST R, c.isNull = true → c.members = [] := by
      intro c hc
      cases c with
      | null => rfl
      | node _ _ _ _ => cases hc
    simp only [TR_FilterBST.insert]
    split
    · exact List.Sublist.refl _
    · split
      · split
        · rename_i hc
          simp only [TR_FilterBST.members, TR_FilterBST.leaf, hnil c0 hc, List.nil_append]
          exact List.sublist_cons_self _ _
        · simp only [TR_FilterBST.members]
          exact List.Sublist.append ih0 (List.Sublist.refl _)
      · split
        · rename_i hc
          simp only [TR_FilterBST.members, TR_FilterBST.leaf, hnil c1 hc, List.nil_append]
          exact List.Sublist.append (List.Sublist.refl _)
            (List.Sublist.cons₂ _ (List.nil_sublist _))
        · simp only [TR_FilterBST.members]
          exact List.Sublist.append (List.Sublist.refl _) (List.Sublist.cons₂ _ ih1)

/-- A node that a descent reaches is reached by the same descent after `insert`: no
existing node is changed or unlinked. -/
theorem findBy_insert_keep {R : Type} (f : FilterInfo R → Int) (x : FilterInfo R) :
    ∀ (t : TR_FilterBST R) (r : FilterInfo R), (TR_FilterBST.findBy f t).info? = some r →
      (TR_FilterBST.findBy f (TR_FilterBST.insert x t)).info? = some r := by
  intro t
  induction t with
  | null => intro r h; simp [TR_FilterBST.findBy, TR_FilterBST.info?] at h
  | node info c0 c1 next ih0 ih1 _ =>
    intro r h
    simp only [TR_FilterBST.findBy] at h
    have hnull : ∀ c : TR_FilterBST R, (TR_FilterBST.findBy f c).info? = some r →
        c.isNull = false := by
      intro c hc
      cases c with
      | null => simp [TR_FilterBST.findBy, TR_FilterBST.info?] at hc
      | node _ _ _ _ => rfl
    simp only [TR_FilterBST.insert]
    by_cases f0 : f info = 0
    · simp only [f0, if_true] at h
      split
      · simp only [TR_FilterBST.findBy, f0, if_true]; exact h
      · split
        · split <;> (simp only [TR_FilterBST.findBy, f0, if_true]; exact h)
        · split <;> (simp only [TR_FilterBST.findBy, f0, if_true]; exact h)
    · simp only [f0, if_false] at h
      by_cases f1 : f info < 0
      · simp only [f1, if_true] at h
        split
        · simp only [TR_FilterBST.findBy, f0, f1, if_false, if_true]; exact h
        · split
          · simp only [hnull c0 h, Bool.false_eq_true, if_false, TR_FilterBST.findBy, f0, f1,
              if_true]
            exact ih0 r h
          · split <;> (simp only [TR_FilterBST.findBy, f0, f1, if_false, if_true]; exact h)
      · simp only [f1, if_false] at h
        split
        · simp only [TR_FilterBST.findBy, f0, f1, if_false]; exact h
        · split
          · split <;> (simp only [TR_FilterBST.findBy, f0, f1, if_false]; exact h)
          · simp only [hnull c1 h, Bool.false_eq_true, if_false, TR_FilterBST.findBy, f0, f1]
            exact ih1 r h

/-- The nodes of a binary search tree, read in order, have strictly increasing keys. -/
theorem isBST_sorted {R : Type} : ∀ t : TR_FilterBST R, t.isBST →
    t.members.Pairwise keyLess := by
  intro t
  induction t with
  | null => intro _; exact List.Pairwise.nil
  | node info c0 c1 next ih0 ih1 _ =>
    intro h
    obtain ⟨h0, h1, b0, b1⟩ := h
    simp only [TR_FilterBST.members]
    rw [List.pairwise_append]
    refine ⟨ih0 b0, List.pairwise_cons.2 ⟨h1, ih1 b1⟩, ?_⟩
    intro a ha b hb
    rcases List.mem_cons.1 hb with rfl | hb
    · exact h0 a ha
    · exact keyLess_trans a info b (h0 a ha) (h1 b hb)

/-- No two nodes of a binary search tree have the same key. -/
theorem isBST_unique {R : Type} (t : TR_FilterBST R) (h : t.isBST) (a b : FilterInfo R)
    (ha : a ∈ t.members) (hb : b ∈ t.members) (hk : ruleKey a = ruleKey b) : a = b := by
  have hs := isBST_sorted t h
  have h1 : t.members.Pairwise (fun u v => ruleKey u = ruleKey v → u = v) :=
    hs.imp (fun huv hk => (keyLess_irrefl _ _ huv hk).elim)
  have h2 : t.members.Pairwise (flip fun u v => ruleKey u = ruleKey v → u = v) :=
    hs.imp (fun huv hk => (keyLess_irrefl _ _ huv hk.symm).elim)
  exact List.Pairwise.forall_of_forall_of_flip (fun _ _ _ => rfl) h1 h2 ha hb hk

/-- In a binary search tree the descent by the key of a stored rule reaches that rule. -/
theorem isBST_findBy {R : Type} (r : FilterInfo R) : ∀ t : TR_FilterBST R, t.isBST →
    r ∈ t.members →
    (TR_FilterBST.findBy (keyCompare r.name r.className r.signature) t).info? = some r := by
  intro t
  induction t with
  | null => intro _ h; cases h
  | node info c0 c1 next ih0 ih1 _ =>
    intro h hm
    obtain ⟨h0, h1, b0, b1⟩ := h
    obtain ⟨k1, k2, k3⟩ := keyCompare_less r info
    rw [members_node] at hm
    simp only [TR_FilterBST.findBy]
    by_cases e0 : keyCompare r.name r.className r.signature info = 0
    · simp only [e0, if_true, TR_FilterBST.info?]
      rcases hm with hm | hm | hm
      · exact (keyLess_irrefl _ _ (h0 r hm) (k3.1 e0)).elim
      · rw [hm]
      · exact (keyLess_irrefl _ _ (h1 r hm) (k3.1 e0).symm).elim
    · simp only [e0, if_false]
      by_cases e1 : keyCompare r.name r.className r.signature info < 0
      · simp only [e1, if_true]
        rcases hm with hm | hm | hm
        · exact ih0 b0 hm
        · exact absurd (k3.2 (by rw [hm])) e0
        · exact (keyLess_asymm _ _ (k1.1 e1) (h1 r hm)).elim
      · simp only [e1, if_false]
        have e2 : 0 < keyCompare r.name r.className r.signature info := by omega
        rcases hm with hm | hm | hm
        · exact (keyLess_asymm _ _ (k2.1 e2) (h0 r hm)).elim
        · exact absurd (k3.2 (by rw [hm])) e0
        · exact ih1 b1 hm

/-- In a binary search tree the descent by a name reaches a node whenever a node of the
tree has that name. -/
theorem isBST_findByName {R : Type} (n : List Char) : ∀ t : TR_FilterBST R, t.isBST →
    (∃ r ∈ t.members, r.name = n) →
    (TR_FilterBST.findBy (fun node => strcmp n node.name) t).isNull = false := by
  intro t
  induction t with
  | null => intro _ h; obtain ⟨r, hr, _⟩ := h; cases hr
  | node info c0 c1 next ih0 ih1 _ =>
    intro h hm
    obtain ⟨h0, h1, b0, b1⟩ := h
    obtain ⟨r, hr, hn⟩ := hm
    rw [members_node] at hr
    simp only [TR_FilterBST.findBy]
    by_cases e0 : strcmp n info.name = 0
    · simp only [e0, if_true, TR_FilterBST.isNull]
    · simp only [e0, if_false]
      have hne : n ≠ info.name := fun e => e0 ((strcmp_eq_zero _ _).2 e)
      by_cases e1 : strcmp n info.name < 0
      · simp only [e1, if_true]
        have hlt : n < info.name := (strcmp_lt _ _).1 e1
        rcases hr with hr | hr | hr
        · exact ih0 b0 ⟨r, hr, hn⟩
        · exact absurd (by rw [← hn, hr]) hne
        · have := h1 r hr
          unfold keyLess at this
          rw [hn] at this
          rcases this with this | ⟨this, _⟩
          · exact absurd hlt (lt_asymm this)
          · exact absurd this.symm hne
      · simp only [e1, if_false]
        have hgt : info.name < n := (strcmp_gt _ _).1 (by omega)
        rcases hr with hr | hr | hr
        · have := h0 r hr
          unfold keyLess at this
          rw [hn] at this
          rcases this with this | ⟨this, _⟩
          · exact absurd hgt (lt_asymm this)
          · exact absurd this hne
        · exact absurd (by rw [← hn, hr]) hne
        · exact ih1 b1 ⟨r, hr, hn⟩

/-- The two `find` overloads as descents by whole strings. -/
theorem find_eq_keyCompare {R : Type} (n r1 c r2 s r3 : List Char) (t : TR_FilterBST R) :
    TR_FilterBST.find (n ++ r1) n.length (c ++ r2) c.length (s ++ r3) s.length t
      = TR_FilterBST.findBy (keyCompare n c s) t := by
  rw [find_eq_findBy]
  apply findBy_congr
  intro node _
  exact findCompare_signs n r1 c r2 s r3 node

theorem findName_eq_strcmp {R : Type} (n r1 : List Char) (t : TR_FilterBST R) :
    TR_FilterBST.findName (n ++ r1) n.length t
      = TR_FilterBST.findBy (fun node => strcmp n node.name) t := by
  rw [findName_eq_findBy]
  apply findBy_congr
  intro node _
  exact findNameCompare_signs n r1 node

/-- The trees of a set stay binary search trees when `addFilter` adds a rule. -/
theorem addFilter_isBST {R : Type} (H : Nat) (re : SimpleRegex R) (s : List Char)
    (ex osi ln : Int) (fs : CompilationFilters R) (y : FilterInfo R)
    (hn : fs.filterNameList.isBST) (hb : ∀ b, (fs.filterHash b).isBST)
    (h : (addFilter H re s ex osi ln (some fs)).filterBST = some y) :
    (addFilter H re s ex osi ln (some fs)).filters.filterNameList.isBST ∧
    ∀ b, ((addFilter H re s ex osi ln (some fs)).filters.filterHash b).isBST := by
  rcases addFilter_trees H re s ex osi ln fs y h with
    ⟨_, _, e1, e2, _⟩ | ⟨_, _, _, _, _, e1, e2, _⟩ | ⟨_, _, _, _, e1, e2, _⟩
  · rw [e1, e2]
    exact ⟨hn, hb⟩
  · rw [e1, e2]
    exact ⟨isBST_insertRoot y _ hn, hb⟩
  · rw [e1, e2]
    refine ⟨hn, fun b => ?_⟩
    by_cases hbb : b = (y.name.length + y.className.length + y.signature.length) % H
    · subst hbb
      rw [Function.update_same]
      exact isBST_insertRoot y _ (hb _)
    · rw [Function.update_noteq hbb]
      exact hb b

theorem addFilters_isBST {R : Type} (H : Nat) (re : SimpleRegex R) (ds : List Directive) :
    ∀ (fs fs1 : CompilationFilters R), addFilters H re ds fs = some fs1 →
      fs.filterNameList.isBST → (∀ b, (fs.filterHash b).isBST) →
      fs1.filterNameList.isBST ∧ ∀ b, (fs1.filterHash b).isBST := by
  induction ds with
  | nil =>
    intro fs fs1 h hn hb
    simp only [addFilters, Option.some.injEq] at h
    subst h
    exact ⟨hn, hb⟩
  | cons d ds ih =>
    intro fs fs1 h hn hb
    simp only [addFilters] at h
    cases hy : (addFilter H re d.filterString d.scanningExclude d.optionSetIndex d.lineNum
      (some fs)).filterBST with
    | none => simp [hy] at h
    | some y =>
      simp only [hy] at h
      obtain ⟨a1, a2⟩ := addFilter_isBST H re _ _ _ _ fs y hn hb hy
      exact ih _ _ h a1 a2

/-- What `initialiseRegisterFile` does when the member `_cg` holds a code generator: when
the enumerators `NoReg`, `SpilledReg`, `x0` .. `x29`, `lr`, `v0` .. `v31` are pairwise
distinct ordinals inside the table, it leaves a machine in which every `x` ordinal and
`lr` hold a descriptor of kind `TR_GPR` and every `v` ordinal one of kind `TR_FPR`, each
with its own ordinal as register number, the state `Free`, the weight 0 and no assigned
register, and in which `NoReg` and `SpilledReg` hold `NULL`.  When moreover the ranges
`FirstGPR` .. `LastAssignableGPR` (of at least two ordinals) and `FirstFPR` .. `LastFPR`
consist of such ordinals, `findBestFreeRegister` on that machine returns the descriptor of
`FirstGPR` for `TR_GPR`, of the next ordinal when `excludeGPR0` is set, and of `FirstFPR`
for `TR_FPR`, and changes nothing. -/
theorem initialiseRegisterFile_spec {CodeGenerator : Type} (n : RegOrdinals) (c : RegNum)
    (cg : CodeGenerator) (memory : List (Option RealRegister)) (cu : Bool)
    (hlen : memory.length = n.NumRegisters)
    (hdistinct : (n.NoReg :: n.SpilledReg :: (n.gprs ++ n.fprs)).Nodup)
    (hbound : ∀ o ∈ n.NoReg :: n.SpilledReg :: (n.gprs ++ n.fprs), o < n.NumRegisters)
    (hgpr : ∀ j ∈ List.range' c.FirstGPR (c.LastAssignableGPR + 1 - c.FirstGPR), j ∈ n.gprs)
    (hfpr : ∀ j ∈ List.range' c.FirstFPR (c.LastFPR + 1 - c.FirstFPR), j ∈ n.fprs)
    (hg : c.FirstGPR < c.LastAssignableGPR) (hf : c.FirstFPR ≤ c.LastFPR) :
    ∃ m, initialiseRegisterFile n (some cg) { registerFile := memory } = some m ∧
      (∀ i, i < 30 → m.deref (n.x i) = some (mkRegister .TR_GPR 0 .Free (n.x i))) ∧
      m.deref n.lr = some (mkRegister .TR_GPR 0 .Free n.lr) ∧
      (∀ i, i < 32 → m.deref (n.v i) = some (mkRegister .TR_FPR 0 .Free (n.v i))) ∧
      (∀ o r, o ∈ n.gprs ++ n.fprs → m.deref o = some r →
        r.registerNumber = o ∧ r.state = RegState.Free ∧ r.weight = 0 ∧
        r.assignedRegister = none ∧ (r.kind = .TR_GPR ↔ o ∈ n.gprs)) ∧
      m.registerFile.get? n.NoReg = some none ∧
      m.registerFile.get? n.SpilledReg = some none ∧
      findBestFreeRegister c m .TR_GPR false cu = some (some c.FirstGPR, m) ∧
      findBestFreeRegister c m .TR_GPR true cu = some (some (c.FirstGPR + 1), m) ∧
      (∀ ex, findBestFreeRegister c m .TR_FPR ex cu = some (some c.FirstFPR, m)) := by
  have hkeys : (registerFileStores n).map Prod.fst
      = n.NoReg :: n.SpilledReg :: (n.gprs ++ n.fprs) := by
    simp [registerFileStores, Function.comp_def]
  obtain ⟨m, h1, _, h3, _⟩ := storeAll_spec (registerFileStores n) { registerFile := memory }
    (by
      intro s hs
      have : s.1 ∈ (registerFileStores n).map Prod.fst := List.mem_map_of_mem _ hs
      rw [hkeys] at this
      rw [hlen]
      exact hbound _ this)
    (by rw [hkeys]; exact hdistinct)
  have hG : ∀ o ∈ n.gprs, m.deref o = some (mkRegister .TR_GPR 0 .Free o) := by
    intro o ho
    rw [deref_eq_some]
    exact h3 (o, some (mkRegister .TR_GPR 0 .Free o)) (by
      simp only [registerFileStores, List.mem_cons, List.mem_append, List.mem_map]
      exact Or.inr (Or.inr (Or.inl ⟨o, ho, rfl⟩)))
  have hF : ∀ o ∈ n.fprs, m.deref o = some (mkRegister .TR_FPR 0 .Free o) := by
    intro o ho
    rw [deref_eq_some]
    exact h3 (o, some (mkRegister .TR_FPR 0 .Free o)) (by
      simp only [registerFileStores, List.mem_cons, List.mem_append, List.mem_map]
      exact Or.inr (Or.inr (Or.inr ⟨o, ho, rfl⟩)))
  have hdisj : ∀ o, o ∈ n.gprs → o ∈ n.fprs → False := by
    intro o h1 h2
    have := (List.nodup_cons.1 (List.nodup_cons.1 hdistinct).2).2
    exact (List.nodup_append.1 this).2.2 h1 h2
  refine ⟨m, ?_, ?_, ?_, ?_, ?_, ?_, ?_, ?_, ?_, ?_⟩
  · simp only [initialiseRegisterFile]
    exact h1
  · intro i hi
    exact hG _ (List.mem_append_left _ (List.mem_map_of_mem _ (List.mem_range.2 hi)))
  · exact hG _ (List.mem_append_right _ (List.mem_singleton_self _))
  · intro i hi
    exact hF _ (List.mem_map_of_mem _ (List.mem_range.2 hi))
  · intro o r ho hr
    rcases List.mem_append.1 ho with ho | ho
    · rw [hG o ho] at hr
      cases hr
      exact ⟨rfl, rfl, rfl, rfl, ⟨fun _ => ho, fun _ => rfl⟩⟩
    · rw [hF o ho] at hr
      cases hr
      refine ⟨rfl, rfl, rfl, rfl, ⟨fun h => ?_, fun h => (hdisj o h ho).elim⟩⟩
      simp [mkRegister] at h
  · exact h3 (n.NoReg, none) (List.mem_cons_self _ _)
  · exact h3 (n.SpilledReg, none) (List.mem_cons_of_mem _ (List.mem_cons_self _ _))
  · refine findBest_fresh c m .TR_GPR false cu c.FirstGPR c.LastAssignableGPR rfl
      (Nat.le_of_lt hg) ?_
    intro j h1 h2
    exact ⟨_, hG j (hgpr j (List.mem_range'_1.2 ⟨h1, by omega⟩)), rfl, rfl⟩
  · refine findBest_fresh c m .TR_GPR true cu (c.FirstGPR + 1) c.LastAssignableGPR rfl hg ?_
    intro j h1 h2
    exact ⟨_, hG j (hgpr j (List.mem_range'_1.2 ⟨by omega, by omega⟩)), rfl, rfl⟩
  · intro ex
    refine findBest_fresh c m .TR_FPR ex cu c.FirstFPR c.LastFPR rfl hf ?_
    intro j h1 h2
    exact ⟨_, hF j (hfpr j (List.mem_range'_1.2 ⟨h1, by omega⟩)), rfl, rfl⟩

end OMR

namespace OMR

/-! ### Claims on `findBestFreeRegister` -/

/-- C1: a descriptor returned by `findBestFreeRegister` has a weight less than or equal to
the weight of every eligible descriptor of the scanned sub-range, and it has the lowest
ordinal among the eligible descriptors of that least weight. -/
theorem findBestFreeRegister_least_weight_lowest_ordinal (c : RegNum) (m m' : Machine)
    (rk : TR_RegisterKinds) (ex cu : Bool) (i : Nat)
    (h : findBestFreeRegister c m rk ex cu = some (some i, m')) :
    ∃ first last r, scanRange c rk ex = some (first, last) ∧ m.deref i = some r ∧
      ∀ j r', first ≤ j → j ≤ last → m.deref j = some r' → eligible cu r' = true →
        r.weight ≤ r'.weight ∧ (r'.weight = r.weight → i ≤ j) := by
  obtain ⟨first, last, r, hr, _, _, hd, _, _, hmin, _⟩ := findBest_some h
  refine ⟨first, last, r, hr, hd, ?_⟩
  intro j r' h1 h2 hdj hej
  obtain ⟨hle, hlt⟩ := hmin j r' h1 h2 hdj hej
  refine ⟨hle, fun heq => ?_⟩
  by_contra hcon
  have := hlt (by omega)
  omega

theorem findBestFreeRegister_least_weight_lowest_ordinal_witness :
    findBestFreeRegister aarch64RegNum busyMachine .TR_GPR false true
        = some (some 2, busyMachineAfter) ∧
    ∃ first last r, scanRange aarch64RegNum .TR_GPR false = some (first, last) ∧
      busyMachine.deref 2 = some r ∧
      ∀ j r', first ≤ j → j ≤ last → busyMachine.deref j = some r' →
        eligible true r' = true → r.weight ≤ r'.weight ∧ (r'.weight = r.weight → 2 ≤ j) :=
  ⟨by decide, findBestFreeRegister_least_weight_lowest_ordinal aarch64RegNum busyMachine
    busyMachineAfter .TR_GPR false true 2 (by decide)⟩

/-- C2: a descriptor returned by `findBestFreeRegister` has its ordinal inside the requested
sub-range (`FirstGPR`..`LastAssignableGPR`, from one past `FirstGPR` when `excludeGPR0` is
set; `FirstFPR`..`LastFPR` whatever `excludeGPR0` is), and before the call it was `Free`, or
`Unlatched` with `considerUnlatched` set; it was neither `Blocked` nor `Assigned`. -/
theorem findBestFreeRegister_in_range_and_eligible (c : RegNum) (m m' : Machine)
    (rk : TR_RegisterKinds) (ex cu : Bool) (i : Nat)
    (h : findBestFreeRegister c m rk ex cu = some (some i, m')) :
    (rk = .TR_GPR ∨ rk = .TR_FPR) ∧
    (rk = .TR_GPR → (if ex then c.FirstGPR + 1 else c.FirstGPR) ≤ i ∧
      i ≤ c.LastAssignableGPR) ∧
    (rk = .TR_FPR → c.FirstFPR ≤ i ∧ i ≤ c.LastFPR) ∧
    ∃ r, m.deref i = some r ∧
      (r.state = RegState.Free ∨ (r.state = RegState.Unlatched ∧ cu = true)) ∧
      r.state ≠ RegState.Blocked ∧ r.state ≠ RegState.Assigned := by
  obtain ⟨first, last, r, hr, h1, h2, hd, he, _, _, _⟩ := findBest_some h
  have hst : r.state = RegState.Free ∨ (r.state = RegState.Unlatched ∧ cu = true) := by
    simp only [eligible, Bool.or_eq_true, beq_iff_eq, Bool.and_eq_true] at he
    rcases he with he | ⟨he1, he2⟩
    · exact Or.inl he
    · exact Or.inr ⟨he2, he1⟩
  refine ⟨?_, ?_, ?_, r, hd, hst, ?_, ?_⟩
  · cases rk <;> simp [scanRange] at hr ⊢
  · intro hk
    subst hk
    simp only [scanRange, Option.some.injEq, Prod.mk.injEq] at hr
    obtain ⟨hf, hl⟩ := hr
    subst hf; subst hl
    exact ⟨h1, h2⟩
  · intro hk
    subst hk
    simp only [scanRange, Option.some.injEq, Prod.mk.injEq] at hr
    obtain ⟨hf, hl⟩ := hr
    subst hf; subst hl
    exact ⟨h1, h2⟩
  · rcases hst with hs | ⟨hs, _⟩ <;> simp [hs]
  · rcases hst with hs | ⟨hs, _⟩ <;> simp [hs]

theorem findBestFreeRegister_in_range_and_eligible_witness :
    findBestFreeRegister aarch64RegNum busyMachine .TR_GPR true false
        = some (some 3, busyMachine) ∧
    ((TR_RegisterKinds.TR_GPR = .TR_GPR ∨ TR_RegisterKinds.TR_GPR = .TR_FPR) ∧
    (TR_RegisterKinds.TR_GPR = .TR_GPR →
      (if true = true then aarch64RegNum.FirstGPR + 1 else aarch64RegNum.FirstGPR) ≤ 3 ∧
      3 ≤ aarch64RegNum.LastAssignableGPR) ∧
    (TR_RegisterKinds.TR_GPR = .TR_FPR →
      aarch64RegNum.FirstFPR ≤ 3 ∧ 3 ≤ aarch64RegNum.LastFPR) ∧
    ∃ r, busyMachine.deref 3 = some r ∧
      (r.state = RegState.Free ∨ (r.state = RegState.Unlatched ∧ false = true)) ∧
      r.state ≠ RegState.Blocked ∧ r.state ≠ RegState.Assigned) :=
  ⟨by decide, findBestFreeRegister_in_range_and_eligible aarch64RegNum busyMachine
    busyMachine .TR_GPR true false 3 (by decide)⟩

/-- C3: every descriptor returned by `findBestFreeRegister` is in state `Free` after the
call, and one that was `Unlatched` before the call has no assigned virtual register after
it. -/
theorem findBestFreeRegister_result_is_free (c : RegNum) (m m' : Machine)
    (rk : TR_RegisterKinds) (ex cu : Bool) (i : Nat)
    (h : findBestFreeRegister c m rk ex cu = some (some i, m')) :
    ∃ r', m'.deref i = some r' ∧ r'.state = RegState.Free ∧
      ∀ r, m.deref i = some r → r.state = RegState.Unlatched →
        cu = true ∧ r'.assignedRegister = none := by
  obtain ⟨first, last, r, _, _, _, hd, he, _, _, hm⟩ := findBest_some h
  by_cases hst : r.state = RegState.Unlatched
  · rw [if_pos hst] at hm
    have hlen : i < m.registerFile.length := by
      rw [deref_eq_some] at hd
      exact (List.get?_eq_some.1 hd).1
    refine ⟨{ r with assignedRegister := none, state := RegState.Free }, ?_, rfl, ?_⟩
    · rw [hm, deref_eq_some]
      simp [Machine.normalize, List.getElem?_set, hlen]
    · intro r0 hr0 _
      rw [hd] at hr0
      cases hr0
      simp only [eligible, hst, Bool.or_eq_true, beq_iff_eq, Bool.and_eq_true] at he
      rcases he with he | he
      · cases he
      · exact ⟨he.1, rfl⟩
  · rw [if_neg hst] at hm
    subst hm
    refine ⟨r, hd, ?_, ?_⟩
    · simp only [eligible, Bool.or_eq_true, beq_iff_eq, Bool.and_eq_true] at he
      rcases he with he | he
      · exact he
      · exact absurd he.2 hst
    · intro r0 hr0 h0
      rw [hd] at hr0
      cases hr0
      exact absurd h0 hst

theorem findBestFreeRegister_result_is_free_witness :
    findBestFreeRegister aarch64RegNum busyMachine .TR_GPR false true
        = some (some 2, busyMachineAfter) ∧
    ∃ r', busyMachineAfter.deref 2 = some r' ∧ r'.state = RegState.Free ∧
      ∀ r, busyMachine.deref 2 = some r → r.state = RegState.Unlatched →
        true = true ∧ r'.assignedRegister = none :=
  ⟨by decide, findBestFreeRegister_result_is_free aarch64RegNum busyMachine
    busyMachineAfter .TR_GPR false true 2 (by decide)⟩

/-- C4: when the kind has a case in the switch, every slot of the scanned sub-range holds
a descriptor and the weights are values of a weight type of fewer than 32 bits,
`findBestFreeRegister` returns none if and only if the sub-range contains no eligible
descriptor, that is, no descriptor in state `Free` and none in state `Unlatched` when
`considerUnlatched` is true; the weights of the eligible descriptors play no part. -/
theorem findBestFreeRegister_none_iff_no_eligible (c : RegNum) (m : Machine)
    (rk : TR_RegisterKinds) (ex cu : Bool) (first last weightBits : Nat)
    (hr : scanRange c rk ex = some (first, last))
    (hall : ∀ j, first ≤ j → j ≤ last → ∃ r, m.deref j = some r)
    (hbits : weightBits < 32) (hfit : m.weightsFit weightBits = true) :
    (findBestFreeRegister c m rk ex cu = some (none, m) ↔
      ¬ ∃ j r, first ≤ j ∧ j ≤ last ∧ m.deref j = some r ∧
        (r.state = RegState.Free ∨ (cu = true ∧ r.state = RegState.Unlatched))) ∧
    ((∃ m', findBestFreeRegister c m rk ex cu = some (none, m')) ↔
      findBestFreeRegister c m rk ex cu = some (none, m)) := by
  have hel : ∀ r : RealRegister, eligible cu r = true ↔
      (r.state = RegState.Free ∨ (cu = true ∧ r.state = RegState.Unlatched)) := by
    intro r
    simp only [eligible, Bool.or_eq_true, beq_iff_eq, Bool.and_eq_true]
  refine ⟨?_, ?_⟩
  · rw [findBest_none_iff c m rk ex cu first last hr hall]
    constructor
    · rintro hno ⟨j, r, h1, h2, hd, hs⟩
      exact hno ⟨j, r, h1, h2, hd, (hel r).2 hs, weightsFit_lt hbits hfit hd⟩
    · rintro hno ⟨j, r, h1, h2, hd, he, _⟩
      exact hno ⟨j, r, h1, h2, hd, (hel r).1 he⟩
  · constructor
    · rintro ⟨m', h⟩
      obtain ⟨hm, _⟩ := findBest_none h
      rw [h, hm]
    · intro h
      exact ⟨m, h⟩

/-- C4, witness: on `heavyMachine`, whose weights fit 16 bits, the only free general
register has the largest weight `0xffff` and is returned; no floating-point register is
eligible and the call for `TR_FPR` returns none. -/
theorem findBestFreeRegister_none_iff_no_eligible_witness :
    findBestFreeRegister aarch64RegNum heavyMachine .TR_GPR false false
      = some (some 1, heavyMachine) ∧
    findBestFreeRegister aarch64RegNum heavyMachine .TR_FPR false true
      = some (none, heavyMachine) ∧
    scanRange aarch64RegNum .TR_FPR false = some (33, 64) ∧
    (∀ j, 33 ≤ j → j ≤ 64 → ∃ r, heavyMachine.deref j = some r) ∧
    (16 < 32 ∧ heavyMachine.weightsFit 16 = true) ∧
    ((findBestFreeRegister aarch64RegNum heavyMachine .TR_FPR false true
        = some (none, heavyMachine) ↔
      ¬ ∃ j r, 33 ≤ j ∧ j ≤ 64 ∧ heavyMachine.deref j = some r ∧
        (r.state = RegState.Free ∨ (true = true ∧ r.state = RegState.Unlatched))) ∧
    ((∃ m', findBestFreeRegister aarch64RegNum heavyMachine .TR_FPR false true
        = some (none, m')) ↔
      findBestFreeRegister aarch64RegNum heavyMachine .TR_FPR false true
        = some (none, heavyMachine))) :=
  have hall : ∀ j, 33 ≤ j → j ≤ 64 → ∃ r, heavyMachine.deref j = some r := by
    intro j h1 h2
    have hj : j < 65 := by omega
    have hdec : ∀ k, k < 65 → 33 ≤ k → (heavyMachine.deref k).isSome = true := by decide
    exact Option.isSome_iff_exists.1 (hdec j hj h1)
  ⟨by decide, by decide, by decide, hall, ⟨by decide, by decide⟩,
    findBestFreeRegister_none_iff_no_eligible aarch64RegNum heavyMachine .TR_FPR false true
      33 64 16 (by decide) hall (by decide) (by decide)⟩

/-- C5: `findBestFreeRegister` leaves the table length and every slot other than the
returned one as they were; it changes no weight, kind, register number or
has-been-assigned flag; when it returns none, or a descriptor that was not `Unlatched`,
the register file is identical before and after; and a returned descriptor that was
`Unlatched` differs only by its state, now `Free`, and its cleared back-reference. -/
theorem findBestFreeRegister_frame (c : RegNum) (m m' : Machine) (rk : TR_RegisterKinds)
    (ex cu : Bool) (res : Option Nat)
    (h : findBestFreeRegister c m rk ex cu = some (res, m')) :
    m'.registerFile.length = m.registerFile.length ∧
    (∀ j, res ≠ some j → m'.registerFile.get? j = m.registerFile.get? j) ∧
    (∀ j r, m.deref j = some r → ∃ r', m'.deref j = some r' ∧ r'.weight = r.weight ∧
      r'.kind = r.kind ∧ r'.registerNumber = r.registerNumber ∧
      r'.hasBeenAssignedInMethod = r.hasBeenAssignedInMethod) ∧
    (res = none → m' = m) ∧
    (∀ i r, res = some i → m.deref i = some r → r.state ≠ RegState.Unlatched → m' = m) ∧
    (∀ i r, res = some i → m.deref i = some r → r.state = RegState.Unlatched →
      m'.deref i = some { r with state := RegState.Free, assignedRegister := none }) := by
  cases res with
  | none =>
    obtain ⟨hm, _⟩ := findBest_none h
    subst hm
    refine ⟨rfl, fun _ _ => rfl, fun j r hd => ⟨r, hd, rfl, rfl, rfl, rfl⟩, fun _ => rfl, ?_, ?_⟩
    · intro i r hi
      cases hi
    · intro i r hi
      cases hi
  | some i =>
    obtain ⟨first, last, r, _, _, _, hd, _, _, _, hm⟩ := findBest_some h
    have hlen : i < m.registerFile.length := by
      rw [deref_eq_some] at hd
      exact (List.get?_eq_some.1 hd).1
    by_cases hst : r.state = RegState.Unlatched
    · rw [if_pos hst] at hm
      subst hm
      refine ⟨by simp [Machine.normalize], ?_, ?_, fun hn => (by cases hn), ?_, ?_⟩
      · intro j hj
        have hij : i ≠ j := fun e => hj (by rw [e])
        simp [Machine.normalize, List.getElem?_set, hij]
      · intro j rj hdj
        by_cases hij : i = j
        · subst hij
          rw [hd] at hdj
          cases hdj
          refine ⟨{ r with assignedRegister := none, state := RegState.Free }, ?_,
            rfl, rfl, rfl, rfl⟩
          rw [deref_eq_some]
          simp [Machine.normalize, List.getElem?_set, hlen]
        · refine ⟨rj, ?_, rfl, rfl, rfl, rfl⟩
          rw [deref_eq_some] at hdj ⊢
          simpa [Machine.normalize, List.getElem?_set, hij] using hdj
      · intro i' r' hi' hd' hns
        cases hi'
        rw [hd] at hd'
        cases hd'
        exact absurd hst hns
      · intro i' r' hi' hd' _
        cases hi'
        rw [hd] at hd'
        cases hd'
        rw [deref_eq_some]
        simp [Machine.normalize, List.getElem?_set, hlen]
    · rw [if_neg hst] at hm
      subst hm
      refine ⟨rfl, fun _ _ => rfl, fun j r hd => ⟨r, hd, rfl, rfl, rfl, rfl⟩,
        fun _ => rfl, fun _ _ _ _ _ => rfl, ?_⟩
      intro i' r' hi' hd' hu
      cases hi'
      rw [hd] at hd'
      cases hd'
      exact absurd hu hst

theorem findBestFreeRegister_frame_witness :
    findBestFreeRegister aarch64RegNum busyMachine .TR_GPR false true
        = some (some 2, busyMachineAfter) ∧
    (busyMachineAfter.registerFile.length = busyMachine.registerFile.length ∧
    (∀ j, some 2 ≠ some j →
      busyMachineAfter.registerFile.get? j = busyMachine.registerFile.get? j) ∧
    (∀ j r, busyMachine.deref j = some r → ∃ r', busyMachineAfter.deref j = some r' ∧
      r'.weight = r.weight ∧ r'.kind = r.kind ∧ r'.registerNumber = r.registerNumber ∧
      r'.hasBeenAssignedInMethod = r.hasBeenAssignedInMethod) ∧
    (some 2 = none → busyMachineAfter = busyMachine) ∧
    (∀ i r, some 2 = some i → busyMachine.deref i = some r →
      r.state ≠ RegState.Unlatched → busyMachineAfter = busyMachine) ∧
    (∀ i r, some 2 = some i → busyMachine.deref i = some r →
      r.state = RegState.Unlatched →
      busyMachineAfter.deref i
        = some { r with state := RegState.Free, assignedRegister := none })) :=
  ⟨by decide, findBestFreeRegister_frame aarch64RegNum busyMachine busyMachineAfter
    .TR_GPR false true (some 2) (by decide)⟩

end OMR

namespace OMR

/-! ### Claims on `methodSigCanBeFound` and `addFilter` -/

/-- C6: the boolean returned by `methodSigCanBeFound`, called with no prior matched rule:
when a rule matched, the method is allowed exactly when the kind of that rule is none of
the four Exclude kinds; when no rule matched (the reported rule is `NULL`), the method is
allowed exactly when the `defaultExclude` flag of the set is false. -/
theorem methodSigCanBeFound_outcome {R : Type} (H : Nat) (re : SimpleRegex R)
    (methodSig : List Char) (fs : CompilationFilters R) (methodType : MethodType)
    (allowed : Bool) (t : TR_FilterBST R)
    (h : methodSigCanBeFound H re methodSig fs .null methodType = some (allowed, t)) :
    (∀ info c0 c1 nx, t = .node info c0 c1 nx →
      (allowed = true ↔
        info.filterType ≠ .TR_FILTER_EXCLUDE_NAME_ONLY ∧
        info.filterType ≠ .TR_FILTER_EXCLUDE_NAME_AND_SIG ∧
        info.filterType ≠ .TR_FILTER_EXCLUDE_SPECIFIC_METHOD ∧
        info.filterType ≠ .TR_FILTER_EXCLUDE_REGEX)) ∧
    (t = .null → (allowed = true ↔ fs.defaultExclude = false)) := by
  unfold methodSigCanBeFound at h
  cases hs : splitMethodSig methodSig methodType with
  | none => simp [hs] at h
  | some p =>
    simp only [hs] at h
    split at h
    · cases h
    · rename_i filter _
      simp only [Option.some.injEq, Prod.mk.injEq] at h
      obtain ⟨ha, ht⟩ := h
      subst ht
      constructor
      · intro info c0 c1 nx e
        subst e
        simp only at ha
        rw [← ha]
        cases info.filterType <;> simp [excludedByType]
      · intro e
        subst e
        simp only at ha
        rw [← ha]
        simp

theorem methodSigCanBeFound_outcome_witness :
    methodSigCanBeFound 211 noRegex "Baz.qux()V".toList
        (builtSet [includeDirective "Foo.bar()V" 1]) .null MethodType.J9
      = some (false, .null) ∧
    (∀ info c0 c1 nx, (TR_FilterBST.null : TR_FilterBST Unit) = .node info c0 c1 nx →
      (false = true ↔
        info.filterType ≠ .TR_FILTER_EXCLUDE_NAME_ONLY ∧
        info.filterType ≠ .TR_FILTER_EXCLUDE_NAME_AND_SIG ∧
        info.filterType ≠ .TR_FILTER_EXCLUDE_SPECIFIC_METHOD ∧
        info.filterType ≠ .TR_FILTER_EXCLUDE_REGEX)) ∧
    ((TR_FilterBST.null : TR_FilterBST Unit) = .null →
      (false = true ↔ (builtSet [includeDirective "Foo.bar()V" 1]).defaultExclude = false)) :=
  ⟨by decide, methodSigCanBeFound_outcome 211 noRegex "Baz.qux()V".toList
    (builtSet [includeDirective "Foo.bar()V" 1]) MethodType.J9 false .null (by decide)⟩

/-- C8: in a set built from a cleared set by name-form `addFilter` calls that all return a
filter, for a rule stored in a hash bucket with a SpecificMethod kind (include or exclude)
and a key (name n, class C, signature S) where C has no dot and does not start with a
slash, n has no opening parenthesis and S starts with one, the query on the text `C.nS`
with the Java method type and no prior matched rule reports that rule, which is the rule
of the first directive of the sequence with that key. -/
theorem specific_rule_round_trip {R : Type} (H : Nat) (re : SimpleRegex R)
    (ds : List Directive) (fs : CompilationFilters R)
    (hform : ∀ d ∈ ds, d.isNameForm = true)
    (hbuild : addFilters H re ds clearFilters = some fs)
    (r : FilterInfo R) (hmem : r ∈ fs.hashRules H) (hkind : r.filterType.isSpecific = true)
    (hC : '.' ∉ r.className) (hC0 : r.className.head? ≠ some '/') (hn : '(' ∉ r.name)
    (hS : r.signature.head? = some '(') :
    ∃ t, methodSigCanBeFound H re (r.className ++ '.' :: (r.name ++ r.signature)) fs .null
        MethodType.J9 = some (!excludedByType r.filterType, t) ∧
      t.info? = some r ∧
      (ds.map (@Directive.rule R)).find? (fun x =>
        decide (x.name = r.name ∧ x.className = r.className ∧ x.signature = r.signature))
        = some r := by
  have hinv := addFilters_inv H re ds _ fs hbuild (FilterInv_clear H)
  obtain ⟨hlook, _, _, hsp⟩ := hashLookup_stored H fs hinv r hmem
  have hflag := hsp hkind
  have hnn := info?_isNull hlook
  have hsearch := searchNamed_conventional H fs r.className r.name r.signature
    ('.' :: (r.name ++ r.signature))
  simp only [hflag, hnn, if_true, Bool.false_and, Bool.false_eq_true, if_false] at hsearch
  refine ⟨_, methodSig_conventional_found H re fs r.className r.name r.signature hC hC0 hn hS
    _ r hsearch hlook, hlook, ?_⟩
  have hfirst := hashLookup_addFilters H re ds clearFilters fs hbuild hform r.name r.className
    r.signature
  rw [hlook] at hfirst
  have hclear : (hashLookup H (clearFilters : CompilationFilters R) r.name r.className
      r.signature).info? = none := rfl
  rw [hclear] at hfirst
  simp only [Option.orElse] at hfirst
  rw [hfirst]
  apply find?_ext
  intro x hx
  obtain ⟨d, _, rfl⟩ := List.mem_map.1 hx
  by_cases hk : (@Directive.rule R d).name = r.name ∧
      (@Directive.rule R d).className = r.className ∧
      (@Directive.rule R d).signature = r.signature
  · have hne : (@Directive.rule R d).signature ≠ [] := by
      rw [hk.2.2]
      intro e
      rw [e] at hS
      simp at hS
    simp [hk, rule_sig_not_nameOnly d hne]
  · have hk' : ¬ ((@Directive.rule R d).filterType.isNameOnly = false ∧
        (@Directive.rule R d).name = r.name ∧
        (@Directive.rule R d).className = r.className ∧
        (@Directive.rule R d).signature = r.signature) := fun hh => hk hh.2
    rw [decide_eq_false hk, decide_eq_false hk']

theorem specific_rule_round_trip_witness :
    (∀ d ∈ roundTripDirectives, d.isNameForm = true) ∧
    addFilters 211 noRegex roundTripDirectives clearFilters
      = some (builtSet roundTripDirectives) ∧
    mkRule .TR_FILTER_SPECIFIC_METHOD 1 "bar" "Foo" "(I)V"
      ∈ (builtSet roundTripDirectives).hashRules 211 ∧
    ∃ t, methodSigCanBeFound 211 noRegex
        ((mkRule .TR_FILTER_SPECIFIC_METHOD 1 "bar" "Foo" "(I)V").className ++ '.' ::
          ((mkRule .TR_FILTER_SPECIFIC_METHOD 1 "bar" "Foo" "(I)V").name ++
            (mkRule .TR_FILTER_SPECIFIC_METHOD 1 "bar" "Foo" "(I)V").signature))
        (builtSet roundTripDirectives) .null MethodType.J9
        = some (!excludedByType
            (mkRule .TR_FILTER_SPECIFIC_METHOD 1 "bar" "Foo" "(I)V").filterType, t) ∧
      t.info? = some (mkRule .TR_FILTER_SPECIFIC_METHOD 1 "bar" "Foo" "(I)V") ∧
      (roundTripDirectives.map (@Directive.rule Unit)).find? (fun x =>
        decide (x.name = (mkRule .TR_FILTER_SPECIFIC_METHOD 1 "bar" "Foo" "(I)V").name ∧
          x.className = (mkRule .TR_FILTER_SPECIFIC_METHOD 1 "bar" "Foo" "(I)V").className ∧
          x.signature = (mkRule .TR_FILTER_SPECIFIC_METHOD 1 "bar" "Foo" "(I)V").signature))
        = some (mkRule .TR_FILTER_SPECIFIC_METHOD 1 "bar" "Foo" "(I)V") :=
  ⟨by decide, rfl, by decide,
    specific_rule_round_trip 211 noRegex roundTripDirectives (builtSet roundTripDirectives)
      (by decide) rfl (mkRule .TR_FILTER_SPECIFIC_METHOD 1 "bar" "Foo" "(I)V") (by decide)
      (by decide) (by decide) (by decide) (by decide) (by decide)⟩

/-- C9: after the include rule `n(S` (a plain name, no class part) is added with option set
0 to a cleared set, the query `C.n(S` is allowed with that rule as the matched rule, for
every class name `C` without a dot and not starting with a slash, and the query `C.n(S'`
with `S'` different from `S` is disallowed and matches no rule. -/
theorem nameSig_rule_matches_any_class {R : Type} (H : Nat) (re : SimpleRegex R)
    (n S C S' : List Char) (lineNum : Int) (hn : ∀ c ∈ n, plainChar c = true)
    (hn0 : n.head? ≠ some '/') (hn1 : n.head? ≠ some '{') (hS : ∀ c ∈ S, plainChar c = true)
    (hC : '.' ∉ C) (hC0 : C.head? ≠ some '/') (hne : S' ≠ S) :
    (addFilter H re (n ++ '(' :: S) 0 0 lineNum (some clearFilters)).filterBST
      = some { filterType := .TR_FILTER_NAME_AND_SIG, optionSet := 0, lineNumber := lineNum,
               name := n, className := [], signature := '(' :: S, regex := none } ∧
    (∃ t, methodSigCanBeFound H re (C ++ '.' :: (n ++ '(' :: S))
        (addFilter H re (n ++ '(' :: S) 0 0 lineNum (some clearFilters)).filters .null
        MethodType.J9 = some (true, t) ∧
      t.info? = some { filterType := .TR_FILTER_NAME_AND_SIG, optionSet := 0,
                       lineNumber := lineNum, name := n, className := [],
                       signature := '(' :: S, regex := none }) ∧
    methodSigCanBeFound H re (C ++ '.' :: (n ++ '(' :: S'))
        (addFilter H re (n ++ '(' :: S) 0 0 lineNum (some clearFilters)).filters .null
        MethodType.J9 = some (false, .null) := by
  have hscan := scanFilterName_nameSig n S (newFilter 0 0 lineNum : FilterInfo R) rfl hn hn0 hS
  have hhead : (n ++ '(' :: S).head? ≠ some '{' := by
    cases n with
    | nil => simp
    | cons c cs => simpa using hn1
  have hparen : '(' ∉ n := fun hm => by
    have := (plainChar_spec (hn _ hm)).2.2.2.2.2
    exact this rfl
  let d : Directive :=
    { filterString := n ++ '(' :: S, scanningExclude := 0, optionSetIndex := 0,
      lineNum := lineNum }
  have hrule : @Directive.rule R d
      = { filterType := .TR_FILTER_NAME_AND_SIG, optionSet := 0, lineNumber := lineNum,
          name := n, className := [], signature := '(' :: S, regex := none } := by
    show (scanFilterName (n ++ '(' :: S) (newFilter 0 0 lineNum : FilterInfo R)).2 = _
    rw [hscan]
    rfl
  have hret : (addFilter H re (n ++ '(' :: S) 0 0 lineNum (some clearFilters)).filterBST
      = some (@Directive.rule R d) := by
    unfold addFilter
    simp only [hhead, if_false, hscan]
    rw [if_neg (by omega)]
    rw [hrule]
    rfl
  have hflags : (addFilter H re (n ++ '(' :: S) 0 0 lineNum (some clearFilters)).filters.hasNameSigFilter
        = true ∧
      (addFilter H re (n ++ '(' :: S) 0 0 lineNum (some clearFilters)).filters.hasClassNameSigFilter
        = false ∧
      (addFilter H re (n ++ '(' :: S) 0 0 lineNum (some clearFilters)).filters.hasNameFilter
        = false ∧
      (addFilter H re (n ++ '(' :: S) 0 0 lineNum (some clearFilters)).filters.filterRegexList
        = .null ∧
      (addFilter H re (n ++ '(' :: S) 0 0 lineNum (some clearFilters)).filters.defaultExclude
        = true := by
    unfold addFilter
    simp only [hhead, if_false, hscan]
    rw [if_neg (by omega)]
    exact ⟨rfl, rfl, rfl, rfl, rfl⟩
  obtain ⟨f1, f2, f3, f4, f5⟩ := hflags
  have hlook : ∀ sg : List Char,
      (hashLookup H (addFilter H re (n ++ '(' :: S) 0 0 lineNum (some clearFilters)).filters
        n [] sg).info? =
      if sg = '(' :: S then
        some { filterType := .TR_FILTER_NAME_AND_SIG, optionSet := 0, lineNumber := lineNum,
               name := n, className := [], signature := '(' :: S, regex := none }
      else none := by
    intro sg
    have := hashLookup_addFilter H re d clearFilters _
      (by simpa [Directive.isNameForm, d] using hhead) hret n [] sg
    rw [hrule] at this
    simp only [FilterType.isNameOnly, true_and] at this
    rw [this]
    by_cases hsg : '(' :: S = sg
    · rw [if_pos (by simpa using hsg), if_pos hsg.symm]
      rfl
    · rw [if_neg (by simpa using hsg), if_neg (fun e => hsg e.symm)]
      rfl
  have hsearch : ∀ sg : List Char, searchNamed H
      { methodClass := C ++ '.' :: (n ++ sg), methodClassLen := C.length
        methodName := n ++ sg, methodNameLen := n.length
        methodSignature := sg, methodSignatureLen := sg.length }
      (addFilter H re (n ++ '(' :: S) 0 0 lineNum (some clearFilters)).filters .null
      = hashLookup H (addFilter H re (n ++ '(' :: S) 0 0 lineNum (some clearFilters)).filters
          n [] sg := by
    intro sg
    rw [searchNamed_conventional]
    simp [f1, f2, f3, TR_FilterBST.isNull]
  refine ⟨by rw [hret, hrule], ?_, ?_⟩
  · have hl := hlook ('(' :: S)
    rw [if_pos rfl] at hl
    exact ⟨_, methodSig_conventional_found H re _ C n ('(' :: S) hC hC0 hparen rfl _ _
      (hsearch _) hl, hl⟩
  · have hl := hlook ('(' :: S')
    rw [if_neg (by simpa using hne)] at hl
    have hnull := eq_null_of_info? hl
    have := methodSig_conventional_none H re _ C n ('(' :: S') hC hC0 hparen rfl
      ((hsearch _).trans hnull) f4
    rw [this, f5]
    rfl

/-- C10: in a set built from a cleared set by name-form `addFilter` calls that all return a
filter, one of them a top-level include (not an exclude, option set 0), for a conventional
signature `C.n(S` such that no stored rule with the name `n` has the class `C` and the
signature `(S`, or an empty class and the signature `(S`, or a name-only kind, the query
with no prior matched rule returns false and reports no matched rule. -/
theorem default_exclude_no_false_positive {R : Type} (H : Nat) (hH : 0 < H)
    (re : SimpleRegex R) (ds : List Directive) (fs : CompilationFilters R)
    (hform : ∀ d ∈ ds, d.isNameForm = true)
    (hbuild : addFilters H re ds clearFilters = some fs)
    (hinc : ∃ d ∈ ds, d.scanningExclude = 0 ∧ d.optionSetIndex = 0)
    (C n sg : List Char) (hC : '.' ∉ C) (hC0 : C.head? ≠ some '/') (hn : '(' ∉ n)
    (hsg : sg.head? = some '(')
    (hno : ∀ r ∈ fs.nameRules ++ fs.hashRules H, r.name = n →
      ¬ (r.className = C ∧ r.signature = sg) ∧ ¬ (r.className = [] ∧ r.signature = sg) ∧
      r.filterType.isNameOnly = false) :
    methodSigCanBeFound H re (C ++ '.' :: (n ++ sg)) fs .null MethodType.J9
      = some (false, .null) := by
  have hinv := addFilters_inv H re ds _ fs hbuild (FilterInv_clear H)
  have h1 : hashLookup H fs n C sg = .null := by
    apply eq_null_of_info?
    cases hl : (hashLookup H fs n C sg).info? with
    | none => rfl
    | some r =>
      obtain ⟨hm, e1, e2, e3⟩ := hashLookup_some H hH fs n C sg r hl
      exact absurd ⟨e2, e3⟩ (hno r (List.mem_append_right _ hm) e1).1
  have h2 : hashLookup H fs n [] sg = .null := by
    apply eq_null_of_info?
    cases hl : (hashLookup H fs n [] sg).info? with
    | none => rfl
    | some r =>
      obtain ⟨hm, e1, e2, e3⟩ := hashLookup_some H hH fs n [] sg r hl
      exact absurd ⟨e2, e3⟩ (hno r (List.mem_append_right _ hm) e1).2.1
  have h3 : nameLookup fs n = .null := by
    apply eq_null_of_info?
    cases hl : (nameLookup fs n).info? with
    | none => rfl
    | some r =>
      obtain ⟨hm, e1⟩ := nameLookup_some fs n r hl
      have := (hno r (List.mem_append_left _ hm) e1).2.2
      rw [(nameLookup_stored H fs hinv r hm).2.2] at this
      cases this
  have hsearch := searchNamed_conventional H fs C n sg ('.' :: (n ++ sg))
  rw [h1, h2, h3] at hsearch
  have hsearch' : searchNamed H
      { methodClass := C ++ '.' :: (n ++ sg), methodClassLen := C.length
        methodName := n ++ sg, methodNameLen := n.length
        methodSignature := sg, methodSignatureLen := sg.length } fs .null = .null := by
    rw [hsearch]
    cases fs.hasClassNameSigFilter <;> cases fs.hasNameSigFilter <;>
      cases fs.hasNameFilter <;> rfl
  have hre : fs.filterRegexList = .null :=
    addFilters_nameForm_regex H re ds clearFilters fs hbuild hform
  rw [methodSig_conventional_none H re fs C n sg hC hC0 hn hsg hsearch' hre,
    addFilters_defaultExclude H re ds clearFilters fs hbuild hinc]
  rfl

set_option maxRecDepth 100000 in
theorem nameSig_rule_matches_any_class_witness :
    (∀ c ∈ "bar".toList, plainChar c = true) ∧ (∀ c ∈ "I)V".toList, plainChar c = true) ∧
    "J)V".toList ≠ "I)V".toList ∧
    ((addFilter 211 noRegex ("bar".toList ++ '(' :: "I)V".toList) 0 0 1
        (some clearFilters)).filterBST
      = some { filterType := .TR_FILTER_NAME_AND_SIG, optionSet := 0, lineNumber := 1,
               name := "bar".toList, className := [], signature := '(' :: "I)V".toList,
               regex := none } ∧
    (∃ t, methodSigCanBeFound 211 noRegex
        ("Foo".toList ++ '.' :: ("bar".toList ++ '(' :: "I)V".toList))
        (addFilter 211 noRegex ("bar".toList ++ '(' :: "I)V".toList) 0 0 1
          (some clearFilters)).filters .null MethodType.J9 = some (true, t) ∧
      t.info? = some { filterType := .TR_FILTER_NAME_AND_SIG, optionSet := 0,
                       lineNumber := 1, name := "bar".toList, className := [],
                       signature := '(' :: "I)V".toList, regex := none }) ∧
    methodSigCanBeFound 211 noRegex
        ("Foo".toList ++ '.' :: ("bar".toList ++ '(' :: "J)V".toList))
        (addFilter 211 noRegex ("bar".toList ++ '(' :: "I)V".toList) 0 0 1
          (some clearFilters)).filters .null MethodType.J9 = some (false, .null)) :=
  ⟨by decide, by decide, by decide,
    nameSig_rule_matches_any_class 211 noRegex "bar".toList "I)V".toList "Foo".toList
      "J)V".toList 1 (by decide) (by decide) (by decide) (by decide) (by decide) (by decide)
      (by decide)⟩

set_option maxRecDepth 100000 in
theorem default_exclude_no_false_positive_witness :
    addFilters 211 noRegex [includeDirective "Foo.bar()V" 1] clearFilters
      = some (builtSet [includeDirective "Foo.bar()V" 1]) ∧
    (∀ r ∈ (builtSet [includeDirective "Foo.bar()V" 1]).nameRules ++
        (builtSet [includeDirective "Foo.bar()V" 1]).hashRules 211,
      r.name = "qux".toList →
      ¬ (r.className = "Baz".toList ∧ r.signature = "()V".toList) ∧
      ¬ (r.className = [] ∧ r.signature = "()V".toList) ∧
      r.filterType.isNameOnly = false) ∧
    methodSigCanBeFound 211 noRegex ("Baz".toList ++ '.' :: ("qux".toList ++ "()V".toList))
        (builtSet [includeDirective "Foo.bar()V" 1]) .null MethodType.J9
      = some (false, .null) :=
  ⟨rfl, by decide,
    default_exclude_no_false_positive 211 (by decide) noRegex [includeDirective "Foo.bar()V" 1]
      (builtSet [includeDirective "Foo.bar()V" 1]) (by decide) rfl
      ⟨includeDirective "Foo.bar()V" 1, by decide, rfl, rfl⟩
      "Baz".toList "qux".toList "()V".toList (by decide) (by decide) (by decide) (by decide)
      (by decide)⟩

set_option maxRecDepth 100000 in
/-- C7, as stated, fails, on the rule of the text `a..bar(I)V`, a SpecificMethod rule with
the name `bar`, an empty class and the signature `(I)V`, and the query `Foo.bar(I)V`.  In
the set built from `a..bar(I)V`, `bazz(I)V` and `bar`, no class+name+signature rule has the
key (bar, Foo, (I)V) and no rule of a name-and-signature kind is for `bar(I)V`, and the
name-only rule `bar` is stored; yet the matched rule is not the name-only rule but the rule
of `a..bar(I)V`, found by the name+signature probe.  In the set built from `a..bar(I)V` and
`bar` alone the same rule is stored, and the matched rule is the name-only rule: the
name+signature probe is not made, no rule of a name-and-signature kind having been added.
So the rule of `a..bar(I)V` neither always wins over the name-only rule nor always loses to
it. -/
theorem nameOnly_rule_shadowed :
    (addFilters 211 noRegex shadowDirectives clearFilters = some (builtSet shadowDirectives) ∧
    (∀ r ∈ (builtSet shadowDirectives).hashRules 211, r.filterType.isSpecific = true →
      ¬ (r.name = "bar".toList ∧ r.className = "Foo".toList ∧
        r.signature = "(I)V".toList)) ∧
    (∀ r ∈ (builtSet shadowDirectives).hashRules 211, r.filterType.isNameSig = true →
      ¬ (r.name = "bar".toList ∧ r.signature = "(I)V".toList)) ∧
    mkRule .TR_FILTER_NAME_ONLY 3 "bar" "" "" ∈ (builtSet shadowDirectives).nameRules ∧
    methodSigCanBeFound 211 noRegex "Foo.bar(I)V".toList (builtSet shadowDirectives) .null
        MethodType.J9
      = some (true,
          TR_FilterBST.leaf (mkRule .TR_FILTER_SPECIFIC_METHOD 1 "bar" "" "(I)V"))) ∧
    (addFilters 211 noRegex unflaggedDirectives clearFilters
      = some (builtSet unflaggedDirectives) ∧
    (∀ r ∈ (builtSet unflaggedDirectives).hashRules 211, r.filterType.isSpecific = true →
      ¬ (r.name = "bar".toList ∧ r.className = "Foo".toList ∧
        r.signature = "(I)V".toList)) ∧
    mkRule .TR_FILTER_SPECIFIC_METHOD 1 "bar" "" "(I)V"
      ∈ (builtSet unflaggedDirectives).hashRules 211 ∧
    methodSigCanBeFound 211 noRegex "Foo.bar(I)V".toList (builtSet unflaggedDirectives) .null
        MethodType.J9
      = some (true, TR_FilterBST.leaf (mkRule .TR_FILTER_NAME_ONLY 3 "bar" "" ""))) :=
  ⟨⟨rfl, by decide, by decide, by decide, by decide⟩, rfl, by decide, by decide, by decide⟩

/-- C7 (amended): in a set built from a cleared set by `addFilter` calls that all return a
filter, on a conventional signature `C.n(S` and with no prior matched rule, a stored
class+name+signature rule with the key (n, C, (S) is the matched rule; otherwise a stored
rule of a name-and-signature kind for `n(S` is the matched rule; and when no stored
hash-bucket rule has the name `n` and the signature `(S` with the class `C` or an empty
class, a stored name-only rule for `n` is the matched rule.  In each case the regex chain
is not consulted. -/
theorem rule_class_precedence {R : Type} (H : Nat) (hH : 0 < H) (re : SimpleRegex R)
    (ds : List Directive) (fs : CompilationFilters R)
    (hbuild : addFilters H re ds clearFilters = some fs)
    (C n sg : List Char) (hC : '.' ∉ C) (hC0 : C.head? ≠ some '/') (hn : '(' ∉ n)
    (hsg : sg.head? = some '(') :
    (∀ r ∈ fs.hashRules H, r.filterType.isSpecific = true →
      r.name = n → r.className = C → r.signature = sg →
      ∃ t, methodSigCanBeFound H re (C ++ '.' :: (n ++ sg)) fs .null MethodType.J9
          = some (!excludedByType r.filterType, t) ∧ t.info? = some r) ∧
    ((∀ r ∈ fs.hashRules H, r.filterType.isSpecific = true →
        ¬ (r.name = n ∧ r.className = C ∧ r.signature = sg)) →
      ∀ r ∈ fs.hashRules H, r.filterType.isNameSig = true → r.name = n → r.signature = sg →
      ∃ t, methodSigCanBeFound H re (C ++ '.' :: (n ++ sg)) fs .null MethodType.J9
          = some (!excludedByType r.filterType, t) ∧ t.info? = some r) ∧
    ((∀ r ∈ fs.hashRules H, r.name = n → r.signature = sg →
        r.className ≠ C ∧ r.className ≠ []) →
      ∀ r ∈ fs.nameRules, r.name = n →
      ∃ t, methodSigCanBeFound H re (C ++ '.' :: (n ++ sg)) fs .null MethodType.J9
          = some (!excludedByType r.filterType, t) ∧ t.info? = some r) := by
  have hinv := addFilters_inv H re ds _ fs hbuild (FilterInv_clear H)
  have hsearch := searchNamed_conventional H fs C n sg ('.' :: (n ++ sg))
  refine ⟨?_, ?_, ?_⟩
  · intro r hmem hkind e1 e2 e3
    obtain ⟨hlook, _, _, hsp⟩ := hashLookup_stored H fs hinv r hmem
    rw [e1, e2, e3] at hlook
    have hflag := hsp hkind
    have hnn := info?_isNull hlook
    simp only [hflag, hnn, if_true, Bool.false_and, Bool.false_eq_true, if_false] at hsearch
    exact ⟨_, methodSig_conventional_found H re fs C n sg hC hC0 hn hsg _ r hsearch hlook,
      hlook⟩
  · intro hnone r hmem hkind e1 e3
    obtain ⟨hlook, _, hns, _⟩ := hashLookup_stored H fs hinv r hmem
    obtain ⟨e2, hflag⟩ := hns hkind
    rw [e1, e2, e3] at hlook
    have hnn := info?_isNull hlook
    have hcase : hashLookup H fs n C sg = .null ∨ C = [] := by
      cases hl : (hashLookup H fs n C sg).info? with
      | none => exact Or.inl (eq_null_of_info? hl)
      | some r' =>
        right
        obtain ⟨hm', k1, k2, k3⟩ := hashLookup_some H hH fs n C sg r' hl
        obtain ⟨_, hkinds, hns', _⟩ := hashLookup_stored H fs hinv r' hm'
        rcases hkinds with hk | hk
        · rw [← k2]
          exact (hns' hk).1
        · exact absurd ⟨k1, k2, k3⟩ (hnone r' hm' hk)
    have hres : searchNamed H
        { methodClass := C ++ '.' :: (n ++ sg), methodClassLen := C.length
          methodName := n ++ sg, methodNameLen := n.length
          methodSignature := sg, methodSignatureLen := sg.length } fs .null
        = hashLookup H fs n [] sg := by
      rw [hsearch]
      rcases hcase with hc | hc
      · rw [hc]
        simp [hflag, hnn, isNull_null]
      · subst hc
        cases fs.hasClassNameSigFilter <;> simp [hflag, hnn, isNull_null]
    exact ⟨_, methodSig_conventional_found H re fs C n sg hC hC0 hn hsg _ r hres hlook, hlook⟩
  · intro hnone r hmem e1
    obtain ⟨hlook, hflag, _⟩ := nameLookup_stored H fs hinv r hmem
    rw [e1] at hlook
    have h1 : hashLookup H fs n C sg = .null := by
      apply eq_null_of_info?
      cases hl : (hashLookup H fs n C sg).info? with
      | none => rfl
      | some r' =>
        obtain ⟨hm', k1, k2, k3⟩ := hashLookup_some H hH fs n C sg r' hl
        exact absurd k2 (hnone r' hm' k1 k3).1
    have h2 : hashLookup H fs n [] sg = .null := by
      apply eq_null_of_info?
      cases hl : (hashLookup H fs n [] sg).info? with
      | none => rfl
      | some r' =>
        obtain ⟨hm', k1, k2, k3⟩ := hashLookup_some H hH fs n [] sg r' hl
        exact absurd k2 (hnone r' hm' k1 k3).2
    have hres : searchNamed H
        { methodClass := C ++ '.' :: (n ++ sg), methodClassLen := C.length
          methodName := n ++ sg, methodNameLen := n.length
          methodSignature := sg, methodSignatureLen := sg.length } fs .null
        = nameLookup fs n := by
      rw [hsearch, h1, h2]
      cases fs.hasClassNameSigFilter <;> cases fs.hasNameSigFilter <;>
        simp [hflag, isNull_null]
    exact ⟨_, methodSig_conventional_found H re fs C n sg hC hC0 hn hsg _ r hres hlook, hlook⟩

theorem rule_class_precedence_witness :
    addFilters 211 noRegex roundTripDirectives clearFilters
      = some (builtSet roundTripDirectives) ∧
    ((∀ r ∈ (builtSet roundTripDirectives).hashRules 211, r.filterType.isSpecific = true →
      r.name = "bar".toList → r.className = "Foo".toList → r.signature = "(I)V".toList →
      ∃ t, methodSigCanBeFound 211 noRegex ("Foo".toList ++ '.' :: ("bar".toList ++ "(I)V".toList))
          (builtSet roundTripDirectives) .null MethodType.J9
          = some (!excludedByType r.filterType, t) ∧ t.info? = some r) ∧
    ((∀ r ∈ (builtSet roundTripDirectives).hashRules 211, r.filterType.isSpecific = true →
        ¬ (r.name = "bar".toList ∧ r.className = "Foo".toList ∧
          r.signature = "(I)V".toList)) →
      ∀ r ∈ (builtSet roundTripDirectives).hashRules 211, r.filterType.isNameSig = true →
      r.name = "bar".toList → r.signature = "(I)V".toList →
      ∃ t, methodSigCanBeFound 211 noRegex ("Foo".toList ++ '.' :: ("bar".toList ++ "(I)V".toList))
          (builtSet roundTripDirectives) .null MethodType.J9
          = some (!excludedByType r.filterType, t) ∧ t.info? = some r) ∧
    ((∀ r ∈ (builtSet roundTripDirectives).hashRules 211, r.name = "bar".toList →
        r.signature = "(I)V".toList → r.className ≠ "Foo".toList ∧ r.className ≠ []) →
      ∀ r ∈ (builtSet roundTripDirectives).nameRules, r.name = "bar".toList →
      ∃ t, methodSigCanBeFound 211 noRegex ("Foo".toList ++ '.' :: ("bar".toList ++ "(I)V".toList))
          (builtSet roundTripDirectives) .null MethodType.J9
          = some (!excludedByType r.filterType, t) ∧ t.info? = some r)) :=
  ⟨rfl, rule_class_precedence 211 (by decide) noRegex roundTripDirectives
    (builtSet roundTripDirectives) rfl "Foo".toList "bar".toList "(I)V".toList
    (by decide) (by decide) (by decide) (by decide)⟩

end OMR

namespace OMR

/-! ### Claims on the default-exclude flag, failing calls and the override rule -/

/-- C11: a freshly created filter set has `defaultExclude` false, and a call of `addFilter`
leaves the flag equal to its previous value OR-ed with "the call returns a filter, the
directive is not an exclude and its option-set index is 0": an exclude directive or a
directive with a non-zero option-set index does not change the flag, and a flag that is
true stays true. -/
theorem defaultExclude_update {R : Type} (H : Nat) (re : SimpleRegex R) (s : List Char)
    (ex osi ln : Int) (fs : CompilationFilters R) :
    (clearFilters : CompilationFilters R).defaultExclude = false ∧
    (findOrCreateFilters (none : Option (CompilationFilters R))).defaultExclude = false ∧
    (addFilter H re s ex osi ln (some fs)).filters.defaultExclude =
      (fs.defaultExclude ||
        ((addFilter H re s ex osi ln (some fs)).filterBST.isSome &&
          (decide (ex = 0) && decide (osi = 0)))) ∧
    ((ex ≠ 0 ∨ osi ≠ 0) →
      (addFilter H re s ex osi ln (some fs)).filters.defaultExclude = fs.defaultExclude) ∧
    (fs.defaultExclude = true →
      (addFilter H re s ex osi ln (some fs)).filters.defaultExclude = true) := by
  have key : (addFilter H re s ex osi ln (some fs)).filters.defaultExclude =
      (fs.defaultExclude ||
        ((addFilter H re s ex osi ln (some fs)).filterBST.isSome &&
          (decide (ex = 0) && decide (osi = 0)))) := by
    cases hb : (addFilter H re s ex osi ln (some fs)).filterBST with
    | none =>
      rw [((addFilter_none H re s ex osi ln (some fs)).2 hb).1]
      simp [findOrCreateFilters]
    | some y =>
      rw [addFilter_defaultExclude H re s ex osi ln fs y hb]
      simp
  refine ⟨rfl, rfl, key, ?_, ?_⟩
  · intro hne
    rw [key]
    have : (decide (ex = 0) && decide (osi = 0)) = false := by
      rcases hne with h | h <;> simp [h]
    rw [this]
    simp
  · intro ht
    rw [key, ht]
    rfl

/-- C14: when `addFilter` returns none - which happens exactly when the regex text fails
to compile or the name scan consumes nothing - the target set is the set as it was (the
same hash buckets, name-only tree, regex chain, has-filter flags and `defaultExclude`
flag) and the text cursor is where it was. -/
theorem addFilter_atomic_on_failure {R : Type} (H : Nat) (re : SimpleRegex R) (s : List Char)
    (ex osi ln : Int) (fs : CompilationFilters R)
    (h : (addFilter H re s ex osi ln (some fs)).filterBST = none) :
    (addFilter H re s ex osi ln (some fs)).filters = fs ∧
    (addFilter H re s ex osi ln (some fs)).filterString = s ∧
    ((s.head? = some '{' ∧ re.create s = none) ∨
      (s.head? ≠ some '{' ∧ (scanFilterName s (newFilter ex osi ln : FilterInfo R)).1 = 0)) :=
  ⟨((addFilter_none H re s ex osi ln (some fs)).2 h).1,
    ((addFilter_none H re s ex osi ln (some fs)).2 h).2,
    (addFilter_none H re s ex osi ln (some fs)).1.1 h⟩

theorem addFilter_atomic_on_failure_witness :
    (addFilter 211 prefixRegex "\x7b[unterminated".toList 0 0 2
      (some (addFilter 211 prefixRegex "Foo.bar()V".toList 0 0 1
        (some clearFilters)).filters)).filterBST = none ∧
    (addFilter 211 prefixRegex "\x7b[unterminated".toList 0 0 2
      (some (addFilter 211 prefixRegex "Foo.bar()V".toList 0 0 1
        (some clearFilters)).filters)).filters
      = (addFilter 211 prefixRegex "Foo.bar()V".toList 0 0 1 (some clearFilters)).filters ∧
    (addFilter 211 prefixRegex "\x7b[unterminated".toList 0 0 2
      (some (addFilter 211 prefixRegex "Foo.bar()V".toList 0 0 1
        (some clearFilters)).filters)).filterString = "\x7b[unterminated".toList ∧
    (("\x7b[unterminated".toList.head? = some '{' ∧
        prefixRegex.create "\x7b[unterminated".toList = none) ∨
      ("\x7b[unterminated".toList.head? ≠ some '{' ∧
        (scanFilterName "\x7b[unterminated".toList
          (newFilter 0 0 2 : FilterInfo (List Char))).1 = 0)) :=
  ⟨by decide, addFilter_atomic_on_failure 211 prefixRegex "\x7b[unterminated".toList 0 0 2
    (addFilter 211 prefixRegex "Foo.bar()V".toList 0 0 1 (some clearFilters)).filters
    (by decide)⟩

/-- C15: `methodSigCanBeCompiledOrRelocated` works on the relocation set when `loadLimit`
is set and on the compilation set otherwise.  Without that set the method is allowed.
With it, when `methodSigCanBeFound` allows the method, that result and its matched rule
are returned; when it does not and the set has an override rule, the method is allowed
with the override rule as the matched rule; when it does not and the set has no override
rule, the method is disallowed. -/
theorem methodSigCanBeCompiledOrRelocated_outcome {R : Type} (H : Nat) (re : SimpleRegex R)
    (debug : TR_Debug R) (methodSig : List Char) (filter : TR_FilterBST R) (loadLimit : Bool)
    (methodType : MethodType) :
    ((if loadLimit then debug.relocationFilters else debug.compilationFilters) = none →
      methodSigCanBeCompiledOrRelocated H re debug methodSig filter loadLimit methodType
        = some (true, filter)) ∧
    (∀ fs found t,
      (if loadLimit then debug.relocationFilters else debug.compilationFilters) = some fs →
      methodSigCanBeFound H re methodSig fs filter methodType = some (found, t) →
      (found = true →
        methodSigCanBeCompiledOrRelocated H re debug methodSig filter loadLimit methodType
          = some (true, t)) ∧
      (found = false → fs.excludedMethodFilter.isNull = false →
        methodSigCanBeCompiledOrRelocated H re debug methodSig filter loadLimit methodType
          = some (true, fs.excludedMethodFilter)) ∧
      (found = false → fs.excludedMethodFilter.isNull = true →
        methodSigCanBeCompiledOrRelocated H re debug methodSig filter loadLimit methodType
          = some (false, t))) := by
  refine ⟨?_, ?_⟩
  · intro h
    unfold methodSigCanBeCompiledOrRelocated
    rw [h]
  · intro fs found t hset hfound
    unfold methodSigCanBeCompiledOrRelocated
    rw [hset]
    simp only [hfound]
    refine ⟨?_, ?_, ?_⟩
    · intro hf
      subst hf
      rfl
    · intro hf hn
      subst hf
      simp [hn]
    · intro hf hn
      subst hf
      simp [hn]

/-! ### Claims on the regex chain -/

/-- C12: in a set built from a cleared set by `addFilter` calls that all return a filter,
for a signature that `methodSigCanBeFound` can split and for which the searches by name
find no rule, the query with no prior matched rule reports the most recently added regex
rule whose pattern matches the signature as given (no rule when none matches), and with a
matched rule the method is allowed exactly when the rule is an include regex.  In
particular a single include regex rule added to a cleared set is reported, with the
method allowed, for every such signature that its pattern matches. -/
theorem regex_most_recent_first {R : Type} (H : Nat) (re : SimpleRegex R)
    (ds : List Directive) (fs : CompilationFilters R)
    (hbuild : addFilters H re ds clearFilters = some fs)
    (sig : List Char) (mt : MethodType) (p : SigParts)
    (hsplit : splitMethodSig sig mt = some p) (hnone : searchNamed H p fs .null = .null) :
    (∃ t, methodSigCanBeFound H re sig fs .null mt =
        some ((t.info?.map (fun r => decide (r.filterType = .TR_FILTER_REGEX))).getD
          (!fs.defaultExclude), t) ∧
      t.info? = (regexRules re ds).reverse.find? (FilterInfo.matchesSpec re sig)) ∧
    (∀ (s : List Char) (osi ln : Int) (rx : R) (n : Nat), s.head? = some '{' →
      re.create s = some (rx, n) → re.isMatch rx sig = true →
      ∃ t, methodSigCanBeFound H re sig
          (addFilter H re s 0 osi ln (some clearFilters)).filters .null mt = some (true, t) ∧
        t.info? = some
          { filterType := .TR_FILTER_REGEX, optionSet := osi, lineNumber := ln, name := [],
            className := [], signature := [], regex := some rx }) := by
  refine ⟨regex_query H re ds fs hbuild sig mt p hsplit hnone, ?_⟩
  intro s osi ln rx n hs hc hm
  have hsome : (addFilter H re s 0 osi ln (some clearFilters)).filterBST ≠ none := by
    intro hn
    rcases (addFilter_none H re s 0 osi ln (some clearFilters)).1.1 hn with ⟨_, h2⟩ | ⟨h1, _⟩
    · rw [hc] at h2; cases h2
    · exact h1 hs
  obtain ⟨y, hy⟩ := Option.ne_none_iff_exists'.1 hsome
  have hflags : (addFilter H re s 0 osi ln (some clearFilters)).filters.hasClassNameSigFilter
        = false ∧
      (addFilter H re s 0 osi ln (some clearFilters)).filters.hasNameSigFilter = false ∧
      (addFilter H re s 0 osi ln (some clearFilters)).filters.hasNameFilter = false := by
    unfold addFilter
    simp only [hs, if_true, hc, addFilterFinish]
    split <;> exact ⟨rfl, rfl, rfl⟩
  have hbuild1 : addFilters H re
      [{ filterString := s, scanningExclude := 0, optionSetIndex := osi, lineNum := ln }]
      clearFilters = some (addFilter H re s 0 osi ln (some clearFilters)).filters := by
    simp only [addFilters, hy]
  obtain ⟨t, ht, hinfo⟩ := regex_query H re _ _ hbuild1 sig mt p hsplit
    (searchNamed_no_flags H p _ hflags.1 hflags.2.1 hflags.2.2)
  have hrules : regexRules re
      [{ filterString := s, scanningExclude := 0, optionSetIndex := osi, lineNum := ln }]
      = [{ filterType := .TR_FILTER_REGEX, optionSet := osi, lineNumber := ln, name := [],
           className := [], signature := [], regex := some rx }] := by
    simp [regexRules, Directive.regexRule, hs, hc, newFilter]
  rw [hrules] at hinfo
  simp only [List.reverse_singleton, List.find?_cons, FilterInfo.matchesSpec, hm] at hinfo
  refine ⟨t, ?_, hinfo⟩
  rw [ht, hinfo]
  rfl

set_option maxRecDepth 100000 in
/-- The regex claim C12 at the set built from `{Foo}` and `{Foo.b}` and the signature
`Foo.bar()V`. -/
theorem regex_most_recent_first_witness :
    addFilters 211 prefixRegex twoRegexDirectives clearFilters
      = some (builtRegexSet twoRegexDirectives) ∧
    splitMethodSig "Foo.bar()V".toList MethodType.J9 = some fooBarParts ∧
    searchNamed 211 fooBarParts (builtRegexSet twoRegexDirectives) .null = .null ∧
    ((∃ t, methodSigCanBeFound 211 prefixRegex "Foo.bar()V".toList
          (builtRegexSet twoRegexDirectives) .null MethodType.J9 =
        some ((t.info?.map (fun r => decide (r.filterType = .TR_FILTER_REGEX))).getD
          (!(builtRegexSet twoRegexDirectives).defaultExclude), t) ∧
      t.info? = (regexRules prefixRegex twoRegexDirectives).reverse.find?
        (FilterInfo.matchesSpec prefixRegex "Foo.bar()V".toList)) ∧
    (∀ (s : List Char) (osi ln : Int) (rx : List Char) (n : Nat), s.head? = some '{' →
      prefixRegex.create s = some (rx, n) →
      prefixRegex.isMatch rx "Foo.bar()V".toList = true →
      ∃ t, methodSigCanBeFound 211 prefixRegex "Foo.bar()V".toList
          (addFilter 211 prefixRegex s 0 osi ln (some clearFilters)).filters .null
          MethodType.J9 = some (true, t) ∧
        t.info? = some
          { filterType := .TR_FILTER_REGEX, optionSet := osi, lineNumber := ln, name := [],
            className := [], signature := [], regex := some rx })) :=
  ⟨rfl, by decide, by decide,
    regex_most_recent_first 211 prefixRegex twoRegexDirectives
      (builtRegexSet twoRegexDirectives) rfl "Foo.bar()V".toList MethodType.J9 fooBarParts
      (by decide) (by decide)⟩

set_option maxRecDepth 100000 in
/-- C13, as stated, fails: the set built from the include regex `{Foo}`, added first, and
the exclude regex `{Foo.b}`, added second, has no name-form rule; both patterns match the
signature `Foo.bar()V`, and the query reports the rule added second, so the method is not
allowed. -/
theorem regex_first_inserted_not_first_tried :
    addFilters 211 prefixRegex twoRegexDirectives clearFilters
      = some (builtRegexSet twoRegexDirectives) ∧
    regexRules prefixRegex twoRegexDirectives
      = [mkRegexRule .TR_FILTER_REGEX 1 "Foo", mkRegexRule .TR_FILTER_EXCLUDE_REGEX 2 "Foo.b"] ∧
    (mkRegexRule .TR_FILTER_REGEX 1 "Foo").matchesSpec prefixRegex "Foo.bar()V".toList = true ∧
    (mkRegexRule .TR_FILTER_EXCLUDE_REGEX 2 "Foo.b").matchesSpec prefixRegex
      "Foo.bar()V".toList = true ∧
    (builtRegexSet twoRegexDirectives).nameRules = [] ∧
    (builtRegexSet twoRegexDirectives).hashRules 211 = [] ∧
    (methodSigCanBeFound 211 prefixRegex "Foo.bar()V".toList
        (builtRegexSet twoRegexDirectives) .null MethodType.J9).map
        (fun res => (res.1, res.2.info?))
      = some (false, some (mkRegexRule .TR_FILTER_EXCLUDE_REGEX 2 "Foo.b")) :=
  ⟨rfl, by decide, by decide, by decide, by decide, by decide, by decide⟩

/-- C13 (amended): in a set built from a cleared set by `addFilter` calls that all return
a filter, for a signature that `methodSigCanBeFound` can split and for which the searches
by name find no rule, when some regex rule of the set matches the signature the query
reports the matching regex rule that was inserted latest: no regex rule inserted after
the reported one matches. -/
theorem regex_latest_matching_wins {R : Type} (H : Nat) (re : SimpleRegex R)
    (ds : List Directive) (fs : CompilationFilters R)
    (hbuild : addFilters H re ds clearFilters = some fs)
    (sig : List Char) (mt : MethodType) (p : SigParts)
    (hsplit : splitMethodSig sig mt = some p) (hnone : searchNamed H p fs .null = .null)
    (r0 : FilterInfo R) (hr0 : r0 ∈ regexRules re ds)
    (hm0 : r0.matchesSpec re sig = true) :
    ∃ allowed t r, methodSigCanBeFound H re sig fs .null mt = some (allowed, t) ∧
      t.info? = some r ∧ r.matchesSpec re sig = true ∧
      ∃ earlier later, regexRules re ds = earlier ++ r :: later ∧
        ∀ x ∈ later, x.matchesSpec re sig = false := by
  obtain ⟨t, ht, hinfo⟩ := regex_query H re ds fs hbuild sig mt p hsplit hnone
  cases hf : (regexRules re ds).reverse.find? (FilterInfo.matchesSpec re sig) with
  | none =>
    have := find?_reverse_none _ _ hf r0 hr0
    rw [hm0] at this
    cases this
  | some r =>
    rw [hf] at hinfo
    obtain ⟨l1, l2, e, h1, h2⟩ := find?_reverse_some _ _ r hf
    exact ⟨_, t, r, ht, hinfo, h1, l1, l2, e, h2⟩

set_option maxRecDepth 100000 in
/-- The amended regex claim C13 at the set built from `{Foo}` and `{Foo.b}` and the
signature `Foo.bar()V`, which the rule of line 1 matches. -/
theorem regex_latest_matching_wins_witness :
    addFilters 211 prefixRegex twoRegexDirectives clearFilters
      = some (builtRegexSet twoRegexDirectives) ∧
    splitMethodSig "Foo.bar()V".toList MethodType.J9 = some fooBarParts ∧
    searchNamed 211 fooBarParts (builtRegexSet twoRegexDirectives) .null = .null ∧
    mkRegexRule .TR_FILTER_REGEX 1 "Foo" ∈ regexRules prefixRegex twoRegexDirectives ∧
    (mkRegexRule .TR_FILTER_REGEX 1 "Foo").matchesSpec prefixRegex "Foo.bar()V".toList = true ∧
    ∃ allowed t r, methodSigCanBeFound 211 prefixRegex "Foo.bar()V".toList
          (builtRegexSet twoRegexDirectives) .null MethodType.J9 = some (allowed, t) ∧
      t.info? = some r ∧ r.matchesSpec prefixRegex "Foo.bar()V".toList = true ∧
      ∃ earlier later, regexRules prefixRegex twoRegexDirectives = earlier ++ r :: later ∧
        ∀ x ∈ later, x.matchesSpec prefixRegex "Foo.bar()V".toList = false :=
  ⟨rfl, by decide, by decide, by decide, by decide,
    regex_latest_matching_wins 211 prefixRegex twoRegexDirectives
      (builtRegexSet twoRegexDirectives) rfl "Foo.bar()V".toList MethodType.J9 fooBarParts
      (by decide) (by decide) (mkRegexRule .TR_FILTER_REGEX 1 "Foo") (by decide) (by decide)⟩

/-! ### Claims on `scanFilterName` and the cursor of `addFilter` -/

set_option maxRecDepth 100000 in
/-- C16, as stated, fails: in the text `Foo.bar(La.b;)V` the class `Foo` and the name `bar`
hold no dot, parenthesis or terminator and the rest `La.b;)V` holds no terminator, yet
the dot after the parenthesis splits the text again: the class recorded is `(La`, not
`Foo`, and the signature is `b;)V`, not `(La.b;)V`. -/
theorem scanFilterName_dot_in_signature :
    "Foo".toList.head? ≠ some '/' ∧ "Foo".toList.head? ≠ some '.' ∧
    (∀ c ∈ "Foo".toList, plainChar c = true) ∧ (∀ c ∈ "bar".toList, plainChar c = true) ∧
    (∀ c ∈ "La.b;)V".toList, noTerminator c = true) ∧
    scanFilterName ("Foo".toList ++ '.' :: ("bar".toList ++ '(' :: "La.b;)V".toList))
        (newFilter 0 0 1 : FilterInfo Unit)
      = (10, mkRule .TR_FILTER_SPECIFIC_METHOD 1 "bar" "(La" "b;)V") ∧
    (mkRule .TR_FILTER_SPECIFIC_METHOD 1 "bar" "(La" "b;)V").className ≠ "Foo".toList ∧
    (mkRule .TR_FILTER_SPECIFIC_METHOD 1 "bar" "(La" "b;)V").signature
      ≠ '(' :: "La.b;)V".toList := by
  decide

/-- C16 (amended): in the default dialect, for a filter of a name-only kind, a text
`C.n(S` followed by a terminator (space, tab, comma, newline or end of string), where
`C` is not empty, neither `C` nor `n` starts with `/`, and `C`, `n` and `S` contain no
dot, no opening parenthesis and no terminator, is recorded with class `C`, name `n`, signature
`(S` and the specific-method kind of the filter's polarity, and the returned length is
the sum of the three lengths; a text `n(b` followed by a terminator, `b` free of dots and
terminators, gets the name-and-signature kind of that polarity and an empty class; a
text `n` followed by a terminator keeps its name-only kind, with the name `n` and empty
class and signature. -/
theorem scanFilterName_default_dialect {R : Type} (C n S b rest : List Char) (f : FilterInfo R)
    (hf : f.filterType = .TR_FILTER_NAME_ONLY ∨ f.filterType = .TR_FILTER_EXCLUDE_NAME_ONLY)
    (hC : ∀ c ∈ C, plainChar c = true) (hC0 : C ≠ []) (hC1 : C.head? ≠ some '/')
    (hn : ∀ c ∈ n, plainChar c = true) (hn0 : n.head? ≠ some '/')
    (hS : ∀ c ∈ S, plainChar c = true)
    (hb : ∀ c ∈ b, c ≠ '.' ∧ noTerminator c = true)
    (hrest : terminated rest = true) :
    scanFilterName (C ++ '.' :: (n ++ '(' :: (S ++ rest))) f =
      (n.length + C.length + (S.length + 1),
        { f with
          name := n, className := C, signature := '(' :: S
          filterType :=
            if f.filterType.isExclude then .TR_FILTER_EXCLUDE_SPECIFIC_METHOD
            else .TR_FILTER_SPECIFIC_METHOD }) ∧
    ((scanFilterName (n ++ '(' :: (b ++ rest)) f).2.className = [] ∧
      (scanFilterName (n ++ '(' :: (b ++ rest)) f).2.filterType =
        (if f.filterType.isExclude then .TR_FILTER_EXCLUDE_NAME_AND_SIG
         else .TR_FILTER_NAME_AND_SIG)) ∧
    scanFilterName (n ++ rest) f =
      (n.length, { f with name := n, className := [], signature := [] }) :=
  ⟨scanFilterName_specific C n S rest f hf hC hC0 hC1 hn hS hrest,
    scanFilterName_nameSig_kind n b rest f hf hn hn0 hb hrest,
    scanFilterName_nameOnly n rest f hn hn0 hrest⟩

set_option maxRecDepth 100000 in
/-- The amended claim C16 at the texts `Foo.bar()V next`, `bar(I(J next` and `bar next`
of an exclude directive. -/
theorem scanFilterName_default_dialect_witness :
    ((newFilter 1 0 1 : FilterInfo Unit).filterType = .TR_FILTER_NAME_ONLY ∨
      (newFilter 1 0 1 : FilterInfo Unit).filterType = .TR_FILTER_EXCLUDE_NAME_ONLY) ∧
    terminated " next".toList = true ∧
    scanFilterName "Foo.bar()V next".toList (newFilter 1 0 1 : FilterInfo Unit)
      = (9, mkRule .TR_FILTER_EXCLUDE_SPECIFIC_METHOD 1 "bar" "Foo" "()V") ∧
    ((scanFilterName "bar(I(J next".toList (newFilter 1 0 1 : FilterInfo Unit)).2.className = [] ∧
      (scanFilterName "bar(I(J next".toList (newFilter 1 0 1 : FilterInfo Unit)).2.filterType
        = .TR_FILTER_EXCLUDE_NAME_AND_SIG) ∧
    scanFilterName "bar next".toList (newFilter 1 0 1 : FilterInfo Unit)
      = (3, mkRule .TR_FILTER_EXCLUDE_NAME_ONLY 1 "bar" "" "") :=
  ⟨by decide, by decide,
    scanFilterName_default_dialect "Foo".toList "bar".toList ")V".toList "I(J".toList
      " next".toList (newFilter 1 0 1 : FilterInfo Unit) (by decide) (by decide) (by decide)
      (by decide) (by decide) (by decide) (by decide) (by decide) (by decide)⟩

set_option maxRecDepth 100000 in
/-- C17: the path-style text `/f.cpp:12:Foo::bar` is recorded with the class `/f.cpp` and
the signature `12`, but with the name `Foo::b`: the colons after the second one are
consumed without being counted, so the name is cut short by their number.  The query
splits the same text with the whole `Foo::bar` as name, and does not find the rule that
the directive added. -/
theorem scanFilterName_path_name_cut_short :
    scanFilterName "/f.cpp:12:Foo::bar".toList (newFilter 0 0 1 : FilterInfo Unit)
      = (14, mkRule .TR_FILTER_SPECIFIC_METHOD 1 "Foo::b" "/f.cpp" "12") ∧
    (splitMethodSig "/f.cpp:12:Foo::bar".toList MethodType.Test).map
        (fun p => (p.methodName.take p.methodNameLen, p.methodClass.take p.methodClassLen,
          p.methodSignature.take p.methodSignatureLen))
      = some ("Foo::bar".toList, "/f.cpp".toList, "12".toList) ∧
    (addFilter 211 noRegex "/f.cpp:12:Foo::bar".toList 0 0 1 (some clearFilters)).filterBST
      = some (mkRule .TR_FILTER_SPECIFIC_METHOD 1 "Foo::b" "/f.cpp" "12") ∧
    (methodSigCanBeFound 211 noRegex "/f.cpp:12:Foo::bar".toList
        (addFilter 211 noRegex "/f.cpp:12:Foo::bar".toList 0 0 1 (some clearFilters)).filters
        .null MethodType.Test).map (fun res => (res.1, res.2.info?))
      = some (false, none) := by
  decide

set_option maxRecDepth 100000 in
/-- C18: the call of `addFilter` on the text `Foo.bar()V` succeeds and leaves the cursor
at the last character `V`, nine characters on, not at the end of the ten characters of
the token: the dot is consumed without being counted.  A regex directive leaves the
cursor just past the text that the regex compiler consumed. -/
theorem addFilter_cursor_short_of_token_end :
    (addFilter 211 noRegex "Foo.bar()V".toList 0 0 1 (some clearFilters)).filterBST
      = some (mkRule .TR_FILTER_SPECIFIC_METHOD 1 "bar" "Foo" "()V") ∧
    (addFilter 211 noRegex "Foo.bar()V".toList 0 0 1 (some clearFilters)).filterString
      = "V".toList ∧
    "Foo.bar()V".toList.drop 10 = [] ∧
    prefixRegex.create "{Foo.b} x".toList = some ("Foo.b".toList, 7) ∧
    (addFilter 211 prefixRegex "{Foo.b} x".toList 0 0 1 (some clearFilters)).filterString
      = " x".toList := by
  decide

/-! ### Claims on rule lines and nested scopes -/

/-- C19: the rule-line branch, given the text after the sign, ends with a filter
returned by `addFilter` exactly when the text is `[digit] ' ' ['(' hotness ')' ' ']
method-spec` (the digit one of 0 to 9, the hotness token up to the first closing
parenthesis, a method text directly after the space not opening a parenthesis) and
`addFilter` accepts the method text; for such a text the branch is the call of
`addFilter` on the method text with exclude 0 for the sign `+` and 1 for the sign `-`,
the value of the digit (0 when absent) as option set and the current line number, so
that two lines that differ only in the hotness part give the same result. -/
theorem ruleLine_grammar {R : Type} (H : Nat) (re : SimpleRegex R) (flag : Char)
    (p : List Char) (ln : Int) (fs : CompilationFilters R) :
    ((∃ res, ruleLine H re flag p ln fs = some res ∧ res.filterBST.isSome = true) ↔
      ∃ l : RuleLineParts, l.wellFormed ∧ p = l.text ∧
        (addFilter H re l.methodSpec (if '+' = flag then 0 else 1) l.optionSet ln
          (some fs)).filterBST.isSome = true) ∧
    (∀ l : RuleLineParts, l.wellFormed →
      ruleLine H re '+' l.text ln fs
        = some (addFilter H re l.methodSpec 0 l.optionSet ln (some fs)) ∧
      ruleLine H re '-' l.text ln fs
        = some (addFilter H re l.methodSpec 1 l.optionSet ln (some fs))) ∧
    (∀ l1 l2 : RuleLineParts, l1.wellFormed → l2.wellFormed → l1.digit = l2.digit →
      l1.methodSpec = l2.methodSpec →
      ruleLine H re flag l1.text ln fs = ruleLine H re flag l2.text ln fs) := by
  refine ⟨⟨?_, ?_⟩, ?_, ?_⟩
  · rintro ⟨res, hres, hsome⟩
    unfold ruleLine at hres
    cases hp : ruleLinePrefix p with
    | none => rw [hp] at hres; cases hres
    | some os =>
      obtain ⟨osi, spec⟩ := os
      rw [hp] at hres
      simp only [Option.some.injEq] at hres
      obtain ⟨l, hl, e1, e2, e3⟩ := ruleLinePrefix_some p osi spec hp
      refine ⟨l, hl, e1, ?_⟩
      rw [e2, e3, hres]
      exact hsome
  · rintro ⟨l, hl, e, hsome⟩
    refine ⟨_, ?_, hsome⟩
    rw [e]
    unfold ruleLine
    rw [ruleLinePrefix_text l hl]
  · intro l hl
    unfold ruleLine
    rw [ruleLinePrefix_text l hl]
    exact ⟨rfl, rfl⟩
  · intro l1 l2 h1 h2 hd hs
    unfold ruleLine
    rw [ruleLinePrefix_text l1 h1, ruleLinePrefix_text l2 h2]
    simp only [RuleLineParts.optionSet, hd, hs]

/-- C20: for an inline file made of a rule line `R`, a line that starts with `[`, rule
lines `L1 .. Lk` whose name-form keys are pairwise distinct, and a line that starts with
`]`, where `addFilter` accepts the method text of every rule line, the scan of a fresh
set (with at least as much fuel as there are lines, and a positive hash size) returns
true with the whole file read; the top-level set then holds exactly the rule of `R`, the
`subGroup` of that rule is a set with `defaultExclude` true that holds exactly the `k`
rules built from `L1 .. Lk`, and none of these is in the top-level set. -/
theorem scanInlineFilters_nested_scope {R : Type} (H : Nat) (hH : 0 < H) (re : SimpleRegex R)
    (dx : Bool) (ruleLineR openLine closeLine : List Char) (Ls : List (List Char)) (ln : Int)
    (d0 : Directive) (y0 : FilterInfo R) (ds : List Directive) (subfs : CompilationFilters R)
    (fuel : Nat)
    (hR : lineDirective ruleLineR (ln + 1) = some d0)
    (hy0 : (addFilter H re d0.filterString d0.scanningExclude d0.optionSetIndex d0.lineNum
      (some { (clearFilters : CompilationFilters R) with defaultExclude := dx })).filterBST
        = some y0)
    (hopen : openLine.head? = some '[') (hclose : closeLine.head? = some ']')
    (hLs : lineDirectives Ls (ln + 2) = some ds)
    (hsub : addFilters H re ds { (clearFilters : CompilationFilters R) with defaultExclude := true }
      = some subfs)
    (hkeys : distinctKeys R ds) (hfuel : Ls.length + 3 ≤ fuel) :
    scanInlineFilters H re fuel (ruleLineR :: openLine :: (Ls ++ [closeLine])) ln
        (.mk { (clearFilters : CompilationFilters R) with defaultExclude := dx } [])
      = some
        { ok := true, rest := [], lineNumber := ln + (Ls.length + 3 : Nat)
          filters := .mk
            (addFilter H re d0.filterString d0.scanningExclude d0.optionSetIndex d0.lineNum
              (some { (clearFilters : CompilationFilters R) with defaultExclude := dx })).filters
            [(y0.lineNumber, .mk subfs [])] } ∧
    (∀ r, r ∈ (addFilter H re d0.filterString d0.scanningExclude d0.optionSetIndex d0.lineNum
        (some { (clearFilters : CompilationFilters R) with defaultExclude := dx })).filters.allRules H
      ↔ r = y0) ∧
    y0.lineNumber = ln + 1 ∧
    subfs.defaultExclude = true ∧
    (∀ r, r ∈ subfs.allRules H ↔ r ∈ ds.filterMap (Directive.builtRule re)) ∧
    (ds.filterMap (Directive.builtRule re)).length = Ls.length ∧
    (∀ r ∈ subfs.allRules H,
      r ∉ (addFilter H re d0.filterString d0.scanningExclude d0.optionSetIndex d0.lineNum
        (some { (clearFilters : CompilationFilters R) with defaultExclude := dx })).filters.allRules
          H) := by
  obtain ⟨hb0, _, _, hall0⟩ := addFilter_rules H hH re d0 _ y0 (RegexOk_fresh dx) hy0
    (fun _ x hx => absurd (List.mem_append_left _ hx) (allRules_fresh H dx x))
  have htop : ∀ r, r ∈ (addFilter H re d0.filterString d0.scanningExclude d0.optionSetIndex
      d0.lineNum (some { (clearFilters : CompilationFilters R) with
        defaultExclude := dx })).filters.allRules H ↔ r = y0 := by
    intro r
    rw [hall0 r]
    constructor
    · rintro (h | h)
      · exact absurd h (allRules_fresh H dx r)
      · exact h
    · exact Or.inr
  have hsubrules := addFilters_rules H hH re ds _ subfs hsub (RegexOk_fresh true) hkeys
    (fun x hx => absurd (List.mem_append_left _ hx) (allRules_fresh H true x))
  have hsubmem : ∀ r, r ∈ subfs.allRules H ↔ r ∈ ds.filterMap (Directive.builtRule re) := by
    intro r
    rw [hsubrules r]
    constructor
    · rintro (h | h)
      · exact absurd h (allRules_fresh H true r)
      · exact h
    · exact Or.inr
  obtain ⟨hlen, hnum⟩ := lineDirectives_spec Ls (ln + 2) ds hLs
  obtain ⟨_, _, _, _, _, _, hln0⟩ := lineDirective_some _ _ _ hR
  have hy0ln : y0.lineNumber = ln + 1 := by rw [builtRule_lineNumber re d0 y0 hb0, hln0]
  refine ⟨?_, htop, hy0ln, addFilters_defaultExclude_mono H re ds _ subfs hsub rfl, hsubmem,
    by rw [addFilters_built H re ds _ subfs hsub (RegexOk_fresh true), hlen], ?_⟩
  · obtain ⟨n, rfl⟩ : ∃ n, fuel = ((n + 1) + Ls.length) + 1 + 1 := ⟨fuel - (Ls.length + 3), by omega⟩
    obtain ⟨f1, hinner⟩ := scanLoop_rule_lines H re Ls (ln + 1 + 1) ds _ subfs [] [closeLine]
      none false (n + 1) (by rw [show ln + 1 + 1 = ln + 2 by ring]; exact hLs) hsub
    unfold scanInlineFilters
    rw [scanLoop_rule_line H re ruleLineR _ ln d0
      (.mk { (clearFilters : CompilationFilters R) with defaultExclude := dx } []) none false _
      y0 hR hy0]
    simp only [scanInlineFiltersLoop, hopen, if_true, InlineFilters.subGroup,
      InlineFilters.setFilters, InlineFilters.subGroups, InlineFilters.filters, List.find?_nil,
      Option.map_none']
    rw [hinner]
    simp only [scanInlineFiltersLoop, hclose, if_true, Bool.not_true, Bool.not_false,
      InlineFilters.setSubGroup, InlineFilters.subGroups, InlineFilters.filters, List.filter_nil,
      show (some ']' = some '[') = False from by simp, if_false, Option.some.injEq]
    rw [scanLoop_nil H re _ _ _ _ _ (by omega)]
    simp only [Bool.not_false, Option.some.injEq, InlineScan.mk.injEq, true_and, and_true]
    push_cast
    ring
  · intro r hr hr2
    rw [htop] at hr2
    obtain ⟨d, hd, hbd⟩ := List.mem_filterMap.1 ((hsubmem r).1 hr)
    have h1 := builtRule_lineNumber re d r hbd
    have h2 := hnum d hd
    rw [hr2, hy0ln] at h1
    omega

set_option maxRecDepth 100000 in
/-- The claim C20 at the inline file `+0 Foo.bar()V / [ / +0 Baz.qux()V / ]`, read from
line 0 with four units of fuel into a fresh set. -/
theorem scanInlineFilters_nested_scope_witness :
    lineDirective "+0 Foo.bar()V\n".toList (0 + 1) = some (includeDirective "Foo.bar()V\n" 1) ∧
    lineDirectives ["+0 Baz.qux()V\n".toList] (0 + 2) = some [includeDirective "Baz.qux()V\n" 3] ∧
    distinctKeys Unit [includeDirective "Baz.qux()V\n" 3] ∧
    nestedTop.allRules 211 = [mkRule .TR_FILTER_SPECIFIC_METHOD 1 "bar" "Foo" "()V"] ∧
    nestedSub.allRules 211 = [mkRule .TR_FILTER_SPECIFIC_METHOD 3 "qux" "Baz" "()V"] ∧
    scanInlineFilters 211 noRegex 4 nestedInlineFile 0 (.mk inlineFresh [])
      = some
        { ok := true, rest := [], lineNumber := 4
          filters := .mk nestedTop [(1, .mk nestedSub [])] } ∧
    (∀ r, r ∈ nestedTop.allRules 211 ↔ r = mkRule .TR_FILTER_SPECIFIC_METHOD 1 "bar" "Foo" "()V") ∧
    (mkRule .TR_FILTER_SPECIFIC_METHOD 1 "bar" "Foo" "()V").lineNumber = 0 + 1 ∧
    nestedSub.defaultExclude = true ∧
    (∀ r, r ∈ nestedSub.allRules 211 ↔
      r ∈ [includeDirective "Baz.qux()V\n" 3].filterMap (Directive.builtRule noRegex)) ∧
    ([includeDirective "Baz.qux()V\n" 3].filterMap (Directive.builtRule noRegex)).length
      = ["+0 Baz.qux()V\n".toList].length ∧
    (∀ r ∈ nestedSub.allRules 211, r ∉ nestedTop.allRules 211) :=
  ⟨by decide, by decide, by unfold distinctKeys; decide, by decide, by decide,
    scanInlineFilters_nested_scope 211 (by decide) noRegex true "+0 Foo.bar()V\n".toList
      "[\n".toList "]\n".toList ["+0 Baz.qux()V\n".toList] 0 (includeDirective "Foo.bar()V\n" 1)
      (mkRule .TR_FILTER_SPECIFIC_METHOD 1 "bar" "Foo" "()V") [includeDirective "Baz.qux()V\n" 3]
      nestedSub 4 (by decide) (by decide) (by decide) (by decide) (by decide) rfl
      (by unfold distinctKeys; decide) (by decide)⟩

end OMR

namespace OMR

/-! ### Claims on failures in inline files and limit files -/

set_option maxRecDepth 100000 in
/-- C21: in the inline file `+ Foo.bar()V / [ / +bad / ]` the third line is a rule line
that the rule-line branch rejects, and it is processed, by the nested call, which returns
false; the outer call records the error but goes on reading, meets the line `]` and
returns true, so the scan of the whole file succeeds.  The same bad line at the top
level makes the scan fail.  In the file `+ Foo.bar()V / [ / +bad / + A.a()V / [ / ]` the
error of the first group is overwritten by the success of the second one, and the scan
succeeds at the end of the file. -/
theorem scanInlineFilters_nested_error_lost :
    (ruleLine 211 noRegex '+' "bad\n".toList 3 inlineFresh).isNone = true ∧
    (scanInlineFilters 211 noRegex 5 ["+bad\n".toList, "]\n".toList] 2
        (.mk inlineFresh [])).map (fun r => (r.ok, r.rest, r.lineNumber))
      = some (false, ["]\n".toList], 3) ∧
    (scanInlineFilters 211 noRegex 5 nestedErrorFile 0 (.mk inlineFresh [])).map
        (fun r => (r.ok, r.rest, r.lineNumber))
      = some (true, [], 4) ∧
    (scanInlineFilters 211 noRegex 5 ["+ Foo.bar()V\n".toList, "+bad\n".toList] 0
        (.mk inlineFresh [])).map (fun r => (r.ok, r.rest, r.lineNumber))
      = some (false, [], 2) ∧
    (scanInlineFilters 211 noRegex 7
        ["+ Foo.bar()V\n".toList, "[\n".toList, "+bad\n".toList, "+ A.a()V\n".toList,
          "[\n".toList, "]\n".toList] 0
        (.mk inlineFresh [])).map (fun r => (r.ok, r.rest, r.lineNumber))
      = some (true, [], 6) :=
  ⟨by decide, by decide, by decide, by decide, by decide⟩

/-- C23: when the top-level call of `scanInlineFilters` comes to the head of its loop
with a line that starts with `]` next to read, it returns true with the set as it stands
and the later lines unread; that set is the one that the scan of the lines before the
`]` line alone leaves, and the result is the same whatever lines follow the `]` line.
(Enough fuel gives these results.) -/
theorem scanInlineFilters_unmatched_close {R : Type} (H : Nat) (re : SimpleRegex R)
    (lines : List (List Char)) (ln : Int) (s : InlineFilters R) (closeLine : List Char)
    (post : List (List Char)) (ln1 : Int) (s1 : InlineFilters R) (f1 : Option (FilterInfo R))
    (err1 : Bool)
    (hreach : TopLevelReaches H re
      { rest := lines, lineNumber := ln, filters := s, filter := none, inlineFileError := false }
      { rest := closeLine :: post, lineNumber := ln1, filters := s1, filter := f1
        inlineFileError := err1 })
    (hclose : closeLine.head? = some ']') :
    ∃ pre, lines = pre ++ closeLine :: post ∧
      (∃ fuel0, ∀ fuel, fuel0 ≤ fuel → scanInlineFilters H re fuel lines ln s =
        some { ok := true, rest := post, lineNumber := ln1 + 1, filters := s1 }) ∧
      (∃ fuel0, ∀ fuel, fuel0 ≤ fuel → scanInlineFilters H re fuel pre ln s =
        some { ok := !err1, rest := [], lineNumber := ln1, filters := s1 }) ∧
      (∀ post1, ∃ fuel0, ∀ fuel, fuel0 ≤ fuel →
        scanInlineFilters H re fuel (pre ++ closeLine :: post1) ln s =
          some { ok := true, rest := post1, lineNumber := ln1 + 1, filters := s1 }) := by
  obtain ⟨pre, hpre⟩ := hreach.suffix
  simp only at hpre
  have hB : closeLine :: post ≠ [] := List.cons_ne_nil _ _
  have fromFuel : ∀ (ls : List (List Char)) (r : InlineScan R),
      (∃ fuel1, scanInlineFiltersLoop H re fuel1 ls ln s none false = some r) →
      ∃ fuel0, ∀ fuel, fuel0 ≤ fuel → scanInlineFilters H re fuel ls ln s = some r := by
    rintro ls r ⟨fuel1, h1⟩
    refine ⟨fuel1, fun fuel hf => ?_⟩
    obtain ⟨n, rfl⟩ : ∃ n, fuel = fuel1 + n := ⟨fuel - fuel1, by omega⟩
    exact scanInlineFiltersLoop_fuel_add H re fuel1 n _ _ _ _ _ _ h1
  have withTail : ∀ post1, ∃ fuel0, ∀ fuel, fuel0 ≤ fuel →
      scanInlineFilters H re fuel (pre ++ closeLine :: post1) ln s =
        some { ok := true, rest := post1, lineNumber := ln1 + 1, filters := s1 } := by
    intro post1
    have hr := hreach.truncate pre (closeLine :: post) hpre rfl hB (closeLine :: post1)
    exact fromFuel _ _ (hr.returns 1 _ (scanLoop_close H re 0 closeLine post1 ln1 s1 f1 err1 hclose))
  refine ⟨pre, hpre, ?_, ?_, withTail⟩
  · rw [hpre]; exact withTail post
  · have hr := hreach.truncate pre (closeLine :: post) hpre rfl hB []
    simp only [List.append_nil] at hr
    exact fromFuel _ _ (hr.returns 1 _ (scanLoop_nil H re 1 ln1 s1 f1 err1 (by omega)))

set_option maxRecDepth 100000 in
/-- The claim C23 at the inline file `+0 Foo.bar()V / [ / +0 Baz.qux()V / ] / ] / +bad`:
the second `]` line is read by the top-level call, after a rule line and a nested group. -/
theorem scanInlineFilters_unmatched_close_witness :
    "]\n".toList.head? = some ']' ∧
    ∃ pre, nestedInlineFile ++ ["]\n".toList, "+bad\n".toList]
        = pre ++ "]\n".toList :: ["+bad\n".toList] ∧
      (∃ fuel0, ∀ fuel, fuel0 ≤ fuel →
        scanInlineFilters 211 noRegex fuel (nestedInlineFile ++ ["]\n".toList, "+bad\n".toList])
          0 (.mk inlineFresh []) =
        some { ok := true, rest := ["+bad\n".toList], lineNumber := 4 + 1
               filters := .mk nestedTop [(1, .mk nestedSub [])] }) ∧
      (∃ fuel0, ∀ fuel, fuel0 ≤ fuel → scanInlineFilters 211 noRegex fuel pre 0 (.mk inlineFresh []) =
        some { ok := !false, rest := [], lineNumber := 4
               filters := .mk nestedTop [(1, .mk nestedSub [])] }) ∧
      (∀ post1, ∃ fuel0, ∀ fuel, fuel0 ≤ fuel →
        scanInlineFilters 211 noRegex fuel (pre ++ "]\n".toList :: post1) 0 (.mk inlineFresh []) =
          some { ok := true, rest := post1, lineNumber := 4 + 1
                 filters := .mk nestedTop [(1, .mk nestedSub [])] }) :=
  ⟨by decide,
    scanInlineFilters_unmatched_close 211 noRegex
      (nestedInlineFile ++ ["]\n".toList, "+bad\n".toList]) 0 (.mk inlineFresh [])
      "]\n".toList ["+bad\n".toList] 4 (.mk nestedTop [(1, .mk nestedSub [])])
      (some (mkRule .TR_FILTER_SPECIFIC_METHOD 1 "bar" "Foo" "()V")) false
      (TopLevelReaches.rule "+0 Foo.bar()V\n".toList
        ["[\n".toList, "+0 Baz.qux()V\n".toList, "]\n".toList, "]\n".toList, "+bad\n".toList]
        0 (.mk inlineFresh []) none false
        (addFilter 211 noRegex "Foo.bar()V\n".toList 0 0 1 (some inlineFresh))
        (mkRule .TR_FILTER_SPECIFIC_METHOD 1 "bar" "Foo" "()V") _ (by decide) rfl (by decide)
        (TopLevelReaches.group "[\n".toList
          ["+0 Baz.qux()V\n".toList, "]\n".toList, "]\n".toList, "+bad\n".toList] 1
          (.mk nestedTop []) (mkRule .TR_FILTER_SPECIFIC_METHOD 1 "bar" "Foo" "()V") false 3
          { ok := true, rest := ["]\n".toList, "+bad\n".toList], lineNumber := 4
            filters := .mk nestedSub [] } _ (by decide) rfl (TopLevelReaches.here _)))
      (by decide)⟩

set_option maxRecDepth 100000 in
/-- C22: in the limit file `#num 5 / + Foo.bar()V` the first line sets `limitFileError`
(the number is followed by the newline, neither the suffix nor a space), but the `break`
leaves only the loop over the numbers: the second line is still processed, and after
`limitfileOption` has failed (it returns `option`) the set holds the rule of line 2.  A
rule line that is rejected does leave the loop over the lines: with `+bad` as first line
the set stays empty. -/
theorem limitfileOption_rule_after_failure :
    (limitFileLine 211 noRegex 3 true false none "#num 5\n".toList
        { debug := noFilters, limitFileError := false, lineNumber := 1
          random := { list := [], cur := none, curIndex := 0 } }).map
        (fun r => (r.1.limitFileError, r.2))
      = some (true, false) ∧
    (limitfileOption 211 noRegex 3 readDecimal
        (oneFile ["#num 5\n".toList, "+ Foo.bar()V\n".toList]) "limit.txt".toList noFilters false
        (some [])).map
        (fun r => (r.ret, (r.debug.compilationFilters.map fun fs => fs.allRules 211)))
      = some ("limit.txt".toList, some [mkRule .TR_FILTER_SPECIFIC_METHOD 2 "bar" "Foo" "()V"]) ∧
    (limitfileOption 211 noRegex 3 readDecimal
        (oneFile ["+bad\n".toList, "+ Foo.bar()V\n".toList]) "limit.txt".toList noFilters false
        (some [])).map
        (fun r => (r.ret, (r.debug.compilationFilters.map fun fs => fs.allRules 211)))
      = some ("limit.txt".toList, some []) := by
  decide

set_option maxRecDepth 100000 in
/-- C25: for the limit file `#c / + A.a()V / + B.b()V` the range `(limit.txt,0,0)` adds
no rule, although `+ A.a()V` is the first line that is not a comment, and the range
`(limit.txt,2,2)` adds the rule of `+ A.a()V`: the lines are numbered from 1 and the
comment line is counted. -/
theorem limitfileOption_range_counts_from_one :
    (limitfileOption 211 noRegex 3 readDecimal
        (oneFile ["#c\n".toList, "+ A.a()V\n".toList, "+ B.b()V\n".toList])
        "(limit.txt,0,0)".toList noFilters false (some [])).map
        (fun r => (r.ret, (r.debug.compilationFilters.map fun fs => fs.allRules 211)))
      = some ([], some []) ∧
    (limitfileOption 211 noRegex 3 readDecimal
        (oneFile ["#c\n".toList, "+ A.a()V\n".toList, "+ B.b()V\n".toList])
        "(limit.txt,2,2)".toList noFilters false (some [])).map
        (fun r => (r.ret, (r.debug.compilationFilters.map fun fs => fs.allRules 211)))
      = some ([], some [mkRule .TR_FILTER_SPECIFIC_METHOD 2 "a" "A" "()V"]) := by
  decide

/-! ### Claims on `limitfileOption` -/

/-- C24: the loop of `limitfileOption`, entered with the line counter 0 on a file of at
most `INT_MAX` lines, does with the range `first .. last` what it does without a range
(the default range 1 .. `INT_MAX`) on the file in which every line whose 1-based position
lies outside `first .. last` is replaced by an empty buffer, a line that the loop
ignores: the lines outside the range add no rule and set no error, and the lines inside
are processed under their own line numbers.  Without a range no line is left out.  This
holds whatever bytes `stale` the array holds behind the terminators of the lines, the
same on both sides; an empty buffer is ignored whatever lies behind it. -/
theorem limitfileOption_line_range {R : Type} (H : Nat) (re : SimpleRegex R) (SIZE : Nat)
    (hp ll : Bool) (stale : Int → Option (List Char)) (first last : Int)
    (lines : List (List Char)) (st : LimitFileState R)
    (h0 : st.lineNumber = 0) (hlen : (lines.length : Int) ≤ 2147483647) :
    limitFileLoop H re SIZE hp ll stale first last lines st =
      limitFileLoop H re SIZE hp ll stale 1 2147483647 (maskLines first last 0 lines) st ∧
    (∀ n : Nat, (maskLines first last 0 lines).getD n [] =
      if first ≤ (n : Int) + 1 ∧ (n : Int) + 1 ≤ last then lines.getD n [] else []) ∧
    maskLines 1 2147483647 0 lines = lines ∧
    (∀ (bytes : Option (List Char)) (st1 : LimitFileState R),
      limitFileLine H re SIZE hp ll bytes [] st1 = some (st1, false)) := by
  refine ⟨?_, ?_, maskLines_all 1 2147483647 lines 0 (by omega) (by omega),
    limitFileLine_empty H re SIZE hp ll⟩
  · have := limitFileLoop_mask H re SIZE hp ll stale first last 1 2147483647 lines st
      (by rw [h0]; omega) (by rw [h0]; omega)
    rw [h0] at this
    exact this
  · intro n
    have := maskLines_getD first last lines 0 n
    simp only [zero_add] at this
    exact this

set_option maxRecDepth 100000 in
/-- The claim C24 at the limit file `+ A.a()V / + B.b()V / +bad` and the range 2 .. 2:
the option `(limit.txt,2,2)` succeeds and adds the rule of the second line only, the
rejected third line being outside the range. -/
theorem limitfileOption_line_range_witness :
    (limitfileOption 211 noRegex 3 readDecimal (oneFile threeLineFile) "(limit.txt,2,2)".toList
        noFilters false (some [])).map
        (fun r => (r.ret, (r.debug.compilationFilters.map fun fs => fs.allRules 211)))
      = some ([], some [mkRule .TR_FILTER_SPECIFIC_METHOD 2 "b" "B" "()V"]) ∧
    (0 : Int) = 0 ∧ ((threeLineFile.length : Nat) : Int) ≤ 2147483647 ∧
    limitFileLoop 211 noRegex 3 true false (staleBytes threeLineFile) 2 2 threeLineFile
        { debug := noFilters, limitFileError := false, lineNumber := 0
          random := { list := [], cur := none, curIndex := 0 } } =
      limitFileLoop 211 noRegex 3 true false (staleBytes threeLineFile) 1 2147483647
        (maskLines 2 2 0 threeLineFile)
        { debug := noFilters, limitFileError := false, lineNumber := 0
          random := { list := [], cur := none, curIndex := 0 } } ∧
    (∀ n : Nat, (maskLines 2 2 0 threeLineFile).getD n [] =
      if (2 : Int) ≤ (n : Int) + 1 ∧ (n : Int) + 1 ≤ 2 then threeLineFile.getD n [] else []) ∧
    maskLines 1 2147483647 0 threeLineFile = threeLineFile ∧
    (∀ (bytes : Option (List Char)) (st1 : LimitFileState Unit),
      limitFileLine 211 noRegex 3 true false bytes [] st1 = some (st1, false)) :=
  ⟨by decide, rfl, by decide,
    limitfileOption_line_range 211 noRegex 3 true false (staleBytes threeLineFile) 2 2
      threeLineFile
      { debug := noFilters, limitFileError := false, lineNumber := 0
        random := { list := [], cur := none, curIndex := 0 } } rfl (by decide)⟩

set_option maxRecDepth 100000 in
/-- C26: after a call of `limitfileOption` that does not return `option`, the set that
`loadLimit` selects exists and its `defaultExclude` flag is true, whatever the file holds,
so `methodSigCanBeFound` disallows every signature for which it reports no rule; the same
holds for the inline set after a call of `inlinefileOption` that does not return
`option`.  An empty file and a file with one exclude line are loaded with that outcome. -/
theorem limit_file_default_exclude {R : Type} (H : Nat) (re : SimpleRegex R) (SIZE : Nat)
    (getNumericValue : List Char → Int × List Char)
    (fopen : List Char → Option (List (List Char))) (option : List Char) (debug : TR_Debug R)
    (ll : Bool) (ptr : Option (List TR_PseudoRandomNumbersListElement))
    (inl : Option (InlineFilters R)) :
    (∀ res, limitfileOption H re SIZE getNumericValue fopen option debug ll ptr = some res →
      res.ret ≠ option →
      ∃ fs, res.debug.selected ll = some fs ∧ fs.defaultExclude = true ∧
        ∀ sig mt allowed,
          methodSigCanBeFound H re sig fs .null mt = some (allowed, .null) → allowed = false) ∧
    (∀ res, inlinefileOption H re fopen option inl = some res → res.ret ≠ option →
      ∃ s, res.inlineFilters = some s ∧ s.filters.defaultExclude = true ∧
        ∀ sig mt allowed,
          methodSigCanBeFound H re sig s.filters .null mt = some (allowed, .null) →
            allowed = false) ∧
    (limitfileOption 211 noRegex 3 readDecimal (oneFile []) "limit.txt".toList noFilters false
        none).map (fun r => (r.ret, r.debug.compilationFilters.map fun fs => fs.defaultExclude))
      = some ([], some true) ∧
    (limitfileOption 211 noRegex 3 readDecimal (oneFile ["- Foo.bar()V\n".toList])
        "limit.txt".toList noFilters false none).map
        (fun r => (r.ret, r.debug.compilationFilters.map fun fs => fs.defaultExclude))
      = some ([], some true) ∧
    (inlinefileOption 211 noRegex (oneFile ["-3 Foo.bar()V\n".toList]) "limit.txt".toList
        none).map (fun r => (r.ret, r.inlineFilters.map fun s => s.filters.defaultExclude))
      = some ([], some true) := by
  refine ⟨?_, ?_, by decide, by decide, by decide⟩
  · intro res h hok
    have query : ∀ fs : CompilationFilters R, fs.defaultExclude = true →
        ∀ sig mt allowed,
          methodSigCanBeFound H re sig fs .null mt = some (allowed, .null) → allowed = false := by
      intro fs hd sig mt allowed hq
      rw [methodSigCanBeFound_null H re sig fs mt allowed hq, hd]
      rfl
    rcases limitfileOption_some H re SIZE getNumericValue fopen option debug ll ptr res h with
      ⟨_, e⟩ | ⟨_, _, _, e⟩ | ⟨parts, lines, st, b, _, _, hloop, e⟩
    · exact absurd (by rw [e]) hok
    · exact absurd (by rw [e]) hok
    · obtain ⟨fs, hs, hd⟩ := limitFileLoop_excludes H re SIZE _ ll _ _ _ _ _ st b hloop
        ⟨_, selected_setSelected _ _ _, rfl⟩
      refine ⟨fs, ?_, hd, query fs hd⟩
      rw [e]
      exact hs
  · intro res h hok
    unfold inlinefileOption at h
    simp only at h
    split at h
    · simp only [Option.some.injEq] at h
      exact absurd (by rw [← h]) hok
    · split at h
      · simp only [Option.some.injEq] at h
        exact absurd (by rw [← h]) hok
      · split at h
        · cases h
        · rename_i r hscan
          simp only [Option.some.injEq] at h
          have hd := scanInlineFiltersLoop_excludes H re _ _ _ _ _ _ r hscan (by
            cases inl with
            | none => rfl
            | some f => cases f; rfl)
          refine ⟨r.filters, by rw [← h], hd, ?_⟩
          intro sig mt allowed hq
          rw [methodSigCanBeFound_null H re sig _ mt allowed hq, hd]
          rfl

set_option maxRecDepth 100000 in
/-- C27: the limit file `+ Foo.methodNameHere()V / -precompileMethod`, whose second line
ends the file without a line end and names no method, is loaded without error: the call
returns `endOpt`, not `option`.  The pointer `limitReadBuffer + 18` lies one position
behind the terminator of the second line, where the array still holds the bytes `re()V`
of the first line, and `addFilter` makes a rule of them.  The same line with a line end
is rejected, and the call returns `option`. -/
theorem limitfileOption_stale_buffer_rule :
    staleBytes ["+ Foo.methodNameHere()V\n".toList, "-precompileMethod".toList] 2
      = some "re()V\n".toList ∧
    (limitfileOption 211 noRegex 3 readDecimal
        (oneFile ["+ Foo.methodNameHere()V\n".toList, "-precompileMethod".toList])
        "limit.txt".toList noFilters false (some [])).map
        (fun r => (r.ret, (r.debug.compilationFilters.map fun fs => fs.allRules 211)))
      = some ([], some [mkRule .TR_FILTER_NAME_AND_SIG 2 "re" "" "()V",
          mkRule .TR_FILTER_SPECIFIC_METHOD 1 "methodNameHere" "Foo" "()V"]) ∧
    (limitfileOption 211 noRegex 3 readDecimal
        (oneFile ["+ Foo.methodNameHere()V\n".toList, "-precompileMethod\n".toList])
        "limit.txt".toList noFilters false (some [])).map
        (fun r => (r.ret, (r.debug.compilationFilters.map fun fs => fs.allRules 211)))
      = some ("limit.txt".toList,
          some [mkRule .TR_FILTER_SPECIFIC_METHOD 1 "methodNameHere" "Foo" "()V"]) :=
  ⟨by decide, by decide, by decide⟩

set_option maxRecDepth 100000 in
/-- C28: for the directive `{Foo}(abc`, whose option subset is never closed, `limitOption`
returns the text `abc` after the opening parenthesis (`startOptString`), not the original
`option`; every other malformed directive returns `option`: a method text that `addFilter`
rejects, a bad opt-level regex, an opt-level regex not followed by `(`.  A complete
directive returns the text after the parenthesis that matches the opening one. -/
theorem limitOption_unclosed_subset :
    (limitOption 211 prefixRegex "{Foo}(abc".toList 0 none).ret = "abc".toList ∧
    (limitOption 211 prefixRegex "{Foo}(a(b)c".toList 0 none).ret = "a(b)c".toList ∧
    (limitOption 211 prefixRegex "{Foo}{hot}(abc".toList 0 none).ret = "abc".toList ∧
    (limitOption 211 prefixRegex "\x7bFoo(abc)".toList 0 none).ret = "\x7bFoo(abc)".toList ∧
    (limitOption 211 prefixRegex "{Foo}\x7bhot(abc)".toList 0 none).ret
      = "{Foo}\x7bhot(abc)".toList ∧
    (limitOption 211 prefixRegex "{Foo}{hot}abc".toList 0 none).ret
      = "{Foo}{hot}abc".toList ∧
    (limitOption 211 prefixRegex "{Foo}(a(b)c),rest".toList 0 none).ret = ",rest".toList ∧
    (limitOption 211 prefixRegex "{Foo}{hot}(abc),rest".toList 0 none).ret = ",rest".toList ∧
    (limitOption 211 prefixRegex "{Foo}(a(b)c),rest".toList 0 none).newSet
      = some { optionString := "a(b)c),rest".toList, methodRegex := "Foo".toList
               optLevelRegex := none } := by
  decide

set_option maxRecDepth 100000 in
/-- C30: with the registry `inlining`, `deadTreesElimination`, `treeSimplification`, the
line `Performing 7: dead` names no registered optimization, yet `loadCustomStrategy` gives
it the entry 1 of `deadTreesElimination`: `strncmp` compares only the length of the name
in the line, so every prefix of a registered name is accepted, and a line with an empty
name gets the entry 0.  Lines whose name equals a registered name get that entry, with
the flag when `mustBeDone` follows; a line whose name is no prefix of a registered name
is skipped and the later lines are processed; the result ends with `endOpts` and is
`NULL` when no line yields an entry. -/
theorem loadCustomStrategy_prefix_accepted :
    loadCustomStrategy 3 threeOpts 65536 999
        (strategyFile ["Performing 7: dead \n".toList]) "strategy.txt".toList
      = some (some [1, 999]) ∧
    loadCustomStrategy 3 threeOpts 65536 999
        (strategyFile ["Performing 7: \n".toList]) "strategy.txt".toList
      = some (some [0, 999]) ∧
    loadCustomStrategy 3 threeOpts 65536 999
        (strategyFile ["Performing 2: treeSimplification mustBeDone\n".toList,
          "some other line\n".toList,
          "Performing 5: unknownOpt\n".toList,
          "Performing 1: inlining\n".toList]) "strategy.txt".toList
      = some (some [2 + 65536, 0, 999]) ∧
    loadCustomStrategy 3 threeOpts 65536 999
        (strategyFile ["Performing 5: unknownOpt\n".toList]) "strategy.txt".toList
      = some none ∧
    loadCustomStrategy 3 threeOpts 65536 999
        (strategyFile ["Performing 5: unknownOpt\n".toList]) "other.txt".toList
      = some none := by
  decide

end OMR

namespace OMR

/-! ### Claims on the construction of the register file, the stub and the link register -/

set_option maxRecDepth 100000 in
/-- C31: the constructor `Machine(cg)` never stores a value in the member `_cg`, which
`initialiseRegisterFile` dereferences for every allocation, so the construction has no
defined result, whatever the numbering, the code generator passed and the memory of the
table are.  Run with a member that holds a code generator, on the AArch64 numbering and
a table of 66 `NULL` pointers, `initialiseRegisterFile` builds `freshMachine`, in which
the sentinels are `NULL` and every register has a free descriptor of weight 0 with its
own ordinal, and on which `findBestFreeRegister` returns the first general register, the
next one when `excludeGPR0` is set, and the first floating-point register. -/
theorem newMachine_reads_unset_cg :
    (∀ (CodeGenerator : Type) (n : RegOrdinals) (cg : CodeGenerator)
        (memory : List (Option RealRegister)), newMachine n cg memory = none) ∧
    (∀ (n : RegOrdinals) (m : Machine),
      initialiseRegisterFile n (none : Option Unit) m = none) ∧
    initialiseRegisterFile aarch64Ordinals (some ()) { registerFile := List.replicate 66 none }
      = some freshMachine ∧
    freshMachine.registerFile.get? aarch64Ordinals.NoReg = some none ∧
    freshMachine.registerFile.get? aarch64Ordinals.SpilledReg = some none ∧
    (aarch64Ordinals.gprs.all fun o =>
      decide (freshMachine.deref o = some (mkRegister .TR_GPR 0 .Free o))) = true ∧
    (aarch64Ordinals.fprs.all fun o =>
      decide (freshMachine.deref o = some (mkRegister .TR_FPR 0 .Free o))) = true ∧
    findBestFreeRegister aarch64RegNum freshMachine .TR_GPR false false
      = some (some aarch64RegNum.FirstGPR, freshMachine) ∧
    findBestFreeRegister aarch64RegNum freshMachine .TR_GPR true false
      = some (some (aarch64RegNum.FirstGPR + 1), freshMachine) ∧
    findBestFreeRegister aarch64RegNum freshMachine .TR_FPR false false
      = some (some aarch64RegNum.FirstFPR, freshMachine) := by
  refine ⟨?_, fun _ _ => rfl, by decide, by decide, by decide, by decide, by decide,
    by decide, by decide, by decide⟩
  intro CodeGenerator n cg memory
  unfold newMachine
  split <;> rfl

/-- C32: with the assertion macro as the spec describes it, every call of
`freeBestRegister` ends in the fatal assertion, whatever the current instruction, the
register kind, the forced register and `excludeGPR0` are, and leaves the register file
as it was.  Whatever the macro does, a call never returns a register descriptor (where
the assertion lets the execution go on the call returns `NULL`) and never modifies the
register file. -/
theorem freeBestRegister_stub {Instruction : Type} (m : Machine)
    (currentInstruction : Instruction) (rk : TR_RegisterKinds) (forced : Option Nat)
    (excludeGPR0 : Bool) :
    freeBestRegister TR_ASSERT m currentInstruction rk forced excludeGPR0
      = (.error .fatalAssertion, m) ∧
    ∀ assertion : Bool → Except Abort Unit,
      (freeBestRegister assertion m currentInstruction rk forced excludeGPR0).2 = m ∧
      ∀ i, (freeBestRegister assertion m currentInstruction rk forced excludeGPR0).1
        ≠ .ok (some i) := by
  refine ⟨rfl, fun assertion => ?_⟩
  unfold freeBestRegister
  cases assertion false with
  | error e => exact ⟨rfl, fun i h => by cases h⟩
  | ok u => exact ⟨rfl, fun i h => by cases h⟩

/-- C33: on a register file whose link-register slot holds a descriptor,
`setLinkRegisterKilled(b)` returns `b`, the query `getLinkRegisterKilled()` made after it
returns `b`, the descriptor of the link register differs from the one before the call in
its has-been-assigned-in-method flag only, and every other slot of the register file is
what it was. -/
theorem linkRegisterKilled_round_trip (lr : Nat) (m : Machine) (b : Bool) (r : RealRegister)
    (h : m.deref lr = some r) :
    ∃ m', m.setLinkRegisterKilled lr b = some (b, m') ∧
      m'.getLinkRegisterKilled lr = some b ∧
      m'.deref lr = some { r with hasBeenAssignedInMethod := b } ∧
      m'.registerFile.length = m.registerFile.length ∧
      ∀ i, i ≠ lr → m'.registerFile.get? i = m.registerFile.get? i := by
  have hlen : lr < m.registerFile.length := by
    rw [deref_eq_some] at h
    exact (List.get?_eq_some.1 h).1
  have hd : (Machine.mk (m.registerFile.set lr
      (some { r with hasBeenAssignedInMethod := b }))).deref lr
      = some { r with hasBeenAssignedInMethod := b } := by
    rw [deref_eq_some]
    simp [hlen]
  refine ⟨Machine.mk (m.registerFile.set lr (some { r with hasBeenAssignedInMethod := b })),
    ?_, ?_, hd, ?_, ?_⟩
  · simp only [Machine.setLinkRegisterKilled, h, RealRegister.setHasBeenAssignedInMethod]
  · simp only [Machine.getLinkRegisterKilled, hd, RealRegister.getHasBeenAssignedInMethod]
  · simp only [List.length_set]
  · intro i hi
    simp [List.getElem?_set, Ne.symm hi]

/-- C33, witness: the flag of `lr` (slot 31) of the freshly built register file is set
and read back, then cleared and read back. -/
theorem linkRegisterKilled_round_trip_witness :
    (freshMachine.setLinkRegisterKilled 31 true).map
        (fun p => (p.1, p.2.getLinkRegisterKilled 31,
          (p.2.setLinkRegisterKilled 31 false).map
            fun q => (q.1, q.2.getLinkRegisterKilled 31, decide (q.2 = freshMachine))))
      = some (true, some true, some (false, some false, true)) ∧
    ∃ m', freshMachine.setLinkRegisterKilled 31 true = some (true, m') ∧
      m'.getLinkRegisterKilled 31 = some true ∧
      m'.deref 31 = some { mkRegister .TR_GPR 0 .Free 31 with hasBeenAssignedInMethod := true } ∧
      m'.registerFile.length = freshMachine.registerFile.length ∧
      ∀ i, i ≠ 31 → m'.registerFile.get? i = freshMachine.registerFile.get? i :=
  ⟨by decide,
    linkRegisterKilled_round_trip 31 freshMachine true (mkRegister .TR_GPR 0 .Free 31)
      (by decide)⟩

/-! ### Claims on the placement of rules and on the search trees -/

/-- C34: on a set built from a cleared set by `addFilter` calls, a call of `addFilter` with
a name-form text whose rule `y` has the name, class and signature of a rule `r0` already
stored in the tree that takes `y` leaves the hash buckets, the name-only tree and the regex
chain exactly as they were, whatever the polarity and the option set of the new
directive are; and after any further successful `addFilter` calls the search for that key
returns `r0`, the rule inserted first, with all its fields. -/
theorem addFilter_duplicate_key {R : Type} (H : Nat) (re : SimpleRegex R)
    (ds0 : List Directive) (fs : CompilationFilters R) (s : List Char) (ex osi ln : Int)
    (y r0 : FilterInfo R)
    (hbuild : addFilters H re ds0 clearFilters = some fs)
    (hform : s.head? ≠ some '{')
    (h : (addFilter H re s ex osi ln (some fs)).filterBST = some y)
    (hmem : r0 ∈ (fs.treeOf H y).members) (hkey : ruleKey r0 = ruleKey y) :
    (addFilter H re s ex osi ln (some fs)).filters.filterHash = fs.filterHash ∧
    (addFilter H re s ex osi ln (some fs)).filters.filterNameList = fs.filterNameList ∧
    (addFilter H re s ex osi ln (some fs)).filters.filterRegexList = fs.filterRegexList ∧
    ∀ ds fs2, addFilters H re ds (addFilter H re s ex osi ln (some fs)).filters = some fs2 →
      (fs2.lookup H y.name y.className y.signature y.filterType.isNameOnly).info? = some r0 := by
  have hinv := addFilters_inv H re ds0 _ fs hbuild (FilterInv_clear H)
  have hinv1 := FilterInv_addFilter H re s ex osi ln fs y hinv h
  simp only [ruleKey, Prod.mk.injEq] at hkey
  obtain ⟨k1, k2, k3⟩ := hkey
  have hcmp : TR_FilterBST.insertCompare y = keyCompare r0.name r0.className r0.signature := by
    funext node
    rw [insertCompare_eq_keyCompare, k1, k2, k3]
  -- the kind of `r0` goes to the same tree as the kind of `y`
  have hkind : r0.filterType.isNameOnly = y.filterType.isNameOnly := by
    unfold CompilationFilters.treeOf at hmem
    by_cases hno : y.filterType.isNameOnly = true
    · simp only [hno, if_true] at hmem
      rw [hno]
      exact (hinv.names r0 hmem).1
    · simp only [hno, Bool.false_eq_true, if_false] at hmem
      obtain ⟨_, hk, _⟩ := hinv.hash _ r0 hmem
      have hy : y.filterType.isNameOnly = false := by
        cases hb : y.filterType.isNameOnly with
        | true => exact absurd hb hno
        | false => rfl
      rw [hy]
      rcases hk with hk | hk <;> cases ht : r0.filterType <;> simp_all [FilterType.isNameOnly,
        FilterType.isNameSig, FilterType.isSpecific]
  have htree : ∀ fs' : CompilationFilters R, fs'.treeOf H r0 = fs'.treeOf H y := by
    intro fs'
    simp only [CompilationFilters.treeOf, hkind, k1, k2, k3]
  -- the trees are unchanged
  have hsame : (addFilter H re s ex osi ln (some fs)).filters.filterHash = fs.filterHash ∧
      (addFilter H re s ex osi ln (some fs)).filters.filterNameList = fs.filterNameList ∧
      (addFilter H re s ex osi ln (some fs)).filters.filterRegexList = fs.filterRegexList := by
    rcases addFilter_trees H re s ex osi ln fs y h with
      ⟨hs, _⟩ | ⟨_, _, hno, hc, hsg, e1, e2, e3⟩ | ⟨_, _, hno, _, e1, e2, e3⟩
    · exact absurd hs hform
    · refine ⟨e1, ?_, e3⟩
      rw [e2]
      apply insertRoot_found
      unfold CompilationFilters.treeOf at hmem
      simp only [hno, if_true] at hmem
      obtain ⟨_, c0, s0, hfind, _⟩ := hinv.names r0 hmem
      have : TR_FilterBST.findBy (TR_FilterBST.insertCompare y) fs.filterNameList
          = TR_FilterBST.findBy (fun node => strcmp r0.name node.name) fs.filterNameList := by
        apply findBy_congr
        intro node hnode
        rw [hcmp, c0, s0, keyCompare_nameOnly r0.name node (hinv.names node hnode).2.1
          (hinv.names node hnode).2.2.1]
        exact ⟨Iff.rfl, Iff.rfl⟩
      rw [this]
      exact info?_isNull hfind
    · refine ⟨?_, e2, e3⟩
      rw [e1]
      unfold CompilationFilters.treeOf at hmem
      simp only [hno, Bool.false_eq_true, if_false] at hmem
      obtain ⟨_, _, hfind, _⟩ := hinv.hash _ r0 hmem
      rw [insertRoot_found y _ (by rw [hcmp]; exact info?_isNull hfind)]
      exact Function.update_eq_self _ _
  refine ⟨hsame.1, hsame.2.1, hsame.2.2, ?_⟩
  intro ds fs2 h2
  have hinv2 := addFilters_inv H re ds _ fs2 h2 hinv1
  have hmem1 : r0 ∈ ((addFilter H re s ex osi ln (some fs)).filters.treeOf H y).members := by
    unfold CompilationFilters.treeOf at hmem ⊢
    rw [hsame.1, hsame.2.1]
    exact hmem
  have hmem2 : r0 ∈ (fs2.treeOf H r0).members := by
    rw [htree]
    obtain ⟨m1, m2⟩ := addFilters_members_mono H re ds _ fs2 h2 r0
    unfold CompilationFilters.treeOf at hmem1 ⊢
    by_cases hno : y.filterType.isNameOnly = true
    · simp only [hno, if_true] at hmem1 ⊢
      exact m2 hmem1
    · simp only [hno, Bool.false_eq_true, if_false] at hmem1 ⊢
      exact m1 _ hmem1
  have := lookup_stored H fs2 hinv2 r0 hmem2
  rw [k1, k2, k3, hkind] at this
  exact this

set_option maxRecDepth 100000 in
/-- C34, witness: after the include rule `Foo.bar(I)V` of line 1, the exclude directive
`Foo.bar(I)V` of line 3 with option set 2 is accepted and returns its own rule, but the
set keeps the rule of line 1 and the search finds it. -/
theorem addFilter_duplicate_key_witness :
    ((addFilter 211 noRegex "Foo.bar(I)V".toList 1 2 3
        (some (builtSet [includeDirective "Foo.bar(I)V" 1]))).filters.lookup 211
        "bar".toList "Foo".toList "(I)V".toList false).info?
      = some (mkRule .TR_FILTER_SPECIFIC_METHOD 1 "bar" "Foo" "(I)V") ∧
    ((addFilter 211 noRegex "Foo.bar(I)V".toList 1 2 3
        (some (builtSet [includeDirective "Foo.bar(I)V" 1]))).filters.filterHash
      = (builtSet [includeDirective "Foo.bar(I)V" 1]).filterHash ∧
    (addFilter 211 noRegex "Foo.bar(I)V".toList 1 2 3
        (some (builtSet [includeDirective "Foo.bar(I)V" 1]))).filters.filterNameList
      = (builtSet [includeDirective "Foo.bar(I)V" 1]).filterNameList ∧
    (addFilter 211 noRegex "Foo.bar(I)V".toList 1 2 3
        (some (builtSet [includeDirective "Foo.bar(I)V" 1]))).filters.filterRegexList
      = (builtSet [includeDirective "Foo.bar(I)V" 1]).filterRegexList ∧
    ∀ ds fs2, addFilters 211 noRegex ds (addFilter 211 noRegex "Foo.bar(I)V".toList 1 2 3
        (some (builtSet [includeDirective "Foo.bar(I)V" 1]))).filters = some fs2 →
      (fs2.lookup 211
        ({ mkRule .TR_FILTER_EXCLUDE_SPECIFIC_METHOD 3 "bar" "Foo" "(I)V" with
            optionSet := 2 } : FilterInfo Unit).name
        ({ mkRule .TR_FILTER_EXCLUDE_SPECIFIC_METHOD 3 "bar" "Foo" "(I)V" with
            optionSet := 2 } : FilterInfo Unit).className
        ({ mkRule .TR_FILTER_EXCLUDE_SPECIFIC_METHOD 3 "bar" "Foo" "(I)V" with
            optionSet := 2 } : FilterInfo Unit).signature
        ({ mkRule .TR_FILTER_EXCLUDE_SPECIFIC_METHOD 3 "bar" "Foo" "(I)V" with
            optionSet := 2 } : FilterInfo Unit).filterType.isNameOnly).info?
        = some (mkRule .TR_FILTER_SPECIFIC_METHOD 1 "bar" "Foo" "(I)V")) :=
  ⟨by decide,
    addFilter_duplicate_key 211 noRegex [includeDirective "Foo.bar(I)V" 1]
      (builtSet [includeDirective "Foo.bar(I)V" 1]) "Foo.bar(I)V".toList 1 2 3
      { mkRule .TR_FILTER_EXCLUDE_SPECIFIC_METHOD 3 "bar" "Foo" "(I)V" with optionSet := 2 }
      (mkRule .TR_FILTER_SPECIFIC_METHOD 1 "bar" "Foo" "(I)V")
      rfl (by decide) (by decide) (by decide) (by decide)⟩

/-- C35: in a set built from a cleared set by `addFilter` calls, a rule reachable from a
root of the set (through child and next links) is reachable from exactly one root.  A
rule with a regex kind is reachable from the regex chain only.  Any other rule is
reachable from the name-only tree if and only if its kind is NameOnly or
ExcludeNameOnly, from the hash bucket `b` if and only if its kind is not one of these and
`b` is the total length of its name, class and signature modulo `FILTER_HASH_SIZE`, and
not from the regex chain. -/
theorem rule_placement {R : Type} (H : Nat) (re : SimpleRegex R) (ds : List Directive)
    (fs : CompilationFilters R) (r : FilterInfo R)
    (hbuild : addFilters H re ds clearFilters = some fs)
    (hstored : r ∈ fs.filterNameList.reachable ∨ (∃ b, r ∈ (fs.filterHash b).reachable) ∨
      r ∈ fs.filterRegexList.reachable) :
    (r.filterType.isRegex = true →
      r ∈ fs.filterRegexList.reachable ∧ r ∉ fs.filterNameList.reachable ∧
      ∀ b, r ∉ (fs.filterHash b).reachable) ∧
    (r.filterType.isRegex = false →
      (r ∈ fs.filterNameList.reachable ↔
        (r.filterType = .TR_FILTER_NAME_ONLY ∨ r.filterType = .TR_FILTER_EXCLUDE_NAME_ONLY)) ∧
      (∀ b, r ∈ (fs.filterHash b).reachable ↔
        (¬ (r.filterType = .TR_FILTER_NAME_ONLY ∨ r.filterType = .TR_FILTER_EXCLUDE_NAME_ONLY) ∧
          b = (r.name.length + r.className.length + r.signature.length) % H)) ∧
      r ∉ fs.filterRegexList.reachable) := by
  have hinv := addFilters_inv H re ds _ fs hbuild (FilterInv_clear H)
  have hlink := addFilters_linkInv H re ds _ fs hbuild LinkInv_clear
  have hN : r ∈ fs.filterNameList.reachable ↔ r ∈ fs.filterNameList.members :=
    reachable_noNext _ hlink.names r
  have hB : ∀ b, r ∈ (fs.filterHash b).reachable ↔ r ∈ (fs.filterHash b).members :=
    fun b => reachable_noNext _ (hlink.hash b) r
  have hC : r ∈ fs.filterRegexList.reachable ↔ r ∈ fs.filterRegexList.chain :=
    reachable_noChild _ hlink.chain r
  rw [hN, hC] at hstored ⊢
  simp only [hB] at hstored ⊢
  -- what each root says about the kind
  have kN : r ∈ fs.filterNameList.members → r.filterType.isNameOnly = true :=
    fun h => (hinv.names r h).1
  have kB : ∀ b, r ∈ (fs.filterHash b).members →
      (r.filterType.isNameSig = true ∨ r.filterType.isSpecific = true) ∧
      b = (r.name.length + r.className.length + r.signature.length) % H :=
    fun b h => ⟨(hinv.hash b r h).2.1, (hinv.hash b r h).1⟩
  have kC : r ∈ fs.filterRegexList.chain → r.filterType.isRegex = true :=
    fun h => hlink.kinds r h
  have hno : (r.filterType = .TR_FILTER_NAME_ONLY ∨ r.filterType = .TR_FILTER_EXCLUDE_NAME_ONLY)
      ↔ r.filterType.isNameOnly = true := by
    cases r.filterType <;> simp [FilterType.isNameOnly]
  rw [hno]
  refine ⟨fun hre => ?_, fun hre => ?_⟩
  · have nN : r ∉ fs.filterNameList.members := by
      intro h
      have := kN h
      cases ht : r.filterType <;> simp_all [FilterType.isNameOnly, FilterType.isRegex]
    have nB : ∀ b, r ∉ (fs.filterHash b).members := by
      intro b h
      have := (kB b h).1
      cases ht : r.filterType <;> simp_all [FilterType.isNameSig, FilterType.isSpecific,
        FilterType.isRegex]
    rcases hstored with h | ⟨b, h⟩ | h
    · exact absurd h nN
    · exact absurd h (nB b)
    · exact ⟨h, nN, nB⟩
  · have nC : r ∉ fs.filterRegexList.chain := by
      intro h
      rw [kC h] at hre
      cases hre
    refine ⟨⟨kN, fun hk => ?_⟩, fun b => ⟨fun h => ⟨fun hk => ?_, (kB b h).2⟩, fun h => ?_⟩, nC⟩
    · rcases hstored with h | ⟨b, h⟩ | h
      · exact h
      · have := (kB b h).1
        cases ht : r.filterType <;> simp_all [FilterType.isNameOnly, FilterType.isNameSig,
          FilterType.isSpecific]
      · exact absurd h nC
    · have := (kB b h).1
      cases ht : r.filterType <;> simp_all [FilterType.isNameOnly, FilterType.isNameSig,
        FilterType.isSpecific]
    · rcases hstored with h' | ⟨b', h'⟩ | h'
      · exact absurd (kN h') h.1
      · rw [h.2, ← (kB b' h').2]
        exact h'
      · exact absurd h' nC

set_option maxRecDepth 100000 in
/-- C35, witness: in the set built from `Foo.bar(I)V`, `Foo.baz(I)V`, an exclude
`Foo.bar(I)V` and the name `bar`, the rule of line 1 sits in bucket 10 (the total length
of its strings) and the rule of line 4 in the name-only tree. -/
theorem rule_placement_witness :
    mkRule .TR_FILTER_NAME_ONLY 4 "bar" "" ""
      ∈ (builtSet roundTripDirectives).filterNameList.reachable ∧
    mkRule .TR_FILTER_SPECIFIC_METHOD 1 "bar" "Foo" "(I)V"
      ∈ ((builtSet roundTripDirectives).filterHash 10).reachable ∧
    ((mkRule .TR_FILTER_SPECIFIC_METHOD 1 "bar" "Foo" "(I)V").filterType.isRegex = true →
      mkRule .TR_FILTER_SPECIFIC_METHOD 1 "bar" "Foo" "(I)V"
        ∈ (builtSet roundTripDirectives).filterRegexList.reachable ∧
      mkRule .TR_FILTER_SPECIFIC_METHOD 1 "bar" "Foo" "(I)V"
        ∉ (builtSet roundTripDirectives).filterNameList.reachable ∧
      ∀ b, mkRule .TR_FILTER_SPECIFIC_METHOD 1 "bar" "Foo" "(I)V"
        ∉ ((builtSet roundTripDirectives).filterHash b).reachable) ∧
    ((mkRule .TR_FILTER_SPECIFIC_METHOD 1 "bar" "Foo" "(I)V").filterType.isRegex = false →
      (mkRule .TR_FILTER_SPECIFIC_METHOD 1 "bar" "Foo" "(I)V"
          ∈ (builtSet roundTripDirectives).filterNameList.reachable ↔
        ((mkRule .TR_FILTER_SPECIFIC_METHOD 1 "bar" "Foo" "(I)V").filterType
            = .TR_FILTER_NAME_ONLY ∨
          (mkRule .TR_FILTER_SPECIFIC_METHOD 1 "bar" "Foo" "(I)V").filterType
            = .TR_FILTER_EXCLUDE_NAME_ONLY)) ∧
      (∀ b, mkRule .TR_FILTER_SPECIFIC_METHOD 1 "bar" "Foo" "(I)V"
          ∈ ((builtSet roundTripDirectives).filterHash b).reachable ↔
        (¬ ((mkRule .TR_FILTER_SPECIFIC_METHOD 1 "bar" "Foo" "(I)V").filterType
              = .TR_FILTER_NAME_ONLY ∨
            (mkRule .TR_FILTER_SPECIFIC_METHOD 1 "bar" "Foo" "(I)V").filterType
              = .TR_FILTER_EXCLUDE_NAME_ONLY) ∧
          b = ((mkRule .TR_FILTER_SPECIFIC_METHOD 1 "bar" "Foo" "(I)V").name.length +
            (mkRule .TR_FILTER_SPECIFIC_METHOD 1 "bar" "Foo" "(I)V").className.length +
            (mkRule .TR_FILTER_SPECIFIC_METHOD 1 "bar" "Foo" "(I)V").signature.length)
              % 211)) ∧
      mkRule .TR_FILTER_SPECIFIC_METHOD 1 "bar" "Foo" "(I)V"
        ∉ (builtSet roundTripDirectives).filterRegexList.reachable) :=
  ⟨by decide, by decide,
    rule_placement 211 noRegex roundTripDirectives (builtSet roundTripDirectives)
      (mkRule .TR_FILTER_SPECIFIC_METHOD 1 "bar" "Foo" "(I)V") rfl
      (Or.inr (Or.inl ⟨10, by decide⟩))⟩

/-- C36: for a tree that is a binary search tree under the lexicographic order on (name,
class, signature), each compared by character codes, the tree after `insert` is again
such a tree, also when `addFilter` makes the new node the root of an empty tree; its nodes
read in order have strictly increasing keys, so no two nodes have equal keys; the nodes
of the old tree are all in the new tree, in their order, and every node that a descent
reached is reached by the same descent afterwards.  In such a tree the three-key `find`
returns a node exactly when a node with the queried name, class and signature is in the
tree, and it returns that node; the one-key `find` returns a node exactly when a node
with the queried name is in the tree, and the node returned has that name.  The name-only
tree and every hash bucket of a set built from a cleared set by `addFilter` calls are such
trees. -/
theorem insert_search_tree {R : Type} (x : FilterInfo R) (t : TR_FilterBST R)
    (hbst : t.isBST) :
    (TR_FilterBST.insert x t).isBST ∧ (TR_FilterBST.insertRoot x t).isBST ∧
    (TR_FilterBST.insertRoot x t).members.Pairwise keyLess ∧
    (∀ a ∈ (TR_FilterBST.insertRoot x t).members, ∀ b ∈ (TR_FilterBST.insertRoot x t).members,
      ruleKey a = ruleKey b → a = b) ∧
    t.members.Sublist (TR_FilterBST.insert x t).members ∧
    (∀ (f : FilterInfo R → Int) (r : FilterInfo R), (TR_FilterBST.findBy f t).info? = some r →
      (TR_FilterBST.findBy f (TR_FilterBST.insert x t)).info? = some r) ∧
    (∀ (n r1 c r2 s r3 : List Char) (r : FilterInfo R),
      (TR_FilterBST.find (n ++ r1) n.length (c ++ r2) c.length (s ++ r3) s.length t).info?
          = some r ↔
        (r ∈ t.members ∧ ruleKey r = (n, c, s))) ∧
    (∀ n r1 : List Char,
      (TR_FilterBST.findName (n ++ r1) n.length t).isNull = false ↔
        ∃ r ∈ t.members, r.name = n) ∧
    (∀ (n r1 : List Char) (r : FilterInfo R),
      (TR_FilterBST.findName (n ++ r1) n.length t).info? = some r →
        r ∈ t.members ∧ r.name = n) ∧
    (∀ (H : Nat) (re : SimpleRegex R) (ds : List Directive) (fs : CompilationFilters R),
      addFilters H re ds clearFilters = some fs →
        fs.filterNameList.isBST ∧ ∀ b, (fs.filterHash b).isBST) := by
  have hroot := isBST_insertRoot x t hbst
  refine ⟨isBST_insert x t hbst, hroot, isBST_sorted _ hroot,
    fun a ha b hb hk => isBST_unique _ hroot a b ha hb hk, members_insert_sublist x t,
    fun f r h => findBy_insert_keep f x t r h, ?_, ?_, ?_,
    fun H re ds fs h => addFilters_isBST H re ds _ fs h trivial (fun _ => trivial)⟩
  · intro n r1 c r2 s r3 r
    rw [find_eq_keyCompare]
    constructor
    · intro h
      obtain ⟨hm, hz⟩ := findBy_some _ t r h
      rw [keyCompare_eq_zero] at hz
      exact ⟨hm, by simp only [ruleKey, hz.1, hz.2.1, hz.2.2]⟩
    · rintro ⟨hm, hk⟩
      simp only [ruleKey, Prod.mk.injEq] at hk
      have := isBST_findBy r t hbst hm
      rw [hk.1, hk.2.1, hk.2.2] at this
      exact this
  · intro n r1
    rw [findName_eq_strcmp]
    constructor
    · intro h
      cases hf : (TR_FilterBST.findBy (fun node => strcmp n node.name) t).info? with
      | none =>
        rw [eq_null_of_info? hf] at h
        cases h
      | some r =>
        obtain ⟨hm, hz⟩ := findBy_some _ t r hf
        exact ⟨r, hm, ((strcmp_eq_zero _ _).1 hz).symm⟩
    · exact isBST_findByName n t hbst
  · intro n r1 r h
    rw [findName_eq_strcmp] at h
    obtain ⟨hm, hz⟩ := findBy_some _ t r h
    exact ⟨hm, ((strcmp_eq_zero _ _).1 hz).symm⟩

set_option maxRecDepth 100000 in
/-- C36, witness: the rule `Foo.baz(I)V` is inserted into the tree that holds the rule
`Foo.bar(I)V` and becomes its `getChild(1)`; a second insertion of the same key, here
with the other polarity, changes nothing. -/
theorem insert_search_tree_witness :
    TR_FilterBST.insert bazRule (TR_FilterBST.leaf barRule)
      = .node barRule .null (TR_FilterBST.leaf bazRule) .null ∧
    TR_FilterBST.insert (mkRule .TR_FILTER_EXCLUDE_SPECIFIC_METHOD 3 "baz" "Foo" "(I)V")
        (.node barRule .null (TR_FilterBST.leaf bazRule) .null)
      = .node barRule .null (TR_FilterBST.leaf bazRule) .null ∧
    (TR_FilterBST.leaf barRule).isBST ∧
    ((TR_FilterBST.insert bazRule (TR_FilterBST.leaf barRule)).isBST ∧
    (TR_FilterBST.insertRoot bazRule (TR_FilterBST.leaf barRule)).isBST ∧
    (TR_FilterBST.insertRoot bazRule (TR_FilterBST.leaf barRule)).members.Pairwise keyLess ∧
    (∀ a ∈ (TR_FilterBST.insertRoot bazRule (TR_FilterBST.leaf barRule)).members,
      ∀ b ∈ (TR_FilterBST.insertRoot bazRule (TR_FilterBST.leaf barRule)).members,
      ruleKey a = ruleKey b → a = b) ∧
    (TR_FilterBST.leaf barRule).members.Sublist
      (TR_FilterBST.insert bazRule (TR_FilterBST.leaf barRule)).members ∧
    (∀ (f : FilterInfo Unit → Int) (r : FilterInfo Unit),
      (TR_FilterBST.findBy f (TR_FilterBST.leaf barRule)).info? = some r →
      (TR_FilterBST.findBy f (TR_FilterBST.insert bazRule (TR_FilterBST.leaf barRule))).info?
        = some r) ∧
    (∀ (n r1 c r2 s r3 : List Char) (r : FilterInfo Unit),
      (TR_FilterBST.find (n ++ r1) n.length (c ++ r2) c.length (s ++ r3) s.length
          (TR_FilterBST.leaf barRule)).info? = some r ↔
        (r ∈ (TR_FilterBST.leaf barRule).members ∧ ruleKey r = (n, c, s))) ∧
    (∀ n r1 : List Char,
      (TR_FilterBST.findName (n ++ r1) n.length (TR_FilterBST.leaf barRule)).isNull = false ↔
        ∃ r ∈ (TR_FilterBST.leaf barRule).members, r.name = n) ∧
    (∀ (n r1 : List Char) (r : FilterInfo Unit),
      (TR_FilterBST.findName (n ++ r1) n.length (TR_FilterBST.leaf barRule)).info? = some r →
        r ∈ (TR_FilterBST.leaf barRule).members ∧ r.name = n) ∧
    (∀ (H : Nat) (re : SimpleRegex Unit) (ds : List Directive) (fs : CompilationFilters Unit),
      addFilters H re ds clearFilters = some fs →
        fs.filterNameList.isBST ∧ ∀ b, (fs.filterHash b).isBST)) :=
  ⟨by decide, by decide, isBST_leaf barRule,
    insert_search_tree bazRule (TR_FilterBST.leaf barRule) (isBST_leaf barRule)⟩

/-! ### Claims on queries, polarity and nested groups -/

set_option maxRecDepth 100000 in
/-- C37: on the set that holds the one name-only include rule `bar`, the query for
`Foo.baz()V` with the reference parameter `filter` holding `NULL` is disallowed and
reports no rule, while the same query with `filter` holding the address of some rule
(here the rule `Foo.bar(I)V` left by an earlier query) is allowed and reports that rule:
none of the hash searches runs, the searches of the name-only tree and of the regex chain
are skipped because `filter` is not `NULL`, and the incoming value decides the result.
On a set with a class-name-signature rule the first search overwrites `filter` and both
calls give the same result. -/
theorem methodSigCanBeFound_stale_filter :
    methodSigCanBeFound 211 noRegex "Foo.baz()V".toList (builtSet [includeDirective "bar" 1])
        .null MethodType.J9
      = some (false, .null) ∧
    methodSigCanBeFound 211 noRegex "Foo.baz()V".toList (builtSet [includeDirective "bar" 1])
        (TR_FilterBST.leaf barRule) MethodType.J9
      = some (true, TR_FilterBST.leaf barRule) ∧
    methodSigCanBeFound 211 noRegex "Foo.baz()V".toList
        (builtSet [includeDirective "Foo.bar(I)V" 1]) .null MethodType.J9
      = some (false, .null) ∧
    methodSigCanBeFound 211 noRegex "Foo.baz()V".toList
        (builtSet [includeDirective "Foo.bar(I)V" 1]) (TR_FilterBST.leaf bazRule)
        MethodType.J9
      = some (false, .null) :=
  ⟨by decide, by decide, by decide, by decide⟩

/-- C38: a rule returned by `addFilter`, whatever the text, its dialect, the option set
and the set are, has one of the four Exclude kinds if and only if `scanningExclude` is
not 0, and one of the four include kinds if and only if it is 0: the kinds that
`scanFilterName` assigns keep the polarity of the directive. -/
theorem addFilter_polarity {R : Type} (H : Nat) (re : SimpleRegex R) (s : List Char)
    (ex osi ln : Int) (anyFilters : Option (CompilationFilters R)) (y : FilterInfo R)
    (h : (addFilter H re s ex osi ln anyFilters).filterBST = some y) :
    ((y.filterType = .TR_FILTER_EXCLUDE_NAME_ONLY ∨
        y.filterType = .TR_FILTER_EXCLUDE_NAME_AND_SIG ∨
        y.filterType = .TR_FILTER_EXCLUDE_SPECIFIC_METHOD ∨
        y.filterType = .TR_FILTER_EXCLUDE_REGEX) ↔ ex ≠ 0) ∧
    ((y.filterType = .TR_FILTER_NAME_ONLY ∨ y.filterType = .TR_FILTER_NAME_AND_SIG ∨
        y.filterType = .TR_FILTER_SPECIFIC_METHOD ∨ y.filterType = .TR_FILTER_REGEX) ↔
      ex = 0) := by
  have hany : addFilter H re s ex osi ln anyFilters
      = addFilter H re s ex osi ln (some (findOrCreateFilters anyFilters)) := rfl
  rw [hany] at h
  have hpol : y.filterType.isExclude = decide (ex ≠ 0) := by
    obtain ⟨_, hp, _⟩ :=
      scanFilterName_spec s (newFilter ex osi ln : FilterInfo R)
        (newFilter_isNameOnly ex osi ln)
    have hnew : (newFilter ex osi ln : FilterInfo R).filterType.isExclude = decide (ex ≠ 0) := by
      unfold newFilter
      by_cases hex : ex ≠ 0
      · rw [if_pos hex, decide_eq_true hex]; rfl
      · rw [if_neg hex, decide_eq_false hex]; rfl
    rcases addFilter_some H re s ex osi ln _ y h with
      ⟨_, rx, n, _, e⟩ | ⟨_, _, _, e⟩ | ⟨_, _, _, e⟩
    · rw [e] at h
      simp only [addFilterFinish, Option.some.injEq] at h
      subst h
      by_cases hex : ex ≠ 0
      · rw [if_pos hex, decide_eq_true hex]; rfl
      · rw [if_neg hex, decide_eq_false hex]; rfl
    · rw [e] at h
      simp only [addFilterFinish, Option.some.injEq] at h
      subst h
      rw [hp, hnew]
    · rw [e] at h
      simp only [addFilterFinish, Option.some.injEq] at h
      subst h
      rw [hp, hnew]
  by_cases hex : ex = 0
  · have hf : y.filterType.isExclude = false := by rw [hpol]; simp [hex]
    cases ht : y.filterType <;> simp_all [FilterType.isExclude]
  · have hf : y.filterType.isExclude = true := by rw [hpol]; simp [hex]
    cases ht : y.filterType <;> simp_all [FilterType.isExclude]

set_option maxRecDepth 100000 in
/-- C38, witness: the exclude directive `Foo.bar(I)V` gives a rule of the kind
ExcludeSpecificMethod, and the exclude directive `bar(I)V` one of the kind
ExcludeNameAndSignature. -/
theorem addFilter_polarity_witness :
    (addFilter 211 noRegex "bar(I)V".toList 1 0 2 none).filterBST
      = some (mkRule .TR_FILTER_EXCLUDE_NAME_AND_SIG 2 "bar" "" "(I)V") ∧
    (addFilter 211 noRegex "Foo.bar(I)V".toList 1 0 3 none).filterBST
      = some (mkRule .TR_FILTER_EXCLUDE_SPECIFIC_METHOD 3 "bar" "Foo" "(I)V") ∧
    (((mkRule .TR_FILTER_EXCLUDE_SPECIFIC_METHOD 3 "bar" "Foo" "(I)V").filterType
          = .TR_FILTER_EXCLUDE_NAME_ONLY ∨
        (mkRule .TR_FILTER_EXCLUDE_SPECIFIC_METHOD 3 "bar" "Foo" "(I)V").filterType
          = .TR_FILTER_EXCLUDE_NAME_AND_SIG ∨
        (mkRule .TR_FILTER_EXCLUDE_SPECIFIC_METHOD 3 "bar" "Foo" "(I)V").filterType
          = .TR_FILTER_EXCLUDE_SPECIFIC_METHOD ∨
        (mkRule .TR_FILTER_EXCLUDE_SPECIFIC_METHOD 3 "bar" "Foo" "(I)V").filterType
          = .TR_FILTER_EXCLUDE_REGEX) ↔ (1 : Int) ≠ 0) ∧
    (((mkRule .TR_FILTER_EXCLUDE_SPECIFIC_METHOD 3 "bar" "Foo" "(I)V").filterType
          = .TR_FILTER_NAME_ONLY ∨
        (mkRule .TR_FILTER_EXCLUDE_SPECIFIC_METHOD 3 "bar" "Foo" "(I)V").filterType
          = .TR_FILTER_NAME_AND_SIG ∨
        (mkRule .TR_FILTER_EXCLUDE_SPECIFIC_METHOD 3 "bar" "Foo" "(I)V").filterType
          = .TR_FILTER_SPECIFIC_METHOD ∨
        (mkRule .TR_FILTER_EXCLUDE_SPECIFIC_METHOD 3 "bar" "Foo" "(I)V").filterType
          = .TR_FILTER_REGEX) ↔ (1 : Int) = 0) :=
  ⟨by decide, by decide,
    addFilter_polarity 211 noRegex "Foo.bar(I)V".toList 1 0 3 none
      (mkRule .TR_FILTER_EXCLUDE_SPECIFIC_METHOD 3 "bar" "Foo" "(I)V") (by decide)⟩

/-! ### Claim on repeated calls of `findBestFreeRegister` -/

/-- C39 (as stated, refuted): on a register file in which `x0` is free with weight 5 and
`x1` is unlatched with weight 0, the call for `TR_GPR` without `considerUnlatched` returns
the descriptor of `x0` and changes nothing; the second call, with the same kind and
`excludeGPR0` but with `considerUnlatched` set, returns the descriptor of `x1` and
changes the register file. -/
theorem findBestFreeRegister_second_call_differs :
    findBestFreeRegister aarch64RegNum latchedMachine .TR_GPR false false
      = some (some 1, latchedMachine) ∧
    (findBestFreeRegister aarch64RegNum latchedMachine .TR_GPR false true).map
        (fun p => (p.1, decide (p.2 = latchedMachine)))
      = some (some 2, false) := by
  decide

/-- C39 (amended): a second call of `findBestFreeRegister` made immediately after a call
that returned, with the same kind and the same `excludeGPR0`, and with either the same
`considerUnlatched` or, after a call that returned a descriptor, `considerUnlatched`
clear, returns what the first call returned (the same descriptor, or `NULL` again) and
leaves the register file as the first call left it. -/
theorem findBestFreeRegister_idempotent (c : RegNum) (m m1 : Machine) (rk : TR_RegisterKinds)
    (ex cu cu2 : Bool) (res : Option Nat)
    (h : findBestFreeRegister c m rk ex cu = some (res, m1))
    (hcu : cu2 = cu ∨ (cu2 = false ∧ res.isSome = true)) :
    findBestFreeRegister c m1 rk ex cu2 = some (res, m1) := by
  cases res with
  | none =>
    rcases hcu with hcu | ⟨_, hcu⟩
    · subst hcu
      obtain ⟨hm, _⟩ := findBest_none h
      subst hm
      exact h
    · cases hcu
  | some i =>
    refine findBest_again h ?_
    rcases hcu with hcu | ⟨hcu, _⟩
    · intro h2; rw [← hcu]; exact h2
    · intro h2; rw [hcu] at h2; cases h2

/-- C39 (amended), witness: the call that selects the unlatched `x1` of `busyMachine`,
followed by a call without `considerUnlatched`. -/
theorem findBestFreeRegister_idempotent_witness :
    findBestFreeRegister aarch64RegNum busyMachine .TR_GPR false true
      = some (some 2, busyMachineAfter) ∧
    findBestFreeRegister aarch64RegNum busyMachineAfter .TR_GPR false false
      = some (some 2, busyMachineAfter) :=
  ⟨by decide,
    findBestFreeRegister_idempotent aarch64RegNum busyMachine busyMachineAfter .TR_GPR false
      true false (some 2) (by decide) (Or.inr ⟨rfl, rfl⟩)⟩

set_option maxRecDepth 100000 in
/-- C40: the inline file `+ Foo.bar()V / + Foo.bar()V / [ / + A.a()V / ]` is parsed with
success.  The rule of line 2 repeats the key of the rule of line 1, so `insert` does not
link it into the tree, but `addFilter` returns it and the group opened by `[` is stored
as its `subGroup`: the set holds the rule of line 1 only, whose `subGroup` is `NULL`, and
the group with the rule `A.a()V` hangs on the rule of line 2, which no root of the set
reaches.  When line 2 is left out the group hangs on the rule of line 1, which the set
holds. -/
theorem scanInlineFilters_group_on_dropped_rule :
    (scanInlineFilters 211 noRegex 6 repeatedKeyFile 0 (.mk inlineFresh [])).map
        (fun r => (r.ok, r.rest, r.lineNumber))
      = some (true, [], 5) ∧
    (scanInlineFilters 211 noRegex 6 repeatedKeyFile 0 (.mk inlineFresh [])).map
        (fun r => r.filters.filters.allRules 211)
      = some [mkRule .TR_FILTER_SPECIFIC_METHOD 1 "bar" "Foo" "()V"] ∧
    (scanInlineFilters 211 noRegex 6 repeatedKeyFile 0 (.mk inlineFresh [])).map
        (fun r => (r.filters.subGroup 1).map (fun g => g.filters.allRules 211))
      = some none ∧
    (scanInlineFilters 211 noRegex 6 repeatedKeyFile 0 (.mk inlineFresh [])).map
        (fun r => (r.filters.subGroup 2).map (fun g => g.filters.allRules 211))
      = some (some [mkRule .TR_FILTER_SPECIFIC_METHOD 4 "a" "A" "()V"]) ∧
    (scanInlineFilters 211 noRegex 6
        ["+ Foo.bar()V\n".toList, "[\n".toList, "+ A.a()V\n".toList, "]\n".toList] 0
        (.mk inlineFresh [])).map
        (fun r => (r.filters.filters.allRules 211,
          (r.filters.subGroup 1).map (fun g => g.filters.allRules 211)))
      = some ([mkRule .TR_FILTER_SPECIFIC_METHOD 1 "bar" "Foo" "()V"],
          some [mkRule .TR_FILTER_SPECIFIC_METHOD 3 "a" "A" "()V"]) :=
  ⟨by decide, by decide, by decide, by decide, by decide⟩

end OMR
